import Mathlib

/-! # SQL SELECT to LogsQL translation: a shallow embedding of `lib/logsql/select.go`

Go strings are modelled by Lean `String`s holding valid UTF-8 text.  Library
functions of the Go standard library are re-implemented on the character list
of a string so that every definition evaluates inside the kernel.  Where the Go
code indexes a string byte by byte the model goes through the UTF-8 encoding
(`utf8Bytes`).  Case mapping (`strings.ToLower`, `strings.ToUpper`) is modelled
on ASCII letters; other characters are left unchanged.
-/

namespace LogsQL

/-! ## Go standard library helpers -/

/-- Go `strings.Join`. -/
def stringsJoin : List String → String → String
  | [], _ => ""
  | [a], _ => a
  | a :: b :: rest, sep => a ++ sep ++ stringsJoin (b :: rest) sep

/-- Go `strings.Count(s, c)` for a one-character separator. -/
def stringsCount (s : String) (c : Char) : Nat :=
  s.data.count c

/-- Go `strings.Contains(s, c)` for a one-character substring. -/
def stringsContains (s : String) (c : Char) : Bool :=
  s.data.contains c

/-- Go `strings.HasPrefix(s, c)` for a one-character prefix. -/
def hasPrefixChar (s : String) (c : Char) : Bool :=
  match s.data with
  | [] => false
  | d :: _ => d == c

/-- Go `strings.HasSuffix(s, c)` for a one-character suffix. -/
def hasSuffixChar (s : String) (c : Char) : Bool :=
  match s.data.getLast? with
  | none => false
  | some d => d == c

/-- Go `unicode.IsSpace`. -/
def isSpace (c : Char) : Bool :=
  let n := c.toNat
  (9 ≤ n && n ≤ 13) || n == 32 || n == 0x85 || n == 0xA0 || n == 0x1680 ||
  (0x2000 ≤ n && n ≤ 0x200A) || n == 0x2028 || n == 0x2029 || n == 0x202F ||
  n == 0x205F || n == 0x3000

/-- Go `strings.TrimSpace`. -/
def trimSpace (s : String) : String :=
  ⟨((s.data.dropWhile isSpace).reverse.dropWhile isSpace).reverse⟩

/-- ASCII lower-casing of one character. -/
def lowerChar (c : Char) : Char :=
  if 65 ≤ c.toNat ∧ c.toNat ≤ 90 then Char.ofNat (c.toNat + 32) else c

/-- ASCII upper-casing of one character. -/
def upperChar (c : Char) : Char :=
  if 97 ≤ c.toNat ∧ c.toNat ≤ 122 then Char.ofNat (c.toNat - 32) else c

/-- Go `strings.ToLower` on texts whose letters are ASCII: the letters `A-Z`
are lower-cased; a letter outside ASCII, which Go lower-cases as well, is left
as it is. -/
def toLower (s : String) : String := ⟨s.data.map lowerChar⟩

/-- Go `strings.ToUpper` on texts whose letters are ASCII: the letters `a-z`
are upper-cased; a letter outside ASCII, which Go upper-cases as well, is left
as it is. -/
def toUpper (s : String) : String := ⟨s.data.map upperChar⟩

/-- The UTF-8 encoding of one character, as byte values. -/
def utf8Bytes (c : Char) : List Nat :=
  let n := c.toNat
  if n < 0x80 then [n]
  else if n < 0x800 then [0xC0 + n / 64, 0x80 + n % 64]
  else if n < 0x10000 then [0xE0 + n / 4096, 0x80 + (n / 64) % 64, 0x80 + n % 64]
  else [0xF0 + n / 262144, 0x80 + (n / 4096) % 64, 0x80 + (n / 64) % 64, 0x80 + n % 64]

/-- The bytes of a Go string. -/
def stringBytes (s : String) : List Nat :=
  s.data.flatMap utf8Bytes

/-- Go `regexp.QuoteMeta` on one character: the characters
`\.+*?()|[]{}^$` are preceded by a backslash. -/
def quoteMetaChar (c : Char) : List Char :=
  if c == '\\' || c == '.' || c == '+' || c == '*' || c == '?' || c == '(' || c == ')' ||
     c == '|' || c == '[' || c == ']' || c == '{' || c == '}' || c == '^' || c == '$'
  then ['\\', c] else [c]

/-- Go `regexp.QuoteMeta`. -/
def quoteMeta (s : String) : String := ⟨s.data.flatMap quoteMetaChar⟩

/-! ## Lexical rendering (`select.go`, lines 42-46 and 3171-3274) -/

/-- A member of `[A-Za-z0-9]`. -/
def isAsciiAlnum (c : Char) : Bool :=
  (48 ≤ c.toNat && c.toNat ≤ 57) || (65 ≤ c.toNat && c.toNat ≤ 90) ||
  (97 ≤ c.toNat && c.toNat ≤ 122)

/-- A member of the character class `[-A-Za-z0-9_.:/]` (the bare class). -/
def isBareChar (c : Char) : Bool :=
  isAsciiAlnum c || c == '_' || c == '.' || c == ':' || c == '/' || c == '-'

/-- A member of the character class `[A-Za-z0-9_.-]`. -/
def isFormatFieldChar (c : Char) : Bool :=
  isAsciiAlnum c || c == '_' || c == '.' || c == '-'

/-- `safeBareLiteral.MatchString`, the regexp `^[-A-Za-z0-9_.:/]+$`. -/
def safeBareLiteral (s : String) : Bool :=
  !s.data.isEmpty && s.data.all isBareChar

/-- `safeWildcardLiteral.MatchString`, the regexp
the bare class starred, an optional `*`, the bare class starred. -/
def safeWildcardLiteral (s : String) : Bool :=
  match s.data.dropWhile isBareChar with
  | [] => true
  | c :: rest => c == '*' && rest.all isBareChar

/-- `safeFormatFieldLiteral.MatchString`, the regexp `^[A-Za-z0-9_.-]+$`. -/
def safeFormatFieldLiteral (s : String) : Bool :=
  !s.data.isEmpty && s.data.all isFormatFieldChar

/-- The escaping step of `quoteString` for one rune. -/
def quoteRune (r : Char) : List Char :=
  if r == '\\' || r == '"' then ['\\', r] else [r]

/-- `quoteString` (line 3184) on a text, that is on a Go string that is valid
UTF-8; `quoteStringBytes` follows the function on the bytes of any Go
string. -/
def quoteString (val : String) : String :=
  ⟨'"' :: (val.data.flatMap quoteRune ++ ['"'])⟩

/-- `formatString` (line 3171) on a text, that is on a Go string that is valid
UTF-8; `formatStringBytes` follows the function on the bytes of any Go
string. -/
def formatString (val : String) : String :=
  if val == "" then quoteString val
  else if safeBareLiteral val then val
  else if safeWildcardLiteral val then val
  else quoteString val

/-- `formatFieldName` (line 3197). -/
def formatFieldName (name : String) : String :=
  if safeBareLiteral name then name else quoteString name

/-- The loop test of `needsQuoteForPattern` for one rune (line 3244); the rune
comparisons with `'0'`, `'9'`, `'A'`, `'Z'`, `'a'`, `'z'` are comparisons of code
points. -/
def needsQuoteRune (r : Char) : Bool :=
  r != '*' && r != '_' && r != '-' && r != ':' && r != '/' && r != '.' &&
  (r.toNat < 48 || r.toNat > 57) && (r.toNat < 65 || r.toNat > 90) &&
  (r.toNat < 97 || r.toNat > 122)

/-- `needsQuoteForPattern` (line 3242). -/
def needsQuoteForPattern (val : String) : Bool :=
  val.data.any needsQuoteRune

/-- `formatWildcard` (line 3235). -/
def formatWildcard (val : String) : String :=
  if needsQuoteForPattern val then quoteString val else val

/-- The byte loop of `likeToRegex` (lines 3254-3271): `string(b)` of a byte `b`
is the character with code point `b`. -/
def likeToRegexLoop : List Nat → List Char
  | [] => []
  | 37 :: rest => '.' :: '*' :: likeToRegexLoop rest
  | 95 :: rest => '.' :: likeToRegexLoop rest
  | [92] => ['\\']
  | 92 :: b :: rest => quoteMetaChar (Char.ofNat b) ++ likeToRegexLoop rest
  | b :: rest => quoteMetaChar (Char.ofNat b) ++ likeToRegexLoop rest

/-- `likeToRegex` (line 3251). -/
def likeToRegex (pattern : String) : String :=
  ⟨'^' :: (likeToRegexLoop (stringBytes pattern) ++ ['$'])⟩

/-- Go slice `s[1:]` of a string starting with a one-byte character. -/
def dropFirst (s : String) : String := ⟨s.data.drop 1⟩

/-- Go slice `s[:len(s)-1]` of a string ending with a one-byte character. -/
def dropLast (s : String) : String := ⟨s.data.dropLast⟩

/-! ## Errors -/

/-- Error values returned by the translator: a `*TranslationError` with its
HTTP-style code and message, a plain Go `error` (made by `fmt.Errorf` or handed
back by a store), and the two ways a run can stop without returning: a runtime
panic, and the exhaustion of the recursion budget of the model. -/
inductive Err where
  | translation (code : Nat) (message : String)
  | plain (message : String)
  | panic (message : String)
  | fuel
  deriving DecidableEq, Repr

deriving instance DecidableEq for Except

/-- Results of fallible functions. -/
abbrev Res (α : Type) := Except Err α

/-- The constant `http.StatusBadRequest`. -/
def statusBadRequest : Nat := 400

/-- The constant `http.StatusNotFound`. -/
def statusNotFound : Nat := 404

/-- A `*TranslationError` with code 400. -/
def badRequest {α : Type} (message : String) : Res α :=
  .error (.translation statusBadRequest message)

/-- Modelled from the spec: the `Error()` text of an error value (the
`TranslationError` type is declared outside `select.go`); errors carry
a human-readable message, which is what `%s` prints. -/
def errorText : Err → String
  | .translation _ m => m
  | .plain m => m
  | .panic m => m
  | .fuel => "fuel"

/-- `convertLikePattern` (line 3204). -/
def convertLikePattern (pattern : String) : Res String :=
  let percentCount := stringsCount pattern '%'
  let underscore := stringsContains pattern '_'
  if percentCount == 0 && !underscore then
    .ok (formatString pattern)
  else if percentCount == 1 && hasSuffixChar pattern '%' && !underscore then
    let pfx := dropLast pattern
    if pfx == "" then .ok "*" else .ok (formatWildcard (pfx ++ "*"))
  else if percentCount == 1 && hasPrefixChar pattern '%' && !underscore then
    let sfx := dropFirst pattern
    if sfx == "" then .ok "*" else .ok (formatWildcard ("*" ++ sfx))
  else if percentCount == 2 && hasPrefixChar pattern '%' && hasSuffixChar pattern '%' &&
      !underscore && stringsCount (dropLast (dropFirst pattern)) '%' == 0 then
    let sub := dropLast (dropFirst pattern)
    if sub == "" then .ok "*" else .ok (formatWildcard ("*" ++ sub ++ "*"))
  else
    .ok ("~" ++ quoteString (likeToRegex pattern))

/-! ## The SQL syntax tree (package `ast`, as used by `select.go`)

The node types are declared outside `select.go`; the constructors below list
the variants and fields that the translator inspects.  Pointer fields that the
translator tests against `nil` are options. -/

/-- `ast.OrderDirection`; the translator only tests for `ast.Descending`. -/
inductive Direction where
  | ascending
  | descending
  deriving DecidableEq, Repr

/-- Expression nodes.  `over` is the `*WindowSpec` of a call: its
`PartitionBy` list and its `OrderBy` items.  `hasSubquery` records whether the
`Subquery` field of an `InExpr` is set (its content is never read).  `other`
stands for every node type the translator has no case for, with its `%T`
name. -/
inductive Expr where
  | identifier (parts : List String)
  | stringLiteral (value : String)
  | numericLiteral (value : String)
  | booleanLiteral (value : Bool)
  | nullLiteral
  | starExpr
  | binaryExpr (op : String) (left right : Expr)
  | unaryExpr (op : String) (e : Expr)
  | inExpr (e : Expr) (list : List Expr) (hasSubquery : Bool) (not : Bool)
  | betweenExpr (e lower upper : Expr) (not : Bool)
  | likeExpr (e pattern : Expr) (not : Bool)
  | isNullExpr (e : Expr) (not : Bool)
  | funcCall (name : List String) (args : List Expr) (distinct : Bool)
      (over : Option (List Expr × List (Expr × Direction)))
  | other (typeName : String)

/-- `ast.OrderItem`. -/
structure OrderItem where
  expr : Expr
  direction : Direction

/-- `ast.SelectItem`. -/
structure SelectItem where
  expr : Expr
  aliasName : String

/-- `ast.LimitClause`. -/
structure LimitClause where
  offset : Option Expr
  count : Option Expr

/-- `ast.JoinType`. -/
inductive JoinType where
  | joinInner
  | joinLeft
  | joinRight
  | joinFull
  | joinCross
  deriving DecidableEq, Repr

/-- `ast.SetOperator`, with the text printed for it by `%s`. -/
inductive SetOperator where
  | setOpUnion
  | setOpOther (name : String)
  deriving DecidableEq, Repr

mutual
/-- `ast.SelectStatement`. -/
inductive SelectStatement where
  | mk (withClause : Option WithClause) (distinct : Bool) (columns : List SelectItem)
      (fromClause : Option TableExpr) (whereClause : Option Expr) (groupBy : List Expr)
      (having : Option Expr) (orderBy : List OrderItem) (limit : Option LimitClause)
      (setOps : List SetOp)
/-- `ast.WithClause`. -/
inductive WithClause where
  | mk (recursive : Bool) (ctes : List CTE)
/-- `ast.CTE`. -/
inductive CTE where
  | mk (name : Option (List String)) (select : Option SelectStatement)
/-- `ast.TableExpr`: `TableName`, `SubqueryTable`, `JoinExpr`, or any other
value (with its `%T` name). -/
inductive TableExpr where
  | tableName (name : Option (List String)) (aliasName : String)
  | subqueryTable (select : Option SelectStatement) (aliasName : String)
  | joinExpr (type : JoinType) (left right : TableExpr) (onCond : Option Expr)
  | other (typeName : String)
/-- `ast.SetOp`. -/
inductive SetOp where
  | mk (operator : SetOperator) (all : Bool) (select : Option SelectStatement)
end

/-- `ast.Statement`: a select statement or any other root node (with its `%T`
name). -/
inductive Statement where
  | select (s : SelectStatement)
  | other (typeName : String)

namespace SelectStatement

/-- Field `With`. -/
def withClause : SelectStatement → Option WithClause
  | .mk w _ _ _ _ _ _ _ _ _ => w
/-- Field `Distinct`. -/
def distinct : SelectStatement → Bool
  | .mk _ d _ _ _ _ _ _ _ _ => d
/-- Field `Columns`. -/
def columns : SelectStatement → List SelectItem
  | .mk _ _ c _ _ _ _ _ _ _ => c
/-- Field `From`. -/
def fromClause : SelectStatement → Option TableExpr
  | .mk _ _ _ f _ _ _ _ _ _ => f
/-- Field `Where`. -/
def whereClause : SelectStatement → Option Expr
  | .mk _ _ _ _ w _ _ _ _ _ => w
/-- Field `GroupBy`. -/
def groupBy : SelectStatement → List Expr
  | .mk _ _ _ _ _ g _ _ _ _ => g
/-- Field `Having`. -/
def having : SelectStatement → Option Expr
  | .mk _ _ _ _ _ _ h _ _ _ => h
/-- Field `OrderBy`. -/
def orderBy : SelectStatement → List OrderItem
  | .mk _ _ _ _ _ _ _ o _ _ => o
/-- Field `Limit`. -/
def limit : SelectStatement → Option LimitClause
  | .mk _ _ _ _ _ _ _ _ l _ => l
/-- Field `SetOps`. -/
def setOps : SelectStatement → List SetOp
  | .mk _ _ _ _ _ _ _ _ _ s => s
/-- The copy `baseCopy` of `translateSelect` (line 378): the same statement
with `SetOps` set to nil. -/
def withoutSetOps : SelectStatement → SelectStatement
  | .mk w d c f wh g h o l _ => .mk w d c f wh g h o l []

end SelectStatement

/-- The name printed by `%T` for an expression node. -/
def Expr.typeName : Expr → String
  | .identifier _ => "*ast.Identifier"
  | .stringLiteral _ => "*ast.StringLiteral"
  | .numericLiteral _ => "*ast.NumericLiteral"
  | .booleanLiteral _ => "*ast.BooleanLiteral"
  | .nullLiteral => "*ast.NullLiteral"
  | .starExpr => "*ast.StarExpr"
  | .binaryExpr _ _ _ => "*ast.BinaryExpr"
  | .unaryExpr _ _ => "*ast.UnaryExpr"
  | .inExpr _ _ _ _ => "*ast.InExpr"
  | .betweenExpr _ _ _ _ => "*ast.BetweenExpr"
  | .likeExpr _ _ _ => "*ast.LikeExpr"
  | .isNullExpr _ _ => "*ast.IsNullExpr"
  | .funcCall _ _ _ _ => "*ast.FuncCall"
  | .other t => t

/-! ## Collaborators and translator state -/

/-- The collaborators of the translator: `store.Provider` with its table
store (`GetTableQuery`, `ListTables`) and optional view store (`Load`, giving
query, display name and found flag), the canonical renderer `render.Render`,
the JSON-path parser followed by `HasOnlyKeys`, and the `%v` text of an
expression node. -/
structure Provider where
  getTableQuery : String → Option String
  listTables : List String
  viewStore : Option (List String → Res (String × String × Bool))
  render : Expr → Res String
  parseJSONPath : String → Res (List String × Bool)
  fmtExpr : Expr → String

/-- Go maps with string keys, as association lists in insertion order. -/
abbrev GoMap (α : Type) := List (String × α)

/-- Map lookup `m[k]` with the found flag. -/
def GoMap.get {α : Type} (m : GoMap α) (k : String) : Option α :=
  m.lookup k

/-- Map membership. -/
def GoMap.has {α : Type} (m : GoMap α) (k : String) : Bool :=
  (m.lookup k).isSome

/-- Map assignment `m[k] = v`. -/
def GoMap.set {α : Type} : GoMap α → String → α → GoMap α
  | [], k, v => [(k, v)]
  | (k0, v0) :: rest, k, v =>
    if k0 == k then (k, v) :: rest else (k0, v0) :: GoMap.set rest k v

/-- Type `filterComputation` (line 84). -/
structure FilterComputation where
  aliasName : String
  rawAlias : String
  pipes : List String

/-- Type `selectTranslatorVisitor` (line 48).  A binding is stored under its
key with its `isBase` flag (its `alias` field equals the key).  Maps whose
nil-ness the code tests are options. -/
structure Visitor where
  sp : Provider
  bindings : GoMap Bool
  autoAliasCounter : Nat
  baseAlias : String
  pendingLeftFilter : List Expr
  aggResults : Option (GoMap String)
  groupExprAliases : Option (GoMap String)
  availableCTEs : GoMap String
  baseUsesPipeline : Bool
  basePipeline : String
  baseFilter : String
  filterComputations : GoMap FilterComputation
  filterOrder : List String
  filterDelete : List String
  filterDeleteSet : List String
  constantFields : GoMap String
  constantFieldCount : Nat
  aggTempDeletes : GoMap String
  aggPreserve : List String

/-- Type `tableSpec` (line 79). -/
structure TableSpec where
  filter : String
  pipeline : String
  deriving DecidableEq, Repr

/-- Go `strings.Contains(s, "|")`. -/
def containsPipe (s : String) : Bool := stringsContains s '|'

/-- `newTableSpec` (line 90). -/
def newTableSpec (expr : String) : TableSpec :=
  let value := trimSpace expr
  if value == "" || value == "*" then { filter := "*", pipeline := "" }
  else if containsPipe value then { filter := "", pipeline := value }
  else { filter := value, pipeline := "" }

/-- `lookupTableSpec` (line 101). -/
def lookupTableSpec (v : Visitor) (nameLower : String) : Option TableSpec :=
  match v.sp.getTableQuery nameLower with
  | none => none
  | some expr => some (newTableSpec expr)

/-- `registerBinding` (line 578). -/
def registerBinding (v : Visitor) (aliasName : String) (isBase : Bool) : Visitor :=
  let key := toLower aliasName
  if key == "" then v else { v with bindings := v.bindings.set key isBase }

/-- Decimal text of a natural number (`%d`), most significant digit first;
`fuel` bounds the number of digits. -/
def natDigits : Nat → Nat → List Char
  | 0, _ => []
  | fuel + 1, n =>
    if n < 10 then [Char.ofNat (48 + n)]
    else natDigits fuel (n / 10) ++ [Char.ofNat (48 + n % 10)]

/-- Go `fmt.Sprintf("%d", n)` for a non-negative `n`. -/
def fmtNat (n : Nat) : String := ⟨natDigits (n + 1) n⟩

/-- Go `fmt.Sprintf("%d", n)` for an integer. -/
def fmtInt : Int → String
  | .ofNat n => fmtNat n
  | .negSucc n => "-" ++ fmtNat (n + 1)

/-- Go `fmt.Sprintf("%q", s)` on printable text: the string in double quotes
with backslash and double quote escaped. -/
def fmtQ (s : String) : String := quoteString s

/-- The loop of `generateSubqueryAlias` (line 592); `fuel` bounds the number
of candidates tried, and one more than the number of bindings suffices. -/
def generateSubqueryAliasLoop (base : String) (bindings : GoMap Bool) :
    Nat → Nat → Option (String × Nat)
  | 0, _ => none
  | fuel + 1, counter =>
    let counter1 := counter + 1
    let candidate := "__" ++ base ++ "_" ++ fmtNat counter1
    if bindings.has candidate then generateSubqueryAliasLoop base bindings fuel counter1
    else some (candidate, counter1)

/-- `generateSubqueryAlias` (line 586). -/
def generateSubqueryAlias (v : Visitor) (pfx : String) : Res (String × Visitor) :=
  let base0 := trimSpace pfx
  let base1 := if base0 == "" then "subquery" else base0
  let base := toLower base1
  match generateSubqueryAliasLoop base v.bindings (v.bindings.length + 1) v.autoAliasCounter with
  | none => .error .fuel
  | some (candidate, counter) => .ok (candidate, { v with autoAliasCounter := counter })

/-! ## Literals, identifiers and aliases -/

/-- Type `literalKind` (line 3128). -/
inductive LiteralKind where
  | literalString
  | literalNumber
  | literalBoolean
  deriving DecidableEq, Repr

/-- Type `literalValue` (line 3136). -/
structure LiteralValue where
  kind : LiteralKind
  value : String
  deriving DecidableEq, Repr

/-- `literalFromExpr` (line 3141). -/
def literalFromExpr : Expr → Res LiteralValue
  | .stringLiteral s => .ok { kind := .literalString, value := s }
  | .numericLiteral s => .ok { kind := .literalNumber, value := s }
  | .booleanLiteral b =>
    .ok { kind := .literalBoolean, value := if b then "true" else "false" }
  | e => badRequest ("unsupported literal " ++ e.typeName)

/-- `literalValue.format` (line 3160). -/
def LiteralValue.format (l : LiteralValue) : String :=
  match l.kind with
  | .literalString => formatString l.value
  | .literalNumber => l.value
  | .literalBoolean => l.value

/-- The qualifier stripping shared by `normalizeIdentifier` and `rawFieldName`
(lines 3023-3028): with two or more parts, a first part naming a binding is
dropped. -/
def stripQualifier (v : Visitor) (parts : List String) : List String :=
  match parts with
  | first :: second :: rest =>
    if v.bindings.has (toLower first) then second :: rest else parts
  | _ => parts

/-- `normalizeIdentifier` (line 3013). -/
def normalizeIdentifier (v : Visitor) (parts : List String) : Res String :=
  if parts.isEmpty then badRequest "translator: invalid identifier"
  else
    let field := stringsJoin (stripQualifier v parts) "."
    if field == "" then badRequest "translator: invalid identifier"
    else if safeBareLiteral field then .ok field
    else .ok (quoteString field)

/-- `rawFieldName` (line 3042). -/
def rawFieldName (v : Visitor) (parts : List String) : Res String :=
  if parts.isEmpty then badRequest "translator: invalid identifier"
  else
    let field := stringsJoin (stripQualifier v parts) "."
    if !safeFormatFieldLiteral field then
      badRequest ("translator: field " ++ field ++ " cannot be used in scalar function")
    else .ok field

/-- The replacer of `sanitizeAliasFromField` (lines 1663-1678) on one
character. -/
def sanitizeChar (c : Char) : Char :=
  if c == '.' || c == '-' || c == ':' || c == '/' || c == '+' || c == '*' || c == '%' ||
     c == '^' || c == '(' || c == ')' || c == ',' || c == ' ' || c == '\'' || c == '"'
  then '_' else c

/-- Go `strings.ReplaceAll(s, "__", "_")` on a character list. -/
def replaceDoubleUnderscore : List Char → List Char
  | '_' :: '_' :: rest => '_' :: replaceDoubleUnderscore rest
  | c :: rest => c :: replaceDoubleUnderscore rest
  | [] => []

/-- Go `strings.Contains(s, "__")` on a character list. -/
def hasDoubleUnderscore : List Char → Bool
  | '_' :: '_' :: _ => true
  | _ :: rest => hasDoubleUnderscore rest
  | [] => false

/-- The loop of lines 1681-1683; every round shortens the text, so its length
bounds the number of rounds. -/
def collapseUnderscores : Nat → List Char → List Char
  | 0, l => l
  | fuel + 1, l =>
    if hasDoubleUnderscore l then collapseUnderscores fuel (replaceDoubleUnderscore l) else l

/-- Go `strings.Trim(s, "_")` on a character list. -/
def trimUnderscores (l : List Char) : List Char :=
  ((l.dropWhile (· == '_')).reverse.dropWhile (· == '_')).reverse

/-- `sanitizeAliasFromField` (line 1662) with the ASCII case map;
`sanitizeAliasWith` follows the function for any case map. -/
def sanitizeAliasFromField (field : String) : String :=
  let replaced : String := ⟨field.data.map sanitizeChar⟩
  let lowered := toLower replaced
  let collapsed := collapseUnderscores lowered.data.length lowered.data
  let value : String := ⟨trimUnderscores collapsed⟩
  if value == "" then "col" else value

/-- `makeProjectionAlias` (line 1602). -/
def makeProjectionAlias (provided pfx field : String) : Res String :=
  if provided != "" then
    if !safeBareLiteral provided then
      badRequest ("translator: alias " ++ fmtQ provided ++ " contains unsupported characters")
    else .ok provided
  else
    let aliasName := pfx ++ "_" ++ sanitizeAliasFromField field
    if !safeBareLiteral aliasName then
      badRequest ("translator: failed to build alias for " ++ field)
    else .ok aliasName

/-- `makeSimpleAlias` (line 1623). -/
def makeSimpleAlias (provided fallback : String) : Res String :=
  if provided != "" then
    if !safeBareLiteral provided then
      badRequest ("translator: alias " ++ fmtQ provided ++ " contains unsupported characters")
    else .ok provided
  else
    let fb := if fallback == "" then "expr" else fallback
    if !safeBareLiteral fb then
      badRequest ("translator: alias " ++ fmtQ fb ++ " contains unsupported characters")
    else .ok fb

/-- `escapeFormatPattern` (line 1711): backslashes are doubled, then double
quotes get a backslash; the second pass adds backslashes only after the first
has run, so each character is escaped on its own. -/
def escapeFormatPattern (pattern : String) : String :=
  ⟨pattern.data.flatMap quoteRune⟩

/-- `escapeSingleQuotes` (line 1717). -/
def escapeSingleQuotes (pattern : String) : String :=
  ⟨pattern.data.flatMap (fun c => if c == '\'' then ['\\', c] else [c])⟩

/-- `buildTrimPattern` (line 1721). -/
def buildTrimPattern (kind aliasName : String) : Res String :=
  let k := toUpper kind
  if k == "TRIM" then .ok ("(?s)^\\s*(?P<" ++ aliasName ++ ">.*?\\S)?\\s*$")
  else if k == "LTRIM" then .ok ("(?s)^\\s*(?P<" ++ aliasName ++ ">.*)$")
  else if k == "RTRIM" then .ok ("(?s)^(?P<" ++ aliasName ++ ">.*?\\S)?\\s*$")
  else .error (.plain ("translator: unsupported trim function " ++ kind))

/-- The last element `parts[len(parts)-1]` of a non-empty name. -/
def lastPart (parts : List String) : String :=
  parts.getLast?.getD ""

/-- `isAggregateFunction` (line 1498). -/
def isAggregateFunction (name : List String) : Bool :=
  if name.isEmpty then false
  else
    let n := toUpper (lastPart name)
    n == "COUNT" || n == "SUM" || n == "AVG" || n == "MIN" || n == "MAX"

/-- `aggregateKey` (line 1511). -/
def aggregateKey (name arg : String) : String :=
  if arg == "" || arg == "*" then toUpper name ++ "(*)"
  else toUpper name ++ "(" ++ toLower arg ++ ")"

/-- `formatAggregateArg` (line 1518). -/
def formatAggregateArg (arg : String) : String :=
  if arg == "" || arg == "*" then "" else arg

/-- `aggregateKeyFromFunc` (line 2537), on the name and arguments of the
call. -/
def aggregateKeyFromFunc (v : Visitor) (name : List String) (args : List Expr) : Res String :=
  if name.isEmpty then badRequest "translator: invalid aggregate in ORDER BY"
  else
    let n := toUpper (lastPart name)
    if n == "COUNT" then
      match args with
      | [] => .ok (aggregateKey n "*")
      | [.starExpr] => .ok (aggregateKey n "*")
      | [.identifier parts] => do
        let field ← normalizeIdentifier v parts
        .ok (aggregateKey n field)
      | [.numericLiteral value] => .ok (aggregateKey n value)
      | [_] => badRequest "translator: COUNT only supports identifiers, numeric literals, or *"
      | _ => badRequest "translator: COUNT expects single argument"
    else if n == "SUM" || n == "AVG" || n == "MIN" || n == "MAX" then
      match args with
      | [.identifier parts] => do
        let field ← normalizeIdentifier v parts
        .ok (aggregateKey n field)
      | [.numericLiteral value] => .ok (aggregateKey n value)
      | [_] =>
        badRequest ("translator: " ++ toLower n ++ " only supports identifiers or numeric literals")
      | _ => badRequest ("translator: " ++ toLower n ++ " expects single argument")
    else badRequest ("translator: unsupported aggregate " ++ n)

/-- `lookupGroupExpr` (line 1360): the group field and the found flag. -/
def lookupGroupExpr (v : Visitor) (expr : Expr) : Res (String × Bool) :=
  match v.groupExprAliases with
  | none => .ok ("", false)
  | some m =>
    match v.sp.render expr with
    | .error err =>
      badRequest ("translator: failed to normalize expression: " ++ errorText err)
    | .ok key =>
      match m.get key with
      | some name => .ok (name, true)
      | none => .ok ("", false)

/-! ## Scalar-function synthesis -/

/-- `translateTrimFunction` (line 1645). -/
def translateTrimFunction (v : Visitor) (kind : String) (ident : List String)
    (aliasName : String) : Res (List String × String) := do
  let rawField ← rawFieldName v ident
  let name ← makeProjectionAlias (trimSpace aliasName) (toLower kind) rawField
  let pattern ← buildTrimPattern kind name
  .ok (["extract_regexp '" ++ escapeSingleQuotes pattern ++ "' from " ++ rawField], name)

/-- Go `strconv.Atoi` on a 64-bit platform. -/
def atoi (s : String) : Option Int :=
  let signed : Bool × List Char :=
    match s.data with
    | '-' :: r => (true, r)
    | '+' :: r => (false, r)
    | r => (false, r)
  let digits := signed.2
  if digits.isEmpty || !digits.all (fun c => 48 ≤ c.toNat && c.toNat ≤ 57) then none
  else
    let n : Nat := digits.foldl (fun (a : Nat) (c : Char) => a * 10 + (c.toNat - 48)) 0
    if signed.1 then (if n ≤ 2 ^ 63 then some (-(n : Int)) else none)
    else (if n < 2 ^ 63 then some (n : Int) else none)

/-- `parseSubstringIntArg` (line 1787). -/
def parseSubstringIntArg (expr : Expr) (name : String) : Res Int :=
  let fail : Res Int := badRequest ("translator: substr " ++ name ++ " must be integer literal")
  match expr with
  | .numericLiteral value =>
    let clean : String := ⟨(trimSpace value).data.filter (· != '_')⟩
    if clean == "" then fail
    else if clean.data.any (fun c => c == '.' || c == 'e' || c == 'E') then fail
    else
      match atoi clean with
      | none => fail
      | some n => .ok n
  | _ => fail

/-- `translateSubstringFunction` (line 1734). -/
def translateSubstringFunction (v : Visitor) (args : List Expr) (aliasName : String) :
    Res (List String × String) :=
  if args.length < 2 || args.length > 3 then
    badRequest "translator: substr expects two or three arguments"
  else
    match args with
    | .identifier ident :: startArg :: rest => do
      let rawField ← rawFieldName v ident
      let start ← parseSubstringIntArg startArg "start"
      if start < 1 then badRequest "translator: substr start must be >= 1"
      else
        let name ← makeProjectionAlias (trimSpace aliasName) "substr" rawField
        let startIndex := start - 1
        let pattern ←
          match rest with
          | lengthArg :: _ => do
            let length ← parseSubstringIntArg lengthArg "length"
            if length < 0 then badRequest "translator: substr length must be >= 0"
            else .ok ("(?s)^.\x7b" ++ fmtInt startIndex ++ "\x7d(?P<" ++ name ++ ">.\x7b0," ++
                    fmtInt length ++ "\x7d)")
          | [] => .ok ("(?s)^.\x7b" ++ fmtInt startIndex ++ "\x7d(?P<" ++ name ++ ">.*)$")
        .ok (["extract_regexp '" ++ escapeSingleQuotes pattern ++ "' from " ++ rawField], name)
    | _ => badRequest "translator: substr only supports identifiers as first argument"

/-- `concatSegment` (line 1852). -/
def concatSegment (v : Visitor) : Expr → Res String
  | .stringLiteral value => .ok value
  | .numericLiteral value => .ok value
  | .booleanLiteral b => .ok (if b then "true" else "false")
  | .nullLiteral => .ok ""
  | .identifier parts => do
    let field ← rawFieldName v parts
    .ok ("<" ++ field ++ ">")
  | e => badRequest ("translator: CONCAT argument " ++ e.typeName ++ " is not supported")

/-- The loop of lines 1840-1846. -/
def concatSegments (v : Visitor) : List Expr → Res (List String)
  | [] => .ok []
  | arg :: rest => do
    let segment ← concatSegment v arg
    let segments ← concatSegments v rest
    .ok (segment :: segments)

/-- `translateConcatFunction` (line 1818). -/
def translateConcatFunction (v : Visitor) (args : List Expr) (aliasName : String) :
    Res (List String × String) :=
  match args with
  | [] => badRequest "translator: concat expects at least one argument"
  | first :: _ => do
    let aliasSource ←
      match first with
      | .identifier parts => rawFieldName v parts
      | _ => .ok "expr"
    let name ← makeProjectionAlias (trimSpace aliasName) "concat" aliasSource
    let segments ← concatSegments v args
    let pattern := stringsJoin segments ""
    .ok (["format \"" ++ escapeFormatPattern pattern ++ "\" as " ++ name], name)

/-- `translateReplaceFunction` (line 1879). -/
def translateReplaceFunction (v : Visitor) (args : List Expr) (aliasName : String) :
    Res (List String × String) :=
  match args with
  | [first, second, third] =>
    match first with
    | .identifier ident => do
      let rawField ← rawFieldName v ident
      let searchLit ← literalFromExpr second
      let replaceLit ← literalFromExpr third
      let name ← makeProjectionAlias (trimSpace aliasName) "replace" rawField
      let pattern := "<" ++ rawField ++ ">"
      let copyPipe := "format \"" ++ escapeFormatPattern pattern ++ "\" as " ++ name
      let replacePipe := "replace ('" ++ escapeSingleQuotes searchLit.value ++ "', '" ++
        escapeSingleQuotes replaceLit.value ++ "') at " ++ name
      .ok ([copyPipe, replacePipe], name)
    | _ => badRequest "translator: replace only supports identifiers as first argument"
  | _ => badRequest "translator: replace expects three arguments"

/-- The first key of lines 1956-1963 outside the format-field class. -/
def firstUnsafeKey : List String → Option String
  | [] => none
  | key :: rest => if !safeFormatFieldLiteral key then some key else firstUnsafeKey rest

/-- `translateJSONValueFunction` (line 1917). -/
def translateJSONValueFunction (v : Visitor) (args : List Expr) (aliasName : String) :
    Res (List String × String) :=
  match args with
  | [first, second] =>
    match first with
    | .identifier ident => do
      let rawField ← rawFieldName v ident
      let pathLiteral ← literalFromExpr second
      if pathLiteral.kind != .literalString then
        badRequest "translator: JSON_VALUE path must be string literal"
      else
        let parsed ← v.sp.parseJSONPath pathLiteral.value
        let keys := parsed.1
        if !parsed.2 || keys.isEmpty then
          badRequest "translator: JSON_VALUE path with arrays is not supported"
        else
          match firstUnsafeKey keys with
          | some key =>
            badRequest ("translator: JSON_VALUE path segment " ++ fmtQ key ++
              " contains unsupported characters")
          | none =>
            let pathExpr := stringsJoin keys "."
            let aliasSource := rawField ++ "." ++ pathExpr
            let name ← makeProjectionAlias (trimSpace aliasName) "json_value" aliasSource
            let unpack := "unpack_json from " ++ rawField ++ " fields (" ++ pathExpr ++ ")"
            if name != pathExpr then
              .ok ([unpack, "rename " ++ formatFieldName pathExpr ++ " as " ++
                formatFieldName name], name)
            else .ok ([unpack], name)
    | _ => badRequest "translator: JSON_VALUE only supports identifiers as first argument"
  | _ => badRequest "translator: JSON_VALUE expects two arguments"

/-- `translateCurrentTimestamp` (line 2126). -/
def translateCurrentTimestamp (aliasName : String) : Res (List String × String) := do
  let name ← makeSimpleAlias (trimSpace aliasName) "current_timestamp"
  let tmpField := name ++ "_nanos"
  if !safeFormatFieldLiteral tmpField then
    badRequest ("translator: alias " ++ name ++ " produces unsupported field name")
  else
    .ok (["math now() as " ++ tmpField,
          "format '<time:" ++ tmpField ++ ">' as " ++ name,
          "delete " ++ tmpField], name)

/-- `translateCurrentDate` (line 2146). -/
def translateCurrentDate (aliasName : String) : Res (List String × String) := do
  let name ← makeSimpleAlias (trimSpace aliasName) "current_date"
  let nanosField := name ++ "_nanos"
  let formattedField := name ++ "_formatted"
  if !safeFormatFieldLiteral nanosField || !safeFormatFieldLiteral formattedField then
    badRequest ("translator: alias " ++ name ++ " produces unsupported field name")
  else
    let pattern := "^(?P<" ++ name ++ ">[0-9]\x7b4\x7d-[0-9]\x7b2\x7d-[0-9]\x7b2\x7d)"
    .ok (["math now() as " ++ nanosField,
          "format '<time:" ++ nanosField ++ ">' as " ++ formattedField,
          "extract_regexp '" ++ escapeSingleQuotes pattern ++ "' from " ++ formattedField,
          "delete " ++ nanosField ++ ", " ++ formattedField], name)

/-- `translateStringFunction` (line 1525): the `supported` flag, and the pipes
with the alias or the error. -/
def translateStringFunction (v : Visitor) (fnName : List String) (args : List Expr)
    (aliasName : String) : Bool × Res (List String × String) :=
  if fnName.isEmpty then (false, badRequest "translator: invalid function expression")
  else
    let name := toUpper (lastPart fnName)
    if name == "UPPER" || name == "LOWER" then
      match args with
      | [arg] =>
        match arg with
        | .identifier ident =>
          (true, do
            let rawField ← rawFieldName v ident
            let resolved ← makeProjectionAlias (trimSpace aliasName) (toLower name) rawField
            let modifier := if name == "LOWER" then "lc" else "uc"
            let pattern := "<" ++ modifier ++ ":" ++ rawField ++ ">"
            .ok (["format \"" ++ escapeFormatPattern pattern ++ "\" as " ++ resolved], resolved))
        | _ => (true, badRequest ("translator: " ++ toLower name ++ " only supports identifiers"))
      | _ => (true, badRequest ("translator: " ++ toLower name ++ " expects single argument"))
    else if name == "TRIM" || name == "LTRIM" || name == "RTRIM" then
      match args with
      | [arg] =>
        match arg with
        | .identifier ident => (true, translateTrimFunction v name ident aliasName)
        | _ => (true, badRequest ("translator: " ++ toLower name ++ " only supports identifiers"))
      | _ => (true, badRequest ("translator: " ++ toLower name ++ " expects single argument"))
    else if name == "SUBSTR" || name == "SUBSTRING" then
      (true, translateSubstringFunction v args aliasName)
    else if name == "CONCAT" then (true, translateConcatFunction v args aliasName)
    else if name == "REPLACE" then (true, translateReplaceFunction v args aliasName)
    else if name == "JSON_VALUE" then (true, translateJSONValueFunction v args aliasName)
    else if name == "CURRENT_TIMESTAMP" then (true, translateCurrentTimestamp aliasName)
    else if name == "CURRENT_DATE" then (true, translateCurrentDate aliasName)
    else (false, .ok ([], ""))

/-! ## Expression translator -/

/-- `ensureFilterFunctionAlias` (line 2941), on a call `fn` with its name
and arguments. -/
def ensureFilterFunctionAlias (v : Visitor) (fn : Expr) (fnName : List String)
    (args : List Expr) : Res (String × Visitor) :=
  if fnName.isEmpty then badRequest "translator: invalid function expression"
  else if isAggregateFunction fnName then
    badRequest ("translator: aggregate function " ++ toLower (lastPart fnName) ++
      " is not supported in this context")
  else
    match v.sp.render fn with
    | .error err =>
      badRequest ("translator: failed to normalize function expression: " ++ errorText err)
    | .ok key =>
      match v.filterComputations.get key with
      | some comp => .ok (comp.aliasName, v)
      | none =>
        let aliasBase := "__filter_expr_" ++ fmtNat (v.filterOrder.length + 1)
        let translated := translateStringFunction v fnName args aliasBase
        if !translated.1 then
          badRequest ("translator: function " ++ toLower (lastPart fnName) ++
            " is not supported in filter")
        else
          match translated.2 with
          | .error err => .error err
          | .ok (pipes, name) =>
            let comp : FilterComputation :=
              { aliasName := formatFieldName name, rawAlias := name, pipes := pipes }
            let v1 := { v with
              filterComputations := v.filterComputations.set key comp
              filterOrder := v.filterOrder ++ [key] }
            let v2 :=
              if v1.filterDeleteSet.contains name then v1
              else { v1 with
                filterDeleteSet := v1.filterDeleteSet ++ [name]
                filterDelete := v1.filterDelete ++ [name] }
            .ok (comp.aliasName, v2)

/-- `fieldNameFromExpr` (line 3073): the field name, the `is a field` flag and
the state. -/
def fieldNameFromExpr (v : Visitor) (expr : Expr) : Res (String × Bool × Visitor) :=
  match expr with
  | .identifier parts => do
    let name ← normalizeIdentifier v parts
    .ok (name, true, v)
  | .funcCall fnName args _ _ =>
    match v.aggResults with
    | some aggResults =>
      if isAggregateFunction fnName then do
        let key ← aggregateKeyFromFunc v fnName args
        match aggResults.get key with
        | none => badRequest "translator: unknown aggregate referenced"
        | some name => .ok (formatFieldName name, true, v)
      else do
        let found ← lookupGroupExpr v expr
        if found.2 then .ok (formatFieldName found.1, true, v)
        else
          badRequest ("translator: function " ++ expr.typeName ++
            " is not supported in aggregated context")
    | none => do
      let r ← ensureFilterFunctionAlias v expr fnName args
      .ok (r.1, true, r.2)
  | _ => .ok ("", false, v)

/-- `filterFieldFromExpr` (line 2999). -/
def filterFieldFromExpr (v : Visitor) (expr : Expr) : Res (String × Visitor) := do
  let r ← fieldNameFromExpr v expr
  if !r.2.1 then badRequest ("translator: expected identifier, got " ++ expr.typeName)
  else .ok (r.1, r.2.2)

/-- Type `comparisonKind` (line 3117). -/
inductive ComparisonKind where
  | comparisonEqual
  | comparisonNotEqual
  | comparisonGreater
  | comparisonGreaterEqual
  | comparisonLess
  | comparisonLessEqual
  deriving DecidableEq, Repr

/-- `buildFieldLiteralComparison` (line 2782). -/
def buildFieldLiteralComparison (field : String) (lit : LiteralValue) (flipped : Bool)
    (cmp : ComparisonKind) : Res String :=
  match cmp with
  | .comparisonEqual => .ok (field ++ ":" ++ lit.format)
  | .comparisonNotEqual => .ok ("-" ++ (field ++ ":" ++ lit.format))
  | _ =>
    if flipped then badRequest "translator: comparisons must have identifier on left side"
    else
      let op :=
        match cmp with
        | .comparisonGreater => ">"
        | .comparisonGreaterEqual => ">="
        | .comparisonLess => "<"
        | .comparisonLessEqual => "<="
        | _ => ""
      .ok (field ++ ":" ++ op ++ lit.format)

/-- `translateFieldComparison` (line 2818). -/
def translateFieldComparison (leftField rightField : String) (cmp : ComparisonKind) :
    Res String :=
  match cmp with
  | .comparisonEqual => .ok (leftField ++ ":eq_field(" ++ rightField ++ ")")
  | .comparisonNotEqual => .ok ("-" ++ (leftField ++ ":eq_field(" ++ rightField ++ ")"))
  | .comparisonLess => .ok (leftField ++ ":lt_field(" ++ rightField ++ ")")
  | .comparisonLessEqual => .ok (leftField ++ ":le_field(" ++ rightField ++ ")")
  | .comparisonGreater => .ok ("-" ++ (leftField ++ ":le_field(" ++ rightField ++ ")"))
  | .comparisonGreaterEqual => .ok ("-" ++ (leftField ++ ":lt_field(" ++ rightField ++ ")"))

/-- `translateComparison` (line 2749). -/
def translateComparison (v : Visitor) (left right : Expr) (cmp : ComparisonKind) :
    Res (String × Visitor) := do
  let l ← fieldNameFromExpr v left
  let r ← fieldNameFromExpr l.2.2 right
  let v2 := r.2.2
  if l.2.1 && r.2.1 then do
    let clause ← translateFieldComparison l.1 r.1 cmp
    .ok (clause, v2)
  else if l.2.1 then do
    let lit ← literalFromExpr right
    let clause ← buildFieldLiteralComparison l.1 lit false cmp
    .ok (clause, v2)
  else if r.2.1 then do
    let lit ← literalFromExpr left
    let clause ← buildFieldLiteralComparison r.1 lit true cmp
    .ok (clause, v2)
  else badRequest "translator: comparison requires identifier and literal"

/-- `translateBetweenExpr` (line 2843). -/
def translateBetweenExpr (v : Visitor) (e lower upper : Expr) (neg : Bool) :
    Res (String × Visitor) := do
  let f ← filterFieldFromExpr v e
  let lo ← literalFromExpr lower
  let hi ← literalFromExpr upper
  let clause := f.1 ++ ":[" ++ lo.format ++ ", " ++ hi.format ++ "]"
  if neg then .ok ("-" ++ clause, f.2) else .ok (clause, f.2)

/-- The loop of lines 2887-2893. -/
def formatInList : List Expr → Res (List String)
  | [] => .ok []
  | item :: rest => do
    let lit ← literalFromExpr item
    let values ← formatInList rest
    .ok (lit.format :: values)

/-- `translateInExpr` (line 2869). -/
def translateInExpr (v : Visitor) (e : Expr) (list : List Expr) (hasSubquery neg : Bool) :
    Res (String × Visitor) :=
  if hasSubquery then badRequest "translator: IN subqueries are not supported yet"
  else do
    let f ← filterFieldFromExpr v e
    if list.isEmpty then badRequest "translator: IN list cannot be empty"
    else
      let values ← formatInList list
      let clause := f.1 ++ ":(" ++ stringsJoin values " OR " ++ ")"
      if neg then .ok ("-" ++ clause, f.2) else .ok (clause, f.2)

/-- `translateLikeExpr` (line 2901). -/
def translateLikeExpr (v : Visitor) (e pattern : Expr) (neg : Bool) :
    Res (String × Visitor) := do
  let f ← filterFieldFromExpr v e
  let lit ← literalFromExpr pattern
  if lit.kind != .literalString then badRequest "translator: LIKE expects string literal"
  else
    let translated ← convertLikePattern lit.value
    let clause := f.1 ++ ":" ++ translated
    if neg then .ok ("-" ++ clause, f.2) else .ok (clause, f.2)

/-- `translateIsNullExpr` (line 2930). -/
def translateIsNullExpr (v : Visitor) (e : Expr) (neg : Bool) : Res (String × Visitor) := do
  let f ← filterFieldFromExpr v e
  if neg then .ok (f.1 ++ ":*", f.2) else .ok (f.1 ++ ":\"\"", f.2)

/-- `translateExpr` (line 2659). -/
def translateExpr (v : Visitor) : Expr → Res (String × Visitor)
  | .binaryExpr op left right =>
    if op == "AND" || op == "OR" then do
      let l ← translateExpr v left
      let r ← translateExpr l.2 right
      .ok ("(" ++ l.1 ++ " " ++ op ++ " " ++ r.1 ++ ")", r.2)
    else if op == "=" then translateComparison v left right .comparisonEqual
    else if op == "!=" || op == "<>" then translateComparison v left right .comparisonNotEqual
    else if op == ">" then translateComparison v left right .comparisonGreater
    else if op == ">=" then translateComparison v left right .comparisonGreaterEqual
    else if op == "<" then translateComparison v left right .comparisonLess
    else if op == "<=" then translateComparison v left right .comparisonLessEqual
    else badRequest ("translator: unsupported operator " ++ fmtQ op)
  | .unaryExpr op e =>
    if toLower op == "not" then do
      let inner ← translateExpr v e
      .ok ("-(" ++ inner.1 ++ ")", inner.2)
    else badRequest ("translator: unsupported unary operator " ++ fmtQ op)
  | .inExpr e list hasSubquery neg => translateInExpr v e list hasSubquery neg
  | .likeExpr e pattern neg => translateLikeExpr v e pattern neg
  | .isNullExpr e neg => translateIsNullExpr v e neg
  | .betweenExpr e lower upper neg => translateBetweenExpr v e lower upper neg
  | .funcCall fnName args _ _ =>
    match v.aggResults with
    | some aggResults =>
      match aggregateKeyFromFunc v fnName args with
      | .error err => .error err
      | .ok key =>
        match aggResults.get key with
        | some name => .ok (formatFieldName name, v)
        | none => badRequest "translator: unsupported function expression in filter"
    | none => badRequest "translator: unsupported function expression in filter"
  | .identifier parts => do
    let name ← normalizeIdentifier v parts
    .ok (name, v)
  | .stringLiteral value => .ok (formatString value, v)
  | .numericLiteral value => .ok (value, v)
  | .booleanLiteral b => .ok (if b then "true" else "false", v)
  | .nullLiteral => badRequest "translator: NULL literal is not supported in this context"
  | e => badRequest ("translator: unsupported expression " ++ e.typeName)

/-! ## Alias scoping of expressions -/

mutual
/-- `walkExpr` (line 937): the nodes on which the callback is called, in call
order.  The subquery of an `InExpr` is visited as one `SubqueryExpr` node. -/
def walkExpr : Expr → List Expr
  | .binaryExpr op l r => .binaryExpr op l r :: (walkExpr l ++ walkExpr r)
  | .unaryExpr op e => .unaryExpr op e :: walkExpr e
  | .inExpr e list hasSubquery neg =>
    .inExpr e list hasSubquery neg ::
      (walkExpr e ++ walkExprList list ++
        (if hasSubquery then [Expr.other "*ast.SubqueryExpr"] else []))
  | .betweenExpr e lo hi neg =>
    .betweenExpr e lo hi neg :: (walkExpr e ++ walkExpr lo ++ walkExpr hi)
  | .likeExpr e pat neg => .likeExpr e pat neg :: (walkExpr e ++ walkExpr pat)
  | .isNullExpr e neg => .isNullExpr e neg :: walkExpr e
  | .funcCall name args distinct over => .funcCall name args distinct over :: walkExprList args
  | .identifier parts => [.identifier parts]
  | .stringLiteral value => [.stringLiteral value]
  | .numericLiteral value => [.numericLiteral value]
  | .booleanLiteral value => [.booleanLiteral value]
  | .nullLiteral => [.nullLiteral]
  | .starExpr => [.starExpr]
  | .other t => [.other t]
/-- `walkExpr` over a list of expressions, in order. -/
def walkExprList : List Expr → List Expr
  | [] => []
  | e :: rest => walkExpr e ++ walkExprList rest
end

/-- `flattenAnd` (line 901). -/
def flattenAnd : Expr → List Expr
  | .binaryExpr op left right =>
    if op == "AND" then flattenAnd left ++ flattenAnd right
    else [.binaryExpr op left right]
  | e => [e]

/-- `qualifierForIdentifierWithDefault` (line 914). -/
def qualifierForIdentifierWithDefault (v : Visitor) (parts : List String)
    (fallback : String) : String :=
  match parts with
  | [] => fallback
  | first :: _ => if v.bindings.has (toLower first) then toLower first else fallback

/-- The set insertion `aliases[alias] = struct{}{}`, keeping first-insertion
order. -/
def setInsert (s : List String) (a : String) : List String :=
  if s.contains a then s else s ++ [a]

/-- The callback of `aliasesForExprWithDefault` folded over the visited
nodes. -/
def collectAliases (v : Visitor) (fallback : String) : List Expr → List String → List String
  | [], acc => acc
  | .identifier parts :: rest, acc =>
    collectAliases v fallback rest
      (setInsert acc (qualifierForIdentifierWithDefault v parts fallback))
  | _ :: rest, acc => collectAliases v fallback rest acc

/-- `aliasesForExprWithDefault` (line 925): the alias set, in first-insertion
order, without the empty alias. -/
def aliasesForExprWithDefault (v : Visitor) (expr : Expr) (fallback : String) : List String :=
  (collectAliases v fallback (walkExpr expr) []).filter (· != "")

/-- `isAliasOnly` (line 972). -/
def isAliasOnly (aliases : List String) (aliasName : String) : Bool :=
  if aliases.length == 0 then false
  else if aliasName == "" then false
  else if aliases.length == 1 then aliases.contains aliasName
  else false

/-- The loop of `ensureAliases` (lines 999-1009); the model visits the set in
first-insertion order. -/
def firstForeignAlias (allowed : List String) : List String → Option String
  | [] => none
  | a :: rest =>
    if a == "" then firstForeignAlias allowed rest
    else if !allowed.contains a then some a
    else firstForeignAlias allowed rest

/-- `ensureAliases` (line 991). -/
def ensureAliases (v : Visitor) (expr : Expr) (allowed : List String) : Res Unit :=
  let fallback :=
    match allowed with
    | [a] => a
    | _ => v.baseAlias
  match firstForeignAlias allowed (aliasesForExprWithDefault v expr fallback) with
  | some a =>
    badRequest ("translator: expression references unsupported alias " ++ fmtQ a)
  | none => .ok ()

/-- `ensureBaseAliasesOnly` (line 986). -/
def ensureBaseAliasesOnly (v : Visitor) (expr : Expr) : Res Unit :=
  ensureAliases v expr [v.baseAlias]

/-! ## Math projections, constants and aggregates -/

/-- `isMathOperator` (line 2317). -/
def isMathOperator (op : String) : Bool :=
  op == "+" || op == "-" || op == "*" || op == "/" || op == "%" || op == "^"

/-- `mathFuncToString` (line 2229), given the number of arguments and the
result of rendering the arguments in order (every accepted arity renders all
its arguments in order and stops at the first error). -/
def mathFuncToString (fnName : List String) (nargs : Nat) (rendered : Res (List String)) :
    Res String :=
  if fnName.isEmpty then badRequest "translator: invalid math function"
  else
    let name := toUpper (lastPart fnName)
    let lower := toLower name
    if name == "ABS" || name == "CEIL" || name == "FLOOR" || name == "EXP" || name == "LN" then
      if nargs != 1 then badRequest ("translator: " ++ lower ++ " expects single argument")
      else do
        let parts ← rendered
        .ok (lower ++ "(" ++ stringsJoin parts "" ++ ")")
    else if name == "ROUND" then
      if nargs == 0 || nargs > 2 then badRequest "translator: round expects one or two arguments"
      else do
        let parts ← rendered
        .ok ("round(" ++ stringsJoin parts ", " ++ ")")
    else if name == "POWER" || name == "POW" then
      if nargs != 2 then badRequest ("translator: " ++ lower ++ " expects two arguments")
      else do
        let parts ← rendered
        .ok ("(" ++ stringsJoin parts " ^ " ++ ")")
    else if name == "MAX" || name == "MIN" || name == "GREATEST" || name == "LEAST" then
      if nargs == 0 then badRequest ("translator: " ++ lower ++ " expects at least one argument")
      else do
        let parts ← rendered
        let funcName :=
          if name == "GREATEST" then "max" else if name == "LEAST" then "min" else lower
        .ok (funcName ++ "(" ++ stringsJoin parts ", " ++ ")")
    else badRequest ("translator: unsupported function " ++ name ++ " in math expression")

mutual
/-- `mathExprToString` (line 2182). -/
def mathExprToString (v : Visitor) : Expr → Res String
  | .numericLiteral value => .ok value
  | .identifier parts => rawFieldName v parts
  | .unaryExpr op e =>
    if toUpper op != "-" then
      badRequest ("translator: unsupported unary operator " ++ fmtQ op ++ " in math expression")
    else do
      let inner ← mathExprToString v e
      .ok ("-(" ++ inner ++ ")")
  | .binaryExpr op left right =>
    if !isMathOperator (toUpper op) then
      badRequest ("translator: unsupported operator " ++ fmtQ op ++ " in math expression")
    else do
      let l ← mathExprToString v left
      let r ← mathExprToString v right
      .ok ("(" ++ l ++ " " ++ op ++ " " ++ r ++ ")")
  | .funcCall fnName args _ _ => mathFuncToString fnName args.length (mathArgsToStrings v args)
  | .stringLiteral _ => badRequest "translator: unsupported math expression *ast.StringLiteral"
  | .booleanLiteral _ => badRequest "translator: unsupported math expression *ast.BooleanLiteral"
  | .nullLiteral => badRequest "translator: unsupported math expression *ast.NullLiteral"
  | .starExpr => badRequest "translator: unsupported math expression *ast.StarExpr"
  | .inExpr _ _ _ _ => badRequest "translator: unsupported math expression *ast.InExpr"
  | .betweenExpr _ _ _ _ => badRequest "translator: unsupported math expression *ast.BetweenExpr"
  | .likeExpr _ _ _ => badRequest "translator: unsupported math expression *ast.LikeExpr"
  | .isNullExpr _ _ => badRequest "translator: unsupported math expression *ast.IsNullExpr"
  | .other t => badRequest ("translator: unsupported math expression " ++ t)
/-- The arguments of a math function rendered in order. -/
def mathArgsToStrings (v : Visitor) : List Expr → Res (List String)
  | [] => .ok []
  | arg :: rest => do
    let a ← mathExprToString v arg
    let others ← mathArgsToStrings v rest
    .ok (a :: others)
end

/-- `translateMathProjection` (line 2169): the pipe and the alias. -/
def translateMathProjection (v : Visitor) (expr : Expr) (aliasName : String) :
    Res (String × String) := do
  let mathExpr ← mathExprToString v expr
  let name ← makeProjectionAlias (trimSpace aliasName) "expr" mathExpr
  .ok ("math " ++ mathExpr ++ " as " ++ name, name)

/-- `ensureConstantField` (line 1691): the field, the pipe (empty when the
constant exists already) and the state. -/
def ensureConstantField (v : Visitor) (value : String) : Res (String × String × Visitor) :=
  if trimSpace value == "" then
    badRequest "translator: constant aggregate requires non-empty numeric literal"
  else
    match v.constantFields.get value with
    | some field => .ok (field, "", v)
    | none =>
      let count := v.constantFieldCount + 1
      let field := "__const_" ++ fmtNat count
      let pipe := "format " ++ value ++ " as " ++ field
      .ok (field, pipe,
        { v with constantFieldCount := count, constantFields := v.constantFields.set value field })

/-- Type `aggItem` (line 1376). -/
structure AggItem where
  key : String
  statsCall : String
  resultName : String
  prePipes : List String
  selected : Bool
  deriving DecidableEq, Repr

/-- The argument analysis of `analyzeAggregate` (lines 1411-1485): the key
argument, the call argument, the pre-pipes and the state. -/
def analyzeAggregateArg (v : Visitor) (name : String) (args : List Expr) :
    Res (String × String × List String × Visitor) :=
  let constant (value : String) : Res (String × String × List String × Visitor) := do
    let c ← ensureConstantField v value
    .ok (value, c.1, if c.2.1 != "" then [c.2.1] else [], c.2.2)
  if name == "COUNT" then
    match args with
    | [] => .ok ("*", "*", [], v)
    | [.starExpr] => .ok ("*", "*", [], v)
    | [.identifier parts] => do
      let field ← normalizeIdentifier v parts
      .ok (field, field, [], v)
    | [.numericLiteral value] => constant value
    | [_] => badRequest "translator: COUNT only supports identifiers, numeric literals, or *"
    | _ => badRequest "translator: COUNT expects single argument"
  else if name == "SUM" || name == "AVG" || name == "MIN" || name == "MAX" then
    match args with
    | [.identifier parts] => do
      let field ← normalizeIdentifier v parts
      .ok (field, field, [], v)
    | [.numericLiteral value] => constant value
    | [_] =>
      badRequest ("translator: " ++ toLower name ++ " only supports identifiers or numeric literals")
    | _ => badRequest ("translator: " ++ toLower name ++ " expects single argument")
  else badRequest ("translator: unsupported aggregate " ++ name)

/-- `analyzeAggregate` (line 1384), on the name, arguments and `Distinct` flag
of the call. -/
def analyzeAggregate (v : Visitor) (fnName : List String) (args : List Expr) (distinct : Bool)
    (aliasName : String) : Res (AggItem × Visitor) :=
  if distinct then badRequest "translator: DISTINCT aggregates are not supported"
  else if fnName.isEmpty then badRequest "translator: invalid aggregate function"
  else do
    let name := toUpper (lastPart fnName)
    let a ← analyzeAggregateArg v name args
    let key := aggregateKey name a.1
    let fnCall := toLower name ++ "(" ++ formatAggregateArg a.2.1 ++ ")"
    let trimmed := trimSpace aliasName
    if trimmed == "" then
      .ok ({ key := key, statsCall := fnCall, resultName := fnCall, prePipes := a.2.2.1,
             selected := false }, a.2.2.2)
    else
      let formattedAlias := formatFieldName trimmed
      .ok ({ key := key, statsCall := fnCall ++ " " ++ formattedAlias,
             resultName := formattedAlias, prePipes := a.2.2.1, selected := false }, a.2.2.2)

/-! ## Sort, window functions, projection, limit, distinct -/

/-- The field of one ORDER BY item (lines 2495-2527). -/
def orderByField (v : Visitor) (aggregated : Bool) : Expr → Res String
  | .identifier parts => normalizeIdentifier v parts
  | .funcCall fnName args _ _ =>
    if !aggregated then badRequest "translator: ORDER BY function requires aggregation"
    else do
      let key ← aggregateKeyFromFunc v fnName args
      match (v.aggResults.getD []).get key with
      | none => badRequest "translator: ORDER BY references unknown aggregate"
      | some name => .ok name
  | e => badRequest ("translator: ORDER BY expression " ++ e.typeName ++ " not supported")

/-- The loop of `translateOrderBy` (lines 2494-2533). -/
def orderByClauses (v : Visitor) (aggregated : Bool) : List OrderItem → Res (List String)
  | [] => .ok []
  | item :: rest => do
    let field ← orderByField v aggregated item.expr
    let clause := if item.direction == .descending then field ++ " desc" else field
    let clauses ← orderByClauses v aggregated rest
    .ok (clause :: clauses)

/-- `translateOrderBy` (line 2492). -/
def translateOrderBy (v : Visitor) (items : List OrderItem) (aggregated : Bool) : Res String := do
  let clauses ← orderByClauses v aggregated items
  .ok ("sort by (" ++ stringsJoin clauses ", " ++ ")")

/-- The argument analysis of `translateWindowFunction` (lines 1996-2075): the
stats call, the alias source, the constant pipe and the state. -/
def windowFunctionArg (v : Visitor) (name : String) (args : List Expr) :
    Res (String × String × String × Visitor) :=
  if name == "SUM" || name == "MIN" || name == "MAX" then
    match args with
    | [arg] => do
      let _ ← ensureBaseAliasesOnly v arg
      match arg with
      | .identifier parts => do
        let field ← normalizeIdentifier v parts
        .ok (toLower name ++ "(" ++ field ++ ")", field, "", v)
      | .numericLiteral value => do
        let c ← ensureConstantField v value
        .ok (toLower name ++ "(" ++ c.1 ++ ")", value, c.2.1, c.2.2)
      | _ =>
        badRequest ("translator: " ++ toLower name ++
          " window function requires identifier or numeric literal argument")
    | _ => badRequest ("translator: " ++ toLower name ++ " window function expects single argument")
  else if name == "COUNT" then
    match args with
    | [] => .ok ("count()", toLower name, "", v)
    | [.starExpr] => .ok ("count()", toLower name, "", v)
    | [.identifier parts] => do
      let _ ← ensureBaseAliasesOnly v (.identifier parts)
      let field ← normalizeIdentifier v parts
      .ok ("count(" ++ field ++ ")", field, "", v)
    | [.numericLiteral value] => do
      let c ← ensureConstantField v value
      .ok ("count(" ++ c.1 ++ ")", value, c.2.1, c.2.2)
    | [_] =>
      badRequest "translator: COUNT window function only supports identifiers, numeric literals, or *"
    | _ => badRequest "translator: COUNT window function expects zero or one argument"
  else badRequest ("translator: window function " ++ name ++ " is not supported")

/-- The PARTITION BY loop (lines 2086-2102). -/
def partitionFields (v : Visitor) : List Expr → Res (List String)
  | [] => .ok []
  | expr :: rest => do
    let _ ← ensureBaseAliasesOnly v expr
    match expr with
    | .identifier parts => do
      let field ← normalizeIdentifier v parts
      let fields ← partitionFields v rest
      .ok (field :: fields)
    | _ => badRequest "translator: PARTITION BY only supports identifiers"

/-- The alias check of the window ORDER BY items (lines 2107-2111). -/
def ensureOrderItemsBase (v : Visitor) : List OrderItem → Res Unit
  | [] => .ok ()
  | item :: rest => do
    let _ ← ensureBaseAliasesOnly v item.expr
    ensureOrderItemsBase v rest

/-- `translateWindowFunction` (line 1977), on a call with a window
specification: the pipes, the alias and the state. -/
def translateWindowFunction (v : Visitor) (fnName : List String) (args : List Expr)
    (distinct : Bool) (over : Option (List Expr × List (Expr × Direction)))
    (aliasName : String) : Res (List String × String × Visitor) :=
  match over with
  | none => badRequest "translator: invalid window function"
  | some (partitionBy, orderByPairs) =>
    if distinct then badRequest "translator: DISTINCT window functions are not supported"
    else
      match fnName.getLast? with
      | none => .error (.panic "runtime error: index out of range [-1]")
      | some last => do
        let name := toUpper last
        let a ← windowFunctionArg v name args
        let v1 := a.2.2.2
        let aliasSource := if trimSpace a.2.1 == "" then toLower name else a.2.1
        let resolved ← makeProjectionAlias (trimSpace aliasName) (toLower name) aliasSource
        let partitionClause ←
          if partitionBy.length > 0 then do
            let fields ← partitionFields v1 partitionBy
            .ok (" by (" ++ stringsJoin fields ", " ++ ")")
          else .ok ""
        let orderBy : List OrderItem :=
          orderByPairs.map (fun p => { expr := p.1, direction := p.2 })
        let orderPipes ←
          if orderBy.length > 0 then do
            let _ ← ensureOrderItemsBase v1 orderBy
            let orderPipe ← translateOrderBy v1 orderBy false
            .ok [orderPipe]
          else .ok []
        let constantPipes := if a.2.2.1 != "" then [a.2.2.1] else []
        let statsPipe := "running_stats" ++ partitionClause ++ " " ++ a.1 ++ " as " ++ resolved
        .ok (orderPipes ++ constantPipes ++ [statsPipe], resolved, v1)

/-- The accumulators of the column loop of `buildProjectionPipes`. -/
structure ProjectionAcc where
  computedPipes : List String
  renamePairs : List String
  fields : List String
  deriving DecidableEq, Repr

/-- The projection of a column onto a group field (lines 2407-2417 and
2451-2460). -/
def projectGroupField (acc : ProjectionAcc) (groupField colAlias : String) : ProjectionAcc :=
  let trimmed := trimSpace colAlias
  if trimmed != "" then
    let formattedAlias := formatFieldName trimmed
    { acc with
      renamePairs :=
        if formattedAlias != groupField then
          acc.renamePairs ++ [groupField ++ " as " ++ formattedAlias]
        else acc.renamePairs
      fields := acc.fields ++ [formattedAlias] }
  else { acc with fields := acc.fields ++ [groupField] }

/-- One round of the column loop of `buildProjectionPipes` (lines 2337-2479). -/
def projectColumn (v : Visitor) (aggregated : Bool) (acc : ProjectionAcc) (col : SelectItem) :
    Res (ProjectionAcc × Visitor) :=
  match col.expr with
  | .identifier parts =>
    let upper := toUpper (stringsJoin parts ".")
    if upper == "CURRENT_TIMESTAMP" || upper == "CURRENT_DATE" then do
      let r ←
        if upper == "CURRENT_TIMESTAMP" then translateCurrentTimestamp col.aliasName
        else translateCurrentDate col.aliasName
      .ok ({ acc with
        computedPipes := acc.computedPipes ++ r.1
        fields := acc.fields ++ [formatFieldName r.2] }, v)
    else do
      let field ← normalizeIdentifier v parts
      let trimmed := trimSpace col.aliasName
      if trimmed != "" then
        let formattedAlias := formatFieldName trimmed
        .ok ({ acc with
          renamePairs := acc.renamePairs ++ [field ++ " as " ++ formattedAlias]
          fields := acc.fields ++ [formattedAlias] }, v)
      else .ok ({ acc with fields := acc.fields ++ [field] }, v)
  | .funcCall fnName args distinct over =>
    if over.isSome then
      if aggregated then
        badRequest "translator: window functions are not supported with GROUP BY"
      else do
        let r ← translateWindowFunction v fnName args distinct over col.aliasName
        .ok ({ acc with
          computedPipes := acc.computedPipes ++ r.1
          fields := acc.fields ++ [formatFieldName r.2.1] }, r.2.2)
    else if aggregated && isAggregateFunction fnName then
      let trimmed := trimSpace col.aliasName
      if trimmed != "" then
        .ok ({ acc with fields := acc.fields ++ [formatFieldName trimmed] }, v)
      else do
        let key ← aggregateKeyFromFunc v fnName args
        match (v.aggResults.getD []).get key with
        | some name => .ok ({ acc with fields := acc.fields ++ [name] }, v)
        | none => .ok ({ acc with fields := acc.fields ++ [key] }, v)
    else if aggregated then do
      let found ← lookupGroupExpr v col.expr
      if found.2 then .ok (projectGroupField acc found.1 col.aliasName, v)
      else
        badRequest ("translator: unsupported function " ++ col.expr.typeName ++
          " in aggregated select")
    else
      let translated := translateStringFunction v fnName args col.aliasName
      if translated.1 then do
        let r ← translated.2
        .ok ({ acc with
          computedPipes := acc.computedPipes ++ r.1
          fields := acc.fields ++ [formatFieldName r.2] }, v)
      else do
        let r ← translateMathProjection v col.expr col.aliasName
        .ok ({ acc with
          computedPipes := acc.computedPipes ++ [r.1]
          fields := acc.fields ++ [formatFieldName r.2] }, v)
  | .starExpr => badRequest "translator: SELECT * cannot be combined with other projections"
  | e =>
    let isMath :=
      match e with
      | .binaryExpr _ _ _ => true
      | .unaryExpr _ _ => true
      | .numericLiteral _ => true
      | _ => false
    if isMath then
      if aggregated then do
        let found ← lookupGroupExpr v col.expr
        if !found.2 then
          badRequest ("translator: unsupported expression " ++ e.typeName ++
            " in aggregated select")
        else .ok (projectGroupField acc found.1 col.aliasName, v)
      else do
        let r ← translateMathProjection v col.expr col.aliasName
        .ok ({ acc with
          computedPipes := acc.computedPipes ++ [r.1]
          fields := acc.fields ++ [formatFieldName r.2] }, v)
    else badRequest ("translator: unsupported projection expression " ++ e.typeName)

/-- The column loop of `buildProjectionPipes`. -/
def projectColumns (aggregated : Bool) :
    Visitor → ProjectionAcc → List SelectItem → Res (ProjectionAcc × Visitor)
  | v, acc, [] => .ok (acc, v)
  | v, acc, col :: rest => do
    let r ← projectColumn v aggregated acc col
    projectColumns aggregated r.2 r.1 rest

/-- Whether the select list is the single column `*` (lines 2327-2331). -/
def isSelectStar (columns : List SelectItem) : Bool :=
  match columns with
  | [col] =>
    match col.expr with
    | .starExpr => true
    | _ => false
  | _ => false

/-- `buildProjectionPipes` (line 2326): the pipes, the projected fields and
the state. -/
def buildProjectionPipes (v : Visitor) (columns : List SelectItem) (aggregated : Bool) :
    Res (List String × List String × Visitor) :=
  if isSelectStar columns then .ok ([], [], v)
  else do
    let r ← projectColumns aggregated v
      { computedPipes := [], renamePairs := [], fields := [] } columns
    let acc := r.1
    let renamePipes :=
      if acc.renamePairs.length > 0 then ["rename " ++ stringsJoin acc.renamePairs ", "] else []
    let fieldsPipes :=
      if acc.fields.length > 0 && !aggregated then ["fields " ++ stringsJoin acc.fields ", "]
      else []
    .ok (acc.computedPipes ++ renamePipes ++ fieldsPipes, acc.fields, r.2)

/-- `translateLimit` (line 2610). -/
def translateLimit (limit : LimitClause) : Res (List String) := do
  let offsetPipes ←
    match limit.offset with
    | none => .ok []
    | some offset =>
      match literalFromExpr offset with
      | .error err =>
        badRequest ("translator: OFFSET expects numeric literal: " ++ errorText err)
      | .ok offsetLit =>
        if offsetLit.kind != .literalNumber then
          badRequest "translator: OFFSET expects numeric literal"
        else .ok ["offset " ++ offsetLit.value]
  let countPipes ←
    match limit.count with
    | none => .ok []
    | some count =>
      match literalFromExpr count with
      | .error err =>
        badRequest ("translator: LIMIT expects numeric literal: " ++ errorText err)
      | .ok countLit =>
        if countLit.kind != .literalNumber then
          badRequest "translator: LIMIT expects numeric literal"
        else .ok ["limit " ++ countLit.value]
  let pipes := offsetPipes ++ countPipes
  if pipes.length == 0 then badRequest "translator: LIMIT/OFFSET clause is empty"
  else .ok pipes

/-- `buildDistinctPipe` (line 418). -/
def buildDistinctPipe (fields : List String) (aggregated : Bool) : Res String :=
  if aggregated then badRequest "translator: DISTINCT with aggregates is not supported"
  else if fields.length == 0 then badRequest "translator: DISTINCT requires explicit column list"
  else .ok ("uniq by (" ++ stringsJoin fields ", " ++ ")")

/-! ## Aggregation and grouping -/

/-- Map assignment guarded by `if _, exists := m[k]; !exists`. -/
def setIfAbsent (m : GoMap Expr) (k : String) (e : Expr) : GoMap Expr :=
  if m.has k then m else m.set k e

/-- `collectGroupAliases` (line 1306). -/
def collectGroupAliases : List SelectItem → GoMap Expr → GoMap Expr
  | [], aliases => aliases
  | col :: rest, aliases =>
    let trimmed := trimSpace col.aliasName
    let isStar :=
      match col.expr with
      | .starExpr => true
      | _ => false
    if trimmed == "" || isStar then collectGroupAliases rest aliases
    else
      let a1 := setIfAbsent aliases (toLower trimmed) col.expr
      let formatted := formatFieldName trimmed
      let a2 := setIfAbsent a1 (toLower formatted) col.expr
      let a3 :=
        if hasPrefixChar formatted '"' && hasSuffixChar formatted '"' &&
            formatted.data.length ≥ 2 then
          setIfAbsent a2 (toLower (dropLast (dropFirst formatted))) col.expr
        else a2
      collectGroupAliases rest a3

/-- `resolveGroupByAlias` (line 1342). -/
def resolveGroupByAlias (expr : Expr) (aliases : GoMap Expr) : Expr :=
  if aliases.length == 0 then expr
  else
    match expr with
    | .identifier [part] =>
      match aliases.get (toLower part) with
      | some replacement => replacement
      | none => expr
    | _ => expr

/-- `prepareGroupByField` (line 1264): the field name and the pipes. -/
def prepareGroupByField (v : Visitor) (expr : Expr) (index : Nat) : Res (String × List String) :=
  let groupAlias := "group_" ++ fmtNat (index + 1)
  let math : Res (String × List String) := do
    let r ← translateMathProjection v expr groupAlias
    .ok (r.2, [r.1])
  match expr with
  | .identifier parts => do
    let field ← normalizeIdentifier v parts
    .ok (field, [])
  | .funcCall fnName args _ _ =>
    if isAggregateFunction fnName then
      badRequest "translator: aggregate functions are not allowed in GROUP BY"
    else
      let translated := translateStringFunction v fnName args groupAlias
      if translated.1 then do
        let r ← translated.2
        .ok (r.2, r.1)
      else math
  | .binaryExpr _ _ _ => math
  | .unaryExpr _ _ => math
  | .numericLiteral _ => math
  | e => badRequest ("translator: unsupported GROUP BY expression " ++ e.typeName)

/-- The closure `addAggregate` of `buildStatsPipe` (line 1022): an item whose
key is present extends the pre-pipes of the present item and may mark it
selected; otherwise the item is appended. -/
def addAggregate : List AggItem → AggItem → List AggItem
  | [], item => [item]
  | existing :: rest, item =>
    if existing.key == item.key then
      { existing with
        prePipes := existing.prePipes ++ item.prePipes
        selected := existing.selected || item.selected } :: rest
    else existing :: addAggregate rest item

/-- The state of the GROUP BY loop of `buildStatsPipe`. -/
structure GroupAcc where
  groupFields : List String
  preGroupPipes : List String
  groupExprAliases : GoMap String

/-- The GROUP BY loop of `buildStatsPipe` (lines 1045-1070), from index `i`. -/
def groupByLoop (v : Visitor) (aliasSources : GoMap Expr) :
    Nat → GroupAcc → List Expr → Res GroupAcc
  | _, acc, [] => .ok acc
  | i, acc, expr :: rest =>
    let resolvedExpr := resolveGroupByAlias expr aliasSources
    match v.sp.render resolvedExpr with
    | .error err =>
      badRequest ("translator: failed to normalize GROUP BY expression: " ++ errorText err)
    | .ok exprKey =>
      match acc.groupExprAliases.get exprKey with
      | some existing =>
        groupByLoop v aliasSources (i + 1)
          { acc with groupFields := acc.groupFields ++ [existing] } rest
      | none => do
        let r ← prepareGroupByField v resolvedExpr i
        groupByLoop v aliasSources (i + 1)
          { groupFields := acc.groupFields ++ [r.1]
            preGroupPipes := acc.preGroupPipes ++ r.2
            groupExprAliases := acc.groupExprAliases.set exprKey r.1 } rest

/-- The text appended to a column in the GROUP BY error messages. -/
def withAliasNote (colAlias : String) : String :=
  let trimmed := trimSpace colAlias
  if trimmed != "" then " (with alias: " ++ formatFieldName trimmed ++ ")" else ""

/-- The check of lines 1127-1142 and 1146-1161: under GROUP BY the
expression has to be a GROUP BY expression. -/
def requireGroupExpr (v : Visitor) (expr : Expr) (colAlias what : String) : Res Unit := do
  let found ← lookupGroupExpr v expr
  if found.2 then .ok ()
  else
    let rendered :=
      match v.sp.render expr with
      | .ok r => r
      | .error _ => expr.typeName
    badRequest ("translator: " ++ what ++ " " ++ rendered ++ withAliasNote colAlias ++
      " must appear in GROUP BY")

/-- The column loop of `buildStatsPipe` (lines 1075-1171): `none` is the
early return of the `*` column, otherwise the aggregates and the state. -/
def statsColumnsLoop (hasGroup : Bool) (ncols : Nat) (groupFields : List String) :
    Visitor → List AggItem → List SelectItem → Res (Option (List AggItem × Visitor))
  | v, aggs, [] => .ok (some (aggs, v))
  | v, aggs, col :: rest =>
    match col.expr with
    | .starExpr =>
      if ncols > 1 then badRequest "translator: SELECT * cannot be mixed with other columns"
      else if hasGroup then badRequest "translator: SELECT * not supported with GROUP BY"
      else .ok none
    | .identifier parts =>
      if !hasGroup then statsColumnsLoop hasGroup ncols groupFields v aggs rest
      else do
        let field ← normalizeIdentifier v parts
        if !groupFields.contains field then
          badRequest ("translator: column " ++ field ++ withAliasNote col.aliasName ++
            " must appear in GROUP BY")
        else statsColumnsLoop hasGroup ncols groupFields v aggs rest
    | .funcCall fnName args distinct over =>
      if over.isSome then
        if hasGroup then badRequest "translator: window functions are not supported with GROUP BY"
        else statsColumnsLoop hasGroup ncols groupFields v aggs rest
      else if isAggregateFunction fnName then do
        let r ← analyzeAggregate v fnName args distinct col.aliasName
        statsColumnsLoop hasGroup ncols groupFields r.2
          (addAggregate aggs { r.1 with selected := true }) rest
      else if hasGroup then do
        let _ ← requireGroupExpr v col.expr col.aliasName "non-aggregate function"
        statsColumnsLoop hasGroup ncols groupFields v aggs rest
      else statsColumnsLoop hasGroup ncols groupFields v aggs rest
    | e =>
      let isMath :=
        match e with
        | .binaryExpr _ _ _ => true
        | .unaryExpr _ _ => true
        | .numericLiteral _ => true
        | _ => false
      if isMath then
        if hasGroup then do
          let _ ← requireGroupExpr v col.expr col.aliasName "expression"
          statsColumnsLoop hasGroup ncols groupFields v aggs rest
        else statsColumnsLoop hasGroup ncols groupFields v aggs rest
      else if hasGroup then
        badRequest ("translator: unsupported select expression " ++ e.typeName)
      else statsColumnsLoop hasGroup ncols groupFields v aggs rest

/-- The loop of `collectAggregatesFromExpr` (lines 1241-1253) over the
aggregate calls found by the walk. -/
def collectAggregatesLoop :
    Visitor → List AggItem → List Expr → Res (List AggItem × Visitor)
  | v, aggs, [] => .ok (aggs, v)
  | v, aggs, .funcCall fnName args distinct over :: rest =>
    if isAggregateFunction fnName then
      if over.isSome then badRequest "translator: window functions are not supported in HAVING"
      else do
        let r ← analyzeAggregate v fnName args distinct ""
        collectAggregatesLoop r.2 (addAggregate aggs r.1) rest
    else collectAggregatesLoop v aggs rest
  | v, aggs, _ :: rest => collectAggregatesLoop v aggs rest

/-- `collectAggregatesFromExpr` (line 1229). -/
def collectAggregatesFromExpr (v : Visitor) (aggs : List AggItem) (expr : Expr) :
    Res (List AggItem × Visitor) :=
  collectAggregatesLoop v aggs (walkExpr expr)

/-- The text of the `stats` pipe (lines 1189-1210). -/
def statsPipeText (groupFields : List String) (aggregates : List AggItem) : String :=
  "stats" ++
    (if groupFields.length > 0 then " by (" ++ stringsJoin groupFields ", " ++ ")" else "") ++
    " " ++ stringsJoin (aggregates.map (·.statsCall)) ", "

/-- The map `aggResults` of lines 1204-1208. -/
def aggResultsOf : List AggItem → GoMap String → GoMap String
  | [], m => m
  | agg :: rest, m => aggResultsOf rest (m.set agg.key agg.resultName)

/-- The map `deleteTargets` of lines 1213-1219. -/
def deleteTargetsOf : List AggItem → GoMap String → GoMap String
  | [], m => m
  | agg :: rest, m =>
    if agg.selected then deleteTargetsOf rest m
    else deleteTargetsOf rest (m.set agg.key (formatFieldName agg.resultName))

/-- The GROUP BY stage of `buildStatsPipe` (lines 1043-1073). -/
def groupByStage (v : Visitor) (aliasSources : GoMap Expr) (groupBy : List Expr) : Res GroupAcc :=
  if groupBy.length > 0 then
    groupByLoop { v with groupExprAliases := some [] } aliasSources 0
      { groupFields := [], preGroupPipes := [], groupExprAliases := [] } groupBy
  else .ok { groupFields := [], preGroupPipes := [], groupExprAliases := [] }

/-- The HAVING stage of `buildStatsPipe` (lines 1173-1177). -/
def havingAggregates (v : Visitor) (aggs : List AggItem) (having : Option Expr) :
    Res (List AggItem × Visitor) :=
  match having with
  | some h => collectAggregatesFromExpr v aggs h
  | none => .ok (aggs, v)

/-- The end of `buildStatsPipe` (lines 1179-1226), once the aggregates are
collected. -/
def finishStatsPipe (hasGroup : Bool) (g : GroupAcc) (aggregates : List AggItem) (v : Visitor) :
    Res (List String × Bool × Visitor) :=
  if aggregates.length == 0 then
    if hasGroup then badRequest "translator: GROUP BY requires aggregate expressions"
    else .ok ([], false, v)
  else
    .ok (g.preGroupPipes ++ aggregates.flatMap (·.prePipes) ++
          [statsPipeText g.groupFields aggregates], true,
      { v with
        aggResults := some (aggResultsOf aggregates [])
        aggTempDeletes := deleteTargetsOf aggregates [] })

/-- The part of `buildStatsPipe` after the column loop (lines 1173-1226);
`none` is the early return of the `*` column. -/
def statsAfterColumns (hasGroup : Bool) (g : GroupAcc) (v1 : Visitor) (having : Option Expr)
    (cols : Option (List AggItem × Visitor)) : Res (List String × Bool × Visitor) :=
  match cols with
  | none => .ok ([], false, v1)
  | some (aggs0, v2) => do
    let collected ← havingAggregates v2 aggs0 having
    finishStatsPipe hasGroup g collected.1 collected.2

/-- `buildStatsPipe` (line 1013): the pipes, the `aggregated` flag and the
state. -/
def buildStatsPipe (v : Visitor) (stmt : SelectStatement) (having : Option Expr) :
    Res (List String × Bool × Visitor) := do
  let hasGroup := stmt.groupBy.length > 0
  let g ← groupByStage v (collectGroupAliases stmt.columns []) stmt.groupBy
  let v1 := { v with groupExprAliases := if hasGroup then some g.groupExprAliases else none }
  let cols ← statsColumnsLoop hasGroup stmt.columns.length g.groupFields v1 [] stmt.columns
  statsAfterColumns hasGroup g v1 having cols

/-! ## Join planner -/

/-- The equi-join arm of `extractJoinSpec` (lines 827-842 and 845-860): both
fields are normalized and have to be equal. -/
def joinKeyField (v : Visitor) (leftParts rightParts : List String) : Res String := do
  let leftField ← normalizeIdentifier v leftParts
  let rightField ← normalizeIdentifier v rightParts
  if leftField != rightField then
    badRequest ("translator: JOIN keys must use identical field names (" ++ leftField ++
      " vs " ++ rightField ++ ")")
  else .ok leftField

/-- The result of classifying one ON conjunct. -/
inductive JoinConjunct where
  | key (field : String)
  | leftFilter
  | rightFilter

/-- The residual classification of `extractJoinSpec` (lines 865-895) for a
binary conjunct. -/
def classifyResidual (v : Visitor) (rightAlias : String) (expr left right : Expr) :
    Res JoinConjunct :=
  let leftAliases := aliasesForExprWithDefault v left v.baseAlias
  let rightAliases := aliasesForExprWithDefault v right rightAlias
  if isAliasOnly leftAliases v.baseAlias && rightAliases.length == 0 then .ok .leftFilter
  else if isAliasOnly rightAliases v.baseAlias && leftAliases.length == 0 then .ok .leftFilter
  else if isAliasOnly leftAliases rightAlias && rightAliases.length == 0 then .ok .rightFilter
  else if isAliasOnly rightAliases rightAlias && leftAliases.length == 0 then .ok .rightFilter
  else if isAliasOnly leftAliases v.baseAlias && isAliasOnly rightAliases rightAlias then
    badRequest ("translator: JOIN condition " ++ v.sp.fmtExpr expr ++
      " must be simple equality between tables")
  else badRequest ("translator: unsupported JOIN condition " ++ v.sp.fmtExpr expr)

/-- One round of the conjunct loop of `extractJoinSpec` (lines 808-896). -/
def classifyConjunct (v : Visitor) (rightAlias : String) (expr : Expr) : Res JoinConjunct :=
  match expr with
  | .binaryExpr op left right =>
    let residual := classifyResidual v rightAlias expr left right
    if op == "=" then
      match left, right with
      | .identifier leftParts, .identifier rightParts =>
        let leftQual := qualifierForIdentifierWithDefault v leftParts v.baseAlias
        let rightQual := qualifierForIdentifierWithDefault v rightParts rightAlias
        if leftQual == v.baseAlias && rightQual == rightAlias then do
          let field ← joinKeyField v leftParts rightParts
          .ok (.key field)
        else if leftQual == rightAlias && rightQual == v.baseAlias then do
          let field ← joinKeyField v leftParts rightParts
          .ok (.key field)
        else residual
      | _, _ => residual
    else residual
  | e => badRequest ("translator: unsupported JOIN condition " ++ e.typeName)

/-- The join keys, left residuals and right residuals of `extractJoinSpec`. -/
structure JoinSpec where
  joinKeys : List String
  leftFilters : List Expr
  rightFilters : List Expr

/-- The conjunct loop of `extractJoinSpec`. -/
def extractJoinSpecLoop (v : Visitor) (rightAlias : String) :
    JoinSpec → List Expr → Res JoinSpec
  | acc, [] => .ok acc
  | acc, expr :: rest => do
    let c ← classifyConjunct v rightAlias expr
    match c with
    | .key field =>
      extractJoinSpecLoop v rightAlias { acc with joinKeys := acc.joinKeys ++ [field] } rest
    | .leftFilter =>
      extractJoinSpecLoop v rightAlias { acc with leftFilters := acc.leftFilters ++ [expr] } rest
    | .rightFilter =>
      extractJoinSpecLoop v rightAlias { acc with rightFilters := acc.rightFilters ++ [expr] } rest

/-- `extractJoinSpec` (line 795). -/
def extractJoinSpec (v : Visitor) (onCond : Option Expr) (rightAlias : String) : Res JoinSpec :=
  match onCond with
  | none => badRequest "translator: JOIN must include ON clause"
  | some e =>
    extractJoinSpecLoop v rightAlias { joinKeys := [], leftFilters := [], rightFilters := [] }
      (flattenAnd e)

/-! ## FROM clause -/

/-- An error of a nested translation seen by a caller that wraps errors: a
returned error is wrapped, a panic or an exhausted budget is not a returned
error and passes through. -/
def wrapNested (wrap : String → String) : Err → Err
  | .panic m => .panic m
  | .fuel => .fuel
  | e => .translation statusBadRequest (wrap (errorText e))

/-- The outcome of resolving a table name (lines 486-530 and 657-696): a
pipeline of a CTE or view, or a configured table spec. -/
inductive Resolved where
  | pipeline (query : String)
  | table (spec : TableSpec)

/-- The name resolution shared by `registerBaseTable` and `processJoin`: CTEs,
then views, then configured tables; `what` is `table` or `JOIN table`. -/
def resolveTableName (v : Visitor) (parts : List String) (what : String) : Res Resolved :=
  let nameLower := toLower (lastPart parts)
  match v.availableCTEs.get nameLower with
  | some query => .ok (.pipeline query)
  | none =>
    let lookup (viewAttempted : Bool) (viewDisplay : String) : Res Resolved :=
      match lookupTableSpec v nameLower with
      | some spec => .ok (.table spec)
      | none =>
        if viewAttempted then
          .error (.translation statusNotFound ("translator: view " ++ viewDisplay ++ " not found"))
        else
          .error (.translation statusNotFound
            ("translator: " ++ what ++ " " ++ fmtQ (stringsJoin parts ".") ++
              " is not configured (available: " ++ stringsJoin v.sp.listTables ", " ++ ")"))
    match v.sp.viewStore with
    | none => lookup false ""
    | some load =>
      match load parts with
      | .error err => .error err
      | .ok (viewQuery, display, found) =>
        if found then .ok (.pipeline viewQuery) else lookup true display

/-- The alias of a table reference (lines 473-476 and 646-649): the trimmed
alias, or the table name when it is empty. -/
def aliasOrName (name tableAlias : String) : String :=
  if trimSpace tableAlias == "" then name else trimSpace tableAlias

/-- `registerBaseTable` (line 463). -/
def registerBaseTable (v : Visitor) (name : Option (List String)) (tableAlias : String) :
    Res Visitor :=
  match name with
  | none => badRequest "translator: invalid table reference"
  | some parts =>
    if parts.isEmpty then badRequest "translator: invalid table reference"
    else
      let nameLower := toLower (lastPart parts)
      let aliasLower := toLower (aliasOrName (lastPart parts) tableAlias)
      if v.baseAlias != "" && v.baseAlias != aliasLower then
        badRequest "translator: multiple base tables are not supported"
      else do
        let resolved ← resolveTableName v parts "table"
        let v1 :=
          match resolved with
          | .pipeline query =>
            { v with baseAlias := aliasLower, baseUsesPipeline := true, basePipeline := query,
                     baseFilter := if (v.availableCTEs.get nameLower).isSome then v.baseFilter
                                   else "" }
          | .table spec =>
            { v with baseAlias := aliasLower, baseFilter := spec.filter,
                     baseUsesPipeline := spec.pipeline != "", basePipeline := spec.pipeline }
        .ok (registerBinding (registerBinding v1 aliasLower true) nameLower true)

/-- The alias of a subquery table (lines 548-551 and 715-718): the trimmed
alias, or a generated one when it is empty. -/
def subqueryAlias (v : Visitor) (tableAlias pfx : String) : Res (String × Visitor) :=
  if trimSpace tableAlias == "" then generateSubqueryAlias v pfx
  else .ok (trimSpace tableAlias, v)

/-- `registerBaseSubquery` (line 541); `translateNested` is the translation of
a nested statement with a fresh translator. -/
def registerBaseSubquery (translateNested : GoMap String → SelectStatement → Res String)
    (v : Visitor) (select : Option SelectStatement) (tableAlias : String) : Res Visitor :=
  match select with
  | none => badRequest "translator: invalid subquery reference"
  | some sel => do
    let a ← subqueryAlias v tableAlias "base"
    let v1 := a.2
    let aliasLower := toLower a.1
    if v1.baseAlias != "" && v1.baseAlias != aliasLower then
      badRequest "translator: multiple base tables are not supported"
    else
      match translateNested v1.availableCTEs sel with
      | .error err =>
        .error (wrapNested (fun m => "translator: failed to translate subquery: " ++ m) err)
      | .ok subQuery =>
        .ok (registerBinding
          { v1 with baseAlias := aliasLower, baseUsesPipeline := true, basePipeline := subQuery,
                    baseFilter := "" } aliasLower true)

/-- The right side of a join as resolved by `processJoin` (lines 631-744). -/
structure JoinRight where
  rightAlias : String
  rightQuery : String
  rightSimple : Bool
  rightBaseFilters : List String

/-- The right-hand side switch of `processJoin` (lines 636-744). -/
def processJoinRight (translateNested : GoMap String → SelectStatement → Res String)
    (v : Visitor) (right : TableExpr) : Res (JoinRight × Visitor) :=
  match right with
  | .tableName name tableAlias =>
    match name with
    | none => badRequest "translator: invalid JOIN table"
    | some parts =>
      if parts.isEmpty then badRequest "translator: invalid JOIN table"
      else
        let nameLower := toLower (lastPart parts)
        let rightAlias := toLower (aliasOrName (lastPart parts) tableAlias)
        if v.bindings.has rightAlias then
          badRequest ("translator: duplicate table alias " ++
            fmtQ (aliasOrName (lastPart parts) tableAlias))
        else do
          let resolved ← resolveTableName v parts "JOIN table"
          match resolved with
          | .pipeline query =>
            .ok ({ rightAlias := rightAlias, rightQuery := query, rightSimple := false,
                   rightBaseFilters := [] },
                 registerBinding (registerBinding v rightAlias false) nameLower false)
          | .table spec =>
            if trimSpace tableAlias == "" then badRequest "translator: JOINed table requires alias"
            else
              let v1 := registerBinding (registerBinding v rightAlias false) nameLower false
              if spec.pipeline != "" then
                .ok ({ rightAlias := rightAlias, rightQuery := spec.pipeline, rightSimple := false,
                       rightBaseFilters := [] }, v1)
              else
                .ok ({ rightAlias := rightAlias, rightQuery := "", rightSimple := true,
                       rightBaseFilters :=
                         if spec.filter != "" && spec.filter != "*" then [spec.filter] else [] },
                     v1)
  | .subqueryTable select tableAlias => do
    let a ← subqueryAlias v tableAlias "join"
    let v1 := a.2
    let rightAlias := toLower a.1
    if v1.bindings.has rightAlias then
      badRequest ("translator: duplicate table alias " ++ fmtQ a.1)
    else
      let v2 := registerBinding v1 rightAlias false
      match select with
      | none => .error (.panic "runtime error: invalid memory address or nil pointer dereference")
      | some sel =>
        match translateNested v2.availableCTEs sel with
        | .error err =>
          .error (wrapNested (fun m => "translator: failed to translate JOIN subquery: " ++ m) err)
        | .ok subQuery =>
          .ok ({ rightAlias := rightAlias, rightQuery := subQuery, rightSimple := false,
                 rightBaseFilters := [] }, v2)
  | .joinExpr _ _ _ _ => badRequest "translator: unsupported JOIN right side *ast.JoinExpr"
  | .other t => badRequest ("translator: unsupported JOIN right side " ++ t)

/-- The loop of lines 761-770 over the right residual conjuncts. -/
def translateRightFilters (rightAlias : String) :
    Visitor → List Expr → Res (List String × Visitor)
  | v, [] => .ok ([], v)
  | v, expr :: rest => do
    let _ ← ensureAliases v expr [rightAlias]
    let part ← translateExpr v expr
    let others ← translateRightFilters rightAlias part.2 rest
    .ok (part.1 :: others.1, others.2)

/-- The combination of filter parts used in lines 228-233 and 771-776. -/
def combineFilters (parts : List String) : String :=
  if parts.length == 1 then parts.headD "*"
  else if parts.length > 1 then "(" ++ stringsJoin parts " AND " ++ ")"
  else "*"

/-- The left-hand side switch of `processJoin` (lines 615-629). -/
def processJoinLeft (translateNested : GoMap String → SelectStatement → Res String)
    (v : Visitor) (left : TableExpr) : Res Visitor :=
  match left with
  | .tableName name tableAlias => registerBaseTable v name tableAlias
  | .subqueryTable select tableAlias => registerBaseSubquery translateNested v select tableAlias
  | _ => badRequest "translator: JOIN left side must be table reference"

/-- The end of `processJoin` (lines 746-792), once both sides are
registered. -/
def planJoin (v2 : Visitor) (type : JoinType) (jr : JoinRight) (onCond : Option Expr) :
    Res (List String × Visitor) := do
  let spec ← extractJoinSpec v2 onCond jr.rightAlias
  if spec.joinKeys.length == 0 then
    badRequest "translator: JOIN requires equality condition between tables"
  else
    let v3 := { v2 with pendingLeftFilter := v2.pendingLeftFilter ++ spec.leftFilters }
    let rf ← translateRightFilters jr.rightAlias v3 spec.rightFilters
    let combined := combineFilters (jr.rightBaseFilters ++ rf.1)
    let rightQuery :=
      if jr.rightSimple then combined
      else if combined != "*" then jr.rightQuery ++ " | filter " ++ combined
      else jr.rightQuery
    let suffix := if type == .joinInner then " inner" else ""
    .ok (["join by (" ++ stringsJoin spec.joinKeys ", " ++ ") (" ++ rightQuery ++ ")" ++ suffix],
         rf.2)

/-- `processJoin` (line 601). -/
def processJoin (translateNested : GoMap String → SelectStatement → Res String)
    (v : Visitor) (type : JoinType) (left right : TableExpr) (onCond : Option Expr) :
    Res (List String × Visitor) :=
  if type != .joinInner && type != .joinLeft then
    badRequest "translator: only INNER and LEFT JOIN are supported"
  else do
    let v1 ← processJoinLeft translateNested v left
    let r ← processJoinRight translateNested v1 right
    planJoin r.2 type r.1 onCond

/-- `processFrom` (line 434). -/
def processFrom (translateNested : GoMap String → SelectStatement → Res String)
    (v : Visitor) (fromClause : Option TableExpr) : Res (List String × Visitor) :=
  match fromClause with
  | none => badRequest "translator: FROM clause is required"
  | some (.tableName name tableAlias) => do
    let v1 ← registerBaseTable v name tableAlias
    .ok ([], v1)
  | some (.subqueryTable select tableAlias) => do
    let v1 ← registerBaseSubquery translateNested v select tableAlias
    .ok ([], v1)
  | some (.joinExpr type left right onCond) => processJoin translateNested v type left right onCond
  | some (.other t) => badRequest ("translator: unsupported FROM clause " ++ t)

/-! ## The SELECT translator -/

/-- Byte-wise `a < b` of Go strings. -/
def bytesLt : List Nat → List Nat → Bool
  | [], [] => false
  | [], _ :: _ => true
  | _ :: _, [] => false
  | a :: as, b :: bs => if a < b then true else if b < a then false else bytesLt as bs

/-- Insertion of one string into a sorted list. -/
def insertSorted (x : String) : List String → List String
  | [] => [x]
  | y :: rest =>
    if bytesLt (stringBytes y) (stringBytes x) then y :: insertSorted x rest else x :: y :: rest

/-- Go `sort.Strings`. -/
def sortStrings (xs : List String) : List String :=
  xs.foldr insertSorted []

/-- The fresh translator made by `translateSelectStatementToLogsQLWithContext`
(line 31), after the resets of `translateSimpleSelect` (lines 180-196). -/
def newVisitor (sp : Provider) (ctes : GoMap String) : Visitor :=
  { sp := sp, bindings := [], autoAliasCounter := 0, baseAlias := "", pendingLeftFilter := [],
    aggResults := none, groupExprAliases := none, availableCTEs := ctes,
    baseUsesPipeline := false, basePipeline := "", baseFilter := "", filterComputations := [],
    filterOrder := [], filterDelete := [], filterDeleteSet := [], constantFields := [],
    constantFieldCount := 0, aggTempDeletes := [], aggPreserve := [] }

/-- The resets of `translateSimpleSelect` (lines 180-196): everything but the
provider and the CTE registry. -/
def resetVisitor (v : Visitor) : Visitor :=
  newVisitor v.sp v.availableCTEs

/-- The CTE loop of `translateSimpleSelect` (lines 138-170). -/
def registerCTEs (translateNested : GoMap String → SelectStatement → Res String) :
    GoMap String → List CTE → Res (GoMap String)
  | ctes, [] => .ok ctes
  | ctes, .mk name select :: rest =>
    match name with
    | none => badRequest "translator: CTE missing name"
    | some parts =>
      if parts.isEmpty then badRequest "translator: CTE missing name"
      else
        match select with
        | none =>
          badRequest ("translator: CTE " ++ stringsJoin parts "." ++ " has nil select")
        | some sel =>
          let cteName := toLower (lastPart parts)
          if ctes.has cteName then
            badRequest ("translator: duplicate CTE name " ++ fmtQ cteName)
          else
            match translateNested ctes sel with
            | .error err =>
              .error (wrapNested
                (fun m => "translator: failed to translate CTE " ++ cteName ++ ": " ++ m) err)
            | .ok query => registerCTEs translateNested (ctes.set cteName query) rest

/-- The WHERE and pending-left-filter part of `translateSimpleSelect` (lines
203-223): the translated filters and the state. -/
def translateFilterList : Visitor → List Expr → Res (List String × Visitor)
  | v, [] => .ok ([], v)
  | v, expr :: rest => do
    let _ ← ensureBaseAliasesOnly v expr
    let part ← translateExpr v expr
    let others ← translateFilterList part.2 rest
    .ok (part.1 :: others.1, others.2)

/-- `collectFilterPrefilters` (line 353). -/
def collectFilterPrefilters (v : Visitor) : List String :=
  v.filterOrder.flatMap (fun key =>
    match v.filterComputations.get key with
    | some comp => comp.pipes
    | none => [])

/-- `collectFilterCleanup` (line 366). -/
def collectFilterCleanup (v : Visitor) : List String :=
  if v.filterDelete.length == 0 then []
  else ["delete " ++ stringsJoin v.filterDelete ", "]

/-- `preserveAggregate` (line 1257). -/
def preserveAggregate (v : Visitor) (key : String) : Visitor :=
  { v with aggPreserve := setInsert v.aggPreserve key }

/-- The ORDER BY scan of lines 280-293: aggregate calls among the ORDER BY
items are marked as preserved. -/
def preserveOrderByAggregates : Visitor → List OrderItem → Res Visitor
  | v, [] => .ok v
  | v, item :: rest =>
    match item.expr with
    | .funcCall fnName args _ _ =>
      if !isAggregateFunction fnName then preserveOrderByAggregates v rest
      else do
        let key ← aggregateKeyFromFunc v fnName args
        preserveOrderByAggregates (preserveAggregate v key) rest
    | _ => preserveOrderByAggregates v rest

/-- The HAVING part of `translateSimpleSelect` (lines 266-313): the pipes and
the state. -/
def translateHaving (v : Visitor) (having : Option Expr) (orderBy : List OrderItem)
    (aggregated : Bool) : Res (List String × Visitor) :=
  match having with
  | none => .ok ([], v)
  | some h =>
    if !aggregated then badRequest "translator: HAVING requires GROUP BY with aggregates"
    else do
      let hs ← translateExpr v h
      let v1 := hs.2
      let filterPipe := "filter " ++ hs.1
      if v1.aggTempDeletes.length > 0 then do
        let v2 ← preserveOrderByAggregates v1 orderBy
        let keys :=
          (v2.aggTempDeletes.map (·.1)).filter (fun key => !v2.aggPreserve.contains key)
        if keys.length > 0 then
          let deleteVals := (sortStrings keys).map (fun key => (v2.aggTempDeletes.get key).getD "")
          .ok ([filterPipe, "delete " ++ stringsJoin deleteVals ", "], v2)
        else .ok ([filterPipe], v2)
      else .ok ([filterPipe], v1)

/-- The WITH stage of `translateSimpleSelect` (lines 128-171). -/
def registerWith (translateNested : GoMap String → SelectStatement → Res String)
    (ctes : GoMap String) (withClause : Option WithClause) : Res (GoMap String) :=
  match withClause with
  | some (.mk recursive cteList) =>
    if cteList.length > 0 then
      if recursive then badRequest "translator: recursive CTEs are not supported"
      else registerCTEs translateNested ctes cteList
    else .ok ctes
  | none => .ok ctes

/-- The filter list of lines 224-226: the base filter, when it is neither
empty nor `*`, in front of the translated WHERE and pending left filters. -/
def allFilters (v : Visitor) (translated : List String) : List String :=
  if trimSpace v.baseFilter != "" && trimSpace v.baseFilter != "*" then
    trimSpace v.baseFilter :: translated
  else translated

/-- The flag `needsFilterPipeline` (line 236). -/
def needsFilterPipeline (v : Visitor) : Bool :=
  v.baseUsesPipeline || (collectFilterPrefilters v).length > 0

/-- The source `base` of the pipeline (lines 237-245). -/
def sourceOf (v : Visitor) (filter : String) : String :=
  if needsFilterPipeline v then (if v.baseUsesPipeline then v.basePipeline else "*")
  else filter

/-- The pipes of lines 240-255 that apply the filter after the source. -/
def filterPipesOf (v : Visitor) (filter : String) : List String :=
  if needsFilterPipeline v then
    collectFilterPrefilters v ++ (if filter != "*" then ["filter " ++ filter] else []) ++
      collectFilterCleanup v
  else []

/-- The DISTINCT stage (lines 321-329). -/
def distinctPipesOf (distinct : Bool) (fields : List String) (aggregated : Bool) :
    Res (List String) :=
  if distinct then
    match buildDistinctPipe fields aggregated with
    | .error err => .error err
    | .ok distinctPipe => .ok (if distinctPipe != "" then [distinctPipe] else [])
  else .ok []

/-- The ORDER BY stage (lines 331-337). -/
def orderPipesOf (v : Visitor) (orderBy : List OrderItem) (aggregated : Bool) :
    Res (List String) :=
  if orderBy.length > 0 then
    match translateOrderBy v orderBy aggregated with
    | .error err => .error err
    | .ok orderPipe => .ok [orderPipe]
  else .ok []

/-- The LIMIT stage (lines 339-345). -/
def limitPipesOf (limit : Option LimitClause) : Res (List String) :=
  match limit with
  | some l => translateLimit l
  | none => .ok []

/-- The final rendering (lines 347-350). -/
def renderPipeline (base : String) (pipes : List String) : String :=
  if pipes.length == 0 then base else base ++ " | " ++ stringsJoin pipes " | "

/-- The part of `translateSimpleSelect` after the FROM clause (lines
203-350). -/
def translateAfterFrom (v1 : Visitor) (stmt : SelectStatement) (joinPipes : List String) :
    Res (String × Visitor) := do
  let wh ← translateFilterList v1 stmt.whereClause.toList
  let lf ← translateFilterList wh.2 wh.2.pendingLeftFilter
  let filter := combineFilters (allFilters lf.2 (wh.1 ++ lf.1))
  let st ← buildStatsPipe lf.2 stmt stmt.having
  let hv ← translateHaving st.2.2 stmt.having stmt.orderBy st.2.1
  let pr ← buildProjectionPipes hv.2 stmt.columns st.2.1
  let distinctPipes ← distinctPipesOf stmt.distinct pr.2.1 st.2.1
  let orderPipes ← orderPipesOf pr.2.2 stmt.orderBy st.2.1
  let limitPipes ← limitPipesOf stmt.limit
  .ok (renderPipeline (sourceOf lf.2 filter)
        (filterPipesOf lf.2 filter ++ joinPipes ++ st.1 ++ hv.1 ++ pr.1 ++ distinctPipes ++
          orderPipes ++ limitPipes), pr.2.2)

/-- `translateSimpleSelect` (line 127): the LogsQL text and the final
state. -/
def translateSimpleSelect (translateNested : GoMap String → SelectStatement → Res String)
    (v0 : Visitor) (stmt : SelectStatement) : Res (String × Visitor) := do
  let ctes ← registerWith translateNested v0.availableCTEs stmt.withClause
  if stmt.setOps.length > 0 then badRequest "translator: set operations are not supported"
  else do
    let fr ← processFrom translateNested (resetVisitor { v0 with availableCTEs := ctes })
      stmt.fromClause
    translateAfterFrom fr.2 stmt fr.1

/-- The set-operation loop of `translateSelect` (lines 386-413). -/
def translateSetOps (translateNested : GoMap String → SelectStatement → Res String)
    (ctes : GoMap String) : String → List SetOp → Res String
  | result, [] => .ok result
  | result, .mk operator all select :: rest =>
    match operator with
    | .setOpOther name =>
      badRequest ("translator: set operator " ++ name ++ " is not supported")
    | .setOpUnion =>
      if !all then badRequest "translator: UNION without ALL is not supported"
      else
        match select with
        | none => badRequest "translator: UNION missing right-hand select"
        | some sel => do
          let rhs ← translateNested ctes sel
          translateSetOps translateNested ctes (result ++ " | union (" ++ rhs ++ ")") rest

/-- `translateSelect` (line 373). -/
def translateSelect (translateNested : GoMap String → SelectStatement → Res String)
    (v : Visitor) (stmt : SelectStatement) : Res String :=
  if stmt.setOps.length == 0 then do
    let r ← translateSimpleSelect translateNested v stmt
    .ok r.1
  else do
    let r ← translateSimpleSelect translateNested v stmt.withoutSetOps
    translateSetOps translateNested r.2.availableCTEs r.1 stmt.setOps

/-- The translation of a nested select statement by a fresh translator, with a
recursion budget: `translateSelectStatementToLogsQLWithContext` (line 26) on a
`*ast.SelectStatement`, whose root visit (line 116) calls `translateSelect`. -/
def translateNestedFuel (sp : Provider) : Nat → GoMap String → SelectStatement → Res String
  | 0, _, _ => .error .fuel
  | fuel + 1, ctes, stmt =>
    translateSelect (translateNestedFuel sp fuel) (newVisitor sp ctes) stmt

mutual
/-- The nesting depth of a select statement: one more than the deepest select
nested in its CTEs, FROM clause and set operations. -/
def SelectStatement.depth : SelectStatement → Nat
  | .mk w _ _ f _ _ _ _ _ ops => 1 + max (depthWith w) (max (depthFrom f) (depthSetOps ops))
/-- Depth below an optional WITH clause. -/
def depthWith : Option WithClause → Nat
  | none => 0
  | some (.mk _ ctes) => depthCTEs ctes
/-- Depth below a list of CTEs. -/
def depthCTEs : List CTE → Nat
  | [] => 0
  | .mk _ sel :: rest => max (depthSelect sel) (depthCTEs rest)
/-- Depth of an optional statement. -/
def depthSelect : Option SelectStatement → Nat
  | none => 0
  | some s => s.depth
/-- Depth below an optional FROM clause. -/
def depthFrom : Option TableExpr → Nat
  | none => 0
  | some t => depthTable t
/-- Depth below a table expression. -/
def depthTable : TableExpr → Nat
  | .tableName _ _ => 0
  | .subqueryTable sel _ => depthSelect sel
  | .joinExpr _ l r _ => max (depthTable l) (depthTable r)
  | .other _ => 0
/-- Depth below a list of set operations. -/
def depthSetOps : List SetOp → Nat
  | [] => 0
  | .mk _ _ sel :: rest => max (depthSelect sel) (depthSetOps rest)
end

/-- `translateSelectStatementToLogsQLWithContext` (line 26): a nil statement
is a plain error, a root node other than a select statement is a
`TranslationError` (line 118). -/
def translateSelectStatementToLogsQLWithContext (sp : Provider) (stmt : Option Statement)
    (ctes : GoMap String) : Res String :=
  match stmt with
  | none => .error (.plain "translator: nil statement")
  | some (.other t) => badRequest ("translator: unsupported root node " ++ t)
  | some (.select s) => translateNestedFuel sp s.depth ctes s

/-- `TranslateSelectStatementToLogsQL` (line 22). -/
def translateSelectStatementToLogsQL (stmt : Option Statement) (sp : Provider) : Res String :=
  translateSelectStatementToLogsQLWithContext sp stmt []

/-! ## Character classes of the spec -/

/-- The bare class of the spec: one or more characters of the class. -/
def InBareClass (v : String) : Prop :=
  v.data ≠ [] ∧ ∀ c ∈ v.data, isBareChar c = true

/-- The wildcard class of the spec: bare characters, an optional `*`, bare
characters. -/
def InWildcardClass (v : String) : Prop :=
  ∃ x y : List Char, (∀ c ∈ x, isBareChar c = true) ∧ (∀ c ∈ y, isBareChar c = true) ∧
    (v.data = x ++ y ∨ v.data = x ++ '*' :: y)

/-- A member of the class `[-A-Za-z0-9.:/]`: a bare character other than the
underscore. -/
def isPlainChar (c : Char) : Bool :=
  isAsciiAlnum c || c == '.' || c == ':' || c == '/' || c == '-'

/-! ## Example inputs -/

/-- A provider with the tables `logs`, `t`, `a` and `b` configured as `*`, the
table `p` configured as a pipeline and the table `f` as a filter, no view
store, and a renderer that prints the node type. -/
def exampleProvider : Provider :=
  { getTableQuery := fun n =>
      if n == "logs" || n == "t" || n == "a" || n == "b" then some "*"
      else if n == "p" then some " x:y | fields z "
      else if n == "f" then some " lvl:err "
      else none
    listTables := ["a", "b", "f", "logs", "p", "t"]
    viewStore := none
    render := fun e => .ok e.typeName
    parseJSONPath := fun _ => .ok ([], false)
    fmtExpr := fun e => e.typeName }

/-- A select column that is a plain identifier without alias. -/
def plainColumn (parts : List String) : SelectItem :=
  { expr := .identifier parts, aliasName := "" }

/-- A table reference without alias. -/
def tableRef (name : String) : TableExpr :=
  .tableName (some [name]) ""

/-- Whether a node is a function call. -/
def isFuncCall : Expr → Bool
  | .funcCall _ _ _ _ => true
  | _ => false

/-- An expression without any function call: none of the nodes visited by
`walkExpr` is a call. -/
def usesNoFunction (e : Expr) : Bool :=
  (walkExpr e).all (fun n => !isFuncCall n)

/-- The normalized names of a list of identifiers, in order. -/
def normalizeColumns (v : Visitor) : List (List String) → Res (List String)
  | [] => .ok []
  | parts :: rest => do
    let field ← normalizeIdentifier v parts
    let fields ← normalizeColumns v rest
    .ok (field :: fields)

/-- Whether an identifier is one of the pseudo-columns `CURRENT_TIMESTAMP` and
`CURRENT_DATE` (line 2340). -/
def isCurrentTimeColumn (parts : List String) : Bool :=
  toUpper (stringsJoin parts ".") == "CURRENT_TIMESTAMP" ||
  toUpper (stringsJoin parts ".") == "CURRENT_DATE"

/-- A statement with a select list, a FROM clause and an optional WHERE
clause, and nothing else. -/
def simpleSelect (columns : List SelectItem) (fromClause : TableExpr) (whereClause : Option Expr) :
    SelectStatement :=
  .mk none false columns (some fromClause) whereClause [] none [] none []

/-- Scenario S2: `SELECT msg FROM logs WHERE level = 'ERROR'`. -/
def scenarioS2 : SelectStatement :=
  simpleSelect [plainColumn ["msg"]] (tableRef "logs")
    (some (.binaryExpr "=" (.identifier ["level"]) (.stringLiteral "ERROR")))

/-- Scenario S6: `SELECT x FROM t WHERE x LIKE 'foo%'`. -/
def scenarioS6 : SelectStatement :=
  simpleSelect [plainColumn ["x"]] (tableRef "t")
    (some (.likeExpr (.identifier ["x"]) (.stringLiteral "foo%") false))

/-- Scenario S7: `SELECT a FROM t WHERE a BETWEEN 1 AND 10`. -/
def scenarioS7 : SelectStatement :=
  simpleSelect [plainColumn ["a"]] (tableRef "t")
    (some (.betweenExpr (.identifier ["a"]) (.numericLiteral "1") (.numericLiteral "10") false))

/-- Scenario S4: `SELECT name FROM a LEFT JOIN b AS b ON a.id = b.id
WHERE a.active = true AND b.kind = 'x'`. -/
def scenarioS4 : SelectStatement :=
  simpleSelect [plainColumn ["name"]]
    (.joinExpr .joinLeft (tableRef "a") (.tableName (some ["b"]) "b")
      (some (.binaryExpr "=" (.identifier ["a", "id"]) (.identifier ["b", "id"]))))
    (some (.binaryExpr "AND"
      (.binaryExpr "=" (.identifier ["a", "active"]) (.booleanLiteral true))
      (.binaryExpr "=" (.identifier ["b", "kind"]) (.stringLiteral "x"))))

/-- Scenario S4 with the conjunct on the right-hand alias moved to the ON
clause: `SELECT name FROM a LEFT JOIN b AS b ON a.id = b.id AND b.kind = 'x'
WHERE a.active = true`. -/
def scenarioS4InOn : SelectStatement :=
  simpleSelect [plainColumn ["name"]]
    (.joinExpr .joinLeft (tableRef "a") (.tableName (some ["b"]) "b")
      (some (.binaryExpr "AND"
        (.binaryExpr "=" (.identifier ["a", "id"]) (.identifier ["b", "id"]))
        (.binaryExpr "=" (.identifier ["b", "kind"]) (.stringLiteral "x")))))
    (some (.binaryExpr "=" (.identifier ["a", "active"]) (.booleanLiteral true)))

/-- The ON clause `q1.k = q2.k`. -/
def equiOn (q1 q2 k : String) : Option Expr :=
  some (.binaryExpr "=" (.identifier [q1, k]) (.identifier [q2, k]))

/-- One aggregate call of a select: the name, arguments and `Distinct` flag of
the call, the alias of its column (empty in HAVING) and whether it is a SELECT
column. -/
structure AggCall where
  fnName : List String
  args : List Expr
  distinct : Bool
  aliasName : String
  selected : Bool

/-- The aggregate calls of the SELECT list, in order: the columns that are a
call of an aggregate function without OVER clause. -/
def selectAggCalls : List SelectItem → List AggCall
  | [] => []
  | col :: rest =>
    match col.expr with
    | .funcCall fnName args distinct none =>
      if isAggregateFunction fnName then
        { fnName := fnName, args := args, distinct := distinct, aliasName := col.aliasName,
          selected := true } :: selectAggCalls rest
      else selectAggCalls rest
    | _ => selectAggCalls rest

/-- The aggregate calls among visited nodes, in order. -/
def aggCallsOfNodes : List Expr → List AggCall
  | [] => []
  | .funcCall fnName args distinct _ :: rest =>
    if isAggregateFunction fnName then
      { fnName := fnName, args := args, distinct := distinct, aliasName := "",
        selected := false } :: aggCallsOfNodes rest
    else aggCallsOfNodes rest
  | _ :: rest => aggCallsOfNodes rest

/-- The aggregate calls of the HAVING clause, in the order of the walk. -/
def havingAggCalls : Option Expr → List AggCall
  | none => []
  | some h => aggCallsOfNodes (walkExpr h)

/-- The aggregate calls analysed one after the other by `analyzeAggregate`,
the state passing from one call to the next. -/
def analyzeCalls : Visitor → List AggCall → Res (List AggItem × Visitor)
  | v, [] => .ok ([], v)
  | v, c :: rest => do
    let r ← analyzeAggregate v c.fnName c.args c.distinct c.aliasName
    let rs ← analyzeCalls r.2 rest
    .ok ((if c.selected then { r.1 with selected := true } else r.1) :: rs.1, rs.2)

/-- The items whose key is neither in `seen` nor the key of an earlier item:
the first occurrence of every new key, in order. -/
def firstOccurrences (seen : List String) : List AggItem → List AggItem
  | [] => []
  | item :: rest =>
    if seen.contains item.key then firstOccurrences seen rest
    else item :: firstOccurrences (seen ++ [item.key]) rest

/-- The select list `SUM(x), SUM(x), AVG(x)` over the table `t`. -/
def scenarioAggDedup : SelectStatement :=
  .mk none false
    [{ expr := .funcCall ["SUM"] [.identifier ["x"]] false none, aliasName := "" },
     { expr := .funcCall ["SUM"] [.identifier ["x"]] false none, aliasName := "" },
     { expr := .funcCall ["AVG"] [.identifier ["x"]] false none, aliasName := "" }]
    (some (tableRef "t")) none [] none [] none []

/-- The select `SELECT host, COUNT(*) AS <aliasName> FROM logs GROUP BY host
HAVING COUNT(*) > 10` followed by the given ORDER BY and LIMIT. -/
def havingOnSelected (aliasName : String) (orderBy : List OrderItem)
    (limit : Option LimitClause) : SelectStatement :=
  .mk none false
    [plainColumn ["host"],
     { expr := .funcCall ["COUNT"] [.starExpr] false none, aliasName := aliasName }]
    (some (tableRef "logs")) none [.identifier ["host"]]
    (some (.binaryExpr ">" (.funcCall ["COUNT"] [.starExpr] false none) (.numericLiteral "10")))
    orderBy limit []

/-- Scenario S3: `SELECT host, COUNT(*) AS c FROM logs GROUP BY host HAVING
COUNT(*) > 10 ORDER BY c DESC LIMIT 5`. -/
def scenarioS3 : SelectStatement :=
  havingOnSelected "c" [{ expr := .identifier ["c"], direction := .descending }]
    (some { offset := none, count := some (.numericLiteral "5") })

/-- The select `SELECT host, COUNT(*) AS c FROM logs GROUP BY host HAVING
SUM(x) > 10` followed by the given ORDER BY: `SUM(x)` is not selected. -/
def havingOnUnselected (orderBy : List OrderItem) : SelectStatement :=
  .mk none false
    [plainColumn ["host"],
     { expr := .funcCall ["COUNT"] [.starExpr] false none, aliasName := "c" }]
    (some (tableRef "logs")) none [.identifier ["host"]]
    (some (.binaryExpr ">" (.funcCall ["SUM"] [.identifier ["x"]] false none)
      (.numericLiteral "10")))
    orderBy none []

/-- The select `SELECT name FROM a <type> JOIN <right> ON <cond>`. -/
def joinSelect (type : JoinType) (right : TableExpr) (cond : Expr) : SelectStatement :=
  simpleSelect [plainColumn ["name"]] (.joinExpr type (tableRef "a") right (some cond)) none

/-- The equality `l = r` of two identifiers. -/
def identEq (l r : List String) : Expr :=
  .binaryExpr "=" (.identifier l) (.identifier r)

/-- The right-hand table `b AS b`. -/
def rightB : TableExpr := .tableName (some ["b"]) "b"

/-- A translator state in which `a` is the base alias and `b` a joined
alias. -/
def joinState : Visitor :=
  registerBinding
    (registerBinding { newVisitor exampleProvider [] with baseAlias := "a" } "a" true) "b" false

/-- The join specification with the single key `k` and no residual filter. -/
def singleKeySpec (v : Visitor) (k : String) : Res JoinSpec :=
  normalizeIdentifier v [k] >>= fun field =>
    .ok { joinKeys := [field], leftFilters := [], rightFilters := [] }

/-- The unqualified field name of an identifier: its parts without a leading
table alias, joined by dots (lines 3023-3029). -/
def unqualifiedName (v : Visitor) (parts : List String) : String :=
  stringsJoin (stripQualifier v parts) "."

/-- An equality between an identifier of the base side and an identifier of
the right-hand side, in either operand order: the tests of lines 826 and 844,
where an unqualified left operand stands for the base alias and an unqualified
right operand for the right-hand alias. -/
def isCrossEquality (v : Visitor) (rightAlias : String) : Expr → Bool
  | .binaryExpr op (.identifier l) (.identifier r) =>
    op == "=" &&
      ((qualifierForIdentifierWithDefault v l v.baseAlias == v.baseAlias &&
          qualifierForIdentifierWithDefault v r rightAlias == rightAlias) ||
        (qualifierForIdentifierWithDefault v l v.baseAlias == rightAlias &&
          qualifierForIdentifierWithDefault v r rightAlias == v.baseAlias))
  | _ => false

/-- Whether the two identifiers of an equality have the same non-empty
unqualified field name. -/
def fieldNamesAgree (v : Visitor) : Expr → Bool
  | .binaryExpr _ (.identifier l) (.identifier r) =>
    unqualifiedName v l == unqualifiedName v r && unqualifiedName v l != ""
  | _ => true

/-- An error with the HTTP code 400. -/
def Err.isBadRequest : Err → Bool
  | .translation code _ => code == statusBadRequest
  | _ => false

/-- A result that is a failure with the HTTP code 400. -/
def failsWith400 {α : Type} : Res α → Bool
  | .error e => e.isBadRequest
  | .ok _ => false

/-- Whether a conjunct is a binary expression. -/
def isBinaryExpr : Expr → Bool
  | .binaryExpr _ _ _ => true
  | _ => false

/-- The combination of filter parts: `*` without a part, a single part as it
is, several parts as `(p1 AND p2 AND ...)`. -/
def combinationOf : List String → String
  | [] => "*"
  | [p] => p
  | parts => "(" ++ stringsJoin parts " AND " ++ ")"

/-- The right-hand query of a join: for a filter-style table the combination of
its own filter and the translated residuals; for a pipeline `P` the query
`P | filter <combination>`, or `P` when there is no part. -/
def rightQueryOf (jr : JoinRight) (parts : List String) : String :=
  if jr.rightSimple then combinationOf (jr.rightBaseFilters ++ parts)
  else if (jr.rightBaseFilters ++ parts).isEmpty then jr.rightQuery
  else jr.rightQuery ++ " | filter " ++ combinationOf (jr.rightBaseFilters ++ parts)

/-- The join pipe: `join by (k1, ...) (<right query>)`, followed by ` inner`
for an INNER join. -/
def joinPipeOf (type : JoinType) (keys : List String) (rightQuery : String) : String :=
  "join by (" ++ stringsJoin keys ", " ++ ") (" ++ rightQuery ++ ")" ++
    (if type = .joinInner then " inner" else "")

/-- The kind of the right-hand source of a join, as resolved in state `v1`: a
filter-style table with its own filter, or a pipeline (a CTE or view, a table
spec with pipes, or a translated subquery). -/
def RightSourceOf (tn : GoMap String → SelectStatement → Res String) (v1 : Visitor)
    (right : TableExpr) (jr : JoinRight) : Prop :=
  (∃ parts tableAlias spec, right = .tableName (some parts) tableAlias ∧
    resolveTableName v1 parts "JOIN table" = .ok (.table spec) ∧ spec.pipeline = "" ∧
    jr.rightSimple = true ∧
    jr.rightBaseFilters = (if spec.filter != "" && spec.filter != "*" then [spec.filter] else [])) ∨
  (∃ parts tableAlias query, right = .tableName (some parts) tableAlias ∧
    resolveTableName v1 parts "JOIN table" = .ok (.pipeline query) ∧
    jr.rightSimple = false ∧ jr.rightQuery = query ∧ jr.rightBaseFilters = []) ∨
  (∃ parts tableAlias spec, right = .tableName (some parts) tableAlias ∧
    resolveTableName v1 parts "JOIN table" = .ok (.table spec) ∧ spec.pipeline ≠ "" ∧
    jr.rightSimple = false ∧ jr.rightQuery = spec.pipeline ∧ jr.rightBaseFilters = []) ∨
  (∃ sel tableAlias ctes, right = .subqueryTable (some sel) tableAlias ∧
    tn ctes sel = .ok jr.rightQuery ∧ jr.rightSimple = false ∧ jr.rightBaseFilters = [])

/-- Byte-wise `a ≤ b` of Go strings. -/
def strLe (a b : String) : Bool :=
  !bytesLt (stringBytes b) (stringBytes a)

/-- A list of strings in ascending byte-wise order. -/
def AscendingBytes (xs : List String) : Prop :=
  xs.Pairwise (fun a b => strLe a b = true)

/-- The keys of the aggregates that the HAVING cleanup deletes (lines
295-303): the keys of `aggTempDeletes` that are not preserved. -/
def havingDeleteKeys (v : Visitor) : List String :=
  (v.aggTempDeletes.map (·.1)).filter (fun key => !v.aggPreserve.contains key)

/-- The select `SELECT host, COUNT(*) AS c FROM t GROUP BY host HAVING <h>`. -/
def havingSelect (h : Expr) : SelectStatement :=
  .mk none false
    [plainColumn ["host"],
     { expr := .funcCall ["COUNT"] [.starExpr] false none, aliasName := "c" }]
    (some (tableRef "t")) none [.identifier ["host"]] (some h) [] none []

/-- The condition `SUM(<arg>) > 1`. -/
def sumAbove (arg : Expr) : Expr :=
  .binaryExpr ">" (.funcCall ["SUM"] [arg] false none) (.numericLiteral "1")

/-- The translator state after the `stats` pipe of
`SELECT host, COUNT(*) AS c ... HAVING SUM(B) > 1 AND SUM(a) > 1`. -/
def havingState : Visitor :=
  { newVisitor exampleProvider [] with
    aggResults := some [("COUNT(*)", "c"), ("SUM(b)", "sum(B)"), ("SUM(a)", "sum(a)")]
    aggTempDeletes := [("SUM(b)", "\"sum(B)\""), ("SUM(a)", "\"sum(a)\"")] }

/-- The select `SELECT <columns> FROM t HAVING COUNT(*) > 1`, without GROUP
BY. -/
def havingNoGroup (columns : List SelectItem) : SelectStatement :=
  .mk none false columns (some (tableRef "t")) none []
    (some (.binaryExpr ">" (.funcCall ["COUNT"] [.starExpr] false none) (.numericLiteral "1")))
    [] none []

/-- Whether the canonical rendering of an expression exists and is not the
rendering of a GROUP BY expression. -/
def notGrouped (v : Visitor) (g : GroupAcc) (expr : Expr) : Bool :=
  match v.sp.render expr with
  | .ok key => !g.groupExprAliases.has key
  | .error _ => false

/-- A SELECT column that does not fit the GROUP BY clause: `*`, an identifier
whose normalized name is not a group field, or a non-aggregate function call
or arithmetic expression that is not grouped. -/
def violatesGroupBy (v : Visitor) (g : GroupAcc) (col : SelectItem) : Bool :=
  match col.expr with
  | .starExpr => true
  | .identifier parts =>
    match normalizeIdentifier v parts with
    | .ok field => !g.groupFields.contains field
    | .error _ => false
  | .funcCall fnName _ _ _ => !isAggregateFunction fnName && notGrouped v g col.expr
  | .binaryExpr _ _ _ => notGrouped v g col.expr
  | .unaryExpr _ _ => notGrouped v g col.expr
  | .numericLiteral _ => notGrouped v g col.expr
  | _ => false

/-- The select `SELECT <columns> FROM t GROUP BY host`. -/
def groupByHost (columns : List SelectItem) : SelectStatement :=
  .mk none false columns (some (tableRef "t")) none [.identifier ["host"]] none [] none []

/-- The column `COUNT(*)`. -/
def countStar : SelectItem :=
  { expr := .funcCall ["COUNT"] [.starExpr] false none, aliasName := "" }

/-- The statement with its `Distinct` flag replaced. -/
def SelectStatement.withDistinct (d : Bool) : SelectStatement → SelectStatement
  | .mk w _ c f wh g h o l s => .mk w d c f wh g h o l s

/-- Whether a select is aggregated: it has a GROUP BY, or its SELECT list is
not the single column `*` and the SELECT list or HAVING holds an aggregate
call. -/
def isAggregatedSelect (stmt : SelectStatement) : Bool :=
  decide (stmt.groupBy.length > 0) ||
    (!isSelectStar stmt.columns &&
      (!(selectAggCalls stmt.columns).isEmpty || !(havingAggCalls stmt.having).isEmpty))

/-- Whether a select has an explicit column list: its SELECT list is not empty
and is not the single column `*`. -/
def hasColumnList (stmt : SelectStatement) : Bool :=
  !isSelectStar stmt.columns && !stmt.columns.isEmpty

/-- The text of a `fields` pipe. -/
def fieldsPipe (fields : List String) : String :=
  "fields " ++ stringsJoin fields ", "

/-- The text of a `uniq by` pipe. -/
def uniqPipe (fields : List String) : String :=
  "uniq by (" ++ stringsJoin fields ", " ++ ")"

/-- Scenario S8 without and with `DISTINCT`: `SELECT [DISTINCT] host, path FROM t`. -/
def scenarioS8 (distinct : Bool) (columns : List SelectItem) : SelectStatement :=
  .mk none distinct columns (some (tableRef "t")) none [] none [] none []

/-- The relation between the translation `plain` of a select without
`DISTINCT` and the translation `dist` of the same select with `DISTINCT`:
`dist` succeeds exactly when `plain` does and the select is not aggregated and
has an explicit column list; when `plain` succeeds, `dist` is the 400 error of
the aggregated select, the 400 error of the missing column list, or `plain`
with the `uniq by` pipe of the projected fields inserted directly after the
`fields` pipe of the same fields, in front of the ORDER BY and LIMIT pipes. -/
def DistinctRefines (stmt : SelectStatement) (plain dist : Res String) : Prop :=
  ((∃ s, dist = .ok s) ↔
    ((∃ s0, plain = .ok s0) ∧ isAggregatedSelect stmt = false ∧ hasColumnList stmt = true)) ∧
  (∀ s0, plain = .ok s0 → isAggregatedSelect stmt = true →
    dist = badRequest "translator: DISTINCT with aggregates is not supported") ∧
  (∀ s0, plain = .ok s0 → isAggregatedSelect stmt = false → hasColumnList stmt = false →
    dist = badRequest "translator: DISTINCT requires explicit column list") ∧
  (∀ s0, plain = .ok s0 → isAggregatedSelect stmt = false → hasColumnList stmt = true →
    ∃ src front fields op lp pv pipes v,
      buildProjectionPipes pv stmt.columns false = .ok (pipes, fields, v) ∧
      fields ≠ [] ∧
      orderPipesOf v stmt.orderBy false = .ok op ∧
      limitPipesOf stmt.limit = .ok lp ∧
      s0 = renderPipeline src (front ++ [fieldsPipe fields] ++ (op ++ lp)) ∧
      dist = .ok (renderPipeline src (front ++ [fieldsPipe fields, uniqPipe fields] ++ (op ++ lp))))

/-- A member of the format-field class of the spec, `[A-Za-z0-9_.-]+`. -/
def InFormatFieldClass (s : String) : Prop :=
  s.data ≠ [] ∧ ∀ c ∈ s.data, isFormatFieldChar c = true

/-- The statement `SELECT fn(f) AS A FROM table` with no other clause. -/
def caseSelect (fnName fparts : List String) (colAlias : String) (table : TableExpr) :
    SelectStatement :=
  .mk none false
    [{ expr := .funcCall fnName [.identifier fparts] false none, aliasName := colAlias }]
    (some table) none [] none [] none []

/-- The select `SELECT <columns> FROM t [WHERE ..] [GROUP BY ..] [HAVING ..]
[ORDER BY ..]`. -/
def scratchSelect (columns : List SelectItem) (whereClause : Option Expr) (groupBy : List Expr)
    (having : Option Expr) (orderBy : List OrderItem) : SelectStatement :=
  .mk none false columns (some (tableRef "t")) whereClause groupBy having orderBy none []

/-- Whether a node is a numeric literal. -/
def isNumericLiteral : Expr → Bool
  | .numericLiteral _ => true
  | _ => false

/-- The LogsQL operator text of an ordered comparison. -/
def orderedOp : ComparisonKind → String
  | .comparisonGreater => ">"
  | .comparisonGreaterEqual => ">="
  | .comparisonLess => "<"
  | .comparisonLessEqual => "<="
  | _ => ""

/-- Whether a comparison kind is `>`, `>=`, `<` or `<=`. -/
def isOrdered : ComparisonKind → Bool
  | .comparisonEqual => false
  | .comparisonNotEqual => false
  | _ => true

/-- The comparison kind of a SQL operator, as dispatched by `translateExpr`
(lines 2669-2690). -/
def comparisonOfOp (op : String) : Option ComparisonKind :=
  if op == "=" then some .comparisonEqual
  else if op == "!=" || op == "<>" then some .comparisonNotEqual
  else if op == ">" then some .comparisonGreater
  else if op == ">=" then some .comparisonGreaterEqual
  else if op == "<" then some .comparisonLess
  else if op == "<=" then some .comparisonLessEqual
  else none

/-- Whether a select item is a window function: a call with `OVER`. -/
def isWindowColumn (col : SelectItem) : Bool :=
  match col.expr with
  | .funcCall _ _ _ (some _) => true
  | _ => false

/-- Whether a function name, upper-cased, is one of the window functions
`SUM`, `MIN`, `MAX` and `COUNT` (line 1996). -/
def isSupportedWindowName (last : String) : Bool :=
  let n := toUpper last
  n == "SUM" || n == "MIN" || n == "MAX" || n == "COUNT"

/-- Whether a select item is a window function whose name has a last part that
is not a supported window function name. -/
def isUnsupportedWindowColumn (col : SelectItem) : Bool :=
  match col.expr with
  | .funcCall fnName _ _ (some _) =>
    match fnName.getLast? with
    | some last => !isSupportedWindowName last
    | none => false
  | _ => false

/-- A window specification `OVER (ORDER BY ts)`. -/
def overTs : Option (List Expr × List (Expr × Direction)) :=
  some ([], [(.identifier ["ts"], .ascending)])

/-- The nested translation of `translateSimpleSelect` and `translateSelect`
(lines 158 and 404): `translateSelectStatementToLogsQLWithContext` on a select
statement, with the provider of the translator and a CTE map. -/
def translateNestedSelect (sp : Provider) (ctes : GoMap String) (s : SelectStatement) :
    Res String :=
  translateSelectStatementToLogsQLWithContext sp (some (.select s)) ctes

/-- Field `Select` of a set operation. -/
def SetOp.select : SetOp → Option SelectStatement
  | .mk _ _ sel => sel

/-- Whether a set operation is `UNION ALL`. -/
def isUnionAll : SetOp → Bool
  | .mk .setOpUnion true _ => true
  | _ => false

/-- The text of the specification for a select with set operations: the
translation of the left select followed, for each branch in order, by
` | union (<translation of the branch>)`. -/
def unionText (base : String) (rhss : List String) : String :=
  rhss.foldl (fun acc rhs => acc ++ " | union (" ++ rhs ++ ")") base

/-- The select `SELECT * FROM <table>` followed by the set operations `ops`. -/
def starFrom (table : String) (ops : List SetOp) : SelectStatement :=
  .mk none false [{ expr := .starExpr, aliasName := "" }] (some (tableRef table)) none [] none []
    none ops

/-- Whether an error is a `*TranslationError` whose code is 400 or 404 and
whose message is not empty. -/
def Err.isCoded : Err → Bool
  | .translation code message =>
    (code == statusBadRequest || code == statusNotFound) && message != ""
  | _ => false

/-- The select `[WITH ..] SELECT * FROM <table expression>`. -/
def starFromTable (t : TableExpr) (w : Option WithClause) : SelectStatement :=
  .mk w false [{ expr := .starExpr, aliasName := "" }] (some t) none [] none [] none []

/-- The value of a decimal digit string, most significant digit first. -/
def digitsValue (l : List Char) : Nat :=
  l.foldl (fun (a : Nat) (c : Char) => a * 10 + (c.toNat - 48)) 0

/-- A key is put behind the keys seen so far, unless it is one of them. -/
def addKey (order : List String) (key : String) : List String :=
  if order.contains key then order else order ++ [key]

/-- The distinct keys in order of first occurrence, behind the keys seen so
far. -/
def addKeys (order keys : List String) : List String :=
  keys.foldl addKey order

/-- The select `SELECT SUM(x) AS "total count" FROM t HAVING SUM(x) > 1`: a
selected aggregate whose alias needs quoting, referenced in HAVING. -/
def quotedAliasHaving : SelectStatement :=
  scratchSelect
    [{ expr := .funcCall ["SUM"] [.identifier ["x"]] false none, aliasName := "total count" }]
    none [] (some (sumAbove (.identifier ["x"]))) []

/-- The select `SELECT SUM(X), SUM(x) FROM t`: two aggregates over fields
that differ only in letter case. -/
def caseTwinSums : SelectStatement :=
  scratchSelect
    [{ expr := .funcCall ["SUM"] [.identifier ["X"]] false none, aliasName := "" },
     { expr := .funcCall ["SUM"] [.identifier ["x"]] false none, aliasName := "" }]
    none [] none []

/-- The select `SELECT a + b, a - b FROM t`. -/
def mathTwins : SelectStatement :=
  scratchSelect
    [{ expr := .binaryExpr "+" (.identifier ["a"]) (.identifier ["b"]), aliasName := "" },
     { expr := .binaryExpr "-" (.identifier ["a"]) (.identifier ["b"]), aliasName := "" }]
    none [] none []

/-- The select `SELECT UPPER(a.b), UPPER(a_b) FROM t`. -/
def upperTwins : SelectStatement :=
  scratchSelect
    [{ expr := .funcCall ["UPPER"] [.identifier ["a", "b"]] false none, aliasName := "" },
     { expr := .funcCall ["UPPER"] [.identifier ["a_b"]] false none, aliasName := "" }]
    none [] none []

/-- The select `SELECT name FROM a JOIN b AS b ON a.id = b.id AND
UPPER(b.k) = 'X'`: the ON residual on the right-hand side compares a scalar
function. -/
def rightFunctionJoin : SelectStatement :=
  joinSelect .joinInner rightB
    (.binaryExpr "AND" (identEq ["a", "id"] ["b", "id"])
      (.binaryExpr "=" (.funcCall ["UPPER"] [.identifier ["b", "k"]] false none)
        (.stringLiteral "X")))

/-- The select `SELECT name FROM a JOIN b AS b ON a.id = b.id WHERE <field> =
'x'`, the WHERE clause comparing a single-part identifier. -/
def joinWhereField (field : String) : SelectStatement :=
  simpleSelect [plainColumn ["name"]]
    (.joinExpr .joinInner (tableRef "a") rightB (some (identEq ["a", "id"] ["b", "id"])))
    (some (.binaryExpr "=" (.identifier [field]) (.stringLiteral "x")))

/-- The select `SELECT <call>(x) OVER (ORDER BY ts) FROM t` whose call has a
name without parts. -/
def namelessWindowSelect : SelectStatement :=
  scratchSelect
    [{ expr := .funcCall [] [.identifier ["x"]] false overTs, aliasName := "" }]
    none [] none []

/-- The characters that the replacer of `sanitizeAliasFromField` turns into
`_`: `. - : / + * % ^ ( ) ,`, the space, `'` and `"`. -/
def isSanitizedChar (c : Char) : Bool :=
  c == '.' || c == '-' || c == ':' || c == '/' || c == '+' || c == '*' || c == '%' ||
  c == '^' || c == '(' || c == ')' || c == ',' || c == ' ' || c == '\'' || c == '"'

/-- Runs of `_` collapsed to one: an underscore that is followed by another
underscore is dropped. -/
def collapseRuns : List Char → List Char
  | [] => []
  | c :: rest =>
    if c == '_' && rest.head? == some '_' then collapseRuns rest else c :: collapseRuns rest

/-- The sanitizer in the words of the specification, for a given set of
replaced characters: the lowercased field in which every replaced character
has become `_` (the others being kept), runs of `_` collapsed to one and
leading and trailing `_` removed, or `col` when that result is empty. -/
def sanitizeSpec (replaced : Char → Bool) (field : String) : String :=
  let substituted := (toLower field).data.map (fun c => if replaced c then '_' else c)
  let value : String := ⟨trimUnderscores (collapseRuns substituted)⟩
  if value == "" then "col" else value

/-- The sanitizer that replaces every character outside the bare class. -/
def sanitizeOutsideBare (field : String) : String :=
  sanitizeSpec (fun c => !isBareChar c) field

/-- The name under which a CTE is registered (line 151): the lowercased last
part of its name. -/
def cteName : CTE → String
  | .mk (some parts) _ => toLower (lastPart parts)
  | .mk none _ => ""

/-- The CTE list of an optional WITH clause. -/
def withCTEs : Option WithClause → List CTE
  | some (.mk _ l) => l
  | none => []

/-- The subquery of a table expression, when it is one. -/
def tableSubquery : TableExpr → List SelectStatement
  | .subqueryTable (some s) _ => [s]
  | _ => []

/-- The subqueries of a FROM clause: the FROM subquery, or the subqueries on
the two sides of a join. -/
def fromSubqueries : Option TableExpr → List SelectStatement
  | some (.joinExpr _ l r _) => tableSubquery l ++ tableSubquery r
  | some t => tableSubquery t
  | none => []

/-- The select `SELECT * FROM <table>`. -/
def starOf (table : String) : SelectStatement :=
  simpleSelect [{ expr := .starExpr, aliasName := "" }] (tableRef table) none

/-- A select `WITH <ctes> SELECT * FROM <table>`. -/
def withSelect (ctes : List CTE) (table : String) : SelectStatement :=
  .mk (some (.mk false ctes)) false [{ expr := .starExpr, aliasName := "" }]
    (some (tableRef table)) none [] none [] none []

/-- The select `WITH c1 AS (SELECT * FROM f), c2 AS (SELECT * FROM c1) SELECT *
FROM c2`: the second CTE reads the first. -/
def chainedCTEs : SelectStatement :=
  withSelect [.mk (some ["c1"]) (some (starOf "f")), .mk (some ["c2"]) (some (starOf "c1"))] "c2"

/-- The select `WITH c1 AS (WITH inner1 AS (SELECT * FROM f) SELECT * FROM
inner1), c2 AS (SELECT * FROM inner1) SELECT * FROM c2`: the second CTE reads
a CTE declared inside the first. -/
def leakedCTE : SelectStatement :=
  withSelect
    [.mk (some ["c1"]) (some (withSelect [.mk (some ["inner1"]) (some (starOf "f"))] "inner1")),
     .mk (some ["c2"]) (some (starOf "inner1"))] "c2"

/-- The select `SELECT * FROM (WITH inner1 AS (SELECT * FROM f) SELECT * FROM
inner1) AS s UNION ALL SELECT * FROM inner1`: the right-hand side of the union
reads a CTE declared inside the FROM subquery. -/
def leakedToUnion : SelectStatement :=
  .mk none false [{ expr := .starExpr, aliasName := "" }]
    (some (.subqueryTable (some (withSelect [.mk (some ["inner1"]) (some (starOf "f"))] "inner1"))
      "s")) none [] none [] none
    [.mk .setOpUnion true (some (starOf "inner1"))]

/-- The error of line 3092, `unknown aggregate referenced`. -/
def unknownAggregate : Err :=
  .translation statusBadRequest "translator: unknown aggregate referenced"

/-- Whether a node is a call of an aggregate function. -/
def isAggregateCall : Expr → Bool
  | .funcCall fnName _ _ _ => isAggregateFunction fnName
  | _ => false

/-- The select `SELECT host, SUM(x) AS total FROM t GROUP BY host HAVING
SUM(x) > 1 AND AVG(y) > 1 ORDER BY AVG(y)`. -/
def havingLookupSelect : SelectStatement :=
  scratchSelect
    [plainColumn ["host"],
     { expr := .funcCall ["SUM"] [.identifier ["x"]] false none, aliasName := "total" }]
    none [.identifier ["host"]]
    (some (.binaryExpr "AND" (sumAbove (.identifier ["x"]))
      (.binaryExpr ">" (.funcCall ["AVG"] [.identifier ["y"]] false none) (.numericLiteral "1"))))
    [{ expr := .funcCall ["AVG"] [.identifier ["y"]] false none, direction := .ascending }]

/-- The translator states of an aggregated query that share the alias
bindings `b` and the aggregate results `m`. -/
def AggScope (b : GoMap Bool) (m : GoMap String) (w : Visitor) : Prop :=
  w.bindings = b ∧ w.aggResults = some m

/-! ## Byte-level rendering of literals

A Go string is a sequence of bytes that need not be valid UTF-8.  The
definitions below follow `quoteString` and `formatString` on bytes; on the
UTF-8 encoding of a text they agree with the definitions on texts above. -/

/-- A UTF-8 continuation byte, `0x80..0xBF`. -/
def isContinuationByte (b : Nat) : Bool := 0x80 ≤ b && b ≤ 0xBF

/-- Go `utf8.DecodeRuneInString`, the decoding step of `range` over a string:
the rune at the head of the bytes and its width.  A byte that starts no
valid encoding is decoded as U+FFFD with width 1. -/
def decodeRune : List Nat → Nat × Nat
  | [] => (0xFFFD, 0)
  | b0 :: rest =>
    if b0 < 0x80 then (b0, 1)
    else if 0xC2 ≤ b0 && b0 ≤ 0xDF then
      match rest with
      | b1 :: _ =>
        if isContinuationByte b1 then ((b0 - 0xC0) * 64 + (b1 - 0x80), 2) else (0xFFFD, 1)
      | _ => (0xFFFD, 1)
    else if 0xE0 ≤ b0 && b0 ≤ 0xEF then
      match rest with
      | b1 :: b2 :: _ =>
        let lo := if b0 == 0xE0 then 0xA0 else 0x80
        let hi := if b0 == 0xED then 0x9F else 0xBF
        if lo ≤ b1 && b1 ≤ hi && isContinuationByte b2 then
          ((b0 - 0xE0) * 4096 + (b1 - 0x80) * 64 + (b2 - 0x80), 3)
        else (0xFFFD, 1)
      | _ => (0xFFFD, 1)
    else if 0xF0 ≤ b0 && b0 ≤ 0xF4 then
      match rest with
      | b1 :: b2 :: b3 :: _ =>
        let lo := if b0 == 0xF0 then 0x90 else 0x80
        let hi := if b0 == 0xF4 then 0x8F else 0xBF
        if lo ≤ b1 && b1 ≤ hi && isContinuationByte b2 && isContinuationByte b3 then
          ((b0 - 0xF0) * 262144 + (b1 - 0x80) * 4096 + (b2 - 0x80) * 64 + (b3 - 0x80), 4)
        else (0xFFFD, 1)
      | _ => (0xFFFD, 1)
    else (0xFFFD, 1)

/-- Go `utf8.AppendRune`, the bytes written by `WriteRune`: the UTF-8 encoding
of the rune, or that of U+FFFD for a surrogate or a value above U+10FFFF. -/
def encodeRune (r : Nat) : List Nat :=
  if r < 0x80 then [r]
  else if r < 0x800 then [0xC0 + r / 64, 0x80 + r % 64]
  else if (0xD800 ≤ r && r ≤ 0xDFFF) || 0x10FFFF < r then [0xEF, 0xBF, 0xBD]
  else if r < 0x10000 then [0xE0 + r / 4096, 0x80 + (r / 64) % 64, 0x80 + r % 64]
  else [0xF0 + r / 262144, 0x80 + (r / 4096) % 64, 0x80 + (r / 64) % 64, 0x80 + r % 64]

/-- The loop of `quoteString` (lines 3187-3192) on bytes; every round consumes
at least one byte, so the number of bytes bounds the number of rounds. -/
def quoteRunes : Nat → List Nat → List Nat
  | 0, _ => []
  | _ + 1, [] => []
  | fuel + 1, b :: rest =>
    let d := decodeRune (b :: rest)
    (if d.1 == 0x5C || d.1 == 0x22 then [0x5C] else []) ++ encodeRune d.1 ++
      quoteRunes fuel ((b :: rest).drop d.2)

/-- `quoteString` (line 3184) on the bytes of a Go string. -/
def quoteStringBytes (val : List Nat) : List Nat :=
  0x22 :: (quoteRunes val.length val ++ [0x22])

/-- A byte of the class `[-A-Za-z0-9_.:/]`. -/
def isBareByte (b : Nat) : Bool :=
  (48 ≤ b && b ≤ 57) || (65 ≤ b && b ≤ 90) || (97 ≤ b && b ≤ 122) ||
  b == 95 || b == 46 || b == 58 || b == 47 || b == 45

/-- `safeBareLiteral.MatchString` on bytes: the class has only ASCII members,
and a byte from `0x80` on belongs to a rune outside the class (an invalid
byte is read as U+FFFD), so the string matches when it is non-empty and each
byte is in the class. -/
def safeBareBytes (val : List Nat) : Bool :=
  !val.isEmpty && val.all isBareByte

/-- `safeWildcardLiteral.MatchString` on bytes. -/
def safeWildcardBytes (val : List Nat) : Bool :=
  match val.dropWhile isBareByte with
  | [] => true
  | b :: rest => b == 42 && rest.all isBareByte

/-- `formatString` (line 3171) on the bytes of a Go string. -/
def formatStringBytes (val : List Nat) : List Nat :=
  if val.isEmpty then quoteStringBytes val
  else if safeBareBytes val then val
  else if safeWildcardBytes val then val
  else quoteStringBytes val

/-- `sanitizeAliasFromField` (line 1662) with the rune map of
`strings.ToLower` as a parameter: Go lower-cases rune by rune with
`unicode.ToLower`, also outside ASCII. -/
def sanitizeAliasWith (lower : Char → Char) (field : String) : String :=
  let replaced : String := ⟨field.data.map sanitizeChar⟩
  let lowered : String := ⟨replaced.data.map lower⟩
  let collapsed := collapseUnderscores lowered.data.length lowered.data
  let value : String := ⟨trimUnderscores collapsed⟩
  if value == "" then "col" else value

/-- The sanitizer in the words of the specification, for a given rune map of
the lower-casing and a given set of replaced characters. -/
def sanitizeSpecWith (lower : Char → Char) (replaced : Char → Bool) (field : String) : String :=
  let substituted := (field.data.map lower).map (fun c => if replaced c then '_' else c)
  let value : String := ⟨trimUnderscores (collapseRuns substituted)⟩
  if value == "" then "col" else value

/-- What the case map of `strings.ToLower` does to the characters of the
replacer: it leaves `_` and the fourteen replaced characters as they are and
maps no other character onto one of the fourteen (it maps letters to
letters). -/
def KeepsReplacedChars (lower : Char → Char) : Prop :=
  lower '_' = '_' ∧ (∀ c, isSanitizedChar c = true → lower c = c) ∧
  (∀ c, isSanitizedChar (lower c) = true → isSanitizedChar c = true)

/-- A case map that lower-cases the ASCII letters and the letters of the
Latin-1 supplement (`U+00C0..U+00DE` without the sign `U+00D7`). -/
def latinLower (c : Char) : Char :=
  if 0xC0 ≤ c.toNat ∧ c.toNat ≤ 0xDE ∧ c.toNat ≠ 0xD7 then Char.ofNat (c.toNat + 32)
  else lowerChar c

/-- One of the five aggregate names `COUNT`, `SUM`, `AVG`, `MIN`, `MAX`. -/
def IsAggregateName (n : String) : Prop :=
  n = "COUNT" ∨ n = "SUM" ∨ n = "AVG" ∨ n = "MIN" ∨ n = "MAX"

/-! # Theorems -/

theorem bind_ok_eq {α β : Type} (a : α) (f : α → Res β) :
    (Except.ok a >>= f) = f a := rfl

theorem bind_error_eq {α β : Type} (e : Err) (f : α → Res β) :
    ((Except.error e : Res α) >>= f) = Except.error e := rfl

theorem safeBareLiteral_iff (v : String) : safeBareLiteral v = true ↔ InBareClass v := by
  unfold safeBareLiteral InBareClass
  cases h : v.data <;> simp

theorem dropWhile_bare_append_star (x y : List Char) (hx : ∀ c ∈ x, isBareChar c = true) :
    (x ++ '*' :: y).dropWhile isBareChar = '*' :: y := by
  induction x with
  | nil =>
    have hstar : isBareChar '*' = false := by decide
    simp [List.dropWhile, hstar]
  | cons a t ih =>
    have ha : isBareChar a = true := hx a (by simp)
    simp [List.dropWhile, ha]
    exact ih (fun c hc => hx c (by simp [hc]))

theorem dropWhile_bare_all (x : List Char) (hx : ∀ c ∈ x, isBareChar c = true) :
    x.dropWhile isBareChar = [] := by
  induction x with
  | nil => rfl
  | cons a t ih =>
    have ha : isBareChar a = true := hx a (by simp)
    rw [List.dropWhile_cons, if_pos ha]
    exact ih (fun c hc => hx c (by simp [hc]))

theorem safeWildcardLiteral_iff (v : String) :
    safeWildcardLiteral v = true ↔ InWildcardClass v := by
  unfold safeWildcardLiteral InWildcardClass
  constructor
  · intro h
    have hsplit : v.data = v.data.takeWhile isBareChar ++ v.data.dropWhile isBareChar :=
      (List.takeWhile_append_dropWhile _ _).symm
    have htake : ∀ c ∈ v.data.takeWhile isBareChar, isBareChar c = true :=
      fun c hc => List.mem_takeWhile_imp hc
    cases hd : v.data.dropWhile isBareChar with
    | nil =>
      refine ⟨v.data.takeWhile isBareChar, [], htake, by simp, Or.inl ?_⟩
      rw [hd] at hsplit
      exact hsplit
    | cons c rest =>
      rw [hd] at h
      simp at h
      refine ⟨v.data.takeWhile isBareChar, rest, htake, h.2, Or.inr ?_⟩
      rw [hd, h.1] at hsplit
      exact hsplit
  · rintro ⟨x, y, hx, hy, h | h⟩
    · rw [h, dropWhile_bare_all (x ++ y)]
      intro c hc
      rcases List.mem_append.mp hc with hc | hc
      · exact hx c hc
      · exact hy c hc
    · rw [h, dropWhile_bare_append_star x y hx]
      simp
      exact hy

/-- C5 (as amended): a non-empty string of the bare class or of the wildcard
class is returned unchanged by `formatString`; the empty string and every
string outside both classes is returned as `quoteString` renders it (in double
quotes, with a backslash before every backslash and double quote). -/
theorem formatString_classes (v : String) :
    (v ≠ "" → InBareClass v ∨ InWildcardClass v → formatString v = v) ∧
    (v = "" ∨ ¬ (InBareClass v ∨ InWildcardClass v) → formatString v = quoteString v) := by
  rw [← safeBareLiteral_iff, ← safeWildcardLiteral_iff]
  unfold formatString
  constructor
  · intro hne h
    rcases h with h | h
    · simp [hne, h]
    · simp [hne, h]
  · intro h
    rcases h with h | h
    · simp [h]
    · simp only [not_or] at h
      simp [h.1, h.2]

theorem formatString_empty_not_unchanged :
    InWildcardClass "" ∧ formatString "" ≠ "" := by
  refine ⟨⟨[], [], by simp, by simp, Or.inl rfl⟩, by decide⟩

theorem formatString_classes_witness :
    formatString "foo*" = "foo*" ∧ formatString "a b" = quoteString "a b" :=
  ⟨(formatString_classes "foo*").1 (by decide)
      (Or.inr ⟨['f', 'o', 'o'], [], by decide, by simp, Or.inr rfl⟩),
   (formatString_classes "a b").2 (Or.inr (by
      rw [← safeBareLiteral_iff, ← safeWildcardLiteral_iff]; decide))⟩

theorem isPlainChar_ne_percent (c : Char) (h : isPlainChar c = true) : c ≠ '%' := by
  intro hc
  subst hc
  exact absurd h (by decide)

theorem isPlainChar_ne_underscore (c : Char) (h : isPlainChar c = true) : c ≠ '_' := by
  intro hc
  subst hc
  exact absurd h (by decide)

theorem isPlainChar_bare (c : Char) (h : isPlainChar c = true) : isBareChar c = true := by
  unfold isPlainChar at h
  unfold isBareChar
  simp only [Bool.or_eq_true] at h ⊢
  tauto

theorem isPlainChar_no_quote (c : Char) (h : isPlainChar c = true) :
    needsQuoteRune c = false := by
  rw [Bool.eq_false_iff]
  intro hq
  unfold isPlainChar isAsciiAlnum at h
  unfold needsQuoteRune at hq
  simp only [Bool.or_eq_true, Bool.and_eq_true, decide_eq_true_eq, beq_iff_eq] at h
  simp only [Bool.or_eq_true, Bool.and_eq_true, decide_eq_true_eq, bne_iff_ne, ne_eq,
    and_assoc] at hq
  obtain ⟨_, _, h3, h4, h5, h6, h7, h8, h9⟩ := hq
  rcases h with (((h | h) | h) | h) | h
  · omega
  · exact h6 h
  · exact h4 h
  · exact h5 h
  · exact h3 h

theorem count_percent_plain (l : List Char) (h : ∀ c ∈ l, isPlainChar c = true) :
    l.count '%' = 0 :=
  List.count_eq_zero.mpr (fun hm => isPlainChar_ne_percent _ (h _ hm) rfl)

theorem contains_underscore_plain (l : List Char) (h : ∀ c ∈ l, isPlainChar c = true) :
    l.contains '_' = false := by
  rw [Bool.eq_false_iff]
  intro hc
  exact isPlainChar_ne_underscore _ (h _ ((by simpa using hc))) rfl

theorem any_needsQuote_plain (l : List Char) (h : ∀ c ∈ l, isPlainChar c = true) :
    l.any needsQuoteRune = false := by
  rw [Bool.eq_false_iff]
  intro hq
  obtain ⟨c, hc, hn⟩ := List.any_eq_true.mp hq
  rw [isPlainChar_no_quote c (h c hc)] at hn
  exact Bool.false_ne_true hn

theorem all_bare_plain (l : List Char) (h : ∀ c ∈ l, isPlainChar c = true) :
    l.all isBareChar = true :=
  List.all_eq_true.mpr (fun c hc => isPlainChar_bare c (h c hc))

theorem hasSuffixChar_append_single (l : List Char) (c : Char) :
    hasSuffixChar ⟨l ++ [c]⟩ c = true := by
  simp [hasSuffixChar]

theorem hasSuffixChar_not_mem (l : List Char) (c : Char) (h : c ∉ l) :
    hasSuffixChar ⟨l⟩ c = false := by
  unfold hasSuffixChar
  cases hg : l.getLast? with
  | none => rfl
  | some d =>
    have hd : d ∈ l := List.mem_of_getLast?_eq_some hg
    simp only [hg]
    rw [Bool.eq_false_iff]
    intro hb
    exact h (by rw [← beq_iff_eq.mp hb]; exact hd)

theorem hasSuffixChar_cons (a c : Char) (l : List Char) (hl : l ≠ []) :
    hasSuffixChar ⟨a :: l⟩ c = hasSuffixChar ⟨l⟩ c := by
  unfold hasSuffixChar
  cases l with
  | nil => exact absurd rfl hl
  | cons b t => simp [List.getLast?_cons_cons]

theorem formatWildcard_plain_star (x y : List Char)
    (hx : ∀ c ∈ x, isPlainChar c = true) (hy : ∀ c ∈ y, isPlainChar c = true) :
    formatWildcard ⟨x ++ '*' :: y⟩ = ⟨x ++ '*' :: y⟩ := by
  unfold formatWildcard needsQuoteForPattern
  have : (x ++ '*' :: y).any needsQuoteRune = false := by
    rw [List.any_append, List.any_cons, any_needsQuote_plain x hx, any_needsQuote_plain y hy]
    decide
  rw [this]
  rfl

/-- C6: for every non-empty pattern `p` made of characters of `[-A-Za-z0-9.:/]`,
`convertLikePattern` returns without error `p` for `p`, `p*` for `p%`, `*p` for
`%p` and `*p*` for `%p%`, each unquoted. -/
theorem convertLikePattern_shortcuts (p : String) (hne : p ≠ "")
    (hp : ∀ c ∈ p.data, isPlainChar c = true) :
    convertLikePattern p = .ok p ∧
    convertLikePattern (p ++ "%") = .ok (p ++ "*") ∧
    convertLikePattern ("%" ++ p) = .ok ("*" ++ p) ∧
    convertLikePattern ("%" ++ p ++ "%") = .ok ("*" ++ p ++ "*") := by
  obtain ⟨l⟩ := p
  have hl : l ≠ [] := fun h => hne (by rw [h])
  simp only at hp
  have hcount : l.count '%' = 0 := count_percent_plain l hp
  have hund : '_' ∉ l := fun hm => isPlainChar_ne_underscore _ (hp _ hm) rfl
  have hpct : '%' ∉ l := fun hm => isPlainChar_ne_percent _ (hp _ hm) rfl
  have hbare : l.all isBareChar = true := all_bare_plain l hp
  have hstr : (⟨l⟩ : String) ≠ "" := hne
  have hnil : ∀ c ∈ ([] : List Char), isPlainChar c = true := by simp
  refine ⟨?_, ?_, ?_, ?_⟩
  · simp [convertLikePattern, stringsCount, stringsContains, hcount, hund, formatString,
      safeBareLiteral, hbare, hl, hstr]
  · show convertLikePattern ⟨l ++ ['%']⟩ = .ok ⟨l ++ ['*']⟩
    have h1 : stringsCount ⟨l ++ ['%']⟩ '%' = 1 := by simp [stringsCount, hcount]
    have h2 : stringsContains ⟨l ++ ['%']⟩ '_' = false := by simp [stringsContains, hund]
    have h3 : dropLast ⟨l ++ ['%']⟩ = ⟨l⟩ := by simp [dropLast]
    have h4 : (⟨l⟩ : String) ++ "*" = ⟨l ++ ['*']⟩ := rfl
    unfold convertLikePattern
    simp only [h1, h2, h3, h4, hasSuffixChar_append_single, formatWildcard_plain_star l [] hp hnil]
    simp [hstr]
  · show convertLikePattern ⟨'%' :: l⟩ = .ok ⟨'*' :: l⟩
    have h1 : stringsCount ⟨'%' :: l⟩ '%' = 1 := by simp [stringsCount, hcount]
    have h2 : stringsContains ⟨'%' :: l⟩ '_' = false := by simp [stringsContains, hund]
    have h3 : dropFirst ⟨'%' :: l⟩ = ⟨l⟩ := by simp [dropFirst]
    have h4 : "*" ++ (⟨l⟩ : String) = ⟨[] ++ '*' :: l⟩ := rfl
    have h5 : hasSuffixChar ⟨'%' :: l⟩ '%' = false := by
      rw [hasSuffixChar_cons _ _ _ hl]
      exact hasSuffixChar_not_mem l '%' hpct
    have h6 : hasPrefixChar ⟨'%' :: l⟩ '%' = true := by simp [hasPrefixChar]
    unfold convertLikePattern
    simp only [h1, h2, h3, h4, h5, h6, formatWildcard_plain_star [] l hnil hp]
    simp [hstr]
  · show convertLikePattern ⟨'%' :: (l ++ ['%'])⟩ = .ok ⟨'*' :: (l ++ ['*'])⟩
    have h1 : stringsCount ⟨'%' :: (l ++ ['%'])⟩ '%' = 2 := by simp [stringsCount, hcount]
    have h2 : stringsContains ⟨'%' :: (l ++ ['%'])⟩ '_' = false := by
      simp [stringsContains, hund]
    have h3 : dropLast (dropFirst ⟨'%' :: (l ++ ['%'])⟩) = ⟨l⟩ := by simp [dropFirst, dropLast]
    have h4 : "*" ++ (⟨l⟩ : String) ++ "*" = ⟨('*' :: l) ++ '*' :: []⟩ := rfl
    have h5 : hasSuffixChar ⟨'%' :: (l ++ ['%'])⟩ '%' = true :=
      hasSuffixChar_append_single ('%' :: l) '%'
    have h6 : hasPrefixChar ⟨'%' :: (l ++ ['%'])⟩ '%' = true := by simp [hasPrefixChar]
    have h7 : stringsCount ⟨l⟩ '%' = 0 := hcount
    have hstar : ∀ c ∈ l, needsQuoteRune c = false := fun c hc => isPlainChar_no_quote c (hp c hc)
    have h8 : formatWildcard ⟨('*' :: l) ++ '*' :: []⟩ = ⟨('*' :: l) ++ '*' :: []⟩ := by
      unfold formatWildcard needsQuoteForPattern
      have : (('*' :: l) ++ '*' :: []).any needsQuoteRune = false := by
        rw [List.any_append, List.any_cons, List.any_cons, any_needsQuote_plain l hp]
        decide
      rw [this]
      rfl
    unfold convertLikePattern
    simp only [h1, h2, h3, h4, h5, h6, h7, h8]
    simp [hstr]

theorem convertLikePattern_shortcuts_witness :
    convertLikePattern "foo" = .ok "foo" ∧
    convertLikePattern ("foo" ++ "%") = .ok ("foo" ++ "*") ∧
    convertLikePattern ("%" ++ "foo") = .ok ("*" ++ "foo") ∧
    convertLikePattern ("%" ++ "foo" ++ "%") = .ok ("*" ++ "foo" ++ "*") :=
  convertLikePattern_shortcuts "foo" (by decide) (by decide)

/-- C7 (failing input): on the pattern `é_` the byte loop of `likeToRegex`
turns the two bytes of `é` into the two characters `Ã©`, so that
`convertLikePattern` returns the regex `^Ã©.$` and not `^é.$`, the regex in
which `é` stands for itself. -/
theorem convertLikePattern_non_ascii :
    convertLikePattern "é_" = .ok "~\"^Ã©.$\"" ∧
    convertLikePattern "é_" ≠ .ok ("~" ++ quoteString ("^" ++ quoteMeta "é" ++ "." ++ "$")) := by
  decide

/-- C9 (counterexample): the aggregate column `COUNT(*) AS c` is rendered as
`count() c`, without the keyword `as`. -/
theorem analyzeAggregate_no_as_keyword :
    (analyzeAggregate (newVisitor exampleProvider []) ["COUNT"] [.starExpr] false "c").map
      (fun r => r.1.statsCall) = .ok "count() c" ∧
    (analyzeAggregate (newVisitor exampleProvider []) ["COUNT"] [.starExpr] false "c").map
      (fun r => r.1.statsCall) ≠ .ok "count() as c" := by
  decide

/-- C9 (as amended): when `analyzeAggregate` accepts an aggregate call, the
term it renders for the `stats` pipe is the call `fn(arg)` followed, when the
column has a non-blank alias, by one space and the formatted alias (there is
no `as` keyword); without an alias the term is the call alone. -/
theorem analyzeAggregate_statsCall (v v1 : Visitor) (fnName : List String) (args : List Expr)
    (distinct : Bool) (aliasName : String) (item : AggItem)
    (h : analyzeAggregate v fnName args distinct aliasName = .ok (item, v1)) :
    ∃ keyArg callArg pre, 
      analyzeAggregateArg v (toUpper (lastPart fnName)) args = .ok (keyArg, callArg, pre, v1) ∧
      item.statsCall =
        toLower (toUpper (lastPart fnName)) ++ "(" ++ formatAggregateArg callArg ++ ")" ++
          (if trimSpace aliasName = "" then ""
           else " " ++ formatFieldName (trimSpace aliasName)) := by
  unfold analyzeAggregate at h
  split at h
  · exact absurd h (by simp [badRequest])
  · split at h
    · exact absurd h (by simp [badRequest])
    · cases ha : analyzeAggregateArg v (toUpper (lastPart fnName)) args with
      | error e => simp [ha, bind, Except.bind] at h
      | ok a =>
        obtain ⟨keyArg, callArg, pre, vv⟩ := a
        simp only [ha, bind, Except.bind] at h
        refine ⟨keyArg, callArg, pre, ?_⟩
        by_cases ht : trimSpace aliasName = ""
        · simp [ht] at h
          obtain ⟨h1, h2⟩ := h
          subst h2
          subst h1
          simp [ht]
        · simp [ht] at h
          obtain ⟨h1, h2⟩ := h
          subst h2
          subst h1
          refine ⟨rfl, ?_⟩
          simp only [if_neg ht, String.append_assoc]

theorem analyzeAggregate_statsCall_witness :
    ∃ keyArg callArg pre,
      analyzeAggregateArg (newVisitor exampleProvider [])
        (toUpper (lastPart ["sum"])) [.identifier ["x"]] =
          .ok (keyArg, callArg, pre, newVisitor exampleProvider []) ∧
      "sum(x) total" =
        toLower (toUpper (lastPart ["sum"])) ++ "(" ++ formatAggregateArg callArg ++ ")" ++
          (if trimSpace " total " = "" then "" else " " ++ formatFieldName (trimSpace " total ")) :=
  analyzeAggregate_statsCall (newVisitor exampleProvider []) (newVisitor exampleProvider [])
    ["sum"] [.identifier ["x"]] false " total "
    { key := "SUM(x)", statsCall := "sum(x) total", resultName := "total", prePipes := [],
      selected := false } rfl

theorem dropWhile_eq_self_of_head (p : Char → Bool) (l : List Char)
    (h : ∀ a, l.head? = some a → p a = false) : l.dropWhile p = l := by
  cases l with
  | nil => rfl
  | cons a t => simp [List.dropWhile_cons, h a rfl]

theorem head_dropWhile_false (p : Char → Bool) (l : List Char) :
    ∀ a, (l.dropWhile p).head? = some a → p a = false := by
  induction l with
  | nil => intro a h; simp at h
  | cons b t ih =>
    intro a h
    rw [List.dropWhile_cons] at h
    by_cases hb : p b = true
    · rw [if_pos hb] at h
      exact ih a h
    · rw [if_neg hb] at h
      simp at h
      subst h
      simpa using hb

theorem prefixHead_eq (t d : List Char) (h : t <+: d) :
    ∀ a, t.head? = some a → d.head? = some a := by
  obtain ⟨s, hs⟩ := h
  intro a ha
  cases t with
  | nil => simp at ha
  | cons b t2 =>
    simp at ha
    subst ha
    rw [← hs]
    rfl

theorem trimSpace_idem (s : String) : trimSpace (trimSpace s) = trimSpace s := by
  unfold trimSpace
  simp only
  set d := s.data.dropWhile isSpace with hd
  set r := d.reverse.dropWhile isSpace with hr
  have hpre : r.reverse <+: d := by
    have : r <:+ d.reverse := List.dropWhile_suffix isSpace
    have h2 := List.reverse_prefix.mpr this
    simpa using h2
  have h1 : r.reverse.dropWhile isSpace = r.reverse := by
    apply dropWhile_eq_self_of_head
    intro a ha
    exact head_dropWhile_false isSpace s.data a (prefixHead_eq _ _ hpre a ha)
  have h2 : r.dropWhile isSpace = r := by
    apply dropWhile_eq_self_of_head
    exact head_dropWhile_false isSpace d.reverse
  rw [h1, List.reverse_reverse, h2]

theorem translateSimpleSelect_plain (tn : GoMap String → SelectStatement → Res String)
    (v0 : Visitor) (stmt : SelectStatement) (hw : stmt.withClause = none)
    (hs : stmt.setOps = []) :
    translateSimpleSelect tn v0 stmt =
      (processFrom tn (resetVisitor v0) stmt.fromClause >>= fun fr =>
        translateAfterFrom fr.2 stmt fr.1) := by
  unfold translateSimpleSelect
  rw [hw, hs]
  rfl

theorem translateSelect_plain (tn : GoMap String → SelectStatement → Res String)
    (v0 : Visitor) (stmt : SelectStatement) (hw : stmt.withClause = none)
    (hs : stmt.setOps = []) (jp : List String) (v1 : Visitor)
    (hf : processFrom tn (resetVisitor v0) stmt.fromClause = .ok (jp, v1)) :
    translateSelect tn v0 stmt = (translateAfterFrom v1 stmt jp).map (·.1) := by
  unfold translateSelect
  rw [hs, translateSimpleSelect_plain tn v0 stmt hw hs, hf]
  simp only [List.length_nil, beq_self_eq_true, if_true, bind_ok_eq]
  cases translateAfterFrom v1 stmt jp <;> rfl

theorem registerBinding_fields (v : Visitor) (a : String) (b : Bool) :
    (registerBinding v a b).baseFilter = v.baseFilter ∧
    (registerBinding v a b).baseUsesPipeline = v.baseUsesPipeline ∧
    (registerBinding v a b).basePipeline = v.basePipeline ∧
    (registerBinding v a b).filterOrder = v.filterOrder ∧
    (registerBinding v a b).filterDelete = v.filterDelete ∧
    (registerBinding v a b).pendingLeftFilter = v.pendingLeftFilter ∧
    (registerBinding v a b).baseAlias = v.baseAlias ∧
    (registerBinding v a b).aggResults = v.aggResults ∧
    (registerBinding v a b).filterComputations = v.filterComputations := by
  by_cases h : (toLower a == "") = true <;> simp [registerBinding, h]

theorem translateFilterList_nil (v : Visitor) : translateFilterList v [] = .ok ([], v) := rfl

theorem collectFilterPrefilters_nil (v : Visitor) (h : v.filterOrder = []) :
    collectFilterPrefilters v = [] := by
  simp [collectFilterPrefilters, h]

theorem collectFilterCleanup_nil (v : Visitor) (h : v.filterDelete = []) :
    collectFilterCleanup v = [] := by
  simp [collectFilterCleanup, h]

theorem buildStatsPipe_star (v : Visitor) (w : Option WithClause) (d : Bool) (colAlias : String)
    (f : Option TableExpr) (wh : Option Expr) (o : List OrderItem) (l : Option LimitClause)
    (ops : List SetOp) :
    buildStatsPipe v (.mk w d [{ expr := .starExpr, aliasName := colAlias }] f wh [] none o l ops)
      none = .ok ([], false, { v with groupExprAliases := none }) := by
  simp [buildStatsPipe, SelectStatement.groupBy, SelectStatement.columns, groupByStage,
    statsColumnsLoop, statsAfterColumns, bind, Except.bind]

theorem depth_eq_succ (s : SelectStatement) : s.depth = (s.depth - 1) + 1 := by
  cases s
  simp only [SelectStatement.depth]
  omega

theorem translate_select_unfold (sp : Provider) (ctes : GoMap String) (s : SelectStatement) :
    translateSelectStatementToLogsQLWithContext sp (some (.select s)) ctes =
      translateSelect (translateNestedFuel sp (s.depth - 1)) (newVisitor sp ctes) s := by
  show translateNestedFuel sp s.depth ctes s = _
  rw [depth_eq_succ s]
  rfl

theorem translateAfterFrom_star (v1 : Visitor) (w : Option WithClause)
    (colAlias : String) (f : Option TableExpr) (ops : List SetOp)
    (hpl : v1.pendingLeftFilter = []) :
    (translateAfterFrom v1
      (.mk w false [{ expr := .starExpr, aliasName := colAlias }] f none [] none [] none ops)
      []).map (·.1) =
      .ok (renderPipeline (sourceOf v1 (combineFilters (allFilters v1 [])))
        (filterPipesOf v1 (combineFilters (allFilters v1 [])))) := by
  unfold translateAfterFrom
  simp only [SelectStatement.whereClause, Option.toList, translateFilterList_nil, bind_ok_eq, hpl]
  simp only [SelectStatement.having, SelectStatement.orderBy, SelectStatement.columns,
    SelectStatement.distinct, SelectStatement.limit, buildStatsPipe_star, bind_ok_eq]
  simp only [translateHaving, buildProjectionPipes, isSelectStar, distinctPipesOf, orderPipesOf,
    limitPipesOf, bind_ok_eq, if_true, List.length_nil, gt_iff_lt, lt_self_iff_false,
    if_false, List.append_nil, Bool.false_eq_true]
  rfl

/-- C2: for `SELECT * FROM N` with no other clause, where `N` is neither a CTE
nor a view and the table store maps the lower-cased name to `S`, the
translation is `*` when `S` trimmed is empty or `*`, and `S` trimmed otherwise
(whether or not it contains a pipe); nothing is appended. -/
theorem select_star_translation (sp : Provider) (ctes : GoMap String) (parts : List String)
    (tableAlias colAlias S : String)
    (hparts : parts ≠ [])
    (hcte : ctes.get (toLower (lastPart parts)) = none)
    (hview : ∀ load, sp.viewStore = some load → ∃ q d, load parts = .ok (q, d, false))
    (htable : sp.getTableQuery (toLower (lastPart parts)) = some S) :
    translateSelectStatementToLogsQLWithContext sp
      (some (.select (.mk none false [{ expr := .starExpr, aliasName := colAlias }]
        (some (.tableName (some parts) tableAlias)) none [] none [] none []))) ctes =
      .ok (if trimSpace S = "" ∨ trimSpace S = "*" then "*" else trimSpace S) := by
  have hres : resolveTableName (newVisitor sp ctes) parts "table" =
      .ok (.table (newTableSpec S)) := by
    unfold resolveTableName
    simp only [newVisitor, hcte, lookupTableSpec, htable]
    cases hv : sp.viewStore with
    | none => rfl
    | some load =>
      obtain ⟨q, d, hl⟩ := hview load hv
      simp [hl]
  have hpe : parts.isEmpty = false := by
    cases parts with
    | nil => exact absurd rfl hparts
    | cons a t => rfl
  have hreg : ∃ v1, registerBaseTable (newVisitor sp ctes) (some parts) tableAlias = .ok v1 ∧
      v1.baseFilter = (newTableSpec S).filter ∧
      v1.baseUsesPipeline = ((newTableSpec S).pipeline != "") ∧
      v1.basePipeline = (newTableSpec S).pipeline ∧
      v1.filterOrder = [] ∧ v1.filterDelete = [] ∧ v1.pendingLeftFilter = [] := by
    unfold registerBaseTable
    simp only [hpe, hres, bind_ok_eq]
    have hb : (newVisitor sp ctes).baseAlias = "" := rfl
    simp only [hb, bne_self_eq_false, Bool.false_and, Bool.false_eq_true, if_false]
    refine ⟨_, rfl, ?_⟩
    simp [registerBinding_fields, newVisitor]
  obtain ⟨v1, hv1, hbf, hbu, hbp, hfo, hfd, hpl⟩ := hreg
  have hfrom : ∀ tn, processFrom tn (resetVisitor (newVisitor sp ctes))
      (SelectStatement.mk none false [{ expr := .starExpr, aliasName := colAlias }]
        (some (.tableName (some parts) tableAlias)) none [] none [] none []).fromClause =
      .ok ([], v1) := by
    intro tn
    show (registerBaseTable (newVisitor sp ctes) (some parts) tableAlias >>= fun v1 =>
      Except.ok ([], v1)) = _
    rw [hv1]
    rfl
  rw [translate_select_unfold,
    translateSelect_plain _ (newVisitor sp ctes)
      (SelectStatement.mk none false [{ expr := .starExpr, aliasName := colAlias }]
        (some (.tableName (some parts) tableAlias)) none [] none [] none []) rfl rfl [] v1
      (hfrom _),
    translateAfterFrom_star v1 none colAlias _ [] hpl]
  have hpre : collectFilterPrefilters v1 = [] := collectFilterPrefilters_nil v1 hfo
  have hclean : collectFilterCleanup v1 = [] := collectFilterCleanup_nil v1 hfd
  congr 1
  unfold sourceOf filterPipesOf needsFilterPipeline allFilters
  rw [hpre, hclean, hbf, hbu, hbp]
  unfold newTableSpec
  by_cases h1 : trimSpace S = "" ∨ trimSpace S = "*"
  · have h1b : (trimSpace S == "" || trimSpace S == "*") = true := by
      simpa using h1
    simp only [h1b, if_true, h1]
    decide
  · have h1b : (trimSpace S == "" || trimSpace S == "*") = false := by
      simpa using h1
    simp only [h1b, h1, if_false, Bool.false_eq_true]
    by_cases h2 : containsPipe (trimSpace S) = true
    · have hne : trimSpace S ≠ "" := fun h => h1 (Or.inl h)
      have hte : trimSpace "" = "" := by decide
      simp [h2, hne, hte, renderPipeline, combineFilters]
    · have hne : trimSpace S ≠ "" := fun h => h1 (Or.inl h)
      have hns : trimSpace S ≠ "*" := fun h => h1 (Or.inr h)
      simp [h2, hne, hns, trimSpace_idem, renderPipeline, combineFilters]

theorem select_star_translation_witness :
    translateSelectStatementToLogsQLWithContext exampleProvider
      (some (.select (.mk none false [{ expr := .starExpr, aliasName := "" }]
        (some (.tableName (some ["p"]) "")) none [] none [] none []))) [] =
      .ok "x:y | fields z" :=
  select_star_translation exampleProvider [] ["p"] "" "" " x:y | fields z " (by decide) rfl
    (fun _ h => absurd h (by simp [exampleProvider])) rfl

/-- C1 (counterexample): scenarios S2, S6 and S7 translate to the WHERE
translation as source followed by the `fields` pipe; there is no `*` source and
no `filter` pipe. -/
theorem where_scenarios_have_no_filter_pipe :
    translateSelectStatementToLogsQL (some (.select scenarioS2)) exampleProvider
      = .ok "level:ERROR | fields msg" ∧
    translateSelectStatementToLogsQL (some (.select scenarioS2)) exampleProvider
      ≠ .ok "* | filter level:ERROR | fields msg" ∧
    translateSelectStatementToLogsQL (some (.select scenarioS6)) exampleProvider
      = .ok "x:foo* | fields x" ∧
    translateSelectStatementToLogsQL (some (.select scenarioS7)) exampleProvider
      = .ok "a:[1, 10] | fields a" := by
  decide

theorem walkExpr_head (e : Expr) : ∃ t, walkExpr e = e :: t := by
  cases e <;> simp [walkExpr]

theorem usesNoFunction_not_call (e : Expr) (h : usesNoFunction e = true) :
    isFuncCall e = false := by
  obtain ⟨t, ht⟩ := walkExpr_head e
  unfold usesNoFunction at h
  rw [ht] at h
  simp at h
  exact h.1

theorem fieldNameFromExpr_state (v v1 : Visitor) (e : Expr) (n : String) (b : Bool)
    (hc : isFuncCall e = false) (h : fieldNameFromExpr v e = .ok (n, b, v1)) : v1 = v := by
  cases e <;> simp [fieldNameFromExpr, isFuncCall] at h hc
  case identifier parts =>
    cases hn : normalizeIdentifier v parts with
    | error err => simp [hn, bind, Except.bind] at h
    | ok name =>
      simp [hn, bind, Except.bind] at h
      exact h.2.2.symm
  all_goals exact h.2.2.symm
theorem filterFieldFromExpr_state (v v1 : Visitor) (e : Expr) (n : String)
    (hc : isFuncCall e = false) (h : filterFieldFromExpr v e = .ok (n, v1)) : v1 = v := by
  unfold filterFieldFromExpr at h
  cases hf : fieldNameFromExpr v e with
  | error err => simp [hf, bind, Except.bind] at h
  | ok r =>
    obtain ⟨n1, b1, v2⟩ := r
    have hv := fieldNameFromExpr_state v v2 e n1 b1 hc hf
    simp only [hf, bind, Except.bind] at h
    split at h
    · simp [badRequest] at h
    · simp at h
      rw [← h.2, hv]

theorem translateComparison_state (v v1 : Visitor) (l r : Expr) (cmp : ComparisonKind)
    (w : String) (hl : isFuncCall l = false) (hr : isFuncCall r = false)
    (h : translateComparison v l r cmp = .ok (w, v1)) : v1 = v := by
  unfold translateComparison at h
  cases hf : fieldNameFromExpr v l with
  | error err => simp [hf, bind, Except.bind] at h
  | ok a =>
    obtain ⟨n1, b1, v2⟩ := a
    have hv2 := fieldNameFromExpr_state v v2 l n1 b1 hl hf
    subst hv2
    simp only [hf, bind, Except.bind] at h
    cases hg : fieldNameFromExpr v2 r with
    | error err => simp [hg] at h
    | ok c =>
      obtain ⟨n2, b2, v3⟩ := c
      have hv3 := fieldNameFromExpr_state v2 v3 r n2 b2 hr hg
      subst hv3
      simp only [hg] at h
      split at h
      · cases hx : translateFieldComparison n1 n2 cmp with
        | error err => simp [hx] at h
        | ok s => simp [hx] at h; exact h.2.symm
      · split at h
        · cases hx : literalFromExpr r with
          | error err => simp [hx] at h
          | ok lit =>
            simp only [hx] at h
            cases hy : buildFieldLiteralComparison n1 lit false cmp with
            | error err => simp [hy] at h
            | ok s => simp [hy] at h; exact h.2.symm
        · split at h
          · cases hx : literalFromExpr l with
            | error err => simp [hx] at h
            | ok lit =>
              simp only [hx] at h
              cases hy : buildFieldLiteralComparison n2 lit true cmp with
              | error err => simp [hy] at h
              | ok s => simp [hy] at h; exact h.2.symm
          · simp [badRequest] at h
theorem bind_filterField_state (v v1 : Visitor) (e : Expr) (w : String)
    (k : String × Visitor → Res (String × Visitor))
    (hk : ∀ f res, k f = .ok res → res.2 = f.2)
    (hc : isFuncCall e = false)
    (h : (filterFieldFromExpr v e >>= k) = .ok (w, v1)) : v1 = v := by
  cases hf : filterFieldFromExpr v e with
  | error err => rw [hf] at h; exact absurd h (by simp [bind, Except.bind])
  | ok f =>
    rw [hf, bind_ok_eq] at h
    have := hk f (w, v1) h
    simp only at this
    rw [this]
    exact filterFieldFromExpr_state v f.2 e f.1 hc hf

theorem translateBetweenExpr_state (v v1 : Visitor) (e lo hi : Expr) (neg : Bool) (w : String)
    (hc : isFuncCall e = false) (h : translateBetweenExpr v e lo hi neg = .ok (w, v1)) :
    v1 = v := by
  unfold translateBetweenExpr at h
  refine bind_filterField_state v v1 e w _ ?_ hc h
  intro f res hres
  cases hlo : literalFromExpr lo with
  | error err => simp [hlo, bind, Except.bind] at hres
  | ok a =>
    cases hhi : literalFromExpr hi with
    | error err => simp [hlo, hhi, bind, Except.bind] at hres
    | ok b =>
      simp only [hlo, hhi, bind, Except.bind] at hres
      split at hres <;> (simp at hres; rw [← hres])

theorem translateInExpr_state (v v1 : Visitor) (e : Expr) (list : List Expr) (sub neg : Bool)
    (w : String) (hc : isFuncCall e = false)
    (h : translateInExpr v e list sub neg = .ok (w, v1)) : v1 = v := by
  unfold translateInExpr at h
  split at h
  · simp [badRequest] at h
  · refine bind_filterField_state v v1 e w _ ?_ hc h
    intro f res hres
    split at hres
    · simp [badRequest] at hres
    · cases hl : formatInList list with
      | error err => simp [hl, bind, Except.bind] at hres
      | ok vals =>
        simp only [hl, bind, Except.bind] at hres
        split at hres <;> (simp at hres; rw [← hres])

theorem translateLikeExpr_state (v v1 : Visitor) (e pat : Expr) (neg : Bool) (w : String)
    (hc : isFuncCall e = false) (h : translateLikeExpr v e pat neg = .ok (w, v1)) : v1 = v := by
  unfold translateLikeExpr at h
  refine bind_filterField_state v v1 e w _ ?_ hc h
  intro f res hres
  cases hl : literalFromExpr pat with
  | error err => simp [hl, bind, Except.bind] at hres
  | ok lit =>
    simp only [hl, bind, Except.bind] at hres
    split at hres
    · simp [badRequest] at hres
    · cases hp : convertLikePattern lit.value with
      | error err => simp [hp] at hres
      | ok t =>
        simp only [hp] at hres
        split at hres <;> (simp at hres; rw [← hres])

theorem translateIsNullExpr_state (v v1 : Visitor) (e : Expr) (neg : Bool) (w : String)
    (hc : isFuncCall e = false) (h : translateIsNullExpr v e neg = .ok (w, v1)) : v1 = v := by
  unfold translateIsNullExpr at h
  refine bind_filterField_state v v1 e w _ ?_ hc h
  intro f res hres
  split at hres <;> (simp at hres; rw [← hres])
theorem usesNoFunction_binary (op : String) (l r : Expr)
    (h : usesNoFunction (.binaryExpr op l r) = true) :
    usesNoFunction l = true ∧ usesNoFunction r = true := by
  unfold usesNoFunction at h ⊢
  simp only [walkExpr, List.all_cons, List.all_append, Bool.and_eq_true] at h
  exact ⟨h.2.1, h.2.2⟩

theorem usesNoFunction_unary (op : String) (e : Expr)
    (h : usesNoFunction (.unaryExpr op e) = true) : usesNoFunction e = true := by
  unfold usesNoFunction at h ⊢
  simp only [walkExpr, List.all_cons, Bool.and_eq_true] at h
  exact h.2

theorem usesNoFunction_in (e : Expr) (list : List Expr) (sub neg : Bool)
    (h : usesNoFunction (.inExpr e list sub neg) = true) : usesNoFunction e = true := by
  unfold usesNoFunction at h ⊢
  simp only [walkExpr, List.all_cons, List.all_append, Bool.and_eq_true] at h
  exact h.2.1.1

theorem usesNoFunction_between (e lo hi : Expr) (neg : Bool)
    (h : usesNoFunction (.betweenExpr e lo hi neg) = true) : usesNoFunction e = true := by
  unfold usesNoFunction at h ⊢
  simp only [walkExpr, List.all_cons, List.all_append, Bool.and_eq_true] at h
  exact h.2.1.1

theorem usesNoFunction_like (e pat : Expr) (neg : Bool)
    (h : usesNoFunction (.likeExpr e pat neg) = true) : usesNoFunction e = true := by
  unfold usesNoFunction at h ⊢
  simp only [walkExpr, List.all_cons, List.all_append, Bool.and_eq_true] at h
  exact h.2.1

theorem usesNoFunction_isNull (e : Expr) (neg : Bool)
    (h : usesNoFunction (.isNullExpr e neg) = true) : usesNoFunction e = true := by
  unfold usesNoFunction at h ⊢
  simp only [walkExpr, List.all_cons, Bool.and_eq_true] at h
  exact h.2

theorem translateExpr_state : ∀ (e : Expr) (v v1 : Visitor) (w : String),
    usesNoFunction e = true → translateExpr v e = .ok (w, v1) → v1 = v
  | .binaryExpr op l r, v, v1, w, hn, h => by
    obtain ⟨hl, hr⟩ := usesNoFunction_binary op l r hn
    have hcl := usesNoFunction_not_call l hl
    have hcr := usesNoFunction_not_call r hr
    unfold translateExpr at h
    split at h
    · cases hx : translateExpr v l with
      | error err => simp [hx, bind, Except.bind] at h
      | ok a =>
        obtain ⟨s1, v2⟩ := a
        have h2 := translateExpr_state l v v2 s1 hl hx
        subst h2
        simp only [hx, bind, Except.bind] at h
        cases hy : translateExpr v2 r with
        | error err => simp [hy] at h
        | ok b =>
          obtain ⟨s2, v3⟩ := b
          have h3 := translateExpr_state r v2 v3 s2 hr hy
          subst h3
          simp [hy] at h
          exact h.2.symm
    · repeat' split at h
      all_goals first
        | exact translateComparison_state v v1 l r _ w hcl hcr h
        | simp [badRequest] at h
  | .unaryExpr op e, v, v1, w, hn, h => by
    have he := usesNoFunction_unary op e hn
    unfold translateExpr at h
    split at h
    · cases hx : translateExpr v e with
      | error err => simp [hx, bind, Except.bind] at h
      | ok a =>
        obtain ⟨s1, v2⟩ := a
        have h2 := translateExpr_state e v v2 s1 he hx
        subst h2
        simp [hx, bind, Except.bind] at h
        exact h.2.symm
    · simp [badRequest] at h
  | .inExpr e list sub neg, v, v1, w, hn, h => by
    unfold translateExpr at h
    exact translateInExpr_state v v1 e list sub neg w
      (usesNoFunction_not_call e (usesNoFunction_in e list sub neg hn)) h
  | .likeExpr e pat neg, v, v1, w, hn, h => by
    unfold translateExpr at h
    exact translateLikeExpr_state v v1 e pat neg w
      (usesNoFunction_not_call e (usesNoFunction_like e pat neg hn)) h
  | .isNullExpr e neg, v, v1, w, hn, h => by
    unfold translateExpr at h
    exact translateIsNullExpr_state v v1 e neg w
      (usesNoFunction_not_call e (usesNoFunction_isNull e neg hn)) h
  | .betweenExpr e lo hi neg, v, v1, w, hn, h => by
    unfold translateExpr at h
    exact translateBetweenExpr_state v v1 e lo hi neg w
      (usesNoFunction_not_call e (usesNoFunction_between e lo hi neg hn)) h
  | .funcCall name args d o, v, v1, w, hn, h => by
    have := usesNoFunction_not_call _ hn
    simp [isFuncCall] at this
  | .identifier parts, v, v1, w, hn, h => by
    unfold translateExpr at h
    cases hx : normalizeIdentifier v parts with
    | error err => simp [hx, bind, Except.bind] at h
    | ok a => simp [hx, bind, Except.bind] at h; exact h.2.symm
  | .stringLiteral s, v, v1, w, hn, h => by
    simp [translateExpr] at h; exact h.2.symm
  | .numericLiteral s, v, v1, w, hn, h => by
    simp [translateExpr] at h; exact h.2.symm
  | .booleanLiteral b, v, v1, w, hn, h => by
    simp [translateExpr] at h; exact h.2.symm
  | .nullLiteral, v, v1, w, hn, h => by
    simp [translateExpr, badRequest] at h
  | .starExpr, v, v1, w, hn, h => by
    simp [translateExpr, badRequest] at h
  | .other t, v, v1, w, hn, h => by
    simp [translateExpr, badRequest] at h

theorem resolveTableName_configured (sp : Provider) (ctes : GoMap String) (parts : List String)
    (S : String)
    (hcte : ctes.get (toLower (lastPart parts)) = none)
    (hview : ∀ load, sp.viewStore = some load → ∃ q d, load parts = .ok (q, d, false))
    (htable : sp.getTableQuery (toLower (lastPart parts)) = some S) :
    resolveTableName (newVisitor sp ctes) parts "table" = .ok (.table (newTableSpec S)) := by
  unfold resolveTableName
  simp only [newVisitor, hcte, lookupTableSpec, htable]
  cases hv : sp.viewStore with
  | none => rfl
  | some load =>
    obtain ⟨q, d, hl⟩ := hview load hv
    simp [hl]

theorem registerBaseTable_configured (sp : Provider) (ctes : GoMap String)
    (parts : List String) (tableAlias S : String) (v1 : Visitor)
    (hparts : parts ≠ [])
    (hcte : ctes.get (toLower (lastPart parts)) = none)
    (hview : ∀ load, sp.viewStore = some load → ∃ q d, load parts = .ok (q, d, false))
    (htable : sp.getTableQuery (toLower (lastPart parts)) = some S)
    (hv1 : registerBaseTable (newVisitor sp ctes) (some parts) tableAlias = .ok v1) :
    v1.baseFilter = (newTableSpec S).filter ∧
    v1.baseUsesPipeline = ((newTableSpec S).pipeline != "") ∧
    v1.basePipeline = (newTableSpec S).pipeline ∧
    v1.filterOrder = [] ∧ v1.filterDelete = [] ∧ v1.pendingLeftFilter = [] := by
  have hres := resolveTableName_configured sp ctes parts S hcte hview htable
  have hpe : parts.isEmpty = false := by
    cases parts with
    | nil => exact absurd rfl hparts
    | cons a t => rfl
  unfold registerBaseTable at hv1
  simp only [hpe, hres, bind_ok_eq] at hv1
  have hb : (newVisitor sp ctes).baseAlias = "" := rfl
  simp only [hb, bne_self_eq_false, Bool.false_and, Bool.false_eq_true, if_false] at hv1
  injection hv1 with hv1
  subst hv1
  simp [registerBinding_fields, newVisitor]

theorem statsColumnsLoop_plain (v : Visitor) (n : Nat) (gf : List String) (aggs : List AggItem)
    (cols : List (List String)) :
    statsColumnsLoop false n gf v aggs (cols.map plainColumn) = .ok (some (aggs, v)) := by
  induction cols with
  | nil => rfl
  | cons c rest ih =>
    simp only [List.map_cons, statsColumnsLoop, plainColumn]
    simpa [plainColumn] using ih

theorem buildStatsPipe_plain (v : Visitor) (cols : List (List String)) (f : TableExpr)
    (wh : Option Expr) :
    buildStatsPipe v (simpleSelect (cols.map plainColumn) f wh) none =
      .ok ([], false, { v with groupExprAliases := none }) := by
  simp [buildStatsPipe, simpleSelect, SelectStatement.groupBy, SelectStatement.columns,
    groupByStage, statsColumnsLoop_plain, statsAfterColumns, havingAggregates, finishStatsPipe,
    bind, Except.bind]

theorem normalizeIdentifier_congr (v v1 : Visitor) (hb : v1.bindings = v.bindings)
    (parts : List String) : normalizeIdentifier v1 parts = normalizeIdentifier v parts := by
  unfold normalizeIdentifier stripQualifier
  rw [hb]

theorem projectColumns_plain (v : Visitor) :
    ∀ (cols : List (List String)) (acc : ProjectionAcc) (fields : List String),
    (∀ c ∈ cols, isCurrentTimeColumn c = false) →
    normalizeColumns v cols = .ok fields →
    projectColumns false v acc (cols.map plainColumn) =
      .ok ({ acc with fields := acc.fields ++ fields }, v)
  | [], acc, fields, _, h => by
    simp [normalizeColumns] at h
    subst h
    simp [projectColumns]
  | c :: rest, acc, fields, hp, h => by
    have hc : isCurrentTimeColumn c = false := hp c (by simp)
    unfold isCurrentTimeColumn at hc
    unfold normalizeColumns at h
    cases hn : normalizeIdentifier v c with
    | error err => simp [hn, bind, Except.bind] at h
    | ok field =>
      simp only [hn, bind_ok_eq] at h
      cases hr : normalizeColumns v rest with
      | error err => simp [hr, bind, Except.bind] at h
      | ok fs =>
        simp only [hr, bind_ok_eq] at h
        injection h with h
        subst h
        have ih := projectColumns_plain v rest { acc with fields := acc.fields ++ [field] } fs
          (fun c hc => hp c (by simp [hc])) hr
        have hte : trimSpace "" = "" := by decide
        simp only [List.map_cons, projectColumns, projectColumn, plainColumn, hc, hn, bind_ok_eq,
          hte]
        simp only [plainColumn] at ih
        simp only [Bool.false_eq_true, if_false, bne_self_eq_false, bind_ok_eq, ih,
          List.append_assoc, List.singleton_append]

theorem translateFilterList_single (v1 : Visitor) (W : Expr) (w : String)
    (hnf : usesNoFunction W = true)
    (hal : ensureBaseAliasesOnly v1 W = .ok ())
    (hW : (translateExpr v1 W).map (·.1) = .ok w) :
    translateFilterList v1 [W] = .ok ([w], v1) := by
  cases hx : translateExpr v1 W with
  | error err => rw [hx] at hW; simp [Except.map] at hW
  | ok a =>
    obtain ⟨s, v2⟩ := a
    have hv := translateExpr_state W v1 v2 s hnf hx
    subst hv
    rw [hx] at hW
    simp [Except.map] at hW
    subst hW
    simp [translateFilterList, hal, hx, bind, Except.bind]

theorem isSelectStar_plain (cols : List (List String)) :
    isSelectStar (cols.map plainColumn) = false := by
  cases cols with
  | nil => rfl
  | cons c rest =>
    cases rest with
    | nil => rfl
    | cons d r => rfl

theorem normalizeColumns_congr (v v1 : Visitor) (hb : v1.bindings = v.bindings)
    (cols : List (List String)) : normalizeColumns v1 cols = normalizeColumns v cols := by
  induction cols with
  | nil => rfl
  | cons c rest ih =>
    simp only [normalizeColumns]
    rw [ih, normalizeIdentifier_congr v v1 hb]

theorem normalizeColumns_ne_nil (v : Visitor) (cols : List (List String)) (fields : List String)
    (hcols : cols ≠ []) (h : normalizeColumns v cols = .ok fields) : fields ≠ [] := by
  intro hf
  subst hf
  cases cols with
  | nil => exact hcols rfl
  | cons c rest =>
    unfold normalizeColumns at h
    cases hn : normalizeIdentifier v c with
    | error err => simp [hn, bind, Except.bind] at h
    | ok f =>
      cases hr : normalizeColumns v rest with
      | error err => simp [hn, hr, bind, Except.bind] at h
      | ok fs => simp [hn, hr, bind, Except.bind] at h

/-- C1 (as amended): for every SELECT of plain identifier columns from a table
configured as `*`, with a WHERE clause `W` that uses no function call,
references only the base alias and translates to `w`, the translation is
`w | fields <columns>`: the translated WHERE clause is the source of the
pipeline, and no `filter` pipe is emitted. -/
theorem where_translation_is_source (sp : Provider) (ctes : GoMap String)
    (parts : List String) (tableAlias : String) (cols : List (List String)) (W : Expr)
    (w : String) (fields : List String) (v1 : Visitor)
    (hparts : parts ≠ [])
    (hcte : ctes.get (toLower (lastPart parts)) = none)
    (hview : ∀ load, sp.viewStore = some load → ∃ q d, load parts = .ok (q, d, false))
    (htable : sp.getTableQuery (toLower (lastPart parts)) = some "*")
    (hv1 : registerBaseTable (newVisitor sp ctes) (some parts) tableAlias = .ok v1)
    (hcols : cols ≠ [])
    (hplain : ∀ c ∈ cols, isCurrentTimeColumn c = false)
    (hnf : usesNoFunction W = true)
    (hal : ensureBaseAliasesOnly v1 W = .ok ())
    (hW : (translateExpr v1 W).map (·.1) = .ok w)
    (hfields : normalizeColumns v1 cols = .ok fields) :
    translateSelectStatementToLogsQLWithContext sp
      (some (.select (simpleSelect (cols.map plainColumn) (.tableName (some parts) tableAlias)
        (some W)))) ctes =
      .ok (w ++ " | fields " ++ stringsJoin fields ", ") := by
  obtain ⟨hbf, hbu, hbp, hfo, hfd, hpl⟩ :=
    registerBaseTable_configured sp ctes parts tableAlias "*" v1 hparts hcte hview htable hv1
  have hfrom : ∀ tn, processFrom tn (resetVisitor (newVisitor sp ctes))
      (simpleSelect (cols.map plainColumn) (.tableName (some parts) tableAlias)
        (some W)).fromClause = .ok ([], v1) := by
    intro tn
    show (registerBaseTable (newVisitor sp ctes) (some parts) tableAlias >>= fun v1 =>
      Except.ok ([], v1)) = _
    rw [hv1]
    rfl
  rw [translate_select_unfold,
    translateSelect_plain _ (newVisitor sp ctes)
      (simpleSelect (cols.map plainColumn) (.tableName (some parts) tableAlias) (some W))
      rfl rfl [] v1 (hfrom _)]
  have hpre : collectFilterPrefilters v1 = [] := collectFilterPrefilters_nil v1 hfo
  have hclean : collectFilterCleanup v1 = [] := collectFilterCleanup_nil v1 hfd
  have hproj : normalizeColumns { v1 with groupExprAliases := none } cols = .ok fields := by
    rw [normalizeColumns_congr v1 { v1 with groupExprAliases := none } rfl]
    exact hfields
  have hfne : fields ≠ [] := normalizeColumns_ne_nil v1 cols fields hcols hfields
  unfold translateAfterFrom
  have hwc : (simpleSelect (cols.map plainColumn) (.tableName (some parts) tableAlias)
      (some W)).whereClause.toList = [W] := rfl
  rw [hwc, translateFilterList_single v1 W w hnf hal hW]
  simp only [bind_ok_eq, hpl, translateFilterList_nil]
  have hhav : (simpleSelect (cols.map plainColumn) (.tableName (some parts) tableAlias)
      (some W)).having = none := rfl
  have hord : (simpleSelect (cols.map plainColumn) (.tableName (some parts) tableAlias)
      (some W)).orderBy = [] := rfl
  have hcl : (simpleSelect (cols.map plainColumn) (.tableName (some parts) tableAlias)
      (some W)).columns = cols.map plainColumn := rfl
  have hdi : (simpleSelect (cols.map plainColumn) (.tableName (some parts) tableAlias)
      (some W)).distinct = false := rfl
  have hli : (simpleSelect (cols.map plainColumn) (.tableName (some parts) tableAlias)
      (some W)).limit = none := rfl
  rw [hhav, hord, hcl, hdi, hli, buildStatsPipe_plain]
  simp only [bind_ok_eq, translateHaving, buildProjectionPipes, isSelectStar_plain,
    Bool.false_eq_true, if_false,
    projectColumns_plain _ cols _ fields hplain hproj, distinctPipesOf, orderPipesOf,
    limitPipesOf, List.length_nil, gt_iff_lt, lt_self_iff_false, List.append_nil,
    List.nil_append]
  have hlen : 0 < fields.length := List.length_pos.mpr hfne
  have hts : trimSpace "*" = "*" := by decide
  have hspec : newTableSpec "*" = { filter := "*", pipeline := "" } := by decide
  rw [hspec] at hbf hbu hbp
  have hbu2 : v1.baseUsesPipeline = false := by rw [hbu]; decide
  simp only [Except.map, sourceOf, filterPipesOf, needsFilterPipeline, allFilters, hpre, hbf,
    hbu2, hts, combineFilters, hlen, renderPipeline]
  simp only [String.append_assoc, List.length_singleton, beq_self_eq_true, if_true, List.headD,
    List.length_cons, List.length_nil, Bool.not_false, Bool.and_true, decide_True,
    List.nil_append, stringsJoin, Bool.false_eq_true, if_false, bne_self_eq_false,
    Bool.false_and, Nat.lt_irrefl, decide_False, Bool.or_self, List.append_nil]
  congr 1

theorem where_translation_is_source_witness :
    translateSelectStatementToLogsQLWithContext exampleProvider
      (some (.select (simpleSelect ([["msg"], ["host"]].map plainColumn)
        (.tableName (some ["logs"]) "l")
        (some (.binaryExpr "AND"
          (.binaryExpr "=" (.identifier ["l", "level"]) (.stringLiteral "ERROR"))
          (.unaryExpr "NOT" (.likeExpr (.identifier ["msg"]) (.stringLiteral "%x%") false))))))) [] =
      .ok ("(level:ERROR AND -(msg:*x*))" ++ " | fields " ++ stringsJoin ["msg", "host"] ", ") :=
  where_translation_is_source exampleProvider [] ["logs"] "l" [["msg"], ["host"]] _ _ _
    (registerBinding (registerBinding
      { newVisitor exampleProvider [] with baseAlias := "l", baseFilter := "*" } "l" true)
      "logs" true)
    (by decide) rfl (fun _ h => absurd h (by simp [exampleProvider])) rfl rfl (by decide)
    (by decide) (by decide) (by decide) (by decide) (by decide)

/-- C4 (counterexample): translating scenario S4 fails with a 400 error,
because the WHERE clause references the right-hand alias `b`; the same
conjunct placed in the ON clause is accepted and becomes the filter of the
right-hand query. -/
theorem where_on_right_alias_fails :
    translateSelectStatementToLogsQL (some (.select scenarioS4)) exampleProvider =
      .error (.translation 400
        "translator: expression references unsupported alias \"b\"") ∧
    translateSelectStatementToLogsQL (some (.select scenarioS4InOn)) exampleProvider =
      .ok "active:true | join by (id) (kind:x) | fields name" := by
  decide

theorem firstForeignAlias_some (allowed : List String) :
    ∀ (l : List String) (a : String), a ∈ l → a ≠ "" → a ∉ allowed →
      ∃ b, firstForeignAlias allowed l = some b
  | [], a, h, _, _ => by simp at h
  | x :: rest, a, h, hne, hna => by
    unfold firstForeignAlias
    by_cases hx : x = ""
    · subst hx
      have hmem : a ∈ rest := by
        rcases List.mem_cons.mp h with h1 | h1
        · exact absurd h1 hne
        · exact h1
      simpa using firstForeignAlias_some allowed rest a hmem hne hna
    · by_cases hxa : x ∈ allowed
      · have hmem : a ∈ rest := by
          rcases List.mem_cons.mp h with h1 | h1
          · subst h1; exact absurd hxa hna
          · exact h1
        simpa [hx, hxa] using firstForeignAlias_some allowed rest a hmem hne hna
      · exact ⟨x, by simp [hx, hxa]⟩

theorem ensureBaseAliasesOnly_rejects (v : Visitor) (W : Expr) (a : String)
    (ha : a ∈ aliasesForExprWithDefault v W v.baseAlias) (hne : a ≠ v.baseAlias) :
    ∃ b, ensureBaseAliasesOnly v W = .error (.translation 400
      ("translator: expression references unsupported alias " ++ fmtQ b)) := by
  unfold ensureBaseAliasesOnly ensureAliases
  have hne2 : a ≠ "" := by
    unfold aliasesForExprWithDefault at ha
    simpa using (List.mem_filter.mp ha).2
  obtain ⟨b, hb⟩ := firstForeignAlias_some [v.baseAlias]
    (aliasesForExprWithDefault v W v.baseAlias) a ha hne2 (by simpa using hne)
  exact ⟨b, by simp only [hb]; rfl⟩

/-- C4 (as amended): a WHERE clause that references an alias other than the
base alias, such as the right-hand alias of a join, is rejected: the
translation fails with the 400 error `expression references unsupported
alias`. -/
theorem where_foreign_alias_rejected (tn : GoMap String → SelectStatement → Res String)
    (v0 v1 : Visitor) (stmt : SelectStatement) (joinPipes : List String) (W : Expr) (a : String)
    (hw : stmt.withClause = none) (hs : stmt.setOps = [])
    (hfrom : processFrom tn (resetVisitor v0) stmt.fromClause = .ok (joinPipes, v1))
    (hW : stmt.whereClause = some W)
    (ha : a ∈ aliasesForExprWithDefault v1 W v1.baseAlias) (hne : a ≠ v1.baseAlias) :
    ∃ b, translateSelect tn v0 stmt = .error (.translation 400
      ("translator: expression references unsupported alias " ++ fmtQ b)) := by
  obtain ⟨b, hb⟩ := ensureBaseAliasesOnly_rejects v1 W a ha hne
  refine ⟨b, ?_⟩
  rw [translateSelect_plain tn v0 stmt hw hs joinPipes v1 hfrom]
  unfold translateAfterFrom
  rw [hW]
  simp only [Option.toList, translateFilterList, hb, bind_error_eq]
  rfl

theorem where_foreign_alias_rejected_witness :
    ∃ b, translateSelect (translateNestedFuel exampleProvider 0) (newVisitor exampleProvider [])
      scenarioS4 = .error (.translation 400
        ("translator: expression references unsupported alias " ++ fmtQ b)) :=
  where_foreign_alias_rejected _ _
    (registerBinding (registerBinding (registerBinding (registerBinding
      { newVisitor exampleProvider [] with baseAlias := "a", baseFilter := "*" } "a" true)
      "a" true) "b" false) "b" false)
    scenarioS4 ["join by (id) (*)"] _ "b" rfl rfl rfl rfl (by decide) (by decide)

theorem GoMap.has_set_self {α : Type} (m : GoMap α) (k : String) (a : α) :
    (GoMap.set m k a).has k = true := by
  induction m with
  | nil => simp [GoMap.set, GoMap.has, List.lookup]
  | cons p rest ih =>
    obtain ⟨k0, v0⟩ := p
    unfold GoMap.set
    by_cases h : k0 = k
    · subst h
      simp [GoMap.has, List.lookup]
    · have h2 : (k == k0) = false := by simpa using fun h3 => h h3.symm
      simp only [beq_iff_eq, h, if_false]
      simp only [GoMap.has, List.lookup, h2]
      exact ih

theorem GoMap.has_set_of_has {α : Type} (m : GoMap α) (k x : String) (a : α)
    (h : m.has x = true) : (GoMap.set m k a).has x = true := by
  induction m with
  | nil => simp [GoMap.has, List.lookup] at h
  | cons p rest ih =>
    obtain ⟨k0, v0⟩ := p
    unfold GoMap.set
    by_cases hk : k0 = k
    · subst hk
      simp only [beq_self_eq_true, if_true]
      by_cases hx : x = k0
      · subst hx
        simp [GoMap.has, List.lookup]
      · have hx2 : (x == k0) = false := by simpa using hx
        simp only [GoMap.has, List.lookup, hx2] at h ⊢
        exact h
    · simp only [beq_iff_eq, hk, if_false]
      by_cases hx : x = k0
      · subst hx
        simp [GoMap.has, List.lookup]
      · have hx2 : (x == k0) = false := by simpa using hx
        simp only [GoMap.has, List.lookup, hx2] at h ⊢
        exact ih h

theorem lowerChar_idem (c : Char) : lowerChar (lowerChar c) = lowerChar c := by
  unfold lowerChar
  by_cases h : 65 ≤ c.toNat ∧ c.toNat ≤ 90
  · have hv : (Char.ofNat (c.toNat + 32)).toNat = c.toNat + 32 := by
      have hvalid : (c.toNat + 32).isValidChar := by
        left
        omega
      unfold Char.ofNat
      rw [dif_pos hvalid]
      rfl
    rw [if_pos h]
    have : ¬ (65 ≤ (Char.ofNat (c.toNat + 32)).toNat ∧ (Char.ofNat (c.toNat + 32)).toNat ≤ 90) := by
      rw [hv]
      omega
    rw [if_neg this]
  · rw [if_neg h, if_neg h]

theorem toLower_idem (s : String) : toLower (toLower s) = toLower s := by
  unfold toLower
  simp [List.map_map, Function.comp_def, lowerChar_idem]

theorem registerBinding_has_self (v : Visitor) (a : String) (b : Bool) (h : toLower a ≠ "") :
    (registerBinding v a b).bindings.has (toLower a) = true := by
  simp only [registerBinding]
  have h2 : (toLower a == "") = false := by simpa using h
  simp only [h2, Bool.false_eq_true, if_false]
  exact GoMap.has_set_self _ _ _

theorem registerBinding_has_mono (v : Visitor) (a x : String) (b : Bool)
    (h : v.bindings.has x = true) : (registerBinding v a b).bindings.has x = true := by
  simp only [registerBinding]
  split
  · exact h
  · exact GoMap.has_set_of_has _ _ _ _ h

theorem normalizeIdentifier_qualified (v : Visitor) (q k : String)
    (hq : v.bindings.has (toLower q) = true) :
    normalizeIdentifier v [q, k] = normalizeIdentifier v [k] := by
  simp [normalizeIdentifier, stripQualifier, hq]

theorem qualifier_bound (v : Visitor) (q k fallback : String)
    (hq : v.bindings.has (toLower q) = true) :
    qualifierForIdentifierWithDefault v [q, k] fallback = toLower q := by
  simp [qualifierForIdentifierWithDefault, hq]

theorem joinKeyField_qualified (v : Visitor) (q1 q2 k : String)
    (h1 : v.bindings.has (toLower q1) = true) (h2 : v.bindings.has (toLower q2) = true) :
    joinKeyField v [q1, k] [q2, k] = normalizeIdentifier v [k] := by
  unfold joinKeyField
  rw [normalizeIdentifier_qualified v q1 k h1, normalizeIdentifier_qualified v q2 k h2]
  cases hn : normalizeIdentifier v [k] with
  | error err => rfl
  | ok f => simp [bind, Except.bind]

theorem classifyConjunct_equi (v : Visitor) (rightAlias q1 q2 k : String)
    (h1 : v.bindings.has (toLower q1) = true) (h2 : v.bindings.has (toLower q2) = true)
    (hq : (toLower q1 = v.baseAlias ∧ toLower q2 = rightAlias) ∨
          (toLower q1 = rightAlias ∧ toLower q2 = v.baseAlias)) :
    classifyConjunct v rightAlias (.binaryExpr "=" (.identifier [q1, k]) (.identifier [q2, k])) =
      (normalizeIdentifier v [k] >>= fun field => .ok (.key field)) := by
  unfold classifyConjunct
  simp only [beq_self_eq_true, if_true, qualifier_bound v q1 k _ h1, qualifier_bound v q2 k _ h2,
    joinKeyField_qualified v q1 q2 k h1 h2]
  rcases hq with ⟨ha, hb⟩ | ⟨ha, hb⟩
  · simp [ha, hb]
  · by_cases hab : rightAlias = v.baseAlias
    · simp [ha, hb, hab]
    · have h3 : (rightAlias == v.baseAlias) = false := by simpa using hab
      simp [ha, hb, h3]

theorem extractJoinSpec_equi (v : Visitor) (rightAlias q1 q2 k : String)
    (h1 : v.bindings.has (toLower q1) = true) (h2 : v.bindings.has (toLower q2) = true)
    (hq : (toLower q1 = v.baseAlias ∧ toLower q2 = rightAlias) ∨
          (toLower q1 = rightAlias ∧ toLower q2 = v.baseAlias)) :
    extractJoinSpec v (some (.binaryExpr "=" (.identifier [q1, k]) (.identifier [q2, k])))
      rightAlias =
      (normalizeIdentifier v [k] >>= fun field =>
        .ok { joinKeys := [field], leftFilters := [], rightFilters := [] }) := by
  have hne : ("=" == "AND") = false := by decide
  simp only [extractJoinSpec, flattenAnd, hne, Bool.false_eq_true, if_false, extractJoinSpecLoop,
    classifyConjunct_equi v rightAlias q1 q2 k h1 h2 hq]
  cases normalizeIdentifier v [k] with
  | error err => rfl
  | ok f => rfl

theorem planJoin_equi_symm (v : Visitor) (type : JoinType) (jr : JoinRight) (a b k : String)
    (hbase : v.baseAlias = toLower a) (hright : jr.rightAlias = toLower b)
    (ha : v.bindings.has (toLower a) = true) (hb : v.bindings.has (toLower b) = true) :
    planJoin v type jr (some (.binaryExpr "=" (.identifier [a, k]) (.identifier [b, k]))) =
    planJoin v type jr (some (.binaryExpr "=" (.identifier [b, k]) (.identifier [a, k]))) := by
  unfold planJoin
  rw [extractJoinSpec_equi v jr.rightAlias a b k ha hb (Or.inl ⟨hbase.symm, hright.symm⟩),
    extractJoinSpec_equi v jr.rightAlias b a k hb ha (Or.inr ⟨hright.symm, hbase.symm⟩)]

theorem registerTwice_base (x : Visitor) (s n : String) (hx : x.baseAlias = toLower s)
    (hne : toLower s ≠ "") :
    (registerBinding (registerBinding x (toLower s) true) n true).baseAlias = toLower s ∧
    (registerBinding (registerBinding x (toLower s) true) n true).bindings.has (toLower s)
      = true := by
  refine ⟨by simp [registerBinding_fields, hx], ?_⟩
  apply registerBinding_has_mono
  have h := registerBinding_has_self x (toLower s) true (by rw [toLower_idem]; exact hne)
  rw [toLower_idem] at h
  exact h

theorem registerBaseTable_base (v v1 : Visitor) (name : Option (List String))
    (tableAlias : String) (h : registerBaseTable v name tableAlias = .ok v1) :
    ∃ s, v1.baseAlias = toLower s ∧
      (toLower s ≠ "" → v1.bindings.has (toLower s) = true) := by
  unfold registerBaseTable at h
  cases name with
  | none => simp [badRequest] at h
  | some parts =>
    simp only at h
    by_cases hp : parts.isEmpty = true
    · simp [hp, badRequest] at h
    · simp only [hp, if_false] at h
      generalize aliasOrName (lastPart parts) tableAlias = s at h
      refine ⟨s, ?_⟩
      by_cases hm : (v.baseAlias != "" && v.baseAlias != toLower s) = true
      · simp [hm, badRequest] at h
      · simp only [hm, if_false] at h
        cases hr : resolveTableName v parts "table" with
        | error err => simp [hr, bind, Except.bind] at h
        | ok res =>
          simp only [hr, bind_ok_eq] at h
          injection h with h
          subst h
          cases res with
          | pipeline q =>
            have hb := registerTwice_base
              { v with
                baseAlias := toLower s
                baseUsesPipeline := true, basePipeline := q
                baseFilter := if (v.availableCTEs.get (toLower (lastPart parts))).isSome
                  then v.baseFilter else "" }
              s (toLower (lastPart parts)) rfl
            refine ⟨by simp [registerBinding_fields], fun h0 => (hb h0).2⟩
          | table spec =>
            have hb := registerTwice_base
              { v with
                baseAlias := toLower s
                baseFilter := spec.filter
                baseUsesPipeline := spec.pipeline != "", basePipeline := spec.pipeline }
              s (toLower (lastPart parts)) rfl
            refine ⟨by simp [registerBinding_fields], fun h0 => (hb h0).2⟩

theorem generateSubqueryAlias_fields (v v1 : Visitor) (pfx a : String)
    (h : generateSubqueryAlias v pfx = .ok (a, v1)) :
    v1.bindings = v.bindings ∧ v1.baseAlias = v.baseAlias := by
  unfold generateSubqueryAlias at h
  simp only at h
  split at h
  · simp at h
  · simp at h
    rw [← h.2]
    exact ⟨rfl, rfl⟩

theorem subqueryAlias_fields (v v1 : Visitor) (al pfx a : String)
    (h : subqueryAlias v al pfx = .ok (a, v1)) :
    v1.bindings = v.bindings ∧ v1.baseAlias = v.baseAlias := by
  unfold subqueryAlias at h
  split at h
  · exact generateSubqueryAlias_fields v v1 pfx a h
  · simp at h
    rw [← h.2]
    exact ⟨rfl, rfl⟩

theorem registerBaseSubquery_base (tn : GoMap String → SelectStatement → Res String)
    (v v1 : Visitor) (select : Option SelectStatement)
    (tableAlias : String) (h : registerBaseSubquery tn v select tableAlias = .ok v1) :
    ∃ s, v1.baseAlias = toLower s ∧
      (toLower s ≠ "" → v1.bindings.has (toLower s) = true) := by
  unfold registerBaseSubquery at h
  cases select with
  | none => simp [badRequest] at h
  | some sel =>
    simp only at h
    cases ha : subqueryAlias v tableAlias "base" with
    | error err => simp [ha, bind, Except.bind] at h
    | ok a =>
      obtain ⟨s, v2⟩ := a
      simp only [ha, bind_ok_eq] at h
      refine ⟨s, ?_⟩
      by_cases hm : (v2.baseAlias != "" && v2.baseAlias != toLower s) = true
      · simp [hm, badRequest] at h
      · simp only [hm, if_false] at h
        cases ht : tn v2.availableCTEs sel with
        | error err => simp [ht] at h
        | ok q =>
          simp only [ht] at h
          injection h with h
          subst h
          refine ⟨by simp [registerBinding_fields], fun h0 => ?_⟩
          have := registerBinding_has_self
            { v2 with baseAlias := toLower s, baseUsesPipeline := true, basePipeline := q,
                      baseFilter := "" } (toLower s) true (by rw [toLower_idem]; exact h0)
          rw [toLower_idem] at this
          exact this

theorem processJoinLeft_base (tn : GoMap String → SelectStatement → Res String)
    (v v1 : Visitor) (left : TableExpr) (h : processJoinLeft tn v left = .ok v1) :
    ∃ s, v1.baseAlias = toLower s ∧
      (toLower s ≠ "" → v1.bindings.has (toLower s) = true) := by
  unfold processJoinLeft at h
  cases left with
  | tableName name al => exact registerBaseTable_base v v1 name al h
  | subqueryTable sel al => exact registerBaseSubquery_base tn v v1 sel al h
  | joinExpr t l r o => simp [badRequest] at h
  | other t => simp [badRequest] at h
theorem registerRight_fields (x : Visitor) (s n : String) :
    (registerBinding (registerBinding x (toLower s) false) n false).baseAlias = x.baseAlias ∧
    (∀ y, x.bindings.has y = true →
      (registerBinding (registerBinding x (toLower s) false) n false).bindings.has y = true) ∧
    (toLower s ≠ "" →
      (registerBinding (registerBinding x (toLower s) false) n false).bindings.has (toLower s)
        = true) := by
  refine ⟨by simp [registerBinding_fields], ?_, ?_⟩
  · intro y hy
    exact registerBinding_has_mono _ _ _ _ (registerBinding_has_mono _ _ _ _ hy)
  · intro hne
    apply registerBinding_has_mono
    have h := registerBinding_has_self x (toLower s) false (by rw [toLower_idem]; exact hne)
    rw [toLower_idem] at h
    exact h

theorem processJoinRight_fields (tn : GoMap String → SelectStatement → Res String)
    (v v2 : Visitor) (right : TableExpr) (jr : JoinRight)
    (h : processJoinRight tn v right = .ok (jr, v2)) :
    v2.baseAlias = v.baseAlias ∧
    (∀ y, v.bindings.has y = true → v2.bindings.has y = true) ∧
    ∃ s, jr.rightAlias = toLower s ∧ (toLower s ≠ "" → v2.bindings.has (toLower s) = true) := by
  unfold processJoinRight at h
  cases right with
  | joinExpr t l r o => simp [badRequest] at h
  | other t => simp [badRequest] at h
  | tableName name al =>
    cases name with
    | none => simp [badRequest] at h
    | some parts =>
      simp only at h
      by_cases hp : parts.isEmpty = true
      · simp [hp, badRequest] at h
      · simp only [hp, if_false] at h
        generalize aliasOrName (lastPart parts) al = s at h
        by_cases hd : v.bindings.has (toLower s) = true
        · simp [hd, badRequest] at h
        · simp only [hd, if_false] at h
          have hf := registerRight_fields v s (toLower (lastPart parts))
          cases hr : resolveTableName v parts "JOIN table" with
          | error err => simp [hr, bind, Except.bind] at h
          | ok res =>
            simp only [hr, bind_ok_eq] at h
            cases res with
            | pipeline q =>
              simp only at h
              injection h with h
              injection h with h1 h2
              subst h1 h2
              exact ⟨hf.1, hf.2.1, s, rfl, hf.2.2⟩
            | table spec =>
              simp only at h
              by_cases hta : (trimSpace al == "") = true
              · simp [hta, badRequest] at h
              · simp only [hta, if_false] at h
                by_cases hpi : (spec.pipeline != "") = true
                · simp only [hpi, if_true] at h
                  injection h with h
                  injection h with h1 h2
                  subst h1 h2
                  exact ⟨hf.1, hf.2.1, s, rfl, hf.2.2⟩
                · simp only [hpi, if_false] at h
                  injection h with h
                  injection h with h1 h2
                  subst h1 h2
                  exact ⟨hf.1, hf.2.1, s, rfl, hf.2.2⟩
  | subqueryTable sel al =>
    simp only at h
    cases ha : subqueryAlias v al "join" with
    | error err => simp [ha, bind, Except.bind] at h
    | ok a =>
      obtain ⟨s, v1⟩ := a
      obtain ⟨hb1, hb2⟩ := subqueryAlias_fields v v1 al "join" s ha
      simp only [ha, bind_ok_eq] at h
      by_cases hd : v1.bindings.has (toLower s) = true
      · simp [hd, badRequest] at h
      · simp only [hd, if_false] at h
        cases sel with
        | none => simp at h
        | some q =>
          simp only at h
          cases ht : tn (registerBinding v1 (toLower s) false).availableCTEs q with
          | error err => simp [ht] at h
          | ok sub =>
            simp only [ht] at h
            injection h with h
            injection h with h1 h2
            subst h1 h2
            refine ⟨by simp [registerBinding_fields, hb2], ?_, s, rfl, ?_⟩
            · intro y hy
              apply registerBinding_has_mono
              rw [hb1]
              exact hy
            · intro hne
              have h := registerBinding_has_self v1 (toLower s) false
                (by rw [toLower_idem]; exact hne)
              rw [toLower_idem] at h
              exact h

theorem translateAfterFrom_fromClause (v : Visitor) (joinPipes : List String)
    (w : Option WithClause) (d : Bool) (cols : List SelectItem) (f1 f2 : Option TableExpr)
    (wh : Option Expr) (g : List Expr) (hv : Option Expr) (o : List OrderItem)
    (l : Option LimitClause) (ops : List SetOp) :
    translateAfterFrom v (.mk w d cols f1 wh g hv o l ops) joinPipes =
    translateAfterFrom v (.mk w d cols f2 wh g hv o l ops) joinPipes := by
  unfold translateAfterFrom buildStatsPipe
  rfl

theorem translateSimpleSelect_fromClause (tn : GoMap String → SelectStatement → Res String)
    (v : Visitor) (w : Option WithClause) (d : Bool) (cols : List SelectItem)
    (f1 f2 : Option TableExpr)
    (wh : Option Expr) (g : List Expr) (hv : Option Expr) (o : List OrderItem)
    (l : Option LimitClause) (ops : List SetOp)
    (hf : ∀ v1, processFrom tn v1 f1 = processFrom tn v1 f2) :
    translateSimpleSelect tn v (.mk w d cols f1 wh g hv o l ops) =
    translateSimpleSelect tn v (.mk w d cols f2 wh g hv o l ops) := by
  unfold translateSimpleSelect
  simp only [SelectStatement.withClause, SelectStatement.setOps, SelectStatement.fromClause, hf]
  cases registerWith tn v.availableCTEs w with
  | error err => rfl
  | ok c =>
    simp only [bind_ok_eq]
    split
    · rfl
    · cases processFrom tn (resetVisitor { v with availableCTEs := c }) f2 with
      | error err => rfl
      | ok fr =>
        simp only [bind_ok_eq]
        exact translateAfterFrom_fromClause fr.2 fr.1 w d cols f1 f2 wh g hv o l ops

theorem translateSelect_fromClause (tn : GoMap String → SelectStatement → Res String)
    (v : Visitor) (w : Option WithClause) (d : Bool) (cols : List SelectItem)
    (f1 f2 : Option TableExpr)
    (wh : Option Expr) (g : List Expr) (hv : Option Expr) (o : List OrderItem)
    (l : Option LimitClause) (ops : List SetOp)
    (hf : ∀ v1, processFrom tn v1 f1 = processFrom tn v1 f2) :
    translateSelect tn v (.mk w d cols f1 wh g hv o l ops) =
    translateSelect tn v (.mk w d cols f2 wh g hv o l ops) := by
  unfold translateSelect
  simp only [SelectStatement.setOps, SelectStatement.withoutSetOps,
    translateSimpleSelect_fromClause tn v w d cols f1 f2 wh g hv o l _ hf]

theorem processJoin_equi_symm (tn : GoMap String → SelectStatement → Res String)
    (v : Visitor) (type : JoinType) (left right : TableExpr) (a b k : String)
    (ha : ∀ tn v v1, processJoinLeft tn v left = .ok v1 → v1.baseAlias = toLower a)
    (hb : ∀ tn v jr v2, processJoinRight tn v right = .ok (jr, v2) → jr.rightAlias = toLower b)
    (hane : toLower a ≠ "") (hbne : toLower b ≠ "") :
    processJoin tn v type left right
      (some (.binaryExpr "=" (.identifier [a, k]) (.identifier [b, k]))) =
    processJoin tn v type left right
      (some (.binaryExpr "=" (.identifier [b, k]) (.identifier [a, k]))) := by
  unfold processJoin
  split
  · rfl
  · cases hl : processJoinLeft tn v left with
    | error err => rfl
    | ok v1 =>
      simp only [bind_ok_eq]
      cases hr : processJoinRight tn v1 right with
      | error err => rfl
      | ok r =>
        obtain ⟨jr, v2⟩ := r
        simp only [bind_ok_eq]
        have hbase1 : v1.baseAlias = toLower a := ha tn v v1 hl
        obtain ⟨s, hs1, hs2⟩ := processJoinLeft_base tn v v1 left hl
        have hbound1 : v1.bindings.has (toLower a) = true := by
          rw [← hbase1, hs1]
          apply hs2
          rw [← hs1, hbase1]
          exact hane
        obtain ⟨h2base, hmono, t, ht1, ht2⟩ := processJoinRight_fields tn v1 v2 right jr hr
        have hright : jr.rightAlias = toLower b := hb tn v1 jr v2 hr
        have hbound2 : v2.bindings.has (toLower b) = true := by
          rw [← hright, ht1]
          apply ht2
          rw [← ht1, hright]
          exact hbne
        exact planJoin_equi_symm v2 type jr a b k (h2base.trans hbase1) hright
          (hmono _ hbound1) hbound2

theorem processJoinLeft_tableName_alias (tn : GoMap String → SelectStatement → Res String)
    (v v1 : Visitor) (parts : List String) (tableAlias : String)
    (h : processJoinLeft tn v (.tableName (some parts) tableAlias) = .ok v1) :
    v1.baseAlias = toLower (aliasOrName (lastPart parts) tableAlias) := by
  unfold processJoinLeft registerBaseTable at h
  simp only at h
  by_cases hp : parts.isEmpty = true
  · simp [hp, badRequest] at h
  · simp only [hp, if_false] at h
    generalize aliasOrName (lastPart parts) tableAlias = s at h ⊢
    by_cases hm : (v.baseAlias != "" && v.baseAlias != toLower s) = true
    · simp [hm, badRequest] at h
    · simp only [hm, if_false] at h
      cases hr : resolveTableName v parts "table" with
      | error err => simp [hr, bind, Except.bind] at h
      | ok res =>
        simp only [hr, bind_ok_eq] at h
        injection h with h
        subst h
        cases res <;> simp [registerBinding_fields]

theorem processJoinRight_tableName_alias (tn : GoMap String → SelectStatement → Res String)
    (v v2 : Visitor) (jr : JoinRight) (parts : List String) (tableAlias : String)
    (h : processJoinRight tn v (.tableName (some parts) tableAlias) = .ok (jr, v2)) :
    jr.rightAlias = toLower (aliasOrName (lastPart parts) tableAlias) := by
  unfold processJoinRight at h
  simp only at h
  by_cases hp : parts.isEmpty = true
  · simp [hp, badRequest] at h
  · simp only [hp, if_false] at h
    generalize aliasOrName (lastPart parts) tableAlias = s at h ⊢
    by_cases hd : v.bindings.has (toLower s) = true
    · simp [hd, badRequest] at h
    · simp only [hd, if_false] at h
      cases hr : resolveTableName v parts "JOIN table" with
      | error err => simp [hr, bind, Except.bind] at h
      | ok res =>
        simp only [hr, bind_ok_eq] at h
        cases res with
        | pipeline q =>
          simp only at h
          injection h with h
          injection h with h1 h2
          rw [← h1]
        | table spec =>
          simp only at h
          by_cases hta : (trimSpace tableAlias == "") = true
          · simp [hta, badRequest] at h
          · simp only [hta, if_false] at h
            by_cases hpi : (spec.pipeline != "") = true
            · simp only [hpi, if_true] at h
              injection h with h
              injection h with h1 h2
              rw [← h1]
            · simp only [hpi, if_false] at h
              injection h with h
              injection h with h1 h2
              rw [← h1]

/-- C10: with `a` the alias of the base (left) side of a join and `b` the
alias of its right-hand side, the select whose ON clause is `a.k = b.k` and the
same select whose ON clause is `b.k = a.k` translate to the identical result
(the same LogsQL text or the same failure), and in every translator state
where `a` is the base alias and both aliases are bound, either ON clause is
planned as the single join key `k` (normalised) with no extra filters. -/
theorem equi_join_symmetric (sp : Provider) (ctes : GoMap String)
    (w : Option WithClause) (d : Bool) (cols : List SelectItem) (type : JoinType)
    (left right : TableExpr) (wh : Option Expr) (g : List Expr) (hv : Option Expr)
    (o : List OrderItem) (l : Option LimitClause) (ops : List SetOp) (a b k : String)
    (ha : ∀ tn v v1, processJoinLeft tn v left = .ok v1 → v1.baseAlias = toLower a)
    (hb : ∀ tn v jr v2, processJoinRight tn v right = .ok (jr, v2) → jr.rightAlias = toLower b)
    (hane : toLower a ≠ "") (hbne : toLower b ≠ "") :
    translateSelectStatementToLogsQLWithContext sp
      (some (.select (.mk w d cols (some (.joinExpr type left right (equiOn a b k)))
        wh g hv o l ops))) ctes =
    translateSelectStatementToLogsQLWithContext sp
      (some (.select (.mk w d cols (some (.joinExpr type left right (equiOn b a k)))
        wh g hv o l ops))) ctes ∧
    (∀ v : Visitor, v.baseAlias = toLower a → v.bindings.has (toLower a) = true →
      v.bindings.has (toLower b) = true →
      extractJoinSpec v (equiOn a b k) (toLower b) =
        (normalizeIdentifier v [k] >>= fun field =>
          .ok { joinKeys := [field], leftFilters := [], rightFilters := [] }) ∧
      extractJoinSpec v (equiOn b a k) (toLower b) =
        (normalizeIdentifier v [k] >>= fun field =>
          .ok { joinKeys := [field], leftFilters := [], rightFilters := [] })) := by
  refine ⟨?_, ?_⟩
  · rw [translate_select_unfold, translate_select_unfold]
    have hd : (SelectStatement.mk w d cols (some (.joinExpr type left right (equiOn a b k)))
        wh g hv o l ops).depth =
        (SelectStatement.mk w d cols (some (.joinExpr type left right (equiOn b a k)))
        wh g hv o l ops).depth := by
      simp only [SelectStatement.depth, depthFrom, depthTable]
    rw [hd]
    apply translateSelect_fromClause
    intro v1
    unfold processFrom
    exact processJoin_equi_symm _ v1 type left right a b k ha hb hane hbne
  · intro v hbase h1 h2
    exact ⟨extractJoinSpec_equi v (toLower b) a b k h1 h2 (Or.inl ⟨hbase.symm, rfl⟩),
      extractJoinSpec_equi v (toLower b) b a k h2 h1 (Or.inr ⟨rfl, hbase.symm⟩)⟩

theorem equi_join_symmetric_witness :
    (toLower "a" ≠ "" ∧ toLower "r" ≠ "") ∧
    translateSelectStatementToLogsQLWithContext exampleProvider
      (some (.select (.mk none false [plainColumn ["name"]]
        (some (.joinExpr .joinInner (tableRef "a") (.tableName (some ["b"]) "R")
          (equiOn "a" "r" "id")))
        none [] none [] none []))) [] =
    translateSelectStatementToLogsQLWithContext exampleProvider
      (some (.select (.mk none false [plainColumn ["name"]]
        (some (.joinExpr .joinInner (tableRef "a") (.tableName (some ["b"]) "R")
          (equiOn "r" "a" "id")))
        none [] none [] none []))) [] ∧
    translateSelectStatementToLogsQLWithContext exampleProvider
      (some (.select (.mk none false [plainColumn ["name"]]
        (some (.joinExpr .joinInner (tableRef "a") (.tableName (some ["b"]) "R")
          (equiOn "r" "a" "id")))
        none [] none [] none []))) [] = .ok "* | join by (id) (*) inner | fields name" :=
  ⟨⟨by decide, by decide⟩,
   (equi_join_symmetric exampleProvider [] none false [plainColumn ["name"]] .joinInner
    (tableRef "a") (.tableName (some ["b"]) "R") none [] none [] none [] "a" "r" "id"
    (fun tn v v1 h => processJoinLeft_tableName_alias tn v v1 ["a"] "" h)
    (fun tn v jr v2 h => processJoinRight_tableName_alias tn v v2 jr ["b"] "R" h)
    (by decide) (by decide)).1,
   by decide⟩

theorem analyzeCalls_append (v : Visitor) (xs ys : List AggCall) :
    analyzeCalls v (xs ++ ys) =
      (analyzeCalls v xs >>= fun a => analyzeCalls a.2 ys >>= fun b =>
        .ok (a.1 ++ b.1, b.2)) := by
  induction xs generalizing v with
  | nil =>
    simp only [List.nil_append, analyzeCalls, bind_ok_eq]
    cases analyzeCalls v ys with
    | error err => rfl
    | ok b => rfl
  | cons c rest ih =>
    simp only [List.cons_append, analyzeCalls]
    cases hr : analyzeAggregate v c.fnName c.args c.distinct c.aliasName with
    | error err => rfl
    | ok r =>
      simp only [bind_ok_eq, List.append_eq, ih]
      cases analyzeCalls r.2 rest with
      | error err => rfl
      | ok a =>
        simp only [bind_ok_eq]
        cases analyzeCalls a.2 ys with
        | error err => rfl
        | ok b => rfl

theorem collectAggregatesLoop_calls (nodes : List Expr) :
    ∀ (v : Visitor) (aggs aggs1 : List AggItem) (v1 : Visitor),
    collectAggregatesLoop v aggs nodes = .ok (aggs1, v1) →
    ∃ items, analyzeCalls v (aggCallsOfNodes nodes) = .ok (items, v1) ∧
      aggs1 = items.foldl addAggregate aggs := by
  induction nodes with
  | nil =>
    intro v aggs aggs1 v1 h
    simp only [collectAggregatesLoop, Except.ok.injEq, Prod.mk.injEq] at h
    exact ⟨[], by simp [aggCallsOfNodes, analyzeCalls, h.2], by simp [h.1]⟩
  | cons e rest ih =>
    intro v aggs aggs1 v1 h
    cases e with
    | funcCall fnName args distinct over =>
      simp only [collectAggregatesLoop] at h
      by_cases hagg : isAggregateFunction fnName = true
      · simp only [hagg, if_true] at h
        by_cases hover : over.isSome = true
        · simp [hover, badRequest] at h
        · simp only [hover, if_false] at h
          cases hr : analyzeAggregate v fnName args distinct "" with
          | error err => simp [hr, bind, Except.bind] at h
          | ok r =>
            simp only [hr, bind_ok_eq] at h
            obtain ⟨items, h1, h2⟩ := ih _ _ _ _ h
            refine ⟨r.1 :: items, ?_, ?_⟩
            · simp only [aggCallsOfNodes, hagg, if_true, analyzeCalls, hr, bind_ok_eq, h1]
              rfl
            · simp [h2]
      · simp only [hagg, if_false] at h
        obtain ⟨items, h1, h2⟩ := ih _ _ _ _ h
        exact ⟨items, by simp [aggCallsOfNodes, hagg, h1], h2⟩
    | _ =>
      simp only [collectAggregatesLoop] at h
      obtain ⟨items, h1, h2⟩ := ih _ _ _ _ h
      exact ⟨items, by simp [aggCallsOfNodes, h1], h2⟩
theorem statsColumnsLoop_calls (hasGroup : Bool) (ncols : Nat) (groupFields : List String)
    (cols : List SelectItem) :
    ∀ (v : Visitor) (aggs aggs1 : List AggItem) (v1 : Visitor),
    statsColumnsLoop hasGroup ncols groupFields v aggs cols = .ok (some (aggs1, v1)) →
    ∃ items, analyzeCalls v (selectAggCalls cols) = .ok (items, v1) ∧
      aggs1 = items.foldl addAggregate aggs := by
  induction cols with
  | nil =>
    intro v aggs aggs1 v1 h
    simp only [statsColumnsLoop, Except.ok.injEq, Option.some.injEq, Prod.mk.injEq] at h
    exact ⟨[], by simp [selectAggCalls, analyzeCalls, h.2], by simp [h.1]⟩
  | cons col rest ih =>
    intro v aggs aggs1 v1 h
    obtain ⟨e, al⟩ := col
    cases e with
    | starExpr =>
      simp only [statsColumnsLoop] at h
      split at h
      · simp [badRequest] at h
      · split at h
        · simp [badRequest] at h
        · simp at h
    | identifier parts =>
      simp only [statsColumnsLoop] at h
      have hs : selectAggCalls (⟨.identifier parts, al⟩ :: rest) = selectAggCalls rest := rfl
      rw [hs]
      split at h
      · exact ih _ _ _ _ h
      · cases hn : normalizeIdentifier v parts with
        | error err => simp [hn, bind, Except.bind] at h
        | ok field =>
          simp only [hn, bind_ok_eq] at h
          split at h
          · simp [badRequest] at h
          · exact ih _ _ _ _ h
    | funcCall fnName args distinct over =>
      simp only [statsColumnsLoop] at h
      cases over with
      | some o =>
        have hs : selectAggCalls (⟨.funcCall fnName args distinct (some o), al⟩ :: rest) =
            selectAggCalls rest := rfl
        rw [hs]
        simp only [Option.isSome_some, if_true] at h
        split at h
        · simp [badRequest] at h
        · exact ih _ _ _ _ h
      | none =>
        simp only [Option.isSome_none, Bool.false_eq_true, if_false] at h
        by_cases hagg : isAggregateFunction fnName = true
        · simp only [hagg, if_true] at h
          cases hr : analyzeAggregate v fnName args distinct al with
          | error err => simp [hr, bind, Except.bind] at h
          | ok r =>
            simp only [hr, bind_ok_eq] at h
            obtain ⟨items, h1, h2⟩ := ih _ _ _ _ h
            refine ⟨{ r.1 with selected := true } :: items, ?_, ?_⟩
            · simp only [selectAggCalls, hagg, if_true, analyzeCalls, hr, bind_ok_eq, h1]
            · simp [h2]
        · have hs : selectAggCalls (⟨.funcCall fnName args distinct none, al⟩ :: rest) =
              selectAggCalls rest := by simp [selectAggCalls, hagg]
          rw [hs]
          have hagg1 : isAggregateFunction fnName = false := by simpa using hagg
          simp only [hagg1, Bool.false_eq_true, if_false] at h
          split at h
          · cases hq : requireGroupExpr v (.funcCall fnName args distinct none) al
                "non-aggregate function" with
            | error err => simp [hq, bind, Except.bind] at h
            | ok u =>
              simp only [hq, bind_ok_eq] at h
              exact ih _ _ _ _ h
          · exact ih _ _ _ _ h
    | binaryExpr op l r =>
      simp only [statsColumnsLoop, if_true] at h
      have hs : selectAggCalls (⟨.binaryExpr op l r, al⟩ :: rest) = selectAggCalls rest := rfl
      rw [hs]
      split at h
      · cases hq : requireGroupExpr v (.binaryExpr op l r) al "expression" with
        | error err => simp [hq, bind, Except.bind] at h
        | ok u =>
          simp only [hq, bind_ok_eq] at h
          exact ih _ _ _ _ h
      · exact ih _ _ _ _ h
    | unaryExpr op x =>
      simp only [statsColumnsLoop, if_true] at h
      show ∃ items, analyzeCalls v (selectAggCalls rest) = .ok (items, v1) ∧
        aggs1 = items.foldl addAggregate aggs
      split at h
      · cases hq : requireGroupExpr v (.unaryExpr op x) al "expression" with
        | error err => simp [hq, bind, Except.bind] at h
        | ok u =>
          simp only [hq, bind_ok_eq] at h
          exact ih _ _ _ _ h
      · exact ih _ _ _ _ h
    | numericLiteral value =>
      simp only [statsColumnsLoop, if_true] at h
      show ∃ items, analyzeCalls v (selectAggCalls rest) = .ok (items, v1) ∧
        aggs1 = items.foldl addAggregate aggs
      split at h
      · cases hq : requireGroupExpr v (.numericLiteral value) al "expression" with
        | error err => simp [hq, bind, Except.bind] at h
        | ok u =>
          simp only [hq, bind_ok_eq] at h
          exact ih _ _ _ _ h
      · exact ih _ _ _ _ h
    | _ =>
      simp only [statsColumnsLoop, Bool.false_eq_true, if_false] at h
      show ∃ items, analyzeCalls v (selectAggCalls rest) = .ok (items, v1) ∧
        aggs1 = items.foldl addAggregate aggs
      split at h
      · simp [badRequest] at h
      · exact ih _ _ _ _ h
theorem addAggregate_maps (acc : List AggItem) (item : AggItem) :
    (addAggregate acc item).map (·.key) =
      (if (acc.map (·.key)).contains item.key then acc.map (·.key)
       else acc.map (·.key) ++ [item.key]) ∧
    (addAggregate acc item).map (·.statsCall) =
      (if (acc.map (·.key)).contains item.key then acc.map (·.statsCall)
       else acc.map (·.statsCall) ++ [item.statsCall]) := by
  induction acc with
  | nil => simp [addAggregate]
  | cons existing rest ih =>
    by_cases he : existing.key = item.key
    · simp [addAggregate, he]
    · have he1 : (existing.key == item.key) = false := by simpa using he
      have he2 : ¬ item.key = existing.key := fun h => he h.symm
      obtain ⟨ih1, ih2⟩ := ih
      simp only [addAggregate, he1, Bool.false_eq_true, if_false, List.map_cons, ih1, ih2]
      by_cases hc : (rest.map (·.key)).contains item.key = true
      · have hc1 : item.key ∈ rest.map (·.key) := by simpa using hc
        simp [hc1, he2]
      · have hc1 : ¬ item.key ∈ rest.map (·.key) := by simpa using hc
        simp [hc1, he2]

theorem foldl_addAggregate_maps (items : List AggItem) :
    ∀ acc : List AggItem,
    (items.foldl addAggregate acc).map (·.key) =
      acc.map (·.key) ++ (firstOccurrences (acc.map (·.key)) items).map (·.key) ∧
    (items.foldl addAggregate acc).map (·.statsCall) =
      acc.map (·.statsCall) ++ (firstOccurrences (acc.map (·.key)) items).map (·.statsCall) := by
  induction items with
  | nil => intro acc; simp [firstOccurrences]
  | cons item rest ih =>
    intro acc
    obtain ⟨h1, h2⟩ := addAggregate_maps acc item
    obtain ⟨i1, i2⟩ := ih (addAggregate acc item)
    simp only [List.foldl_cons, i1, i2, h1, h2, firstOccurrences]
    by_cases hc : (acc.map (·.key)).contains item.key = true
    · simp only [hc, if_true, and_self]
    · simp only [hc, if_false, List.map_cons, List.append_assoc, List.singleton_append, and_self,
        Bool.false_eq_true]

theorem firstOccurrences_keys (items : List AggItem) :
    ∀ seen : List String, seen.Nodup →
    (seen ++ (firstOccurrences seen items).map (·.key)).Nodup ∧
    ∀ k, k ∈ seen ++ (firstOccurrences seen items).map (·.key) ↔
      (k ∈ seen ∨ k ∈ items.map (·.key)) := by
  induction items with
  | nil => intro seen hs; simp [firstOccurrences, hs]
  | cons item rest ih =>
    intro seen hs
    by_cases hc : seen.contains item.key = true
    · have hm : item.key ∈ seen := by simpa using hc
      obtain ⟨i1, i2⟩ := ih seen hs
      simp only [firstOccurrences, hc, if_true]
      refine ⟨i1, fun k => ?_⟩
      rw [i2 k]
      simp only [List.map_cons, List.mem_cons]
      constructor
      · rintro (h | h)
        · exact Or.inl h
        · exact Or.inr (Or.inr h)
      · rintro (h | h | h)
        · exact Or.inl h
        · exact Or.inl (h ▸ hm)
        · exact Or.inr h
    · have hm : ¬ item.key ∈ seen := by simpa using hc
      have hs1 : (seen ++ [item.key]).Nodup := by
        rw [List.nodup_append]
        refine ⟨hs, List.nodup_singleton _, ?_⟩
        intro a ha hb
        rw [List.mem_singleton] at hb
        exact hm (hb ▸ ha)
      obtain ⟨i1, i2⟩ := ih (seen ++ [item.key]) hs1
      simp only [firstOccurrences, hc, if_false, List.map_cons, Bool.false_eq_true]
      have e : seen ++ item.key :: (firstOccurrences (seen ++ [item.key]) rest).map (·.key) =
          (seen ++ [item.key]) ++ (firstOccurrences (seen ++ [item.key]) rest).map (·.key) := by
        simp
      rw [e]
      refine ⟨i1, fun k => ?_⟩
      rw [i2 k]
      simp only [List.mem_append, List.mem_singleton, List.mem_cons]
      tauto

theorem firstOccurrences_card (items : List AggItem) :
    ((firstOccurrences [] items).map (·.statsCall)).length =
      (items.map (·.key)).toFinset.card := by
  obtain ⟨h1, h2⟩ := firstOccurrences_keys items [] List.nodup_nil
  simp only [List.nil_append] at h1 h2
  have e : (items.map (·.key)).toFinset = ((firstOccurrences [] items).map (·.key)).toFinset := by
    ext k
    simp only [List.mem_toFinset]
    rw [h2 k]
    simp
  rw [e, List.toFinset_card_of_nodup h1]
  simp
theorem havingAggregates_calls (v : Visitor) (aggs aggs1 : List AggItem) (having : Option Expr)
    (v1 : Visitor) (h : havingAggregates v aggs having = .ok (aggs1, v1)) :
    ∃ items, analyzeCalls v (havingAggCalls having) = .ok (items, v1) ∧
      aggs1 = items.foldl addAggregate aggs := by
  cases having with
  | none =>
    simp only [havingAggregates, Except.ok.injEq, Prod.mk.injEq] at h
    exact ⟨[], by simp [havingAggCalls, analyzeCalls, h.2], by simp [h.1]⟩
  | some e =>
    simp only [havingAggregates, collectAggregatesFromExpr] at h
    exact collectAggregatesLoop_calls _ _ _ _ _ h

/-- C8: when `buildStatsPipe` aggregates, its last pipe is the `stats` pipe
whose terms are, in order, the term of the first occurrence of every distinct
aggregate key among the aggregate calls of the SELECT list followed by those of
HAVING: the keys of the terms are pairwise distinct, they are exactly the keys
that occur, and the number of terms is the number of distinct keys. -/
theorem stats_pipe_one_term_per_key (v : Visitor) (stmt : SelectStatement)
    (having : Option Expr) (pipes : List String) (v1 : Visitor)
    (h : buildStatsPipe v stmt having = .ok (pipes, true, v1)) :
    ∃ g items v2,
      groupByStage v (collectGroupAliases stmt.columns []) stmt.groupBy = .ok g ∧
      analyzeCalls
        { v with groupExprAliases :=
                   if stmt.groupBy.length > 0 then some g.groupExprAliases else none }
        (selectAggCalls stmt.columns ++ havingAggCalls having) = .ok (items, v2) ∧
      pipes.getLast? = some ("stats" ++
        (if g.groupFields.length > 0 then " by (" ++ stringsJoin g.groupFields ", " ++ ")"
         else "") ++
        " " ++ stringsJoin ((firstOccurrences [] items).map (·.statsCall)) ", ") ∧
      ((firstOccurrences [] items).map (·.key)).Nodup ∧
      (∀ k, k ∈ (firstOccurrences [] items).map (·.key) ↔ k ∈ items.map (·.key)) ∧
      ((firstOccurrences [] items).map (·.statsCall)).length =
        (items.map (·.key)).toFinset.card := by
  have hb : buildStatsPipe v stmt having =
      (groupByStage v (collectGroupAliases stmt.columns []) stmt.groupBy >>= fun g =>
        statsColumnsLoop (stmt.groupBy.length > 0) stmt.columns.length g.groupFields
          { v with groupExprAliases :=
                     if stmt.groupBy.length > 0 then some g.groupExprAliases else none }
          [] stmt.columns >>= fun cols =>
        statsAfterColumns (stmt.groupBy.length > 0) g
          { v with groupExprAliases :=
                     if stmt.groupBy.length > 0 then some g.groupExprAliases else none }
          having cols) := rfl
  rw [hb] at h
  cases hg : groupByStage v (collectGroupAliases stmt.columns []) stmt.groupBy with
  | error err => rw [hg, bind_error_eq] at h; cases h
  | ok g =>
    rw [hg, bind_ok_eq] at h
    cases hc : statsColumnsLoop (stmt.groupBy.length > 0) stmt.columns.length
        g.groupFields
        { v with groupExprAliases :=
                   if stmt.groupBy.length > 0 then some g.groupExprAliases else none }
        [] stmt.columns with
    | error err => rw [hc, bind_error_eq] at h; cases h
    | ok cols =>
      rw [hc, bind_ok_eq] at h
      cases cols with
      | none => simp [statsAfterColumns] at h
      | some p =>
        obtain ⟨aggs0, v2⟩ := p
        have hs : statsAfterColumns (stmt.groupBy.length > 0) g
            { v with groupExprAliases :=
                       if stmt.groupBy.length > 0 then some g.groupExprAliases else none }
            having (some (aggs0, v2)) =
            (havingAggregates v2 aggs0 having >>= fun collected =>
              finishStatsPipe (stmt.groupBy.length > 0) g collected.1 collected.2) := rfl
        rw [hs] at h
        cases hh : havingAggregates v2 aggs0 having with
        | error err => rw [hh, bind_error_eq] at h; cases h
        | ok collected =>
          obtain ⟨aggs, v3⟩ := collected
          rw [hh, bind_ok_eq] at h
          obtain ⟨items1, a1, e1⟩ := statsColumnsLoop_calls _ _ _ _ _ _ _ _ hc
          obtain ⟨items2, a2, e2⟩ := havingAggregates_calls _ _ _ _ _ hh
          have hitems : analyzeCalls
              { v with groupExprAliases :=
                         if stmt.groupBy.length > 0 then some g.groupExprAliases else none }
              (selectAggCalls stmt.columns ++ havingAggCalls having) =
              .ok (items1 ++ items2, v3) := by
            rw [analyzeCalls_append]
            rw [a1]
            simp only [bind_ok_eq]
            rw [a2]
            rfl
          have haggs : aggs = (items1 ++ items2).foldl addAggregate [] := by
            rw [List.foldl_append, ← e1, ← e2]
          obtain ⟨k1, k2⟩ := foldl_addAggregate_maps (items1 ++ items2) []
          simp only [List.map_nil, List.nil_append] at k1 k2
          obtain ⟨n1, n2⟩ := firstOccurrences_keys (items1 ++ items2) [] List.nodup_nil
          simp only [List.nil_append, List.not_mem_nil, false_or] at n1 n2
          refine ⟨g, items1 ++ items2, v3, rfl, hitems, ?_, n1, n2,
            firstOccurrences_card (items1 ++ items2)⟩
          unfold finishStatsPipe at h
          split at h
          · split at h
            · simp [badRequest] at h
            · simp at h
          · simp only [Except.ok.injEq, Prod.mk.injEq, true_and] at h
            rw [← h.1, List.getLast?_append, ← k2, ← haggs]
            simp [statsPipeText]

theorem stats_pipe_one_term_per_key_witness :
    buildStatsPipe (newVisitor exampleProvider []) scenarioAggDedup none =
      .ok (["stats sum(x), avg(x)"], true,
        { newVisitor exampleProvider [] with
          aggResults := some [("SUM(x)", "sum(x)"), ("AVG(x)", "avg(x)")] }) ∧
    (∃ g items v2,
      groupByStage (newVisitor exampleProvider [])
        (collectGroupAliases scenarioAggDedup.columns []) scenarioAggDedup.groupBy = .ok g ∧
      analyzeCalls
        { newVisitor exampleProvider [] with groupExprAliases :=
            if scenarioAggDedup.groupBy.length > 0 then some g.groupExprAliases else none }
        (selectAggCalls scenarioAggDedup.columns ++ havingAggCalls none) = .ok (items, v2) ∧
      ["stats sum(x), avg(x)"].getLast? = some ("stats" ++
        (if g.groupFields.length > 0 then " by (" ++ stringsJoin g.groupFields ", " ++ ")"
         else "") ++
        " " ++ stringsJoin ((firstOccurrences [] items).map (·.statsCall)) ", ") ∧
      ((firstOccurrences [] items).map (·.key)).Nodup ∧
      (∀ k, k ∈ (firstOccurrences [] items).map (·.key) ↔ k ∈ items.map (·.key)) ∧
      ((firstOccurrences [] items).map (·.statsCall)).length =
        (items.map (·.key)).toFinset.card) ∧
    translateSelectStatementToLogsQL (some (.select scenarioAggDedup)) exampleProvider =
      .ok "* | stats sum(x), avg(x)" :=
  ⟨rfl,
   stats_pipe_one_term_per_key (newVisitor exampleProvider []) scenarioAggDedup none
     ["stats sum(x), avg(x)"]
     { newVisitor exampleProvider [] with
       aggResults := some [("SUM(x)", "sum(x)"), ("AVG(x)", "avg(x)")] } rfl,
   by decide⟩

/-- C3 (failing input): for `SELECT host, COUNT(*) AS "my c" FROM logs GROUP BY
host HAVING COUNT(*) > 10 ORDER BY "my c" DESC` the `stats` pipe and the `sort`
pipe name the aggregate by its alias formatted once, `"my c"`, while the HAVING
filter names it by the alias formatted twice, `"\"my c\""`: the filter does not
refer to the selected aggregate by its alias.  With the bare alias `c`
(scenario S3) the filter refers to `c` and the translation is the expected
one. -/
theorem having_alias_formatted_twice :
    translateSelectStatementToLogsQL
      (some (.select (havingOnSelected "my c"
        [{ expr := .identifier ["my c"], direction := .descending }] none))) exampleProvider =
      .ok ("* | stats by (host) count() " ++ formatFieldName "my c" ++
        " | filter " ++ formatFieldName (formatFieldName "my c") ++ ":>10" ++
        " | sort by (" ++ formatFieldName "my c" ++ " desc)") ∧
    formatFieldName (formatFieldName "my c") ≠ formatFieldName "my c" ∧
    formatFieldName (formatFieldName "my c") ≠ "my c" ∧
    translateSelectStatementToLogsQL (some (.select scenarioS3)) exampleProvider =
      .ok "* | stats by (host) count() c | filter c:>10 | sort by (c desc) | limit 5" := by
  decide

/-- The delete rule of HAVING on examples: an aggregate that only HAVING
references is deleted right after the filter; it is kept when an ORDER BY item
is the same aggregate, also written in another case; an ORDER BY on another
column does not keep it. -/
theorem having_delete_examples :
    translateSelectStatementToLogsQL (some (.select (havingOnUnselected []))) exampleProvider =
      .ok "* | stats by (host) count() c, sum(x) | filter \"sum(x)\":>10 | delete \"sum(x)\"" ∧
    translateSelectStatementToLogsQL
      (some (.select (havingOnUnselected
        [{ expr := .funcCall ["sum"] [.identifier ["X"]] false none,
           direction := .ascending }]))) exampleProvider =
      .ok "* | stats by (host) count() c, sum(x) | filter \"sum(x)\":>10 | sort by (sum(x))" ∧
    translateSelectStatementToLogsQL
      (some (.select (havingOnUnselected
        [{ expr := .identifier ["c"], direction := .ascending }]))) exampleProvider =
      .ok ("* | stats by (host) count() c, sum(x) | filter \"sum(x)\":>10 | delete \"sum(x)\"" ++
        " | sort by (c)") := by
  decide

/-- C11 (counterexample): with base table `a` and right-hand table `b`, the ON
clauses `b.k = k` and `k = a.k` are rejected, while `k = b.k` and `a.k = k` give
`join by (k)`. -/
theorem unqualified_key_wrong_operand_rejected :
    translateSelectStatementToLogsQL
      (some (.select (joinSelect .joinInner rightB (identEq ["b", "k"] ["k"])))) exampleProvider =
      badRequest "translator: unsupported JOIN condition *ast.BinaryExpr" ∧
    translateSelectStatementToLogsQL
      (some (.select (joinSelect .joinInner rightB (identEq ["k"] ["a", "k"])))) exampleProvider =
      badRequest "translator: unsupported JOIN condition *ast.BinaryExpr" ∧
    translateSelectStatementToLogsQL
      (some (.select (joinSelect .joinInner rightB (identEq ["k"] ["b", "k"])))) exampleProvider =
      .ok "* | join by (k) (*) inner | fields name" ∧
    translateSelectStatementToLogsQL
      (some (.select (joinSelect .joinInner rightB (identEq ["a", "k"] ["k"])))) exampleProvider =
      .ok "* | join by (k) (*) inner | fields name" := by
  decide

theorem qualifier_unbound (v : Visitor) (k fallback : String)
    (hk : v.bindings.has (toLower k) = false) :
    qualifierForIdentifierWithDefault v [k] fallback = fallback := by
  simp [qualifierForIdentifierWithDefault, hk]

theorem joinKeyField_same (v : Visitor) (l r : List String)
    (h : normalizeIdentifier v l = normalizeIdentifier v r) :
    joinKeyField v l r = normalizeIdentifier v r := by
  unfold joinKeyField
  rw [h]
  cases hn : normalizeIdentifier v r with
  | error err => rfl
  | ok f => simp [bind, Except.bind]

theorem aliases_identifier (v : Visitor) (parts : List String) (fallback : String) :
    aliasesForExprWithDefault v (.identifier parts) fallback =
      if qualifierForIdentifierWithDefault v parts fallback = "" then []
      else [qualifierForIdentifierWithDefault v parts fallback] := by
  simp only [aliasesForExprWithDefault, walkExpr, collectAliases, setInsert]
  by_cases h : qualifierForIdentifierWithDefault v parts fallback = ""
  · simp [h]
  · simp [h]

theorem classifyConjunct_unqualified_left (v : Visitor) (rightAlias q k : String)
    (hk : v.bindings.has (toLower k) = false) (hq : v.bindings.has (toLower q) = true)
    (hqr : toLower q = rightAlias) :
    classifyConjunct v rightAlias (identEq [k] [q, k]) =
      (normalizeIdentifier v [k] >>= fun field => .ok (.key field)) := by
  unfold identEq classifyConjunct
  simp only [beq_self_eq_true, if_true, qualifier_unbound v k _ hk, qualifier_bound v q k _ hq,
    hqr, Bool.and_self]
  rw [joinKeyField_same v [k] [q, k] (normalizeIdentifier_qualified v q k hq).symm,
    normalizeIdentifier_qualified v q k hq]

theorem classifyConjunct_unqualified_right (v : Visitor) (rightAlias q k : String)
    (hk : v.bindings.has (toLower k) = false) (hq : v.bindings.has (toLower q) = true)
    (hqb : toLower q = v.baseAlias) :
    classifyConjunct v rightAlias (identEq [q, k] [k]) =
      (normalizeIdentifier v [k] >>= fun field => .ok (.key field)) := by
  unfold identEq classifyConjunct
  simp only [beq_self_eq_true, if_true, qualifier_unbound v k _ hk, qualifier_bound v q k _ hq,
    hqb, Bool.and_self]
  rw [joinKeyField_same v [q, k] [k] (normalizeIdentifier_qualified v q k hq)]

theorem isAliasOnly_single (s a : String) (hs : s ≠ "") :
    isAliasOnly [s] a = decide (a = s) := by
  unfold isAliasOnly
  by_cases ha : a = ""
  · subst ha
    have : ¬ ("" = s) := fun h => hs h.symm
    simp [this]
  · by_cases hsa : a = s
    · subst hsa; simp [ha]
    · have : ¬ s = a := fun h => hsa h.symm
      simp [ha, hsa, this]

theorem classifyResidual_same_side (v : Visitor) (rightAlias s : String) (expr : Expr)
    (lp rp : List String)
    (hl : qualifierForIdentifierWithDefault v lp v.baseAlias = s)
    (hr : qualifierForIdentifierWithDefault v rp rightAlias = s)
    (hs : s ≠ "") (hne : v.baseAlias ≠ rightAlias) :
    classifyResidual v rightAlias expr (.identifier lp) (.identifier rp) =
      badRequest ("translator: unsupported JOIN condition " ++ v.sp.fmtExpr expr) := by
  unfold classifyResidual
  simp only [aliases_identifier, hl, hr, hs, if_false, List.length_singleton,
    isAliasOnly_single s _ hs]
  by_cases h1 : v.baseAlias = s
  · have h2 : ¬ rightAlias = s := fun h => hne (h1.trans h.symm)
    simp [h1, h2]
  · simp [h1]

theorem classifyConjunct_same_side (v : Visitor) (rightAlias s : String) (lp rp : List String)
    (hl : qualifierForIdentifierWithDefault v lp v.baseAlias = s)
    (hr : qualifierForIdentifierWithDefault v rp rightAlias = s)
    (hs : s ≠ "") (hne : v.baseAlias ≠ rightAlias) :
    classifyConjunct v rightAlias (identEq lp rp) =
      badRequest ("translator: unsupported JOIN condition " ++ v.sp.fmtExpr (identEq lp rp)) := by
  have hres := classifyResidual_same_side v rightAlias s (identEq lp rp) lp rp hl hr hs hne
  unfold identEq at hres ⊢
  unfold classifyConjunct
  simp only [beq_self_eq_true, if_true, hl, hr]
  by_cases h1 : s = v.baseAlias
  · have h2 : ¬ s = rightAlias := fun h => hne (h1.symm.trans h)
    simp only [h1, h2, beq_self_eq_true, Bool.true_and, Bool.and_true] at *
    have h3 : (v.baseAlias == rightAlias) = false := by simpa using hne
    simp only [h3, Bool.false_eq_true, if_false]
    exact hres
  · have h3 : (s == v.baseAlias) = false := by simpa using h1
    simp only [h3, Bool.false_and, Bool.and_false, Bool.false_eq_true, if_false]
    exact hres

theorem extractJoinSpec_single (v : Visitor) (rightAlias : String) (op : String) (l r : Expr)
    (hop : (op == "AND") = false) :
    extractJoinSpec v (some (.binaryExpr op l r)) rightAlias =
      (classifyConjunct v rightAlias (.binaryExpr op l r) >>= fun c =>
        match c with
        | .key field => .ok { joinKeys := [field], leftFilters := [], rightFilters := [] }
        | .leftFilter =>
          .ok { joinKeys := [], leftFilters := [.binaryExpr op l r], rightFilters := [] }
        | .rightFilter =>
          .ok { joinKeys := [], leftFilters := [], rightFilters := [.binaryExpr op l r] }) := by
  simp only [extractJoinSpec, flattenAnd, hop, Bool.false_eq_true, if_false, extractJoinSpecLoop]
  cases classifyConjunct v rightAlias (.binaryExpr op l r) with
  | error err => rfl
  | ok c => cases c <;> rfl

/-- C11 (as amended): in a state where `k` names no table, `q` is a bound
alias and the base alias differs from the right-hand alias, an unqualified
left operand stands for the base side and an unqualified right operand for the
right-hand side.  So `k = q.k` with `q` the right-hand alias and `q.k = k` with
`q` the base alias are planned as the single join key `k`, and the same
equalities with the operands exchanged are rejected with a 400 error. -/
theorem unqualified_key_by_operand (v : Visitor) (rightAlias q k : String)
    (hk : v.bindings.has (toLower k) = false) (hq : v.bindings.has (toLower q) = true)
    (hne : v.baseAlias ≠ rightAlias) (hqe : toLower q ≠ "") :
    (toLower q = rightAlias →
      extractJoinSpec v (some (identEq [k] [q, k])) rightAlias = singleKeySpec v k ∧
      extractJoinSpec v (some (identEq [q, k] [k])) rightAlias =
        badRequest ("translator: unsupported JOIN condition " ++
          v.sp.fmtExpr (identEq [q, k] [k]))) ∧
    (toLower q = v.baseAlias →
      extractJoinSpec v (some (identEq [q, k] [k])) rightAlias = singleKeySpec v k ∧
      extractJoinSpec v (some (identEq [k] [q, k])) rightAlias =
        badRequest ("translator: unsupported JOIN condition " ++
          v.sp.fmtExpr (identEq [k] [q, k]))) := by
  have hop : ("=" == "AND") = false := by decide
  refine ⟨fun hqr => ⟨?_, ?_⟩, fun hqb => ⟨?_, ?_⟩⟩
  · unfold identEq
    rw [extractJoinSpec_single v rightAlias "=" _ _ hop]
    have := classifyConjunct_unqualified_left v rightAlias q k hk hq hqr
    unfold identEq at this
    rw [this]
    unfold singleKeySpec
    cases normalizeIdentifier v [k] <;> rfl
  · have := classifyConjunct_same_side v rightAlias (toLower q) [q, k] [k]
      (qualifier_bound v q k _ hq) (by rw [qualifier_unbound v k _ hk, hqr]) hqe hne
    unfold identEq at this ⊢
    rw [extractJoinSpec_single v rightAlias "=" _ _ hop, this]
    rfl
  · unfold identEq
    rw [extractJoinSpec_single v rightAlias "=" _ _ hop]
    have := classifyConjunct_unqualified_right v rightAlias q k hk hq hqb
    unfold identEq at this
    rw [this]
    unfold singleKeySpec
    cases normalizeIdentifier v [k] <;> rfl
  · have := classifyConjunct_same_side v rightAlias (toLower q) [k] [q, k]
      (by rw [qualifier_unbound v k _ hk, hqb]) (qualifier_bound v q k _ hq) hqe hne
    unfold identEq at this ⊢
    rw [extractJoinSpec_single v rightAlias "=" _ _ hop, this]
    rfl

theorem unqualified_key_by_operand_witness :
    (extractJoinSpec joinState (some (identEq ["k"] ["b", "k"])) "b" = singleKeySpec joinState "k" ∧
      extractJoinSpec joinState (some (identEq ["b", "k"] ["k"])) "b" =
        badRequest ("translator: unsupported JOIN condition " ++
          joinState.sp.fmtExpr (identEq ["b", "k"] ["k"]))) ∧
    singleKeySpec joinState "k" =
      .ok { joinKeys := ["k"], leftFilters := [], rightFilters := [] } :=
  ⟨(unqualified_key_by_operand joinState "b" "b" "k" (by decide) (by decide) (by decide)
      (by decide)).1 (by decide), rfl⟩

theorem flatMap_quoteRune_injective : ∀ (a b : List Char),
    a.flatMap quoteRune = b.flatMap quoteRune → a = b
  | [], [] , _ => rfl
  | [], c :: b, h => by
    simp only [List.flatMap_nil, List.flatMap_cons, quoteRune] at h
    split at h <;> simp at h
  | c :: a, [], h => by
    simp only [List.flatMap_nil, List.flatMap_cons, quoteRune] at h
    split at h <;> simp at h
  | c :: a, d :: b, h => by
    simp only [List.flatMap_cons, quoteRune] at h
    by_cases hc : (c == '\\' || c == '"') = true
    · by_cases hd : (d == '\\' || d == '"') = true
      · simp only [hc, hd, if_true, List.cons_append, List.nil_append, List.cons.injEq,
          true_and] at h
        rw [h.1, flatMap_quoteRune_injective a b h.2]
      · simp only [hc, hd, if_true, if_false, List.cons_append, List.nil_append, List.cons.injEq,
          Bool.false_eq_true] at h
        exfalso
        apply hd
        rw [← h.1]
        decide
    · by_cases hd : (d == '\\' || d == '"') = true
      · simp only [hc, hd, if_true, if_false, List.cons_append, List.nil_append, List.cons.injEq,
          Bool.false_eq_true] at h
        exfalso
        apply hc
        rw [h.1]
        decide
      · simp only [hc, hd, if_false, List.cons_append, List.nil_append, List.cons.injEq,
          Bool.false_eq_true] at h
        rw [h.1, flatMap_quoteRune_injective a b h.2]

theorem quoteString_injective (a b : String) (h : quoteString a = quoteString b) : a = b := by
  unfold quoteString at h
  have h1 : a.data.flatMap quoteRune ++ ['"'] = b.data.flatMap quoteRune ++ ['"'] := by
    have := congrArg String.data h
    simpa using this
  have h2 := List.append_cancel_right h1
  have h3 := flatMap_quoteRune_injective _ _ h2
  exact String.ext h3

theorem quoteString_not_bare (a : String) : safeBareLiteral (quoteString a) = false := by
  unfold safeBareLiteral quoteString
  have : isBareChar '"' = false := by decide
  simp [this]

theorem normalizeIdentifier_ok_name (v : Visitor) (parts : List String) (f : String)
    (h : normalizeIdentifier v parts = .ok f) :
    unqualifiedName v parts ≠ "" ∧
    f = (if safeBareLiteral (unqualifiedName v parts) then unqualifiedName v parts
         else quoteString (unqualifiedName v parts)) := by
  unfold normalizeIdentifier at h
  by_cases hp : parts.isEmpty = true
  · simp [hp, badRequest] at h
  · simp only [hp, if_false, Bool.false_eq_true] at h
    by_cases he : (stringsJoin (stripQualifier v parts) "." == "") = true
    · simp [he, badRequest] at h
    · simp only [he, if_false, Bool.false_eq_true] at h
      refine ⟨by simpa [unqualifiedName] using he, ?_⟩
      unfold unqualifiedName
      by_cases hs : safeBareLiteral (stringsJoin (stripQualifier v parts) ".") = true
      · simp only [hs, if_true] at h ⊢
        injection h with h
        exact h.symm
      · simp only [hs, if_false, Bool.false_eq_true] at h ⊢
        injection h with h
        exact h.symm

theorem normalizeIdentifier_same_name (v : Visitor) (l r : List String) (f : String)
    (hl : normalizeIdentifier v l = .ok f) (hr : normalizeIdentifier v r = .ok f) :
    unqualifiedName v l = unqualifiedName v r := by
  obtain ⟨_, h1⟩ := normalizeIdentifier_ok_name v l f hl
  obtain ⟨_, h2⟩ := normalizeIdentifier_ok_name v r f hr
  by_cases a : safeBareLiteral (unqualifiedName v l) = true
  · by_cases b : safeBareLiteral (unqualifiedName v r) = true
    · simp only [a, b, if_true] at h1 h2
      rw [← h1, ← h2]
    · simp only [a, b, if_true, if_false, Bool.false_eq_true] at h1 h2
      rw [h1] at h2
      rw [h2, quoteString_not_bare] at a
      exact absurd a (by decide)
  · by_cases b : safeBareLiteral (unqualifiedName v r) = true
    · simp only [a, b, if_true, if_false, Bool.false_eq_true] at h1 h2
      rw [h2] at h1
      rw [h1, quoteString_not_bare] at b
      exact absurd b (by decide)
    · simp only [a, b, if_false, Bool.false_eq_true] at h1 h2
      rw [h1] at h2
      exact quoteString_injective _ _ h2
theorem normalizeIdentifier_error_400 (v : Visitor) (parts : List String) (e : Err)
    (h : normalizeIdentifier v parts = .error e) : e.isBadRequest = true := by
  unfold normalizeIdentifier at h
  by_cases hp : parts.isEmpty = true
  · simp only [hp, if_true, badRequest, Except.error.injEq] at h
    subst h; rfl
  · simp only [hp, if_false, Bool.false_eq_true] at h
    by_cases he : (stringsJoin (stripQualifier v parts) "." == "") = true
    · simp only [he, if_true, badRequest, Except.error.injEq] at h
      subst h; rfl
    · simp only [he, if_false, Bool.false_eq_true] at h
      split at h <;> cases h

theorem joinKeyField_ok (v : Visitor) (l r : List String) (f : String)
    (h : joinKeyField v l r = .ok f) :
    normalizeIdentifier v l = .ok f ∧ normalizeIdentifier v r = .ok f := by
  unfold joinKeyField at h
  cases hl : normalizeIdentifier v l with
  | error err => rw [hl, bind_error_eq] at h; cases h
  | ok a =>
    rw [hl, bind_ok_eq] at h
    cases hr : normalizeIdentifier v r with
    | error err => rw [hr, bind_error_eq] at h; cases h
    | ok b =>
      rw [hr, bind_ok_eq] at h
      by_cases hab : a = b
      · subst hab
        simp at h
        rw [h]
        exact ⟨rfl, rfl⟩
      · have : (a != b) = true := by simpa using hab
        simp [this, badRequest] at h

theorem joinKeyField_error_400 (v : Visitor) (l r : List String) (e : Err)
    (h : joinKeyField v l r = .error e) : e.isBadRequest = true := by
  unfold joinKeyField at h
  cases hl : normalizeIdentifier v l with
  | error err =>
    rw [hl, bind_error_eq] at h
    injection h with h
    subst h
    exact normalizeIdentifier_error_400 v l _ hl
  | ok a =>
    rw [hl, bind_ok_eq] at h
    cases hr : normalizeIdentifier v r with
    | error err =>
      rw [hr, bind_error_eq] at h
      injection h with h
      subst h
      exact normalizeIdentifier_error_400 v r _ hr
    | ok b =>
      rw [hr, bind_ok_eq] at h
      split at h
      · simp only [badRequest, Except.error.injEq] at h
        subst h; rfl
      · cases h

theorem joinKeyField_differ (v : Visitor) (l r : List String)
    (h : fieldNamesAgree v (identEq l r) = false) :
    ∃ e, joinKeyField v l r = .error e := by
  cases hj : joinKeyField v l r with
  | error e => exact ⟨e, rfl⟩
  | ok f =>
    obtain ⟨h1, h2⟩ := joinKeyField_ok v l r f hj
    have hs := normalizeIdentifier_same_name v l r f h1 h2
    have hn := (normalizeIdentifier_ok_name v l f h1).1
    simp [fieldNamesAgree, identEq, hs] at h
    rw [hs] at hn
    exact absurd h hn

theorem classifyResidual_error_400 (v : Visitor) (rightAlias : String) (expr l r : Expr)
    (e : Err) (h : classifyResidual v rightAlias expr l r = .error e) :
    e.isBadRequest = true := by
  unfold classifyResidual at h
  simp only at h
  repeat' split at h
  all_goals first
    | (cases h; rfl)
    | cases h

theorem classifyResidual_not_key (v : Visitor) (rightAlias : String) (expr l r : Expr)
    (f : String) : classifyResidual v rightAlias expr l r ≠ .ok (.key f) := by
  unfold classifyResidual
  simp only
  intro h
  repeat' split at h
  all_goals cases h

theorem classifyConjunct_cross (v : Visitor) (rightAlias op : String) (l r : List String)
    (h : isCrossEquality v rightAlias (.binaryExpr op (.identifier l) (.identifier r)) = true) :
    classifyConjunct v rightAlias (.binaryExpr op (.identifier l) (.identifier r)) =
      (joinKeyField v l r >>= fun field => .ok (.key field)) := by
  simp only [isCrossEquality, Bool.and_eq_true, Bool.or_eq_true] at h
  obtain ⟨hop, hq⟩ := h
  unfold classifyConjunct
  simp only [hop, if_true]
  rcases hq with ⟨h1, h2⟩ | ⟨h1, h2⟩
  · simp only [h1, h2, Bool.and_self, if_true]
  · simp only [h1, h2, Bool.and_self, if_true]
    split <;> rfl

theorem classifyConjunct_not_cross (v : Visitor) (rightAlias : String) (e : Expr) (f : String)
    (h : isCrossEquality v rightAlias e = false) :
    classifyConjunct v rightAlias e ≠ .ok (.key f) := by
  intro hc
  cases e with
  | binaryExpr op l r =>
    unfold classifyConjunct at hc
    simp only at hc
    by_cases hop : (op == "=") = true
    · simp only [hop, if_true] at hc
      cases l with
      | identifier lp =>
        cases r with
        | identifier rp =>
          simp only [isCrossEquality, hop, Bool.true_and, Bool.or_eq_false_iff] at h
          simp only [h.1, h.2, Bool.false_eq_true, if_false] at hc
          exact classifyResidual_not_key _ _ _ _ _ _ hc
        | _ => exact classifyResidual_not_key _ _ _ _ _ _ hc
      | _ => exact classifyResidual_not_key _ _ _ _ _ _ hc
    · simp only [hop, if_false, Bool.false_eq_true] at hc
      exact classifyResidual_not_key _ _ _ _ _ _ hc
  | _ => simp [classifyConjunct, badRequest] at hc
theorem classifyConjunct_error_400 (v : Visitor) (rightAlias : String) (e : Expr) (err : Err)
    (h : classifyConjunct v rightAlias e = .error err) : err.isBadRequest = true := by
  cases e with
  | binaryExpr op l r =>
    by_cases hx : isCrossEquality v rightAlias (.binaryExpr op l r) = true
    · cases l with
      | identifier lp =>
        cases r with
        | identifier rp =>
          rw [classifyConjunct_cross v rightAlias op lp rp hx] at h
          cases hj : joinKeyField v lp rp with
          | error e2 =>
            rw [hj, bind_error_eq] at h
            injection h with h
            subst h
            exact joinKeyField_error_400 v lp rp _ hj
          | ok f => rw [hj, bind_ok_eq] at h; cases h
        | _ => simp [isCrossEquality] at hx
      | _ => simp [isCrossEquality] at hx
    · unfold classifyConjunct at h
      simp only at h
      by_cases hop : (op == "=") = true
      · simp only [hop, if_true] at h
        cases l with
        | identifier lp =>
          cases r with
          | identifier rp =>
            simp only [isCrossEquality, hop, Bool.true_and, Bool.or_eq_true, Bool.and_eq_true,
              not_or, not_and] at hx
            by_cases h1 : (qualifierForIdentifierWithDefault v lp v.baseAlias == v.baseAlias) = true
            · have h2 := hx.1 h1
              simp only [h1, h2, Bool.true_and, Bool.false_eq_true, if_false, Bool.and_false] at h
              by_cases h3 : (qualifierForIdentifierWithDefault v lp v.baseAlias == rightAlias) = true
              · have h4 := hx.2 h3
                simp only [h3, h4, Bool.and_false, Bool.false_eq_true, if_false] at h
                exact classifyResidual_error_400 _ _ _ _ _ _ h
              · simp only [h3, Bool.false_and, Bool.false_eq_true, if_false] at h
                exact classifyResidual_error_400 _ _ _ _ _ _ h
            · simp only [h1, Bool.false_and, Bool.false_eq_true, if_false] at h
              by_cases h3 : (qualifierForIdentifierWithDefault v lp v.baseAlias == rightAlias) = true
              · have h4 := hx.2 h3
                simp only [h3, h4, Bool.and_false, Bool.false_eq_true, if_false] at h
                exact classifyResidual_error_400 _ _ _ _ _ _ h
              · simp only [h3, Bool.false_and, Bool.false_eq_true, if_false] at h
                exact classifyResidual_error_400 _ _ _ _ _ _ h
          | _ => exact classifyResidual_error_400 _ _ _ _ _ _ h
        | _ => exact classifyResidual_error_400 _ _ _ _ _ _ h
      · simp only [hop, if_false, Bool.false_eq_true] at h
        exact classifyResidual_error_400 _ _ _ _ _ _ h
  | _ =>
    simp only [classifyConjunct, badRequest, Except.error.injEq] at h
    subst h
    rfl

theorem classifyConjunct_key_inv (v : Visitor) (rightAlias : String) (e : Expr) (f : String)
    (h : classifyConjunct v rightAlias e = .ok (.key f)) :
    isCrossEquality v rightAlias e = true ∧ fieldNamesAgree v e = true := by
  by_cases hx : isCrossEquality v rightAlias e = true
  · refine ⟨hx, ?_⟩
    cases e with
    | binaryExpr op l r =>
      cases l with
      | identifier lp =>
        cases r with
        | identifier rp =>
          rw [classifyConjunct_cross v rightAlias op lp rp hx] at h
          cases hj : joinKeyField v lp rp with
          | error e2 => rw [hj, bind_error_eq] at h; cases h
          | ok g =>
            obtain ⟨h1, h2⟩ := joinKeyField_ok v lp rp g hj
            have hs := normalizeIdentifier_same_name v lp rp g h1 h2
            have hn := (normalizeIdentifier_ok_name v lp g h1).1
            simp [fieldNamesAgree, hs, hn]
            rw [← hs]; exact hn
        | _ => simp [isCrossEquality] at hx
      | _ => simp [isCrossEquality] at hx
    | _ => simp [isCrossEquality] at hx
  · have hx1 : isCrossEquality v rightAlias e = false := by simpa using hx
    exact absurd h (classifyConjunct_not_cross v rightAlias e f hx1)

theorem classifyConjunct_cross_ok (v : Visitor) (rightAlias : String) (e : Expr)
    (c : JoinConjunct) (hx : isCrossEquality v rightAlias e = true)
    (h : classifyConjunct v rightAlias e = .ok c) : ∃ f, c = .key f := by
  cases e with
  | binaryExpr op l r =>
    cases l with
    | identifier lp =>
      cases r with
      | identifier rp =>
        rw [classifyConjunct_cross v rightAlias op lp rp hx] at h
        cases hj : joinKeyField v lp rp with
        | error e2 => rw [hj, bind_error_eq] at h; cases h
        | ok g =>
          rw [hj, bind_ok_eq] at h
          injection h with h
          exact ⟨g, h.symm⟩
      | _ => simp [isCrossEquality] at hx
    | _ => simp [isCrossEquality] at hx
  | _ => simp [isCrossEquality] at hx

theorem extractJoinSpecLoop_keys (v : Visitor) (rightAlias : String) (es : List Expr) :
    ∀ (acc spec : JoinSpec), extractJoinSpecLoop v rightAlias acc es = .ok spec →
    spec.joinKeys.length =
      acc.joinKeys.length + (es.filter (isCrossEquality v rightAlias)).length ∧
    ∀ e ∈ es, isCrossEquality v rightAlias e = true → fieldNamesAgree v e = true := by
  induction es with
  | nil =>
    intro acc spec h
    simp only [extractJoinSpecLoop, Except.ok.injEq] at h
    subst h
    simp
  | cons e rest ih =>
    intro acc spec h
    unfold extractJoinSpecLoop at h
    cases hc : classifyConjunct v rightAlias e with
    | error err => rw [hc, bind_error_eq] at h; cases h
    | ok c =>
      rw [hc, bind_ok_eq] at h
      cases c with
      | key f =>
        obtain ⟨hx, ha⟩ := classifyConjunct_key_inv v rightAlias e f hc
        obtain ⟨i1, i2⟩ := ih _ _ h
        refine ⟨?_, ?_⟩
        · rw [i1]
          simp [List.filter_cons, hx]
          omega
        · intro e1 he1 hx1
          rcases List.mem_cons.mp he1 with rfl | hm
          · exact ha
          · exact i2 e1 hm hx1
      | leftFilter =>
        have hx : isCrossEquality v rightAlias e = false := by
          by_contra hx
          obtain ⟨f, hf⟩ := classifyConjunct_cross_ok v rightAlias e _ (by simpa using hx) hc
          cases hf
        obtain ⟨i1, i2⟩ := ih _ _ h
        refine ⟨?_, ?_⟩
        · rw [i1]
          simp [List.filter_cons, hx]
        · intro e1 he1 hx1
          rcases List.mem_cons.mp he1 with rfl | hm
          · rw [hx] at hx1; cases hx1
          · exact i2 e1 hm hx1
      | rightFilter =>
        have hx : isCrossEquality v rightAlias e = false := by
          by_contra hx
          obtain ⟨f, hf⟩ := classifyConjunct_cross_ok v rightAlias e _ (by simpa using hx) hc
          cases hf
        obtain ⟨i1, i2⟩ := ih _ _ h
        refine ⟨?_, ?_⟩
        · rw [i1]
          simp [List.filter_cons, hx]
        · intro e1 he1 hx1
          rcases List.mem_cons.mp he1 with rfl | hm
          · rw [hx] at hx1; cases hx1
          · exact i2 e1 hm hx1

theorem extractJoinSpecLoop_error_400 (v : Visitor) (rightAlias : String) (es : List Expr) :
    ∀ (acc : JoinSpec) (err : Err), extractJoinSpecLoop v rightAlias acc es = .error err →
    err.isBadRequest = true := by
  induction es with
  | nil => intro acc err h; cases h
  | cons e rest ih =>
    intro acc err h
    unfold extractJoinSpecLoop at h
    cases hc : classifyConjunct v rightAlias e with
    | error e2 =>
      rw [hc, bind_error_eq] at h
      injection h with h
      subst h
      exact classifyConjunct_error_400 v rightAlias e _ hc
    | ok c =>
      rw [hc, bind_ok_eq] at h
      cases c <;> exact ih _ _ h
theorem processJoin_ok_inv (tn : GoMap String → SelectStatement → Res String) (v : Visitor)
    (type : JoinType) (left right : TableExpr) (onCond : Option Expr)
    (res : List String × Visitor) (h : processJoin tn v type left right onCond = .ok res) :
    ∃ v1 jr v2, processJoinLeft tn v left = .ok v1 ∧
      processJoinRight tn v1 right = .ok (jr, v2) ∧ planJoin v2 type jr onCond = .ok res := by
  unfold processJoin at h
  split at h
  · cases h
  · cases hl : processJoinLeft tn v left with
    | error err => rw [hl, bind_error_eq] at h; cases h
    | ok v1 =>
      rw [hl, bind_ok_eq] at h
      cases hr : processJoinRight tn v1 right with
      | error err => rw [hr, bind_error_eq] at h; cases h
      | ok r =>
        rw [hr, bind_ok_eq] at h
        exact ⟨v1, r.1, r.2, rfl, hr, h⟩

theorem planJoin_ok_inv (v2 : Visitor) (type : JoinType) (jr : JoinRight)
    (onCond : Option Expr) (res : List String × Visitor)
    (h : planJoin v2 type jr onCond = .ok res) :
    ∃ spec, extractJoinSpec v2 onCond jr.rightAlias = .ok spec ∧ spec.joinKeys ≠ [] := by
  unfold planJoin at h
  cases hs : extractJoinSpec v2 onCond jr.rightAlias with
  | error err => rw [hs, bind_error_eq] at h; cases h
  | ok spec =>
    rw [hs, bind_ok_eq] at h
    refine ⟨spec, rfl, ?_⟩
    intro hk
    simp [hk, badRequest] at h

theorem planJoin_no_keys (v2 : Visitor) (type : JoinType) (jr : JoinRight)
    (onCond : Option Expr) (spec : JoinSpec)
    (hs : extractJoinSpec v2 onCond jr.rightAlias = .ok spec) (hk : spec.joinKeys = []) :
    planJoin v2 type jr onCond =
      badRequest "translator: JOIN requires equality condition between tables" := by
  unfold planJoin
  rw [hs, bind_ok_eq]
  simp [hk]

theorem planJoin_spec_error (v2 : Visitor) (type : JoinType) (jr : JoinRight)
    (onCond : Option Expr) (err : Err)
    (hs : extractJoinSpec v2 onCond jr.rightAlias = .error err) :
    planJoin v2 type jr onCond = .error err := by
  unfold planJoin
  rw [hs, bind_error_eq]

theorem unqualifiedName_qualified (v : Visitor) (q k : String)
    (hq : v.bindings.has (toLower q) = true) : unqualifiedName v [q, k] = k := by
  simp [unqualifiedName, stripQualifier, hq, stringsJoin]

/-- C12: a join is planned successfully only if its ON clause has a conjunct
that is an equality between a base-side identifier and a right-hand-side
identifier, and every such conjunct has identical unqualified field names.  An
ON clause without such an equality whose conjuncts are all valid residuals is
rejected with the 400 error `JOIN requires equality condition between tables`;
an ON clause with such an equality on different field names, such as
`a.x = b.y` with `x` different from `y`, is rejected with a 400 error. -/
theorem join_requires_cross_equality (tn : GoMap String → SelectStatement → Res String)
    (v : Visitor) (type : JoinType) (left right : TableExpr) (onCond : Option Expr) :
    (∀ res, processJoin tn v type left right onCond = .ok res →
      ∃ v1 jr v2 cond, processJoinLeft tn v left = .ok v1 ∧
        processJoinRight tn v1 right = .ok (jr, v2) ∧ onCond = some cond ∧
        (∃ e ∈ flattenAnd cond, isCrossEquality v2 jr.rightAlias e = true) ∧
        (∀ e ∈ flattenAnd cond, isCrossEquality v2 jr.rightAlias e = true →
          fieldNamesAgree v2 e = true)) ∧
    (∀ (v2 : Visitor) (jr : JoinRight) (cond : Expr) (spec : JoinSpec), onCond = some cond →
      extractJoinSpec v2 onCond jr.rightAlias = .ok spec →
      (∀ e ∈ flattenAnd cond, isCrossEquality v2 jr.rightAlias e = false) →
      planJoin v2 type jr onCond =
        badRequest "translator: JOIN requires equality condition between tables") ∧
    (∀ (v2 : Visitor) (jr : JoinRight) (cond : Expr), onCond = some cond →
      (∃ e ∈ flattenAnd cond, isCrossEquality v2 jr.rightAlias e = true ∧
        fieldNamesAgree v2 e = false) →
      failsWith400 (planJoin v2 type jr onCond) = true) ∧
    (∀ (v2 : Visitor) (jr : JoinRight) (a b x y : String),
      onCond = some (identEq [a, x] [b, y]) →
      v2.bindings.has (toLower a) = true → v2.bindings.has (toLower b) = true →
      toLower a = v2.baseAlias → toLower b = jr.rightAlias → x ≠ y →
      failsWith400 (planJoin v2 type jr onCond) = true) := by
  have part3 : ∀ (v2 : Visitor) (jr : JoinRight) (cond : Expr), onCond = some cond →
      (∃ e ∈ flattenAnd cond, isCrossEquality v2 jr.rightAlias e = true ∧
        fieldNamesAgree v2 e = false) →
      failsWith400 (planJoin v2 type jr onCond) = true := by
    intro v2 jr cond hc ⟨e, he, hx, ha⟩
    subst hc
    cases hs : extractJoinSpec v2 (some cond) jr.rightAlias with
    | ok spec =>
      have := (extractJoinSpecLoop_keys v2 jr.rightAlias (flattenAnd cond) _ spec hs).2 e he hx
      rw [ha] at this
      cases this
    | error err =>
      rw [planJoin_spec_error v2 type jr _ err hs]
      exact extractJoinSpecLoop_error_400 v2 jr.rightAlias (flattenAnd cond) _ err hs
  refine ⟨?_, ?_, part3, ?_⟩
  · intro res h
    obtain ⟨v1, jr, v2, hl, hr, hp⟩ := processJoin_ok_inv tn v type left right onCond res h
    obtain ⟨spec, hs, hk⟩ := planJoin_ok_inv v2 type jr onCond res hp
    cases onCond with
    | none => simp [extractJoinSpec, badRequest] at hs
    | some cond =>
      obtain ⟨k1, k2⟩ := extractJoinSpecLoop_keys v2 jr.rightAlias (flattenAnd cond) _ spec hs
      refine ⟨v1, jr, v2, cond, hl, hr, rfl, ?_, k2⟩
      have hpos : 0 < ((flattenAnd cond).filter (isCrossEquality v2 jr.rightAlias)).length := by
        have : spec.joinKeys.length ≠ 0 := fun h0 => hk (List.length_eq_zero.mp h0)
        simp only [List.length_nil, Nat.zero_add] at k1
        omega
      obtain ⟨e, he⟩ := List.exists_mem_of_length_pos hpos
      rw [List.mem_filter] at he
      exact ⟨e, he.1, he.2⟩
  · intro v2 jr cond spec hc hs hno
    subst hc
    apply planJoin_no_keys v2 type jr _ spec hs
    obtain ⟨k1, _⟩ := extractJoinSpecLoop_keys v2 jr.rightAlias (flattenAnd cond) _ spec hs
    have hf : (flattenAnd cond).filter (isCrossEquality v2 jr.rightAlias) = [] := by
      rw [List.filter_eq_nil_iff]
      intro e he
      rw [hno e he]
      decide
    rw [hf] at k1
    exact List.length_eq_zero.mp (by simpa using k1)
  · intro v2 jr a b x y hc ha hb hab hbr hxy
    refine part3 v2 jr _ hc ⟨identEq [a, x] [b, y], ?_, ?_, ?_⟩
    · simp [identEq, flattenAnd]
    · simp [identEq, isCrossEquality, qualifier_bound v2 a x _ ha, qualifier_bound v2 b y _ hb,
        hab, hbr]
    · simp [identEq, fieldNamesAgree, unqualifiedName_qualified v2 a x ha,
        unqualifiedName_qualified v2 b y hb, hxy]

theorem join_requires_cross_equality_witness :
    failsWith400 (planJoin joinState .joinInner
      { rightAlias := "b", rightQuery := "", rightSimple := true, rightBaseFilters := [] }
      (some (identEq ["a", "x"] ["b", "y"]))) = true ∧
    translateSelectStatementToLogsQL
      (some (.select (joinSelect .joinInner rightB (identEq ["a", "x"] ["b", "y"]))))
      exampleProvider =
      badRequest "translator: JOIN keys must use identical field names (x vs y)" ∧
    translateSelectStatementToLogsQL
      (some (.select (joinSelect .joinInner rightB
        (.binaryExpr "=" (.identifier ["b", "kind"]) (.stringLiteral "x")))))
      exampleProvider =
      badRequest "translator: JOIN requires equality condition between tables" :=
  ⟨(join_requires_cross_equality (fun _ _ => .error .fuel) joinState .joinInner (tableRef "a")
      rightB (some (identEq ["a", "x"] ["b", "y"]))).2.2.2 joinState
      { rightAlias := "b", rightQuery := "", rightSimple := true, rightBaseFilters := [] }
      "a" "b" "x" "y" rfl (by decide) (by decide) (by decide) (by decide) (by decide),
   by decide, by decide⟩

theorem combineFilters_eq (parts : List String) : combineFilters parts = combinationOf parts := by
  cases parts with
  | nil => rfl
  | cons a t =>
    cases t with
    | nil => rfl
    | cons b u => simp [combineFilters, combinationOf]

theorem mem_data_append_left (c : Char) (a b : String) (h : c ∈ a.data) : c ∈ (a ++ b).data := by
  simp [String.data_append, h]

theorem mem_data_append_right (c : Char) (a b : String) (h : c ∈ b.data) : c ∈ (a ++ b).data := by
  simp [String.data_append, h]

theorem buildFieldLiteralComparison_colon (field : String) (lit : LiteralValue) (flipped : Bool)
    (cmp : ComparisonKind) (s : String)
    (h : buildFieldLiteralComparison field lit flipped cmp = .ok s) : ':' ∈ s.data := by
  unfold buildFieldLiteralComparison at h
  cases cmp <;> simp only at h
  case comparisonEqual => injection h with h; subst h; simp [String.data_append]
  case comparisonNotEqual => injection h with h; subst h; simp [String.data_append]
  all_goals
    split at h
    · cases h
    · injection h with h; subst h; simp [String.data_append]

theorem translateFieldComparison_colon (a b : String) (cmp : ComparisonKind) (s : String)
    (h : translateFieldComparison a b cmp = .ok s) : ':' ∈ s.data := by
  unfold translateFieldComparison at h
  cases cmp <;> simp only at h <;> (injection h with h; subst h; simp [String.data_append])

theorem translateComparison_colon (v v1 : Visitor) (l r : Expr) (cmp : ComparisonKind)
    (w : String) (h : translateComparison v l r cmp = .ok (w, v1)) : ':' ∈ w.data := by
  unfold translateComparison at h
  cases hf : fieldNameFromExpr v l with
  | error err => rw [hf, bind_error_eq] at h; cases h
  | ok a =>
    rw [hf, bind_ok_eq] at h
    cases hg : fieldNameFromExpr a.2.2 r with
    | error err => rw [hg, bind_error_eq] at h; cases h
    | ok c =>
      rw [hg, bind_ok_eq] at h
      simp only at h
      split at h
      · cases hx : translateFieldComparison a.1 c.1 cmp with
        | error err => rw [hx, bind_error_eq] at h; cases h
        | ok s =>
          rw [hx, bind_ok_eq] at h
          injection h with h
          injection h with h1 h2
          subst h1
          exact translateFieldComparison_colon _ _ _ _ hx
      · split at h
        · cases hx : literalFromExpr r with
          | error err => rw [hx, bind_error_eq] at h; cases h
          | ok lit =>
            rw [hx, bind_ok_eq] at h
            cases hy : buildFieldLiteralComparison a.1 lit false cmp with
            | error err => rw [hy, bind_error_eq] at h; cases h
            | ok s =>
              rw [hy, bind_ok_eq] at h
              injection h with h
              injection h with h1 h2
              subst h1
              exact buildFieldLiteralComparison_colon _ _ _ _ _ hy
        · split at h
          · cases hx : literalFromExpr l with
            | error err => rw [hx, bind_error_eq] at h; cases h
            | ok lit =>
              rw [hx, bind_ok_eq] at h
              cases hy : buildFieldLiteralComparison c.1 lit true cmp with
              | error err => rw [hy, bind_error_eq] at h; cases h
              | ok s =>
                rw [hy, bind_ok_eq] at h
                injection h with h
                injection h with h1 h2
                subst h1
                exact buildFieldLiteralComparison_colon _ _ _ _ _ hy
          · cases h

theorem translateExpr_binary_shape (v v1 : Visitor) (op : String) (l r : Expr) (w : String)
    (h : translateExpr v (.binaryExpr op l r) = .ok (w, v1)) :
    ':' ∈ w.data ∨ '(' ∈ w.data := by
  unfold translateExpr at h
  split at h
  · right
    cases hx : translateExpr v l with
    | error err => rw [hx, bind_error_eq] at h; cases h
    | ok a =>
      rw [hx, bind_ok_eq] at h
      cases hy : translateExpr a.2 r with
      | error err => rw [hy, bind_error_eq] at h; cases h
      | ok b =>
        rw [hy, bind_ok_eq] at h
        injection h with h
        injection h with h1 h2
        subst h1
        simp [String.data_append]
  · left
    repeat' split at h
    all_goals first
      | exact translateComparison_colon _ _ _ _ _ _ h
      | cases h
theorem classifyConjunct_ok_binary (v : Visitor) (rightAlias : String) (e : Expr)
    (c : JoinConjunct) (h : classifyConjunct v rightAlias e = .ok c) : isBinaryExpr e = true := by
  cases e with
  | binaryExpr op l r => rfl
  | _ => simp [classifyConjunct, badRequest] at h

theorem extractJoinSpecLoop_rightFilters (v : Visitor) (rightAlias : String) (es : List Expr) :
    ∀ (acc spec : JoinSpec), extractJoinSpecLoop v rightAlias acc es = .ok spec →
    ∀ e ∈ spec.rightFilters, e ∈ acc.rightFilters ∨ isBinaryExpr e = true := by
  induction es with
  | nil =>
    intro acc spec h e he
    simp only [extractJoinSpecLoop, Except.ok.injEq] at h
    subst h
    exact Or.inl he
  | cons x rest ih =>
    intro acc spec h e he
    unfold extractJoinSpecLoop at h
    cases hc : classifyConjunct v rightAlias x with
    | error err => rw [hc, bind_error_eq] at h; cases h
    | ok c =>
      rw [hc, bind_ok_eq] at h
      have hb := classifyConjunct_ok_binary v rightAlias x c hc
      cases c with
      | key f => exact ih _ _ h e he
      | leftFilter => exact ih _ _ h e he
      | rightFilter =>
        rcases ih _ _ h e he with h1 | h1
        · simp only [List.mem_append, List.mem_singleton] at h1
          rcases h1 with h1 | rfl
          · exact Or.inl h1
          · exact Or.inr hb
        · exact Or.inr h1

theorem translateRightFilters_shape (rightAlias : String) (es : List Expr) :
    ∀ (v v1 : Visitor) (parts : List String), (∀ e ∈ es, isBinaryExpr e = true) →
    translateRightFilters rightAlias v es = .ok (parts, v1) →
    ∀ p ∈ parts, ':' ∈ p.data ∨ '(' ∈ p.data := by
  induction es with
  | nil =>
    intro v v1 parts _ h p hp
    simp only [translateRightFilters, Except.ok.injEq, Prod.mk.injEq] at h
    rw [← h.1] at hp
    cases hp
  | cons x rest ih =>
    intro v v1 parts hb h p hp
    unfold translateRightFilters at h
    cases ha : ensureAliases v x [rightAlias] with
    | error err => rw [ha, bind_error_eq] at h; cases h
    | ok u =>
      rw [ha, bind_ok_eq] at h
      cases hx : translateExpr v x with
      | error err => rw [hx, bind_error_eq] at h; cases h
      | ok part =>
        rw [hx, bind_ok_eq] at h
        cases hr : translateRightFilters rightAlias part.2 rest with
        | error err => rw [hr, bind_error_eq] at h; cases h
        | ok others =>
          rw [hr, bind_ok_eq] at h
          injection h with h
          injection h with h1 h2
          subst h1
          rcases List.mem_cons.mp hp with rfl | hm
          · have hbx := hb x (by simp)
            cases x with
            | binaryExpr op l r =>
              exact translateExpr_binary_shape v part.2 op l r part.1 hx
            | _ => cases hbx
          · exact ih part.2 others.2 others.1 (fun e he => hb e (List.mem_cons_of_mem _ he)) hr
              p hm

theorem combinationOf_ne_star (parts : List String) (hne : parts ≠ [])
    (h : ∀ p ∈ parts, ':' ∈ p.data ∨ '(' ∈ p.data) : combinationOf parts ≠ "*" := by
  cases parts with
  | nil => exact absurd rfl hne
  | cons a t =>
    cases t with
    | nil =>
      intro he
      simp only [combinationOf] at he
      have := h a (by simp)
      rw [he] at this
      revert this
      decide
    | cons b u =>
      intro he
      have hm : '(' ∈ (combinationOf (a :: b :: u)).data := by
        simp [combinationOf, String.data_append]
      rw [he] at hm
      revert hm
      decide

theorem processJoinRight_source (tn : GoMap String → SelectStatement → Res String)
    (v1 v2 : Visitor) (right : TableExpr) (jr : JoinRight)
    (h : processJoinRight tn v1 right = .ok (jr, v2)) : RightSourceOf tn v1 right jr := by
  cases right with
  | tableName name tableAlias =>
    unfold processJoinRight at h
    cases name with
    | none => simp [badRequest] at h
    | some parts =>
      simp only at h
      by_cases hp : parts.isEmpty = true
      · simp [hp, badRequest] at h
      · simp only [hp, if_false, Bool.false_eq_true] at h
        by_cases hd : v1.bindings.has (toLower (aliasOrName (lastPart parts) tableAlias)) = true
        · simp [hd, badRequest] at h
        · simp only [hd, if_false, Bool.false_eq_true] at h
          cases hr : resolveTableName v1 parts "JOIN table" with
          | error err => rw [hr, bind_error_eq] at h; cases h
          | ok res =>
            rw [hr, bind_ok_eq] at h
            cases res with
            | pipeline q =>
              simp only [Except.ok.injEq, Prod.mk.injEq] at h
              right; left
              refine ⟨parts, tableAlias, q, rfl, hr, ?_, ?_, ?_⟩ <;> rw [← h.1]
            | table spec =>
              simp only at h
              by_cases hta : (trimSpace tableAlias == "") = true
              · simp [hta, badRequest] at h
              · simp only [hta, if_false, Bool.false_eq_true] at h
                by_cases hpi : (spec.pipeline != "") = true
                · simp only [hpi, if_true, Except.ok.injEq, Prod.mk.injEq] at h
                  right; right; left
                  refine ⟨parts, tableAlias, spec, rfl, hr, by simpa using hpi, ?_, ?_, ?_⟩ <;>
                    rw [← h.1]
                · simp only [hpi, if_false, Bool.false_eq_true, Except.ok.injEq,
                    Prod.mk.injEq] at h
                  left
                  refine ⟨parts, tableAlias, spec, rfl, hr, by simpa using hpi, ?_, ?_⟩ <;>
                    rw [← h.1]
  | subqueryTable select tableAlias =>
    unfold processJoinRight at h
    simp only at h
    cases ha : subqueryAlias v1 tableAlias "join" with
    | error err => rw [ha, bind_error_eq] at h; cases h
    | ok a =>
      rw [ha, bind_ok_eq] at h
      split at h
      · cases h
      · cases select with
        | none => cases h
        | some sel =>
          simp only at h
          split at h
          · cases h
          · rename_i subQuery hq
            simp only [Except.ok.injEq, Prod.mk.injEq] at h
            right; right; right
            refine ⟨sel, tableAlias, (registerBinding a.2 (toLower a.1) false).availableCTEs, rfl,
              ?_, ?_, ?_⟩
            · rw [← h.1]; exact hq
            · rw [← h.1]
            · rw [← h.1]
  | joinExpr t l r c => simp [processJoinRight, badRequest] at h
  | other t => simp [processJoinRight, badRequest] at h
theorem rightSource_base (tn : GoMap String → SelectStatement → Res String) (v1 : Visitor)
    (right : TableExpr) (jr : JoinRight) (h : RightSourceOf tn v1 right jr)
    (hs : jr.rightSimple = false) : jr.rightBaseFilters = [] := by
  rcases h with ⟨_, _, _, _, _, _, h1, _⟩ | ⟨_, _, _, _, _, _, _, h2⟩ |
    ⟨_, _, _, _, _, _, _, _, h2⟩ | ⟨_, _, _, _, _, _, h2⟩
  · rw [h1] at hs; cases hs
  · exact h2
  · exact h2
  · exact h2

/-- C14: when a join is planned, the emitted pipe is `join by (k1, ...) (<right
query>)`, followed by ` inner` exactly for an INNER join.  The own filter of
the right-hand table and the translated right-side residuals are combined in
that order: a single part as it is, several parts as `(p1 AND p2 AND ...)`.
For a filter-style table the right query is that combination (`*` without a
part); for a pipeline `P` (CTE, view, subquery or table spec with pipes) it is
`P | filter <combination>`, or `P` when there is no part. -/
theorem join_pipe_shape (tn : GoMap String → SelectStatement → Res String) (v : Visitor)
    (type : JoinType) (left right : TableExpr) (onCond : Option Expr) (pipes : List String)
    (v3 : Visitor) (h : processJoin tn v type left right onCond = .ok (pipes, v3)) :
    ∃ v1 jr v2 spec parts,
      processJoinLeft tn v left = .ok v1 ∧ processJoinRight tn v1 right = .ok (jr, v2) ∧
      RightSourceOf tn v1 right jr ∧
      extractJoinSpec v2 onCond jr.rightAlias = .ok spec ∧
      translateRightFilters jr.rightAlias
        { v2 with pendingLeftFilter := v2.pendingLeftFilter ++ spec.leftFilters }
        spec.rightFilters = .ok (parts, v3) ∧
      pipes = [joinPipeOf type spec.joinKeys (rightQueryOf jr parts)] := by
  obtain ⟨v1, jr, v2, hl, hr, hp⟩ := processJoin_ok_inv tn v type left right onCond _ h
  have hsrc := processJoinRight_source tn v1 v2 right jr hr
  have hb : planJoin v2 type jr onCond =
      (extractJoinSpec v2 onCond jr.rightAlias >>= fun spec =>
        if spec.joinKeys.length == 0 then
          badRequest "translator: JOIN requires equality condition between tables"
        else
          translateRightFilters jr.rightAlias
            { v2 with pendingLeftFilter := v2.pendingLeftFilter ++ spec.leftFilters }
            spec.rightFilters >>= fun rf =>
          .ok (["join by (" ++ stringsJoin spec.joinKeys ", " ++ ") (" ++
              (if jr.rightSimple then combineFilters (jr.rightBaseFilters ++ rf.1)
               else if combineFilters (jr.rightBaseFilters ++ rf.1) != "*" then
                 jr.rightQuery ++ " | filter " ++ combineFilters (jr.rightBaseFilters ++ rf.1)
               else jr.rightQuery) ++ ")" ++
              (if type == .joinInner then " inner" else "")], rf.2)) := rfl
  rw [hb] at hp
  cases hs : extractJoinSpec v2 onCond jr.rightAlias with
  | error err => rw [hs, bind_error_eq] at hp; cases hp
  | ok spec =>
    rw [hs, bind_ok_eq] at hp
    split at hp
    · cases hp
    · cases hrf : translateRightFilters jr.rightAlias
          { v2 with pendingLeftFilter := v2.pendingLeftFilter ++ spec.leftFilters }
          spec.rightFilters with
      | error err => rw [hrf, bind_error_eq] at hp; cases hp
      | ok rf =>
        rw [hrf, bind_ok_eq] at hp
        injection hp with hp
        injection hp with hp1 hp2
        subst hp2
        refine ⟨v1, jr, v2, spec, rf.1, hl, hr, hsrc, hs, hrf, ?_⟩
        rw [← hp1]
        unfold joinPipeOf rightQueryOf
        have hsuffix : (if (type == JoinType.joinInner) = true then " inner" else "") =
            (if type = JoinType.joinInner then " inner" else "") := by
          by_cases ht : type = .joinInner <;> simp [ht]
        rw [hsuffix, combineFilters_eq]
        by_cases hsimple : jr.rightSimple = true
        · simp only [hsimple, if_true]
        · have hs0 : jr.rightSimple = false := by simpa using hsimple
          have hbase := rightSource_base tn v1 right jr hsrc hs0
          simp only [hs0, Bool.false_eq_true, if_false, hbase, List.nil_append]
          cases hparts : rf.1 with
          | nil => simp [combinationOf]
          | cons p ps =>
            have hbin : ∀ e ∈ spec.rightFilters, isBinaryExpr e = true := by
              intro e he
              cases onCond with
              | none => simp [extractJoinSpec, badRequest] at hs
              | some cond =>
                rcases extractJoinSpecLoop_rightFilters v2 jr.rightAlias (flattenAnd cond) _ spec
                  hs e he with h1 | h1
                · cases h1
                · exact h1
            have hshape := translateRightFilters_shape jr.rightAlias spec.rightFilters _ rf.2 rf.1
              hbin hrf
            rw [hparts] at hshape
            have hne := combinationOf_ne_star (p :: ps) (by simp) hshape
            have hne1 : (combinationOf (p :: ps) != "*") = true := by simpa using hne
            simp [hne1]

theorem join_pipe_shape_witness :
    (∃ v1 jr v2 spec parts,
      processJoinLeft (fun _ _ => .error .fuel) (newVisitor exampleProvider []) (tableRef "a") =
        .ok v1 ∧
      processJoinRight (fun _ _ => .error .fuel) v1 (.tableName (some ["p"]) "r") =
        .ok (jr, v2) ∧
      RightSourceOf (fun _ _ => .error .fuel) v1 (.tableName (some ["p"]) "r") jr ∧
      extractJoinSpec v2
        (some (.binaryExpr "AND" (identEq ["a", "id"] ["r", "id"])
          (.binaryExpr "=" (.identifier ["r", "kind"]) (.stringLiteral "x")))) jr.rightAlias =
        .ok spec ∧
      translateRightFilters jr.rightAlias
        { v2 with pendingLeftFilter := v2.pendingLeftFilter ++ spec.leftFilters }
        spec.rightFilters =
        .ok (parts, registerBinding (registerBinding
          (registerBinding (registerBinding
            { newVisitor exampleProvider [] with baseAlias := "a", baseFilter := "*" } "a" true)
            "a" true) "r" false) "p" false) ∧
      ["join by (id) (x:y | fields z | filter kind:x) inner"] =
        [joinPipeOf .joinInner spec.joinKeys (rightQueryOf jr parts)]) ∧
    translateSelectStatementToLogsQL
      (some (.select (joinSelect .joinLeft (.tableName (some ["f"]) "r")
        (.binaryExpr "AND" (identEq ["a", "id"] ["r", "id"])
          (.binaryExpr "=" (.identifier ["r", "kind"]) (.stringLiteral "x"))))))
      exampleProvider = .ok "* | join by (id) ((lvl:err AND kind:x)) | fields name" ∧
    translateSelectStatementToLogsQL
      (some (.select (joinSelect .joinInner (.tableName (some ["p"]) "r")
        (identEq ["a", "id"] ["r", "id"])))) exampleProvider =
      .ok "* | join by (id) (x:y | fields z) inner | fields name" ∧
    translateSelectStatementToLogsQL
      (some (.select (joinSelect .joinInner (.tableName (some ["f"]) "r")
        (identEq ["a", "id"] ["r", "id"])))) exampleProvider =
      .ok "* | join by (id) (lvl:err) inner | fields name" ∧
    translateSelectStatementToLogsQL
      (some (.select (joinSelect .joinLeft rightB (identEq ["a", "id"] ["b", "id"]))))
      exampleProvider = .ok "* | join by (id) (*) | fields name" :=
  ⟨join_pipe_shape (fun _ _ => .error .fuel) (newVisitor exampleProvider []) .joinInner
      (tableRef "a") (.tableName (some ["p"]) "r")
      (some (.binaryExpr "AND" (identEq ["a", "id"] ["r", "id"])
        (.binaryExpr "=" (.identifier ["r", "kind"]) (.stringLiteral "x"))))
      ["join by (id) (x:y | fields z | filter kind:x) inner"] _ rfl,
   by decide, by decide, by decide, by decide⟩

theorem bytesLt_irrefl : ∀ a : List Nat, bytesLt a a = false
  | [] => rfl
  | x :: xs => by simp [bytesLt, bytesLt_irrefl xs]

theorem bytesLt_trans : ∀ a b c : List Nat, bytesLt a b = true → bytesLt b c = true →
    bytesLt a c = true
  | [], [], _, h, _ => by simp [bytesLt] at h
  | [], _ :: _, [], _, h => by simp [bytesLt] at h
  | [], _ :: _, _ :: _, _, _ => rfl
  | _ :: _, [], _, h, _ => by simp [bytesLt] at h
  | _ :: _, _ :: _, [], _, h => by simp [bytesLt] at h
  | x :: xs, y :: ys, z :: zs, h1, h2 => by
    simp only [bytesLt] at h1 h2 ⊢
    by_cases hxy : x < y
    · by_cases hyz : y < z
      · have : x < z := Nat.lt_trans hxy hyz
        simp [this]
      · by_cases hzy : z < y
        · simp [hyz, hzy] at h2
        · have : y = z := by omega
          subst this
          simp [hxy]
    · by_cases hyx : y < x
      · simp [hxy, hyx] at h1
      · have : x = y := by omega
        subst this
        simp only [hxy, if_false] at h1
        by_cases hyz : x < z
        · simp [hyz]
        · by_cases hzy : z < x
          · simp [hyz, hzy] at h2
          · simp only [hyz, hzy, if_false] at h2 ⊢
            exact bytesLt_trans xs ys zs h1 h2

theorem bytesLt_connected : ∀ a b : List Nat, bytesLt a b = false → bytesLt b a = false → a = b
  | [], [], _, _ => rfl
  | [], _ :: _, h, _ => by simp [bytesLt] at h
  | _ :: _, [], _, h => by simp [bytesLt] at h
  | x :: xs, y :: ys, h1, h2 => by
    simp only [bytesLt] at h1 h2
    by_cases hxy : x < y
    · simp [hxy] at h1
    · by_cases hyx : y < x
      · simp [hyx] at h2
      · have : x = y := by omega
        subst this
        simp only [hxy, if_false] at h1 h2
        rw [bytesLt_connected xs ys h1 h2]

theorem bytesLt_asymm (a b : List Nat) (h : bytesLt a b = true) : bytesLt b a = false := by
  by_contra hc
  have hc1 : bytesLt b a = true := by simpa using hc
  have := bytesLt_trans a b a h hc1
  rw [bytesLt_irrefl] at this
  cases this

theorem utf8Bytes_cases (c : Char) :
    (c.toNat < 128 ∧ utf8Bytes c = [c.toNat]) ∨
    (128 ≤ c.toNat ∧ c.toNat < 2048 ∧ utf8Bytes c = [192 + c.toNat / 64, 128 + c.toNat % 64]) ∨
    (2048 ≤ c.toNat ∧ c.toNat < 65536 ∧
      utf8Bytes c = [224 + c.toNat / 4096, 128 + c.toNat / 64 % 64, 128 + c.toNat % 64]) ∨
    (65536 ≤ c.toNat ∧ c.toNat < 1114112 ∧
      utf8Bytes c = [240 + c.toNat / 262144, 128 + c.toNat / 4096 % 64,
        128 + c.toNat / 64 % 64, 128 + c.toNat % 64]) := by
  have hc : c.toNat < 1114112 := by
    have := c.valid
    unfold Char.toNat
    rcases this with h1 | ⟨_, h2⟩ <;> omega
  unfold utf8Bytes
  by_cases h1 : c.toNat < 128
  · left; simp [h1]
  · by_cases h2 : c.toNat < 2048
    · right; left; simp [h1, h2]; omega
    · by_cases h3 : c.toNat < 65536
      · right; right; left; simp [h1, h2, h3]; omega
      · right; right; right; simp [h1, h2, h3]; omega

theorem utf8Bytes_cancel (c d : Char) (r s : List Nat)
    (h : utf8Bytes c ++ r = utf8Bytes d ++ s) : c = d ∧ r = s := by
  have key : c.toNat = d.toNat ∧ r = s := by
    rcases utf8Bytes_cases c with ⟨c1, ce⟩ | ⟨c1, c2, ce⟩ | ⟨c1, c2, ce⟩ | ⟨c1, c2, ce⟩ <;>
    rcases utf8Bytes_cases d with ⟨d1, de⟩ | ⟨d1, d2, de⟩ | ⟨d1, d2, de⟩ | ⟨d1, d2, de⟩ <;>
    rw [ce, de] at h <;>
    simp only [List.cons_append, List.nil_append, List.cons.injEq] at h <;>
    first
      | exact ⟨by omega, by first | exact h.2 | exact h.2.2 | exact h.2.2.2 | exact h.2.2.2.2⟩
      | (exfalso; omega)
  exact ⟨Char.ext (UInt32.ext key.1), key.2⟩

theorem stringBytes_injective_aux : ∀ a b : List Char,
    a.flatMap utf8Bytes = b.flatMap utf8Bytes → a = b
  | [], [], _ => rfl
  | [], d :: b, h => by
    simp only [List.flatMap_nil, List.flatMap_cons] at h
    rcases utf8Bytes_cases d with ⟨_, de⟩ | ⟨_, _, de⟩ | ⟨_, _, de⟩ | ⟨_, _, de⟩ <;>
      (rw [de] at h; simp at h)
  | c :: a, [], h => by
    simp only [List.flatMap_nil, List.flatMap_cons] at h
    rcases utf8Bytes_cases c with ⟨_, ce⟩ | ⟨_, _, ce⟩ | ⟨_, _, ce⟩ | ⟨_, _, ce⟩ <;>
      (rw [ce] at h; simp at h)
  | c :: a, d :: b, h => by
    simp only [List.flatMap_cons] at h
    obtain ⟨h1, h2⟩ := utf8Bytes_cancel c d _ _ h
    rw [h1, stringBytes_injective_aux a b h2]

theorem stringBytes_injective (a b : String) (h : stringBytes a = stringBytes b) : a = b :=
  String.ext (stringBytes_injective_aux a.data b.data h)
theorem insertSorted_perm (x : String) : ∀ l : List String, (insertSorted x l).Perm (x :: l)
  | [] => List.Perm.refl _
  | y :: rest => by
    unfold insertSorted
    split
    · exact ((insertSorted_perm x rest).cons y).trans (List.Perm.swap x y rest)
    · exact List.Perm.refl _

theorem sortStrings_perm : ∀ l : List String, (sortStrings l).Perm l
  | [] => List.Perm.refl _
  | x :: rest => by
    show (insertSorted x (sortStrings rest)).Perm (x :: rest)
    exact (insertSorted_perm x _).trans ((sortStrings_perm rest).cons x)

theorem strLe_trans (a b c : String) (h1 : strLe a b = true) (h2 : strLe b c = true) :
    strLe a c = true := by
  unfold strLe at *
  simp only [Bool.not_eq_true'] at *
  by_contra hc
  have hca : bytesLt (stringBytes c) (stringBytes a) = true := by simpa using hc
  by_cases hab : bytesLt (stringBytes a) (stringBytes b) = true
  · have := bytesLt_trans _ _ _ hca hab
    rw [h2] at this
    cases this
  · have hab1 : bytesLt (stringBytes a) (stringBytes b) = false := by simpa using hab
    have e := bytesLt_connected _ _ hab1 h1
    rw [e] at hca
    rw [h2] at hca
    cases hca

theorem strLe_of_not_lt (a b : String) (h : bytesLt (stringBytes a) (stringBytes b) = false) :
    strLe b a = true := by
  simp [strLe, h]

theorem strLe_of_lt (a b : String) (h : bytesLt (stringBytes a) (stringBytes b) = true) :
    strLe a b = true := by
  simp [strLe, bytesLt_asymm _ _ h]

theorem strLe_antisymm (a b : String) (h1 : strLe a b = true) (h2 : strLe b a = true) :
    a = b := by
  unfold strLe at *
  simp only [Bool.not_eq_true'] at *
  exact stringBytes_injective a b (bytesLt_connected _ _ h2 h1)

theorem insertSorted_ascending (x : String) : ∀ l : List String, AscendingBytes l →
    AscendingBytes (insertSorted x l)
  | [], _ => by simp [insertSorted, AscendingBytes]
  | y :: rest, h => by
    unfold AscendingBytes at h ⊢
    rw [List.pairwise_cons] at h
    unfold insertSorted
    by_cases hyx : bytesLt (stringBytes y) (stringBytes x) = true
    · simp only [hyx, if_true]
      rw [List.pairwise_cons]
      refine ⟨?_, insertSorted_ascending x rest h.2⟩
      intro z hz
      rcases (List.Perm.mem_iff (insertSorted_perm x rest)).mp hz with hz1
      rcases List.mem_cons.mp hz1 with rfl | hm
      · exact strLe_of_lt _ _ hyx
      · exact h.1 z hm
    · have hyx1 : bytesLt (stringBytes y) (stringBytes x) = false := by simpa using hyx
      simp only [hyx1, if_false, Bool.false_eq_true]
      rw [List.pairwise_cons]
      refine ⟨?_, List.pairwise_cons.mpr h⟩
      intro z hz
      rcases List.mem_cons.mp hz with rfl | hm
      · exact strLe_of_not_lt _ _ hyx1
      · exact strLe_trans _ _ _ (strLe_of_not_lt _ _ hyx1) (h.1 z hm)

theorem sortStrings_ascending : ∀ l : List String, AscendingBytes (sortStrings l)
  | [] => by simp [sortStrings, AscendingBytes]
  | x :: rest => by
    show AscendingBytes (insertSorted x (sortStrings rest))
    exact insertSorted_ascending x _ (sortStrings_ascending rest)

theorem sortStrings_eq_of_perm (l1 l2 : List String) (h : l1.Perm l2) :
    sortStrings l1 = sortStrings l2 := by
  haveI : IsAntisymm String (fun a b => strLe a b = true) := ⟨strLe_antisymm⟩
  apply List.eq_of_perm_of_sorted (r := fun a b => strLe a b = true)
  · exact (sortStrings_perm l1).trans (h.trans (sortStrings_perm l2).symm)
  · exact sortStrings_ascending l1
  · exact sortStrings_ascending l2
set_option maxRecDepth 4000 in
/-- C16 (counterexample): for `HAVING SUM(9) > 1 AND SUM(10) > 1` the delete
pipe names `sum(__const_2)` before `sum(__const_1)`, and for
`HAVING SUM(B) > 1 AND SUM(a) > 1` it names `sum(a)` before `sum(B)`: in both
the emitted names are not in ascending byte-wise order. -/
theorem having_delete_names_not_ascending :
    translateSelectStatementToLogsQL
      (some (.select (havingSelect (.binaryExpr "AND" (sumAbove (.numericLiteral "9"))
        (sumAbove (.numericLiteral "10")))))) exampleProvider =
      .ok ("* | format 9 as __const_1 | format 10 as __const_2 | " ++
        "stats by (host) count() c, sum(__const_1), sum(__const_2) | " ++
        "filter (\"sum(__const_1)\":>1 AND \"sum(__const_2)\":>1) | " ++
        "delete \"sum(__const_2)\", \"sum(__const_1)\"") ∧
    ¬ AscendingBytes ["\"sum(__const_2)\"", "\"sum(__const_1)\""] ∧
    translateSelectStatementToLogsQL
      (some (.select (havingSelect (.binaryExpr "AND" (sumAbove (.identifier ["B"]))
        (sumAbove (.identifier ["a"])))))) exampleProvider =
      .ok ("* | stats by (host) count() c, sum(B), sum(a) | " ++
        "filter (\"sum(B)\":>1 AND \"sum(a)\":>1) | delete \"sum(a)\", \"sum(B)\"") ∧
    ¬ AscendingBytes ["\"sum(a)\"", "\"sum(B)\""] := by
  refine ⟨by decide, ?_, by decide, ?_⟩ <;> (unfold AscendingBytes; decide)

/-- C16 (as amended): the HAVING stage emits the filter pipe and, when there
are aggregates to delete, one delete pipe that lists their names in ascending
byte-wise order of their aggregate keys.  The sorted key list is a permutation
of the keys to delete and is the same for every order in which the keys are
met. -/
theorem having_delete_sorted_by_key (v : Visitor) (h : Expr) (orderBy : List OrderItem)
    (pipes : List String) (v2 : Visitor)
    (H : translateHaving v (some h) orderBy true = .ok (pipes, v2)) :
    (∃ f, pipes = ("filter " ++ f) ::
      (if havingDeleteKeys v2 = [] then []
       else ["delete " ++ stringsJoin ((sortStrings (havingDeleteKeys v2)).map
         (fun key => (v2.aggTempDeletes.get key).getD "")) ", "])) ∧
    AscendingBytes (sortStrings (havingDeleteKeys v2)) ∧
    (sortStrings (havingDeleteKeys v2)).Perm (havingDeleteKeys v2) ∧
    ∀ keys : List String, keys.Perm (havingDeleteKeys v2) →
      sortStrings keys = sortStrings (havingDeleteKeys v2) := by
  refine ⟨?_, sortStrings_ascending _, sortStrings_perm _,
    fun keys hk => sortStrings_eq_of_perm _ _ hk⟩
  have hb : translateHaving v (some h) orderBy true =
      (translateExpr v h >>= fun hs =>
        if hs.2.aggTempDeletes.length > 0 then
          preserveOrderByAggregates hs.2 orderBy >>= fun v2 =>
            if (havingDeleteKeys v2).length > 0 then
              .ok (["filter " ++ hs.1, "delete " ++ stringsJoin ((sortStrings
                (havingDeleteKeys v2)).map (fun key => (v2.aggTempDeletes.get key).getD ""))
                ", "], v2)
            else .ok (["filter " ++ hs.1], v2)
        else .ok (["filter " ++ hs.1], hs.2)) := rfl
  rw [hb] at H
  cases hx : translateExpr v h with
  | error err => rw [hx, bind_error_eq] at H; cases H
  | ok hs =>
    rw [hx, bind_ok_eq] at H
    by_cases hlen : hs.2.aggTempDeletes.length > 0
    · rw [if_pos hlen] at H
      cases hp : preserveOrderByAggregates hs.2 orderBy with
      | error err => rw [hp, bind_error_eq] at H; cases H
      | ok v3 =>
        rw [hp, bind_ok_eq] at H
        by_cases hk : (havingDeleteKeys v3).length > 0
        · rw [if_pos hk] at H
          injection H with H
          injection H with H1 H2
          subst H2
          have hne : havingDeleteKeys v3 ≠ [] := by
            intro h0; rw [h0] at hk; simp at hk
          exact ⟨hs.1, by rw [← H1, if_neg hne]⟩
        · rw [if_neg hk] at H
          injection H with H
          injection H with H1 H2
          subst H2
          have he : havingDeleteKeys v3 = [] := by
            cases hh : havingDeleteKeys v3 with
            | nil => rfl
            | cons a t => rw [hh] at hk; simp at hk
          exact ⟨hs.1, by rw [← H1, if_pos he]⟩
    · rw [if_neg hlen] at H
      injection H with H
      injection H with H1 H2
      subst H2
      have he : havingDeleteKeys hs.2 = [] := by
        have : hs.2.aggTempDeletes = [] := by
          cases hh : hs.2.aggTempDeletes with
          | nil => rfl
          | cons a t => rw [hh] at hlen; simp at hlen
        simp [havingDeleteKeys, this]
      exact ⟨hs.1, by rw [← H1, if_pos he]⟩

theorem having_delete_sorted_by_key_witness :
    (∃ f, ["filter (\"sum(B)\":>1 AND \"sum(a)\":>1)", "delete \"sum(a)\", \"sum(B)\""] =
      ("filter " ++ f) ::
      (if havingDeleteKeys havingState = [] then []
       else ["delete " ++ stringsJoin ((sortStrings (havingDeleteKeys havingState)).map
         (fun key => (havingState.aggTempDeletes.get key).getD "")) ", "])) ∧
    AscendingBytes (sortStrings (havingDeleteKeys havingState)) ∧
    (sortStrings (havingDeleteKeys havingState)).Perm (havingDeleteKeys havingState) ∧
    (∀ keys : List String, keys.Perm (havingDeleteKeys havingState) →
      sortStrings keys = sortStrings (havingDeleteKeys havingState)) ∧
    sortStrings (havingDeleteKeys havingState) = ["SUM(a)", "SUM(b)"] :=
  ⟨(having_delete_sorted_by_key havingState
      (.binaryExpr "AND" (sumAbove (.identifier ["B"])) (sumAbove (.identifier ["a"]))) []
      ["filter (\"sum(B)\":>1 AND \"sum(a)\":>1)", "delete \"sum(a)\", \"sum(B)\""]
      havingState rfl).1,
   (having_delete_sorted_by_key havingState
      (.binaryExpr "AND" (sumAbove (.identifier ["B"])) (sumAbove (.identifier ["a"]))) []
      ["filter (\"sum(B)\":>1 AND \"sum(a)\":>1)", "delete \"sum(a)\", \"sum(B)\""]
      havingState rfl).2.1,
   (having_delete_sorted_by_key havingState
      (.binaryExpr "AND" (sumAbove (.identifier ["B"])) (sumAbove (.identifier ["a"]))) []
      ["filter (\"sum(B)\":>1 AND \"sum(a)\":>1)", "delete \"sum(a)\", \"sum(B)\""]
      havingState rfl).2.2.1,
   (having_delete_sorted_by_key havingState
      (.binaryExpr "AND" (sumAbove (.identifier ["B"])) (sumAbove (.identifier ["a"]))) []
      ["filter (\"sum(B)\":>1 AND \"sum(a)\":>1)", "delete \"sum(a)\", \"sum(B)\""]
      havingState rfl).2.2.2,
   by decide⟩

theorem buildStatsPipe_ok_inv (v : Visitor) (stmt : SelectStatement) (having : Option Expr)
    (st : List String × Bool × Visitor) (h : buildStatsPipe v stmt having = .ok st) :
    ∃ g cols,
      groupByStage v (collectGroupAliases stmt.columns []) stmt.groupBy = .ok g ∧
      statsColumnsLoop (stmt.groupBy.length > 0) stmt.columns.length g.groupFields
        { v with groupExprAliases :=
                   if stmt.groupBy.length > 0 then some g.groupExprAliases else none }
        [] stmt.columns = .ok cols ∧
      statsAfterColumns (stmt.groupBy.length > 0) g
        { v with groupExprAliases :=
                   if stmt.groupBy.length > 0 then some g.groupExprAliases else none }
        having cols = .ok st := by
  have hb : buildStatsPipe v stmt having =
      (groupByStage v (collectGroupAliases stmt.columns []) stmt.groupBy >>= fun g =>
        statsColumnsLoop (stmt.groupBy.length > 0) stmt.columns.length g.groupFields
          { v with groupExprAliases :=
                     if stmt.groupBy.length > 0 then some g.groupExprAliases else none }
          [] stmt.columns >>= fun cols =>
        statsAfterColumns (stmt.groupBy.length > 0) g
          { v with groupExprAliases :=
                     if stmt.groupBy.length > 0 then some g.groupExprAliases else none }
          having cols) := rfl
  rw [hb] at h
  cases hg : groupByStage v (collectGroupAliases stmt.columns []) stmt.groupBy with
  | error err => rw [hg, bind_error_eq] at h; cases h
  | ok g =>
    rw [hg, bind_ok_eq] at h
    cases hc : statsColumnsLoop (stmt.groupBy.length > 0) stmt.columns.length
        g.groupFields
        { v with groupExprAliases :=
                   if stmt.groupBy.length > 0 then some g.groupExprAliases else none }
        [] stmt.columns with
    | error err => rw [hc, bind_error_eq] at h; cases h
    | ok cols =>
      rw [hc, bind_ok_eq] at h
      exact ⟨g, cols, rfl, hc, h⟩

theorem translateAfterFrom_ok_inv (v1 : Visitor) (stmt : SelectStatement) (jp : List String)
    (r : String × Visitor) (h : translateAfterFrom v1 stmt jp = .ok r) :
    ∃ wh lf st hv pr dp op lp,
      translateFilterList v1 stmt.whereClause.toList = .ok wh ∧
      translateFilterList wh.2 wh.2.pendingLeftFilter = .ok lf ∧
      buildStatsPipe lf.2 stmt stmt.having = .ok st ∧
      translateHaving st.2.2 stmt.having stmt.orderBy st.2.1 = .ok hv ∧
      buildProjectionPipes hv.2 stmt.columns st.2.1 = .ok pr ∧
      distinctPipesOf stmt.distinct pr.2.1 st.2.1 = .ok dp ∧
      orderPipesOf pr.2.2 stmt.orderBy st.2.1 = .ok op ∧
      limitPipesOf stmt.limit = .ok lp ∧
      r = (renderPipeline (sourceOf lf.2 (combineFilters (allFilters lf.2 (wh.1 ++ lf.1))))
            (filterPipesOf lf.2 (combineFilters (allFilters lf.2 (wh.1 ++ lf.1))) ++ jp ++
              st.1 ++ hv.1 ++ pr.1 ++ dp ++ op ++ lp), pr.2.2) := by
  have hb : translateAfterFrom v1 stmt jp =
      (translateFilterList v1 stmt.whereClause.toList >>= fun wh =>
       translateFilterList wh.2 wh.2.pendingLeftFilter >>= fun lf =>
       buildStatsPipe lf.2 stmt stmt.having >>= fun st =>
       translateHaving st.2.2 stmt.having stmt.orderBy st.2.1 >>= fun hv =>
       buildProjectionPipes hv.2 stmt.columns st.2.1 >>= fun pr =>
       distinctPipesOf stmt.distinct pr.2.1 st.2.1 >>= fun dp =>
       orderPipesOf pr.2.2 stmt.orderBy st.2.1 >>= fun op =>
       limitPipesOf stmt.limit >>= fun lp =>
       .ok (renderPipeline (sourceOf lf.2 (combineFilters (allFilters lf.2 (wh.1 ++ lf.1))))
            (filterPipesOf lf.2 (combineFilters (allFilters lf.2 (wh.1 ++ lf.1))) ++ jp ++
              st.1 ++ hv.1 ++ pr.1 ++ dp ++ op ++ lp), pr.2.2)) := rfl
  rw [hb] at h
  cases h1 : translateFilterList v1 stmt.whereClause.toList with
  | error err => rw [h1, bind_error_eq] at h; cases h
  | ok wh =>
    rw [h1, bind_ok_eq] at h
    cases h2 : translateFilterList wh.2 wh.2.pendingLeftFilter with
    | error err => rw [h2, bind_error_eq] at h; cases h
    | ok lf =>
      rw [h2, bind_ok_eq] at h
      cases h3 : buildStatsPipe lf.2 stmt stmt.having with
      | error err => rw [h3, bind_error_eq] at h; cases h
      | ok st =>
        rw [h3, bind_ok_eq] at h
        cases h4 : translateHaving st.2.2 stmt.having stmt.orderBy st.2.1 with
        | error err => rw [h4, bind_error_eq] at h; cases h
        | ok hv =>
          rw [h4, bind_ok_eq] at h
          cases h5 : buildProjectionPipes hv.2 stmt.columns st.2.1 with
          | error err => rw [h5, bind_error_eq] at h; cases h
          | ok pr =>
            rw [h5, bind_ok_eq] at h
            cases h6 : distinctPipesOf stmt.distinct pr.2.1 st.2.1 with
            | error err => rw [h6, bind_error_eq] at h; cases h
            | ok dp =>
              rw [h6, bind_ok_eq] at h
              cases h7 : orderPipesOf pr.2.2 stmt.orderBy st.2.1 with
              | error err => rw [h7, bind_error_eq] at h; cases h
              | ok op =>
                rw [h7, bind_ok_eq] at h
                cases h8 : limitPipesOf stmt.limit with
                | error err => rw [h8, bind_error_eq] at h; cases h
                | ok lp =>
                  rw [h8, bind_ok_eq] at h
                  injection h with h
                  exact ⟨wh, lf, st, hv, pr, dp, op, lp, rfl, h2, h3, h4, h5, h6, h7, rfl, h.symm⟩

theorem translateAfterFrom_withoutSetOps (v1 : Visitor) (stmt : SelectStatement)
    (jp : List String) :
    translateAfterFrom v1 stmt.withoutSetOps jp = translateAfterFrom v1 stmt jp := by
  cases stmt
  rfl

theorem translateSimpleSelect_ok_inv (tn : GoMap String → SelectStatement → Res String)
    (v0 : Visitor) (stmt : SelectStatement) (r : String × Visitor)
    (h : translateSimpleSelect tn v0 stmt = .ok r) :
    ∃ v jp v1, processFrom tn v stmt.fromClause = .ok (jp, v1) ∧
      translateAfterFrom v1 stmt jp = .ok r := by
  unfold translateSimpleSelect at h
  cases hw : registerWith tn v0.availableCTEs stmt.withClause with
  | error err => rw [hw, bind_error_eq] at h; cases h
  | ok ctes =>
    rw [hw, bind_ok_eq] at h
    split at h
    · cases h
    · cases hf : processFrom tn (resetVisitor { v0 with availableCTEs := ctes })
          stmt.fromClause with
      | error err => rw [hf, bind_error_eq] at h; cases h
      | ok fr =>
        rw [hf, bind_ok_eq] at h
        exact ⟨_, fr.1, fr.2, hf, h⟩

theorem translateSelect_ok_inv (tn : GoMap String → SelectStatement → Res String)
    (v0 : Visitor) (stmt : SelectStatement) (s : String)
    (h : translateSelect tn v0 stmt = .ok s) :
    ∃ v jp v1 r, processFrom tn v stmt.fromClause = .ok (jp, v1) ∧
      translateAfterFrom v1 stmt jp = .ok r := by
  unfold translateSelect at h
  split at h
  · cases hs : translateSimpleSelect tn v0 stmt with
    | error err => rw [hs, bind_error_eq] at h; cases h
    | ok r =>
      obtain ⟨v, jp, v1, h1, h2⟩ := translateSimpleSelect_ok_inv tn v0 stmt r hs
      exact ⟨v, jp, v1, r, h1, h2⟩
  · cases hs : translateSimpleSelect tn v0 stmt.withoutSetOps with
    | error err => rw [hs, bind_error_eq] at h; cases h
    | ok r =>
      obtain ⟨v, jp, v1, h1, h2⟩ := translateSimpleSelect_ok_inv tn v0 _ r hs
      rw [translateAfterFrom_withoutSetOps] at h2
      refine ⟨v, jp, v1, r, ?_, h2⟩
      cases stmt
      exact h1

theorem translate_ok_inv (sp : Provider) (ctes : GoMap String) (stmt : SelectStatement)
    (s : String)
    (h : translateSelectStatementToLogsQLWithContext sp (some (.select stmt)) ctes = .ok s) :
    ∃ tn v jp v1 r, processFrom tn v stmt.fromClause = .ok (jp, v1) ∧
      translateAfterFrom v1 stmt jp = .ok r := by
  rw [translate_select_unfold] at h
  obtain ⟨v, jp, v1, r, h1, h2⟩ := translateSelect_ok_inv _ _ stmt s h
  exact ⟨_, v, jp, v1, r, h1, h2⟩

/-- C17 (counterexample): `SELECT COUNT(*) FROM t HAVING COUNT(*) > 1` and
`SELECT host FROM t HAVING COUNT(*) > 1`, which have a HAVING clause and no
GROUP BY, are translated; they are not rejected. -/
theorem having_without_group_by_accepted :
    translateSelectStatementToLogsQL
      (some (.select (havingNoGroup
        [{ expr := .funcCall ["COUNT"] [.starExpr] false none, aliasName := "" }])))
      exampleProvider = .ok "* | stats count() | filter \"count()\":>1" ∧
    translateSelectStatementToLogsQL
      (some (.select (havingNoGroup [plainColumn ["host"]]))) exampleProvider =
      .ok "* | stats count() | filter \"count()\":>1 | delete \"count()\"" := by
  decide

theorem analyzeCalls_length (calls : List AggCall) :
    ∀ (v v1 : Visitor) (items : List AggItem), analyzeCalls v calls = .ok (items, v1) →
    items.length = calls.length := by
  induction calls with
  | nil =>
    intro v v1 items h
    simp only [analyzeCalls, Except.ok.injEq, Prod.mk.injEq] at h
    rw [← h.1]
    rfl
  | cons c rest ih =>
    intro v v1 items h
    unfold analyzeCalls at h
    cases hr : analyzeAggregate v c.fnName c.args c.distinct c.aliasName with
    | error err => rw [hr, bind_error_eq] at h; cases h
    | ok r =>
      rw [hr, bind_ok_eq] at h
      cases hs : analyzeCalls r.2 rest with
      | error err => rw [hs, bind_error_eq] at h; cases h
      | ok rs =>
        rw [hs, bind_ok_eq] at h
        injection h with h
        injection h with h1 h2
        rw [← h1]
        simp [ih r.2 rs.2 rs.1 hs]

theorem addAggregate_ne_nil (acc : List AggItem) (item : AggItem) :
    addAggregate acc item ≠ [] := by
  cases acc with
  | nil => simp [addAggregate]
  | cons a t =>
    unfold addAggregate
    split <;> simp

theorem foldl_addAggregate_eq_nil (items : List AggItem) :
    ∀ acc : List AggItem, items.foldl addAggregate acc = [] ↔ acc = [] ∧ items = [] := by
  induction items with
  | nil => intro acc; simp
  | cons x rest ih =>
    intro acc
    simp only [List.foldl_cons, ih]
    constructor
    · intro h
      exact absurd h.1 (addAggregate_ne_nil acc x)
    · intro h
      cases h.2

theorem statsColumnsLoop_none (ncols : Nat) (groupFields : List String)
    (cols : List SelectItem) :
    ∀ (v : Visitor) (aggs : List AggItem),
    statsColumnsLoop false ncols groupFields v aggs cols = .ok none →
    ncols ≤ 1 ∧ ∃ c ∈ cols, c.expr = .starExpr := by
  induction cols with
  | nil => intro v aggs h; simp [statsColumnsLoop] at h
  | cons col rest ih =>
    intro v aggs h
    have step : ∀ v1 aggs1, statsColumnsLoop false ncols groupFields v1 aggs1 rest = .ok none →
        ncols ≤ 1 ∧ ∃ c ∈ col :: rest, c.expr = .starExpr := by
      intro v1 aggs1 h1
      obtain ⟨a, c, hc, he⟩ := ih v1 aggs1 h1
      exact ⟨a, c, List.mem_cons_of_mem _ hc, he⟩
    obtain ⟨e, al⟩ := col
    cases e with
    | starExpr =>
      simp only [statsColumnsLoop] at h
      by_cases hn : ncols > 1
      · simp [hn, badRequest] at h
      · exact ⟨by omega, ⟨⟨.starExpr, al⟩, List.mem_cons_self _ _, rfl⟩⟩
    | identifier parts =>
      simp only [statsColumnsLoop] at h
      exact step _ _ h
    | funcCall fnName args distinct over =>
      simp only [statsColumnsLoop] at h
      cases over with
      | some o =>
        simp only [Option.isSome_some, if_true, Bool.false_eq_true, if_false] at h
        exact step _ _ h
      | none =>
        simp only [Option.isSome_none, Bool.false_eq_true, if_false] at h
        by_cases hagg : isAggregateFunction fnName = true
        · simp only [hagg, if_true] at h
          cases hr : analyzeAggregate v fnName args distinct al with
          | error err => rw [hr, bind_error_eq] at h; cases h
          | ok r =>
            rw [hr, bind_ok_eq] at h
            exact step _ _ h
        · have hagg1 : isAggregateFunction fnName = false := by simpa using hagg
          simp only [hagg1, Bool.false_eq_true, if_false] at h
          exact step _ _ h
    | binaryExpr op l r =>
      simp only [statsColumnsLoop, if_true, Bool.false_eq_true, if_false] at h
      exact step _ _ h
    | unaryExpr op x =>
      simp only [statsColumnsLoop, if_true, Bool.false_eq_true, if_false] at h
      exact step _ _ h
    | numericLiteral value =>
      simp only [statsColumnsLoop, if_true, Bool.false_eq_true, if_false] at h
      exact step _ _ h
    | _ =>
      simp only [statsColumnsLoop, Bool.false_eq_true, if_false] at h
      exact step _ _ h

theorem isSelectStar_of_single (cols : List SelectItem) (hlen : cols.length ≤ 1)
    (h : ∃ c ∈ cols, c.expr = .starExpr) : isSelectStar cols = true := by
  obtain ⟨c, hc, he⟩ := h
  cases cols with
  | nil => cases hc
  | cons a t =>
    cases t with
    | nil =>
      simp only [List.mem_singleton] at hc
      subst hc
      simp [isSelectStar, he]
    | cons b u => simp at hlen

theorem statsColumnsLoop_star (gf : List String) (v : Visitor) (aggs : List AggItem)
    (cols : List SelectItem) (h : isSelectStar cols = true) :
    statsColumnsLoop false cols.length gf v aggs cols = .ok none := by
  cases cols with
  | nil => simp [isSelectStar] at h
  | cons a t =>
    cases t with
    | nil =>
      obtain ⟨e, al⟩ := a
      cases e <;> simp [isSelectStar] at h
      simp [statsColumnsLoop]
    | cons b u => simp [isSelectStar] at h

theorem selectAggCalls_star (cols : List SelectItem) (h : isSelectStar cols = true) :
    selectAggCalls cols = [] := by
  cases cols with
  | nil => rfl
  | cons a t =>
    cases t with
    | nil =>
      obtain ⟨e, al⟩ := a
      cases e <;> simp [isSelectStar] at h
      rfl
    | cons b u => simp [isSelectStar] at h
theorem buildStatsPipe_not_aggregated_iff (v : Visitor) (stmt : SelectStatement)
    (having : Option Expr) (st : List String × Bool × Visitor)
    (hg : stmt.groupBy = []) (h : buildStatsPipe v stmt having = .ok st) :
    st.2.1 = false ↔
      (isSelectStar stmt.columns = true ∨
        (selectAggCalls stmt.columns = [] ∧ havingAggCalls having = [])) := by
  obtain ⟨g, cols, _, hc, ha⟩ := buildStatsPipe_ok_inv v stmt having st h
  have hng : decide (stmt.groupBy.length > 0) = false := by rw [hg]; rfl
  rw [hng] at hc ha
  cases cols with
  | none =>
    simp only [statsAfterColumns, Except.ok.injEq] at ha
    obtain ⟨h1, h2⟩ := statsColumnsLoop_none _ _ _ _ _ hc
    have hstar := isSelectStar_of_single stmt.columns h1 h2
    rw [← ha]
    simp [hstar]
  | some p =>
    obtain ⟨aggs0, v2⟩ := p
    have hns : isSelectStar stmt.columns = false := by
      by_contra hs
      have hs1 : isSelectStar stmt.columns = true := by simpa using hs
      rw [statsColumnsLoop_star _ _ _ _ hs1] at hc
      cases hc
    have hs : statsAfterColumns false g
        { v with groupExprAliases :=
                   if stmt.groupBy.length > 0 then some g.groupExprAliases else none }
        having (some (aggs0, v2)) =
        (havingAggregates v2 aggs0 having >>= fun collected =>
          finishStatsPipe false g collected.1 collected.2) := rfl
    rw [hs] at ha
    cases hh : havingAggregates v2 aggs0 having with
    | error err => rw [hh, bind_error_eq] at ha; cases ha
    | ok collected =>
      obtain ⟨aggs, v3⟩ := collected
      rw [hh, bind_ok_eq] at ha
      obtain ⟨items1, a1, e1⟩ := statsColumnsLoop_calls _ _ _ _ _ _ _ _ hc
      obtain ⟨items2, a2, e2⟩ := havingAggregates_calls _ _ _ _ _ hh
      have l1 := analyzeCalls_length _ _ _ _ a1
      have l2 := analyzeCalls_length _ _ _ _ a2
      have haggs : aggs = [] ↔ (selectAggCalls stmt.columns = [] ∧ havingAggCalls having = []) := by
        rw [e2, foldl_addAggregate_eq_nil, e1, foldl_addAggregate_eq_nil]
        constructor
        · rintro ⟨⟨_, h1⟩, h2⟩
          rw [h1] at l1
          rw [h2] at l2
          exact ⟨List.length_eq_zero.mp l1.symm, List.length_eq_zero.mp l2.symm⟩
        · rintro ⟨h1, h2⟩
          rw [h1] at l1
          rw [h2] at l2
          exact ⟨⟨rfl, List.length_eq_zero.mp l1⟩, List.length_eq_zero.mp l2⟩
      simp only [hns, Bool.false_eq_true, false_or]
      rw [← haggs]
      unfold finishStatsPipe at ha
      by_cases hl : aggs = []
      · subst hl
        simp only [List.length_nil, beq_self_eq_true, if_true, Bool.false_eq_true, if_false,
          Except.ok.injEq] at ha
        rw [← ha]
        simp
      · have hl1 : (aggs.length == 0) = false := by
          cases aggs with
          | nil => exact absurd rfl hl
          | cons a t => rfl
        simp only [hl1, Bool.false_eq_true, if_false, Except.ok.injEq] at ha
        rw [← ha]
        simp [hl]
theorem translateHaving_filter_head (v : Visitor) (h : Expr) (orderBy : List OrderItem)
    (hv : List String × Visitor) (H : translateHaving v (some h) orderBy true = .ok hv) :
    ∃ f v1, translateExpr v h = .ok (f, v1) ∧ hv.1.head? = some ("filter " ++ f) := by
  have hb : translateHaving v (some h) orderBy true =
      (translateExpr v h >>= fun hs =>
        if hs.2.aggTempDeletes.length > 0 then
          preserveOrderByAggregates hs.2 orderBy >>= fun v2 =>
            if (havingDeleteKeys v2).length > 0 then
              .ok (["filter " ++ hs.1, "delete " ++ stringsJoin ((sortStrings
                (havingDeleteKeys v2)).map (fun key => (v2.aggTempDeletes.get key).getD ""))
                ", "], v2)
            else .ok (["filter " ++ hs.1], v2)
        else .ok (["filter " ++ hs.1], hs.2)) := rfl
  rw [hb] at H
  cases hx : translateExpr v h with
  | error err => rw [hx, bind_error_eq] at H; cases H
  | ok hs =>
    rw [hx, bind_ok_eq] at H
    refine ⟨hs.1, hs.2, rfl, ?_⟩
    split at H
    · cases hp : preserveOrderByAggregates hs.2 orderBy with
      | error err => rw [hp, bind_error_eq] at H; cases H
      | ok v3 =>
        rw [hp, bind_ok_eq] at H
        split at H <;> (injection H with H; rw [← H]; rfl)
    · injection H with H
      rw [← H]
      rfl

theorem translateAfterFrom_having_rejected (v1 : Visitor) (stmt : SelectStatement)
    (jp : List String) (h : Expr) (wh lf : List String × Visitor)
    (st : List String × Bool × Visitor) (hh : stmt.having = some h)
    (hwh : translateFilterList v1 stmt.whereClause.toList = .ok wh)
    (hlf : translateFilterList wh.2 wh.2.pendingLeftFilter = .ok lf)
    (hst : buildStatsPipe lf.2 stmt stmt.having = .ok st) (hagg : st.2.1 = false) :
    translateAfterFrom v1 stmt jp =
      badRequest "translator: HAVING requires GROUP BY with aggregates" := by
  have hb : translateAfterFrom v1 stmt jp =
      (translateFilterList v1 stmt.whereClause.toList >>= fun wh =>
       translateFilterList wh.2 wh.2.pendingLeftFilter >>= fun lf =>
       buildStatsPipe lf.2 stmt stmt.having >>= fun st =>
       translateHaving st.2.2 stmt.having stmt.orderBy st.2.1 >>= fun hv =>
       buildProjectionPipes hv.2 stmt.columns st.2.1 >>= fun pr =>
       distinctPipesOf stmt.distinct pr.2.1 st.2.1 >>= fun dp =>
       orderPipesOf pr.2.2 stmt.orderBy st.2.1 >>= fun op =>
       limitPipesOf stmt.limit >>= fun lp =>
       .ok (renderPipeline (sourceOf lf.2 (combineFilters (allFilters lf.2 (wh.1 ++ lf.1))))
            (filterPipesOf lf.2 (combineFilters (allFilters lf.2 (wh.1 ++ lf.1))) ++ jp ++
              st.1 ++ hv.1 ++ pr.1 ++ dp ++ op ++ lp), pr.2.2)) := rfl
  rw [hb, hwh, bind_ok_eq, hlf, bind_ok_eq, hst, bind_ok_eq, hagg, hh]
  rfl

/-- C17 (as amended): let a SELECT have a HAVING clause and an empty GROUP BY.
It is not aggregated exactly when its SELECT list is the single column `*` or
neither the SELECT list nor HAVING holds an aggregate call.  When it is not
aggregated the translation is rejected, with the 400 error `HAVING requires
GROUP BY with aggregates` once the filters and the stats stage have succeeded;
when it is aggregated the HAVING stage does not reject it: its result starts
with the `filter` pipe of the translated HAVING clause. -/
theorem having_without_group_by (stmt : SelectStatement) (h : Expr)
    (hg : stmt.groupBy = []) (hh : stmt.having = some h) :
    (∀ v st, buildStatsPipe v stmt stmt.having = .ok st →
      (st.2.1 = false ↔
        (isSelectStar stmt.columns = true ∨
          (selectAggCalls stmt.columns = [] ∧ havingAggCalls stmt.having = [])))) ∧
    (∀ v1 jp wh lf st, translateFilterList v1 stmt.whereClause.toList = .ok wh →
      translateFilterList wh.2 wh.2.pendingLeftFilter = .ok lf →
      buildStatsPipe lf.2 stmt stmt.having = .ok st → st.2.1 = false →
      translateAfterFrom v1 stmt jp =
        badRequest "translator: HAVING requires GROUP BY with aggregates") ∧
    (∀ sp ctes s,
      (isSelectStar stmt.columns = true ∨
        (selectAggCalls stmt.columns = [] ∧ havingAggCalls stmt.having = [])) →
      translateSelectStatementToLogsQLWithContext sp (some (.select stmt)) ctes ≠ .ok s) ∧
    (∀ v st hv, buildStatsPipe v stmt stmt.having = .ok st → st.2.1 = true →
      translateHaving st.2.2 stmt.having stmt.orderBy st.2.1 = .ok hv →
      ∃ f v1, translateExpr st.2.2 h = .ok (f, v1) ∧ hv.1.head? = some ("filter " ++ f)) := by
  refine ⟨?_, ?_, ?_, ?_⟩
  · intro v st hst
    exact buildStatsPipe_not_aggregated_iff v stmt stmt.having st hg hst
  · intro v1 jp wh lf st hwh hlf hst hagg
    exact translateAfterFrom_having_rejected v1 stmt jp h wh lf st hh hwh hlf hst hagg
  · intro sp ctes s hcond hok
    obtain ⟨tn, v, jp, v1, r, _, h2⟩ := translate_ok_inv sp ctes stmt s hok
    obtain ⟨wh, lf, st, hv, pr, dp, op, lp, hwh, hlf, hst, hhv, _⟩ :=
      translateAfterFrom_ok_inv v1 stmt jp r h2
    have hagg := (buildStatsPipe_not_aggregated_iff lf.2 stmt stmt.having st hg hst).mpr hcond
    rw [hagg, hh] at hhv
    simp [translateHaving, badRequest] at hhv
  · intro v st hv _ hagg hhv
    rw [hagg, hh] at hhv
    exact translateHaving_filter_head st.2.2 h stmt.orderBy hv hhv

theorem having_without_group_by_witness :
    translateSelectStatementToLogsQLWithContext exampleProvider
      (some (.select (havingNoGroup [{ expr := .starExpr, aliasName := "" }]))) [] ≠
      .ok "* | stats count() | filter \"count()\":>1" ∧
    translateSelectStatementToLogsQL
      (some (.select (havingNoGroup [{ expr := .starExpr, aliasName := "" }]))) exampleProvider =
      badRequest "translator: HAVING requires GROUP BY with aggregates" :=
  ⟨(having_without_group_by (havingNoGroup [{ expr := .starExpr, aliasName := "" }])
      (.binaryExpr ">" (.funcCall ["COUNT"] [.starExpr] false none) (.numericLiteral "1"))
      rfl rfl).2.2.1 exampleProvider [] _ (Or.inl rfl),
   by decide⟩

theorem analyzeAggregateArg_frame (v : Visitor) (name : String) (args : List Expr)
    (r : String × String × List String × Visitor)
    (h : analyzeAggregateArg v name args = .ok r) :
    r.2.2.2.bindings = v.bindings ∧ r.2.2.2.sp = v.sp ∧
    r.2.2.2.groupExprAliases = v.groupExprAliases := by
  have hconst : ∀ value, (do
      let c ← ensureConstantField v value
      (Except.ok (value, c.1, if c.2.1 != "" then [c.2.1] else [], c.2.2) :
        Res (String × String × List String × Visitor))) = .ok r →
      r.2.2.2.bindings = v.bindings ∧ r.2.2.2.sp = v.sp ∧
      r.2.2.2.groupExprAliases = v.groupExprAliases := by
    intro value hc
    cases he : ensureConstantField v value with
    | error err => rw [he, bind_error_eq] at hc; cases hc
    | ok c =>
      rw [he, bind_ok_eq] at hc
      injection hc with hc
      rw [← hc]
      unfold ensureConstantField at he
      split at he
      · cases he
      · split at he
        · injection he with he; rw [← he]; exact ⟨rfl, rfl, rfl⟩
        · injection he with he; rw [← he]; exact ⟨rfl, rfl, rfl⟩
  have hnorm : ∀ parts, (do
      let field ← normalizeIdentifier v parts
      (Except.ok (field, field, [], v) : Res (String × String × List String × Visitor))) =
        .ok r →
      r.2.2.2.bindings = v.bindings ∧ r.2.2.2.sp = v.sp ∧
      r.2.2.2.groupExprAliases = v.groupExprAliases := by
    intro parts hc
    cases hn : normalizeIdentifier v parts with
    | error err => rw [hn, bind_error_eq] at hc; cases hc
    | ok f =>
      rw [hn, bind_ok_eq] at hc
      injection hc with hc
      rw [← hc]
      exact ⟨rfl, rfl, rfl⟩
  unfold analyzeAggregateArg at h
  simp only at h
  split at h
  · split at h
    · injection h with h; rw [← h]; exact ⟨rfl, rfl, rfl⟩
    · injection h with h; rw [← h]; exact ⟨rfl, rfl, rfl⟩
    · exact hnorm _ h
    · exact hconst _ h
    · cases h
    · cases h
  · split at h
    · split at h
      · exact hnorm _ h
      · exact hconst _ h
      · cases h
      · cases h
    · cases h
theorem badRequest_is400 {α : Type} (m : String) (e : Err)
    (h : (badRequest m : Res α) = .error e) : e.isBadRequest = true := by
  simp only [badRequest, Except.error.injEq] at h
  subst h
  rfl

theorem ensureConstantField_error_400 (v : Visitor) (value : String) (e : Err)
    (h : ensureConstantField v value = .error e) : e.isBadRequest = true := by
  unfold ensureConstantField at h
  split at h
  · exact badRequest_is400 _ e h
  · split at h <;> cases h

theorem analyzeAggregateArg_error_400 (v : Visitor) (name : String) (args : List Expr)
    (e : Err) (h : analyzeAggregateArg v name args = .error e) : e.isBadRequest = true := by
  have hconst : ∀ value, (do
      let c ← ensureConstantField v value
      (Except.ok (value, c.1, if c.2.1 != "" then [c.2.1] else [], c.2.2) :
        Res (String × String × List String × Visitor))) = .error e → e.isBadRequest = true := by
    intro value hc
    cases he : ensureConstantField v value with
    | error err =>
      rw [he, bind_error_eq] at hc
      injection hc with hc
      subst hc
      exact ensureConstantField_error_400 v value _ he
    | ok c => rw [he, bind_ok_eq] at hc; cases hc
  have hnorm : ∀ parts, (do
      let field ← normalizeIdentifier v parts
      (Except.ok (field, field, [], v) : Res (String × String × List String × Visitor))) =
        .error e → e.isBadRequest = true := by
    intro parts hc
    cases hn : normalizeIdentifier v parts with
    | error err =>
      rw [hn, bind_error_eq] at hc
      injection hc with hc
      subst hc
      exact normalizeIdentifier_error_400 v parts _ hn
    | ok f => rw [hn, bind_ok_eq] at hc; cases hc
  unfold analyzeAggregateArg at h
  simp only at h
  split at h
  · split at h
    · cases h
    · cases h
    · exact hnorm _ h
    · exact hconst _ h
    · exact badRequest_is400 _ e h
    · exact badRequest_is400 _ e h
  · split at h
    · split at h
      · exact hnorm _ h
      · exact hconst _ h
      · exact badRequest_is400 _ e h
      · exact badRequest_is400 _ e h
    · exact badRequest_is400 _ e h

theorem analyzeAggregate_error_400 (v : Visitor) (fnName : List String) (args : List Expr)
    (distinct : Bool) (aliasName : String) (e : Err)
    (h : analyzeAggregate v fnName args distinct aliasName = .error e) :
    e.isBadRequest = true := by
  unfold analyzeAggregate at h
  split at h
  · exact badRequest_is400 _ e h
  · split at h
    · exact badRequest_is400 _ e h
    · dsimp only at h
      cases ha : analyzeAggregateArg v (toUpper (lastPart fnName)) args with
      | error err =>
        rw [ha, bind_error_eq] at h
        injection h with h
        subst h
        exact analyzeAggregateArg_error_400 v _ args _ ha
      | ok a =>
        rw [ha, bind_ok_eq] at h
        split at h <;> cases h

theorem analyzeAggregate_frame (v : Visitor) (fnName : List String) (args : List Expr)
    (distinct : Bool) (aliasName : String) (r : AggItem × Visitor)
    (h : analyzeAggregate v fnName args distinct aliasName = .ok r) :
    r.2.bindings = v.bindings ∧ r.2.sp = v.sp ∧ r.2.groupExprAliases = v.groupExprAliases := by
  unfold analyzeAggregate at h
  split at h
  · cases h
  · split at h
    · cases h
    · dsimp only at h
      cases ha : analyzeAggregateArg v (toUpper (lastPart fnName)) args with
      | error err => rw [ha, bind_error_eq] at h; cases h
      | ok a =>
        rw [ha, bind_ok_eq] at h
        have hf := analyzeAggregateArg_frame v _ args a ha
        split at h <;> (injection h with h; rw [← h]; exact hf)

theorem lookupGroupExpr_some (v : Visitor) (m : GoMap String) (expr : Expr)
    (hm : v.groupExprAliases = some m) :
    lookupGroupExpr v expr =
      match v.sp.render expr with
      | .error err =>
        badRequest ("translator: failed to normalize expression: " ++ errorText err)
      | .ok key =>
        match m.get key with
        | some name => .ok (name, true)
        | none => .ok ("", false) := by
  unfold lookupGroupExpr
  rw [hm]

theorem requireGroupExpr_error_400 (v : Visitor) (expr : Expr) (colAlias what : String)
    (e : Err) (h : requireGroupExpr v expr colAlias what = .error e) :
    e.isBadRequest = true := by
  unfold requireGroupExpr at h
  cases hl : lookupGroupExpr v expr with
  | error err =>
    rw [hl, bind_error_eq] at h
    injection h with h
    subst h
    unfold lookupGroupExpr at hl
    split at hl
    · cases hl
    · split at hl
      · exact badRequest_is400 _ _ hl
      · split at hl <;> cases hl
  | ok found =>
    rw [hl, bind_ok_eq] at h
    split at h
    · cases h
    · exact badRequest_is400 _ e h

theorem requireGroupExpr_notGrouped (v : Visitor) (g : GroupAcc) (expr : Expr)
    (colAlias what : String) (hm : v.groupExprAliases = some g.groupExprAliases)
    (hn : notGrouped v g expr = true) :
    ∃ e, requireGroupExpr v expr colAlias what = .error e := by
  unfold notGrouped at hn
  unfold requireGroupExpr
  rw [lookupGroupExpr_some v _ expr hm]
  cases hr : v.sp.render expr with
  | error err => exact ⟨_, rfl⟩
  | ok key =>
    rw [hr] at hn
    have hnone : g.groupExprAliases.get key = none := by
      simp only [Bool.not_eq_true', GoMap.has] at hn
      cases hg : g.groupExprAliases.get key with
      | none => rfl
      | some x =>
        unfold GoMap.get at hg
        rw [hg] at hn
        cases hn
    simp only [hnone]
    exact ⟨_, rfl⟩
theorem violatesGroupBy_congr (v V : Visitor) (g : GroupAcc) (col : SelectItem)
    (hb : v.bindings = V.bindings) (hs : v.sp = V.sp) :
    violatesGroupBy v g col = violatesGroupBy V g col := by
  unfold violatesGroupBy notGrouped
  rw [hs]
  cases col.expr <;> simp only [normalizeIdentifier_congr V v hb]

theorem statsColumnsLoop_error_400 (hasGroup : Bool) (ncols : Nat) (groupFields : List String)
    (cols : List SelectItem) :
    ∀ (v : Visitor) (aggs : List AggItem) (e : Err),
    statsColumnsLoop hasGroup ncols groupFields v aggs cols = .error e →
    e.isBadRequest = true := by
  induction cols with
  | nil => intro v aggs e h; cases h
  | cons col rest ih =>
    intro v aggs e h
    obtain ⟨x, al⟩ := col
    cases x with
    | starExpr =>
      simp only [statsColumnsLoop] at h
      split at h
      · exact badRequest_is400 _ e h
      · split at h
        · exact badRequest_is400 _ e h
        · cases h
    | identifier parts =>
      simp only [statsColumnsLoop] at h
      split at h
      · exact ih _ _ _ h
      · cases hn : normalizeIdentifier v parts with
        | error err =>
          rw [hn, bind_error_eq] at h
          injection h with h
          subst h
          exact normalizeIdentifier_error_400 v parts _ hn
        | ok field =>
          rw [hn, bind_ok_eq] at h
          split at h
          · exact badRequest_is400 _ e h
          · exact ih _ _ _ h
    | funcCall fnName args distinct over =>
      simp only [statsColumnsLoop] at h
      split at h
      · split at h
        · exact badRequest_is400 _ e h
        · exact ih _ _ _ h
      · split at h
        · cases hr : analyzeAggregate v fnName args distinct al with
          | error err =>
            rw [hr, bind_error_eq] at h
            injection h with h
            subst h
            exact analyzeAggregate_error_400 v fnName args distinct al _ hr
          | ok r =>
            rw [hr, bind_ok_eq] at h
            exact ih _ _ _ h
        · split at h
          · cases hq : requireGroupExpr v (.funcCall fnName args distinct over) al
                "non-aggregate function" with
            | error err =>
              rw [hq, bind_error_eq] at h
              injection h with h
              subst h
              exact requireGroupExpr_error_400 _ _ _ _ _ hq
            | ok u =>
              rw [hq, bind_ok_eq] at h
              exact ih _ _ _ h
          · exact ih _ _ _ h
    | binaryExpr op l r =>
      simp only [statsColumnsLoop, if_true] at h
      split at h
      · cases hq : requireGroupExpr v (.binaryExpr op l r) al "expression" with
        | error err =>
          rw [hq, bind_error_eq] at h
          injection h with h
          subst h
          exact requireGroupExpr_error_400 _ _ _ _ _ hq
        | ok u =>
          rw [hq, bind_ok_eq] at h
          exact ih _ _ _ h
      · exact ih _ _ _ h
    | unaryExpr op y =>
      simp only [statsColumnsLoop, if_true] at h
      split at h
      · cases hq : requireGroupExpr v (.unaryExpr op y) al "expression" with
        | error err =>
          rw [hq, bind_error_eq] at h
          injection h with h
          subst h
          exact requireGroupExpr_error_400 _ _ _ _ _ hq
        | ok u =>
          rw [hq, bind_ok_eq] at h
          exact ih _ _ _ h
      · exact ih _ _ _ h
    | numericLiteral value =>
      simp only [statsColumnsLoop, if_true] at h
      split at h
      · cases hq : requireGroupExpr v (.numericLiteral value) al "expression" with
        | error err =>
          rw [hq, bind_error_eq] at h
          injection h with h
          subst h
          exact requireGroupExpr_error_400 _ _ _ _ _ hq
        | ok u =>
          rw [hq, bind_ok_eq] at h
          exact ih _ _ _ h
      · exact ih _ _ _ h
    | _ =>
      simp only [statsColumnsLoop, Bool.false_eq_true, if_false] at h
      split at h
      · exact badRequest_is400 _ e h
      · exact ih _ _ _ h
theorem statsColumnsLoop_violation (V : Visitor) (g : GroupAcc) (ncols : Nat)
    (cols : List SelectItem) :
    ∀ (v : Visitor) (aggs : List AggItem),
    v.bindings = V.bindings → v.sp = V.sp → v.groupExprAliases = some g.groupExprAliases →
    (∃ col ∈ cols, violatesGroupBy V g col = true) →
    ∀ res, statsColumnsLoop true ncols g.groupFields v aggs cols ≠ .ok res := by
  induction cols with
  | nil => intro v aggs _ _ _ ⟨c, hc, _⟩; cases hc
  | cons col rest ih =>
    intro v aggs hb hs hm hex res h
    have hviol : violatesGroupBy V g col = true ∨ ∃ c ∈ rest, violatesGroupBy V g c = true := by
      obtain ⟨c, hc, hv⟩ := hex
      rcases List.mem_cons.mp hc with rfl | hr
      · exact Or.inl hv
      · exact Or.inr ⟨c, hr, hv⟩
    have hcongr := violatesGroupBy_congr v V g col hb hs
    have step : ∀ aggs1, statsColumnsLoop true ncols g.groupFields v aggs1 rest = .ok res →
        violatesGroupBy v g col = false → False := by
      intro aggs1 h1 hnv
      rcases hviol with hv | hr
      · rw [← hcongr, hnv] at hv; cases hv
      · exact ih v aggs1 hb hs hm hr res h1
    obtain ⟨x, al⟩ := col
    cases x with
    | starExpr =>
      simp only [statsColumnsLoop] at h
      split at h
      · cases h
      · cases h
    | identifier parts =>
      simp only [statsColumnsLoop, Bool.not_true, Bool.false_eq_true, if_false] at h
      cases hn : normalizeIdentifier v parts with
      | error err => rw [hn, bind_error_eq] at h; cases h
      | ok field =>
        rw [hn, bind_ok_eq] at h
        split at h
        · cases h
        · rename_i hc
          apply step _ h
          simp only [violatesGroupBy, hn]
          simpa using hc
    | funcCall fnName args distinct over =>
      simp only [statsColumnsLoop, if_true] at h
      split at h
      · cases h
      · split at h
        · rename_i hagg
          cases hr : analyzeAggregate v fnName args distinct al with
          | error err => rw [hr, bind_error_eq] at h; cases h
          | ok r =>
            rw [hr, bind_ok_eq] at h
            obtain ⟨f1, f2, f3⟩ := analyzeAggregate_frame v fnName args distinct al r hr
            rcases hviol with hv | hrest
            · rw [← hcongr] at hv
              simp [violatesGroupBy, hagg] at hv
            · exact ih r.2 _ (f1.trans hb) (f2.trans hs) (f3.trans hm) hrest res h
        · rename_i hagg
          cases hq : requireGroupExpr v (.funcCall fnName args distinct over) al
              "non-aggregate function" with
          | error err => rw [hq, bind_error_eq] at h; cases h
          | ok u =>
            rw [hq, bind_ok_eq] at h
            apply step _ h
            by_contra hv
            have hv1 : violatesGroupBy v g ⟨.funcCall fnName args distinct over, al⟩ = true := by
              simpa using hv
            simp only [violatesGroupBy, Bool.and_eq_true] at hv1
            obtain ⟨e, he⟩ := requireGroupExpr_notGrouped v g _ al "non-aggregate function" hm hv1.2
            rw [hq] at he
            cases he
    | binaryExpr op l r =>
      simp only [statsColumnsLoop, if_true] at h
      cases hq : requireGroupExpr v (.binaryExpr op l r) al "expression" with
      | error err => rw [hq, bind_error_eq] at h; cases h
      | ok u =>
        rw [hq, bind_ok_eq] at h
        apply step _ h
        by_contra hv
        have hv1 : violatesGroupBy v g ⟨.binaryExpr op l r, al⟩ = true := by simpa using hv
        simp only [violatesGroupBy] at hv1
        obtain ⟨e, he⟩ := requireGroupExpr_notGrouped v g _ al "expression" hm hv1
        rw [hq] at he
        cases he
    | unaryExpr op y =>
      simp only [statsColumnsLoop, if_true] at h
      cases hq : requireGroupExpr v (.unaryExpr op y) al "expression" with
      | error err => rw [hq, bind_error_eq] at h; cases h
      | ok u =>
        rw [hq, bind_ok_eq] at h
        apply step _ h
        by_contra hv
        have hv1 : violatesGroupBy v g ⟨.unaryExpr op y, al⟩ = true := by simpa using hv
        simp only [violatesGroupBy] at hv1
        obtain ⟨e, he⟩ := requireGroupExpr_notGrouped v g _ al "expression" hm hv1
        rw [hq] at he
        cases he
    | numericLiteral value =>
      simp only [statsColumnsLoop, if_true] at h
      cases hq : requireGroupExpr v (.numericLiteral value) al "expression" with
      | error err => rw [hq, bind_error_eq] at h; cases h
      | ok u =>
        rw [hq, bind_ok_eq] at h
        apply step _ h
        by_contra hv
        have hv1 : violatesGroupBy v g ⟨.numericLiteral value, al⟩ = true := by simpa using hv
        simp only [violatesGroupBy] at hv1
        obtain ⟨e, he⟩ := requireGroupExpr_notGrouped v g _ al "expression" hm hv1
        rw [hq] at he
        cases he
    | _ =>
      simp only [statsColumnsLoop, Bool.false_eq_true, if_false, if_true] at h
      cases h
theorem GoMap.has_set_inv {α : Type} (m : GoMap α) (k x : String) (a : α)
    (h : (GoMap.set m k a).has x = true) : x = k ∨ m.has x = true := by
  by_cases hx : x = k
  · exact Or.inl hx
  · right
    induction m with
    | nil =>
      have hx2 : (x == k) = false := by simpa using hx
      simp [GoMap.set, GoMap.has, List.lookup, hx2] at h
    | cons p rest ih =>
      obtain ⟨k0, v0⟩ := p
      unfold GoMap.set at h
      by_cases hk : k0 = k
      · subst hk
        have hx2 : (x == k0) = false := by simpa using hx
        simp only [beq_self_eq_true, if_true, GoMap.has, List.lookup, hx2] at h ⊢
        exact h
      · simp only [beq_iff_eq, hk, if_false] at h
        by_cases hx0 : x = k0
        · subst hx0
          simp [GoMap.has, List.lookup]
        · have hx2 : (x == k0) = false := by simpa using hx0
          simp only [GoMap.has, List.lookup, hx2] at h ⊢
          exact ih h

theorem GoMap.has_of_get {α : Type} (m : GoMap α) (k : String) (a : α)
    (h : m.get k = some a) : m.has k = true := by
  unfold GoMap.get at h
  simp [GoMap.has, h]

theorem groupByLoop_keys (v : Visitor) (aliasSources : GoMap Expr) (es : List Expr) :
    ∀ (i : Nat) (acc g : GroupAcc), groupByLoop v aliasSources i acc es = .ok g →
    ∀ key, g.groupExprAliases.has key = true ↔
      (acc.groupExprAliases.has key = true ∨
        ∃ e ∈ es, v.sp.render (resolveGroupByAlias e aliasSources) = .ok key) := by
  induction es with
  | nil =>
    intro i acc g h key
    simp only [groupByLoop, Except.ok.injEq] at h
    subst h
    simp
  | cons e rest ih =>
    intro i acc g h key
    unfold groupByLoop at h
    simp only at h
    cases hr : v.sp.render (resolveGroupByAlias e aliasSources) with
    | error err => rw [hr] at h; cases h
    | ok exprKey =>
      rw [hr] at h
      simp only at h
      cases hget : acc.groupExprAliases.get exprKey with
      | some existing =>
        rw [hget] at h
        simp only at h
        rw [ih _ _ _ h key]
        constructor
        · rintro (h1 | ⟨e1, he1, hk⟩)
          · exact Or.inl h1
          · exact Or.inr ⟨e1, List.mem_cons_of_mem _ he1, hk⟩
        · rintro (h1 | ⟨e1, he1, hk⟩)
          · exact Or.inl h1
          · rcases List.mem_cons.mp he1 with rfl | hm
            · left
              rw [hr] at hk
              injection hk with hk
              subst hk
              exact GoMap.has_of_get _ _ _ hget
            · exact Or.inr ⟨e1, hm, hk⟩
      | none =>
        rw [hget] at h
        simp only at h
        cases hp : prepareGroupByField v (resolveGroupByAlias e aliasSources) i with
        | error err => rw [hp, bind_error_eq] at h; cases h
        | ok r =>
          rw [hp, bind_ok_eq] at h
          rw [ih _ _ _ h key]
          constructor
          · rintro (h1 | ⟨e1, he1, hk⟩)
            · rcases GoMap.has_set_inv _ _ _ _ h1 with rfl | h2
              · exact Or.inr ⟨e, List.mem_cons_self _ _, hr⟩
              · exact Or.inl h2
            · exact Or.inr ⟨e1, List.mem_cons_of_mem _ he1, hk⟩
          · rintro (h1 | ⟨e1, he1, hk⟩)
            · exact Or.inl (GoMap.has_set_of_has _ _ _ _ h1)
            · rcases List.mem_cons.mp he1 with rfl | hm
              · left
                rw [hr] at hk
                injection hk with hk
                subst hk
                exact GoMap.has_set_self _ _ _
              · exact Or.inr ⟨e1, hm, hk⟩

theorem groupByStage_keys (v : Visitor) (aliasSources : GoMap Expr) (groupBy : List Expr)
    (g : GroupAcc) (h : groupByStage v aliasSources groupBy = .ok g) :
    ∀ key, g.groupExprAliases.has key = true ↔
      ∃ e ∈ groupBy, v.sp.render (resolveGroupByAlias e aliasSources) = .ok key := by
  intro key
  unfold groupByStage at h
  split at h
  · rw [groupByLoop_keys _ aliasSources groupBy 0 _ g h key]
    simp [GoMap.has, List.lookup]
  · rename_i hlen
    have hnil : groupBy = [] := by
      cases groupBy with
      | nil => rfl
      | cons a t => simp at hlen
    injection h with h
    subst h
    subst hnil
    simp [GoMap.has, List.lookup]
theorem buildStatsPipe_violation (v : Visitor) (stmt : SelectStatement) (having : Option Expr)
    (g : GroupAcc) (hg : stmt.groupBy ≠ [])
    (hgs : groupByStage v (collectGroupAliases stmt.columns []) stmt.groupBy = .ok g)
    (hex : ∃ col ∈ stmt.columns, violatesGroupBy v g col = true) :
    failsWith400 (buildStatsPipe v stmt having) = true := by
  have hb : buildStatsPipe v stmt having =
      (groupByStage v (collectGroupAliases stmt.columns []) stmt.groupBy >>= fun g =>
        statsColumnsLoop (stmt.groupBy.length > 0) stmt.columns.length g.groupFields
          { v with groupExprAliases :=
                     if stmt.groupBy.length > 0 then some g.groupExprAliases else none }
          [] stmt.columns >>= fun cols =>
        statsAfterColumns (stmt.groupBy.length > 0) g
          { v with groupExprAliases :=
                     if stmt.groupBy.length > 0 then some g.groupExprAliases else none }
          having cols) := rfl
  have hpos : stmt.groupBy.length > 0 := by
    cases hgb : stmt.groupBy with
    | nil => exact absurd hgb hg
    | cons a t => simp
  have hdec : decide (stmt.groupBy.length > 0) = true := by simpa using hpos
  rw [hb, hgs, bind_ok_eq, hdec]
  cases hc : statsColumnsLoop true stmt.columns.length g.groupFields
      { v with groupExprAliases :=
                 if stmt.groupBy.length > 0 then some g.groupExprAliases else none }
      [] stmt.columns with
  | error e =>
    rw [bind_error_eq]
    exact statsColumnsLoop_error_400 _ _ _ _ _ _ _ hc
  | ok res =>
    exfalso
    exact statsColumnsLoop_violation v g stmt.columns.length stmt.columns
      { v with groupExprAliases :=
                 if stmt.groupBy.length > 0 then some g.groupExprAliases else none }
      [] rfl rfl (if_pos hpos) hex res hc

theorem translateAfterFrom_stats_error (v1 : Visitor) (stmt : SelectStatement)
    (jp : List String) (wh lf : List String × Visitor) (e : Err)
    (hwh : translateFilterList v1 stmt.whereClause.toList = .ok wh)
    (hlf : translateFilterList wh.2 wh.2.pendingLeftFilter = .ok lf)
    (hst : buildStatsPipe lf.2 stmt stmt.having = .error e) :
    translateAfterFrom v1 stmt jp = .error e := by
  have hb : translateAfterFrom v1 stmt jp =
      (translateFilterList v1 stmt.whereClause.toList >>= fun wh =>
       translateFilterList wh.2 wh.2.pendingLeftFilter >>= fun lf =>
       buildStatsPipe lf.2 stmt stmt.having >>= fun st =>
       translateHaving st.2.2 stmt.having stmt.orderBy st.2.1 >>= fun hv =>
       buildProjectionPipes hv.2 stmt.columns st.2.1 >>= fun pr =>
       distinctPipesOf stmt.distinct pr.2.1 st.2.1 >>= fun dp =>
       orderPipesOf pr.2.2 stmt.orderBy st.2.1 >>= fun op =>
       limitPipesOf stmt.limit >>= fun lp =>
       .ok (renderPipeline (sourceOf lf.2 (combineFilters (allFilters lf.2 (wh.1 ++ lf.1))))
            (filterPipesOf lf.2 (combineFilters (allFilters lf.2 (wh.1 ++ lf.1))) ++ jp ++
              st.1 ++ hv.1 ++ pr.1 ++ dp ++ op ++ lp), pr.2.2)) := rfl
  rw [hb, hwh, bind_ok_eq, hlf, bind_ok_eq, hst, bind_error_eq]

/-- C18: for every SELECT with a non-empty GROUP BY whose GROUP BY stage has
produced the group fields and the renderings of the GROUP BY expressions
(taken after the rewrite of SELECT aliases), `buildStatsPipe` fails with a 400
error if the SELECT list holds `*`, an identifier whose normalized name is not
a group field, or a non-aggregate function call or arithmetic expression whose
rendering is not one of those renderings; the translation of the clauses after
FROM then fails with a 400 error once the filters have been translated, and
such a SELECT is never translated. -/
theorem group_by_select_list_checked (stmt : SelectStatement) (hg : stmt.groupBy ≠ []) :
    (∀ v having g,
      groupByStage v (collectGroupAliases stmt.columns []) stmt.groupBy = .ok g →
      (∀ key, g.groupExprAliases.has key = true ↔
        ∃ e ∈ stmt.groupBy,
          v.sp.render (resolveGroupByAlias e (collectGroupAliases stmt.columns [])) = .ok key) ∧
      ((∃ col ∈ stmt.columns, violatesGroupBy v g col = true) →
        failsWith400 (buildStatsPipe v stmt having) = true)) ∧
    (∀ v1 jp wh lf g, translateFilterList v1 stmt.whereClause.toList = .ok wh →
      translateFilterList wh.2 wh.2.pendingLeftFilter = .ok lf →
      groupByStage lf.2 (collectGroupAliases stmt.columns []) stmt.groupBy = .ok g →
      (∃ col ∈ stmt.columns, violatesGroupBy lf.2 g col = true) →
      failsWith400 (translateAfterFrom v1 stmt jp) = true) ∧
    (∀ sp ctes s,
      (∀ v g, groupByStage v (collectGroupAliases stmt.columns []) stmt.groupBy = .ok g →
        ∃ col ∈ stmt.columns, violatesGroupBy v g col = true) →
      translateSelectStatementToLogsQLWithContext sp (some (.select stmt)) ctes ≠ .ok s) := by
  refine ⟨?_, ?_, ?_⟩
  · intro v having g hgs
    exact ⟨groupByStage_keys v _ _ g hgs, buildStatsPipe_violation v stmt having g hg hgs⟩
  · intro v1 jp wh lf g hwh hlf hgs hex
    have h400 := buildStatsPipe_violation lf.2 stmt stmt.having g hg hgs hex
    cases hst : buildStatsPipe lf.2 stmt stmt.having with
    | ok st => rw [hst] at h400; cases h400
    | error e =>
      rw [hst] at h400
      rw [translateAfterFrom_stats_error v1 stmt jp wh lf e hwh hlf hst]
      exact h400
  · intro sp ctes s hall hok
    obtain ⟨tn, v, jp, v1, r, _, h2⟩ := translate_ok_inv sp ctes stmt s hok
    obtain ⟨wh, lf, st, hv, pr, dp, op, lp, _, _, hst, _⟩ :=
      translateAfterFrom_ok_inv v1 stmt jp r h2
    obtain ⟨g, cols, hgs, _, _⟩ := buildStatsPipe_ok_inv lf.2 stmt stmt.having st hst
    have := buildStatsPipe_violation lf.2 stmt stmt.having g hg hgs (hall lf.2 g hgs)
    rw [hst] at this
    cases this

theorem group_by_select_list_checked_witness :
    translateSelectStatementToLogsQLWithContext exampleProvider
      (some (.select (groupByHost [{ expr := .starExpr, aliasName := "" }]))) [] ≠ .ok "*" ∧
    translateSelectStatementToLogsQL
      (some (.select (groupByHost [{ expr := .starExpr, aliasName := "" }]))) exampleProvider =
      badRequest "translator: SELECT * not supported with GROUP BY" ∧
    translateSelectStatementToLogsQL
      (some (.select (groupByHost [plainColumn ["path"], countStar]))) exampleProvider =
      badRequest "translator: column path must appear in GROUP BY" ∧
    translateSelectStatementToLogsQL
      (some (.select (groupByHost
        [{ expr := .funcCall ["UPPER"] [.identifier ["host"]] false none, aliasName := "" },
         countStar]))) exampleProvider =
      badRequest "translator: non-aggregate function *ast.FuncCall must appear in GROUP BY" ∧
    translateSelectStatementToLogsQL
      (some (.select (groupByHost
        [{ expr := .binaryExpr "+" (.identifier ["a"]) (.numericLiteral "1"), aliasName := "" },
         countStar]))) exampleProvider =
      badRequest "translator: expression *ast.BinaryExpr must appear in GROUP BY" :=
  ⟨(group_by_select_list_checked (groupByHost [{ expr := .starExpr, aliasName := "" }])
      (by simp [groupByHost, SelectStatement.groupBy])).2.2 exampleProvider [] "*"
      (fun _ _ _ => ⟨{ expr := .starExpr, aliasName := "" }, List.mem_cons_self _ _, rfl⟩),
   by decide, by decide, by decide, by decide⟩

theorem bind_ok_inv {α β : Type} (x : Res α) (f : α → Res β) (b : β)
    (h : (x >>= f) = .ok b) : ∃ a, x = .ok a ∧ f a = .ok b := by
  cases x with
  | error e => cases h
  | ok a => exact ⟨a, rfl, h⟩

theorem projectGroupField_fields (acc : ProjectionAcc) (gf al : String) :
    (projectGroupField acc gf al).fields.length = acc.fields.length + 1 := by
  unfold projectGroupField
  dsimp only
  split <;> simp

theorem projectColumn_fields (v : Visitor) (aggregated : Bool) (acc : ProjectionAcc)
    (col : SelectItem) (r : ProjectionAcc × Visitor)
    (h : projectColumn v aggregated acc col = .ok r) :
    r.1.fields.length = acc.fields.length + 1 := by
  unfold projectColumn at h
  dsimp only at h
  repeat' split at h
  all_goals first
    | (cases h; done)
    | (injection h with h; rw [← h]; simp [projectGroupField_fields])
    | (obtain ⟨a, _, h⟩ := bind_ok_inv _ _ _ h
       try dsimp only at h
       first
         | (cases h; done)
         | (injection h with h; rw [← h]; simp [projectGroupField_fields])
         | (split at h <;>
              first
                | (cases h; done)
                | (injection h with h; rw [← h]; simp [projectGroupField_fields])))

theorem projectColumns_fields (aggregated : Bool) (cols : List SelectItem) :
    ∀ (v : Visitor) (acc : ProjectionAcc) (r : ProjectionAcc × Visitor),
    projectColumns aggregated v acc cols = .ok r →
    r.1.fields.length = acc.fields.length + cols.length := by
  induction cols with
  | nil =>
    intro v acc r h
    simp only [projectColumns, Except.ok.injEq] at h
    rw [← h]
    rfl
  | cons col rest ih =>
    intro v acc r h
    unfold projectColumns at h
    obtain ⟨a, h1, h2⟩ := bind_ok_inv _ _ _ h
    rw [ih _ _ _ h2, projectColumn_fields _ _ _ _ _ h1, List.length_cons]
    omega

theorem buildProjectionPipes_fields (v : Visitor) (columns : List SelectItem)
    (pr : List String × List String × Visitor)
    (h : buildProjectionPipes v columns false = .ok pr) :
    (pr.2.1 = [] ↔ (isSelectStar columns = true ∨ columns = [])) ∧
    (pr.2.1 ≠ [] → ∃ front, pr.1 = front ++ [fieldsPipe pr.2.1]) := by
  unfold buildProjectionPipes at h
  by_cases hs : isSelectStar columns = true
  · rw [if_pos hs] at h
    injection h with h
    rw [← h]
    simp [hs]
  · rw [if_neg hs] at h
    obtain ⟨r, hr, h⟩ := bind_ok_inv _ _ _ h
    have hlen := projectColumns_fields _ _ _ _ _ hr
    simp only [List.length_nil, Nat.zero_add] at hlen
    injection h with h
    rw [← h]
    dsimp only
    constructor
    · rw [← List.length_eq_zero, hlen, List.length_eq_zero]
      simp [hs]
    · intro hne
      have hpos : r.1.fields.length > 0 := List.length_pos.mpr hne
      refine ⟨r.1.computedPipes ++
        (if r.1.renamePairs.length > 0 then ["rename " ++ stringsJoin r.1.renamePairs ", "]
         else []), ?_⟩
      simp [hpos, fieldsPipe]

theorem statsColumnsLoop_grouped_some (ncols : Nat) (groupFields : List String)
    (cols : List SelectItem) :
    ∀ (v : Visitor) (aggs : List AggItem),
    statsColumnsLoop true ncols groupFields v aggs cols ≠ .ok none := by
  induction cols with
  | nil => intro v aggs h; simp [statsColumnsLoop] at h
  | cons col rest ih =>
    intro v aggs h
    obtain ⟨e, al⟩ := col
    cases e with
    | starExpr =>
      simp only [statsColumnsLoop] at h
      by_cases hn : ncols > 1
      · simp [hn, badRequest] at h
      · simp [hn, badRequest] at h
    | identifier parts =>
      simp only [statsColumnsLoop, Bool.not_true, Bool.false_eq_true, if_false] at h
      obtain ⟨f, _, h⟩ := bind_ok_inv _ _ _ h
      split at h
      · simp [badRequest] at h
      · exact ih _ _ h
    | funcCall fnName args distinct over =>
      simp only [statsColumnsLoop] at h
      cases over with
      | some o =>
        simp [badRequest] at h
      | none =>
        simp only [Option.isSome_none, Bool.false_eq_true, if_false, if_true] at h
        split at h
        · obtain ⟨r, _, h⟩ := bind_ok_inv _ _ _ h
          exact ih _ _ h
        · obtain ⟨r, _, h⟩ := bind_ok_inv _ _ _ h
          exact ih _ _ h
    | binaryExpr op l r =>
      simp only [statsColumnsLoop, if_true] at h
      obtain ⟨r, _, h⟩ := bind_ok_inv _ _ _ h
      exact ih _ _ h
    | unaryExpr op x =>
      simp only [statsColumnsLoop, if_true] at h
      obtain ⟨r, _, h⟩ := bind_ok_inv _ _ _ h
      exact ih _ _ h
    | numericLiteral value =>
      simp only [statsColumnsLoop, if_true] at h
      obtain ⟨r, _, h⟩ := bind_ok_inv _ _ _ h
      exact ih _ _ h
    | _ =>
      simp [statsColumnsLoop, badRequest] at h
theorem buildStatsPipe_aggregated (v : Visitor) (stmt : SelectStatement)
    (st : List String × Bool × Visitor)
    (h : buildStatsPipe v stmt stmt.having = .ok st) :
    st.2.1 = isAggregatedSelect stmt := by
  by_cases hg : stmt.groupBy = []
  · have hiff := buildStatsPipe_not_aggregated_iff v stmt stmt.having st hg h
    have hng : decide (stmt.groupBy.length > 0) = false := by rw [hg]; rfl
    unfold isAggregatedSelect
    rw [hng, Bool.false_or]
    cases hst : st.2.1 with
    | false =>
      rcases hiff.mp hst with hs | ⟨h1, h2⟩
      · simp [hs]
      · simp [h1, h2]
    | true =>
      have hn : ¬ (isSelectStar stmt.columns = true ∨
          (selectAggCalls stmt.columns = [] ∧ havingAggCalls stmt.having = [])) := by
        intro hc
        rw [hiff.mpr hc] at hst
        cases hst
      symm
      simp only [Bool.and_eq_true, Bool.not_eq_true', Bool.or_eq_true, List.isEmpty_eq_true]
      constructor
      · by_contra hs
        exact hn (Or.inl (by simpa using hs))
      · by_contra hc
        push_neg at hc
        exact hn (Or.inr ⟨by simpa using hc.1, by simpa using hc.2⟩)
  · have hpos : stmt.groupBy.length > 0 := by
      cases hgb : stmt.groupBy with
      | nil => exact absurd hgb hg
      | cons a t => simp
    have hdec : decide (stmt.groupBy.length > 0) = true := by simpa using hpos
    obtain ⟨g, cols, _, hc, ha⟩ := buildStatsPipe_ok_inv v stmt stmt.having st h
    unfold isAggregatedSelect
    rw [hdec, Bool.true_or]
    rw [hdec] at hc ha
    cases cols with
    | none => exact absurd hc (statsColumnsLoop_grouped_some _ _ _ _ _)
    | some p =>
      obtain ⟨aggs0, v2⟩ := p
      have hs : statsAfterColumns true g
          { v with groupExprAliases :=
                     if stmt.groupBy.length > 0 then some g.groupExprAliases else none }
          stmt.having (some (aggs0, v2)) =
          (havingAggregates v2 aggs0 stmt.having >>= fun collected =>
            finishStatsPipe true g collected.1 collected.2) := rfl
      rw [hs] at ha
      obtain ⟨collected, _, ha⟩ := bind_ok_inv _ _ _ ha
      unfold finishStatsPipe at ha
      split at ha
      · simp [badRequest] at ha
      · injection ha with ha
        rw [← ha]

theorem DistinctRefines_error (stmt : SelectStatement) (e e1 : Err) :
    DistinctRefines stmt (.error e) (.error e1) := by
  refine ⟨⟨?_, ?_⟩, ?_, ?_, ?_⟩
  · rintro ⟨s, hs⟩; cases hs
  · rintro ⟨⟨s, hs⟩, _⟩; cases hs
  · intro s0 h; cases h
  · intro s0 h; cases h
  · intro s0 h; cases h

theorem translateAfterFrom_distinct (v1 : Visitor) (stmt : SelectStatement) (jp : List String) :
    DistinctRefines stmt
      ((translateAfterFrom v1 (stmt.withDistinct false) jp).map Prod.fst)
      ((translateAfterFrom v1 (stmt.withDistinct true) jp).map Prod.fst) := by
  obtain ⟨w, d0, c, f, whc, gb, hvg, ob, lim, so⟩ := stmt
  have hb : ∀ d, translateAfterFrom v1
      ((SelectStatement.mk w d0 c f whc gb hvg ob lim so).withDistinct d) jp =
      (translateFilterList v1 whc.toList >>= fun wh =>
       translateFilterList wh.2 wh.2.pendingLeftFilter >>= fun lf =>
       buildStatsPipe lf.2 (SelectStatement.mk w d0 c f whc gb hvg ob lim so) hvg >>= fun st =>
       translateHaving st.2.2 hvg ob st.2.1 >>= fun hv =>
       buildProjectionPipes hv.2 c st.2.1 >>= fun pr =>
       distinctPipesOf d pr.2.1 st.2.1 >>= fun dp =>
       orderPipesOf pr.2.2 ob st.2.1 >>= fun op =>
       limitPipesOf lim >>= fun lp =>
       .ok (renderPipeline (sourceOf lf.2 (combineFilters (allFilters lf.2 (wh.1 ++ lf.1))))
            (filterPipesOf lf.2 (combineFilters (allFilters lf.2 (wh.1 ++ lf.1))) ++ jp ++
              st.1 ++ hv.1 ++ pr.1 ++ dp ++ op ++ lp), pr.2.2)) := fun _ => rfl
  rw [hb false, hb true]
  cases hwh : translateFilterList v1 whc.toList with
  | error e => exact DistinctRefines_error _ _ _
  | ok wh =>
  simp only [bind_ok_eq]
  cases hlf : translateFilterList wh.2 wh.2.pendingLeftFilter with
  | error e => exact DistinctRefines_error _ _ _
  | ok lf =>
  simp only [bind_ok_eq]
  cases hst : buildStatsPipe lf.2 (SelectStatement.mk w d0 c f whc gb hvg ob lim so) hvg with
  | error e => exact DistinctRefines_error _ _ _
  | ok st =>
  simp only [bind_ok_eq]
  have hagg := buildStatsPipe_aggregated lf.2 _ st hst
  cases hhv : translateHaving st.2.2 hvg ob st.2.1 with
  | error e => exact DistinctRefines_error _ _ _
  | ok hv =>
  simp only [bind_ok_eq]
  cases hpr : buildProjectionPipes hv.2 c st.2.1 with
  | error e => exact DistinctRefines_error _ _ _
  | ok pr =>
  simp only [bind_ok_eq]
  have hd0 : distinctPipesOf false pr.2.1 st.2.1 = .ok [] := rfl
  rw [hd0, bind_ok_eq]
  cases hop : orderPipesOf pr.2.2 ob st.2.1 with
  | error e =>
    cases hdp : distinctPipesOf true pr.2.1 st.2.1 with
    | error e1 => exact DistinctRefines_error _ _ _
    | ok dp => exact DistinctRefines_error _ _ _
  | ok op =>
  simp only [bind_ok_eq]
  cases hlp : limitPipesOf lim with
  | error e =>
    cases hdp : distinctPipesOf true pr.2.1 st.2.1 with
    | error e1 => exact DistinctRefines_error _ _ _
    | ok dp => exact DistinctRefines_error _ _ _
  | ok lp =>
  simp only [bind_ok_eq]
  cases hsa : st.2.1 with
  | true =>
    have hia : isAggregatedSelect (SelectStatement.mk w d0 c f whc gb hvg ob lim so) = true := by
      rw [← hagg, hsa]
    have hdt : distinctPipesOf true pr.2.1 true =
        badRequest "translator: DISTINCT with aggregates is not supported" := rfl
    rw [hdt]
    refine ⟨⟨?_, ?_⟩, ?_, ?_, ?_⟩
    · rintro ⟨s, hs⟩; cases hs
    · rintro ⟨_, h2, _⟩; rw [hia] at h2; cases h2
    · intro s0 _ _; rfl
    · intro s0 _ h2; rw [hia] at h2; cases h2
    · intro s0 _ h2; rw [hia] at h2; cases h2
  | false =>
    have hia : isAggregatedSelect (SelectStatement.mk w d0 c f whc gb hvg ob lim so) = false := by
      rw [← hagg, hsa]
    rw [hsa] at hpr hop
    obtain ⟨hf1, hf2⟩ := buildProjectionPipes_fields hv.2 c pr hpr
    by_cases hfe : pr.2.1 = []
    · have hcl : hasColumnList (SelectStatement.mk w d0 c f whc gb hvg ob lim so) = false := by
        have := hf1.mp hfe
        unfold hasColumnList
        rcases this with h1 | h1
        · show (!isSelectStar c && !c.isEmpty) = false
          rw [h1]; rfl
        · show (!isSelectStar c && !c.isEmpty) = false
          rw [h1]; rfl
      have hdt : distinctPipesOf true pr.2.1 false =
          badRequest "translator: DISTINCT requires explicit column list" := by
        rw [hfe]; rfl
      rw [hdt]
      refine ⟨⟨?_, ?_⟩, ?_, ?_, ?_⟩
      · rintro ⟨s, hs⟩; cases hs
      · rintro ⟨_, _, h3⟩; rw [hcl] at h3; cases h3
      · intro s0 _ h2; rw [hia] at h2; cases h2
      · intro s0 _ _ _; rfl
      · intro s0 _ _ h3; rw [hcl] at h3; cases h3
    · have hcl : hasColumnList (SelectStatement.mk w d0 c f whc gb hvg ob lim so) = true := by
        have h1 : ¬ (isSelectStar c = true ∨ c = []) := fun h => hfe (hf1.mpr h)
        push_neg at h1
        show (!isSelectStar c && !c.isEmpty) = true
        have h2 : isSelectStar c = false := by simpa using h1.1
        rw [h2]
        cases c with
        | nil => exact absurd rfl h1.2
        | cons a t => rfl
      obtain ⟨front, hfront⟩ := hf2 hfe
      have hdt : distinctPipesOf true pr.2.1 false = .ok [uniqPipe pr.2.1] := by
        cases hp : pr.2.1 with
        | nil => exact absurd hp hfe
        | cons a t => rfl
      rw [hdt, bind_ok_eq]
      refine ⟨⟨?_, ?_⟩, ?_, ?_, ?_⟩
      · intro _; exact ⟨⟨_, rfl⟩, hia, hcl⟩
      · intro _; exact ⟨_, rfl⟩
      · intro s0 _ h2; rw [hia] at h2; cases h2
      · intro s0 _ _ h3; rw [hcl] at h3; cases h3
      · intro s0 hs0 _ _
        refine ⟨sourceOf lf.2 (combineFilters (allFilters lf.2 (wh.1 ++ lf.1))),
          filterPipesOf lf.2 (combineFilters (allFilters lf.2 (wh.1 ++ lf.1))) ++ jp ++
              st.1 ++ hv.1 ++ front, pr.2.1, op, lp, hv.2, pr.1, pr.2.2, hpr, hfe, hop, hlp,
          ?_, ?_⟩
        · injection hs0 with hs0
          rw [← hs0, hfront]
          simp [List.append_assoc]
        · show Except.ok _ = Except.ok _
          rw [hfront]
          simp [List.append_assoc]
theorem translateSimpleSelect_distinct (tn : GoMap String → SelectStatement → Res String)
    (v0 : Visitor) (stmt : SelectStatement) :
    DistinctRefines stmt
      ((translateSimpleSelect tn v0 (stmt.withDistinct false)).map Prod.fst)
      ((translateSimpleSelect tn v0 (stmt.withDistinct true)).map Prod.fst) := by
  have hb : ∀ d, translateSimpleSelect tn v0 (stmt.withDistinct d) =
      (registerWith tn v0.availableCTEs stmt.withClause >>= fun ctes =>
        if stmt.setOps.length > 0 then badRequest "translator: set operations are not supported"
        else
          processFrom tn (resetVisitor { v0 with availableCTEs := ctes }) stmt.fromClause >>=
            fun fr => translateAfterFrom fr.2 (stmt.withDistinct d) fr.1) := by
    intro d
    obtain ⟨w, d0, c, f, whc, gb, hvg, ob, lim, so⟩ := stmt
    rfl
  rw [hb false, hb true]
  cases hw : registerWith tn v0.availableCTEs stmt.withClause with
  | error e => exact DistinctRefines_error _ _ _
  | ok ctes =>
    simp only [bind_ok_eq]
    split
    · exact DistinctRefines_error _ _ _
    · cases hf : processFrom tn (resetVisitor { v0 with availableCTEs := ctes })
          stmt.fromClause with
      | error e => exact DistinctRefines_error _ _ _
      | ok fr =>
        simp only [bind_ok_eq]
        exact translateAfterFrom_distinct fr.2 stmt fr.1

theorem withDistinct_depth (stmt : SelectStatement) (d : Bool) :
    (stmt.withDistinct d).depth = stmt.depth := by
  obtain ⟨w, d0, c, f, whc, gb, hvg, ob, lim, so⟩ := stmt
  simp [SelectStatement.withDistinct, SelectStatement.depth]

theorem translate_distinct_unfold (sp : Provider) (ctes : GoMap String) (stmt : SelectStatement)
    (hso : stmt.setOps = []) (d : Bool) :
    translateSelectStatementToLogsQLWithContext sp (some (.select (stmt.withDistinct d))) ctes =
      (translateSimpleSelect (translateNestedFuel sp (stmt.depth - 1)) (newVisitor sp ctes)
        (stmt.withDistinct d)).map Prod.fst := by
  rw [translate_select_unfold, withDistinct_depth]
  have hs : (stmt.withDistinct d).setOps = [] := by
    obtain ⟨w, d0, c, f, whc, gb, hvg, ob, lim, so⟩ := stmt
    exact hso
  unfold translateSelect
  rw [hs]
  simp only [List.length_nil, beq_self_eq_true, if_true]
  cases translateSimpleSelect (translateNestedFuel sp (stmt.depth - 1)) (newVisitor sp ctes)
      (stmt.withDistinct d) <;> rfl

/-- C19: let a select be translated without and with `DISTINCT`.  The
`DISTINCT` translation succeeds exactly when the plain one succeeds and the
select is not aggregated and has an explicit column list; its output is then
the plain output with `uniq by (f1, ..., fn)` inserted directly after the pipe
`fields f1, ..., fn`, where `f1, ..., fn` is the field list of the projection,
and in front of the ORDER BY and LIMIT pipes.  When the plain translation
succeeds, the `DISTINCT` translation of an aggregated select fails with the 400
error `DISTINCT with aggregates is not supported` and that of a select without
a column list (`SELECT DISTINCT *`) with the 400 error `DISTINCT requires
explicit column list`.  This holds for `translateSimpleSelect` and, for a
select without set operations, for the whole translation. -/
theorem distinct_appends_uniq (stmt : SelectStatement) :
    (∀ tn v0, DistinctRefines stmt
      ((translateSimpleSelect tn v0 (stmt.withDistinct false)).map Prod.fst)
      ((translateSimpleSelect tn v0 (stmt.withDistinct true)).map Prod.fst)) ∧
    (stmt.setOps = [] → ∀ sp ctes, DistinctRefines stmt
      (translateSelectStatementToLogsQLWithContext sp
        (some (.select (stmt.withDistinct false))) ctes)
      (translateSelectStatementToLogsQLWithContext sp
        (some (.select (stmt.withDistinct true))) ctes)) := by
  refine ⟨fun tn v0 => translateSimpleSelect_distinct tn v0 stmt, ?_⟩
  intro hso sp ctes
  rw [translate_distinct_unfold sp ctes stmt hso false,
    translate_distinct_unfold sp ctes stmt hso true]
  exact translateSimpleSelect_distinct _ _ stmt

theorem distinct_appends_uniq_witness :
    DistinctRefines (scenarioS8 false [plainColumn ["host"], plainColumn ["path"]])
      (translateSelectStatementToLogsQLWithContext exampleProvider
        (some (.select (scenarioS8 false [plainColumn ["host"], plainColumn ["path"]]))) [])
      (translateSelectStatementToLogsQLWithContext exampleProvider
        (some (.select (scenarioS8 true [plainColumn ["host"], plainColumn ["path"]]))) []) ∧
    translateSelectStatementToLogsQL
      (some (.select (scenarioS8 false [plainColumn ["host"], plainColumn ["path"]])))
      exampleProvider = .ok "* | fields host, path" ∧
    translateSelectStatementToLogsQL
      (some (.select (scenarioS8 true [plainColumn ["host"], plainColumn ["path"]])))
      exampleProvider = .ok "* | fields host, path | uniq by (host, path)" ∧
    translateSelectStatementToLogsQL
      (some (.select (scenarioS8 true [{ expr := .starExpr, aliasName := "" }])))
      exampleProvider = badRequest "translator: DISTINCT requires explicit column list" ∧
    translateSelectStatementToLogsQL
      (some (.select (scenarioS8 true [plainColumn ["host"], countStar])))
      exampleProvider = badRequest "translator: DISTINCT with aggregates is not supported" :=
  ⟨(distinct_appends_uniq (scenarioS8 false [plainColumn ["host"], plainColumn ["path"]])).2
      rfl exampleProvider [],
   by decide, by decide, by decide, by decide⟩

theorem isFormatFieldChar_bare (c : Char) (h : isFormatFieldChar c = true) :
    isBareChar c = true := by
  unfold isFormatFieldChar at h
  unfold isBareChar
  simp only [Bool.or_eq_true] at h ⊢
  tauto

theorem quoteRune_formatField (c : Char) (h : isFormatFieldChar c = true) :
    quoteRune c = [c] := by
  unfold quoteRune
  have h1 : c ≠ '\\' := by
    intro hc; subst hc; revert h; decide
  have h2 : c ≠ '"' := by
    intro hc; subst hc; revert h; decide
  simp [h1, h2]

theorem flatMap_quoteRune_formatField (l : List Char)
    (h : ∀ c ∈ l, isFormatFieldChar c = true) : l.flatMap quoteRune = l := by
  induction l with
  | nil => rfl
  | cons a t ih =>
    rw [List.flatMap_cons, quoteRune_formatField a (h a (List.mem_cons_self _ _)),
      ih (fun c hc => h c (List.mem_cons_of_mem _ hc))]
    rfl

theorem escapeFormatPattern_case (m raw : String) (hm : m = "uc" ∨ m = "lc")
    (h : ∀ c ∈ raw.data, isFormatFieldChar c = true) :
    escapeFormatPattern ("<" ++ m ++ ":" ++ raw ++ ">") = "<" ++ m ++ ":" ++ raw ++ ">" := by
  unfold escapeFormatPattern
  apply String.ext
  simp only [String.data_append, List.flatMap_append, flatMap_quoteRune_formatField raw.data h]
  rcases hm with hm | hm <;> subst hm <;> rfl

theorem sanitizeChar_word (c : Char) (h : isFormatFieldChar c = true) :
    isAsciiAlnum (sanitizeChar c) = true ∨ sanitizeChar c = '_' := by
  unfold sanitizeChar
  split
  · right; rfl
  · rename_i hn
    unfold isFormatFieldChar at h
    simp only [Bool.or_eq_true, beq_iff_eq] at h hn
    rcases h with ((h | h) | h) | h
    · left; exact h
    · right; exact h
    · exact absurd (Or.inl (Or.inl (Or.inl (Or.inl (Or.inl (Or.inl (Or.inl (Or.inl (Or.inl (Or.inl (Or.inl (Or.inl (Or.inl h))))))))))))) hn
    · exact absurd (Or.inl (Or.inl (Or.inl (Or.inl (Or.inl (Or.inl (Or.inl (Or.inl (Or.inl (Or.inl (Or.inl (Or.inl (Or.inr h))))))))))))) hn
theorem lowerChar_word (c : Char) (h : isAsciiAlnum c = true ∨ c = '_') :
    isAsciiAlnum (lowerChar c) = true ∨ lowerChar c = '_' := by
  rcases h with h | h
  · left
    unfold lowerChar
    by_cases hr : 65 ≤ c.toNat ∧ c.toNat ≤ 90
    · have hv : (Char.ofNat (c.toNat + 32)).toNat = c.toNat + 32 := by
        have hvalid : (c.toNat + 32).isValidChar := by
          left
          omega
        unfold Char.ofNat
        rw [dif_pos hvalid]
        rfl
      rw [if_pos hr]
      unfold isAsciiAlnum
      rw [hv]
      simp only [Bool.or_eq_true, Bool.and_eq_true, decide_eq_true_eq]
      omega
    · rw [if_neg hr]
      exact h
  · right
    subst h
    decide

theorem replaceDoubleUnderscore_mem : ∀ (l : List Char) (c : Char),
    c ∈ replaceDoubleUnderscore l → c ∈ l := by
  intro l
  induction l using replaceDoubleUnderscore.induct with
  | case1 rest ih =>
    intro c hc
    simp only [replaceDoubleUnderscore, List.mem_cons] at hc
    rcases hc with hc | hc
    · subst hc; exact List.mem_cons_self _ _
    · exact List.mem_cons_of_mem _ (List.mem_cons_of_mem _ (ih c hc))
  | case2 c0 rest hne ih =>
    intro c hc
    rw [replaceDoubleUnderscore] at hc
    · simp only [List.mem_cons] at hc
      rcases hc with hc | hc
      · subst hc; exact List.mem_cons_self _ _
      · exact List.mem_cons_of_mem _ (ih c hc)
    · exact hne
  | case3 => intro c hc; simp [replaceDoubleUnderscore] at hc

theorem collapseUnderscores_mem : ∀ (fuel : Nat) (l : List Char) (c : Char),
    c ∈ collapseUnderscores fuel l → c ∈ l := by
  intro fuel
  induction fuel with
  | zero => intro l c hc; exact hc
  | succ n ih =>
    intro l c hc
    unfold collapseUnderscores at hc
    split at hc
    · exact replaceDoubleUnderscore_mem _ _ (ih _ _ hc)
    · exact hc

theorem trimUnderscores_mem (l : List Char) (c : Char) (hc : c ∈ trimUnderscores l) : c ∈ l := by
  unfold trimUnderscores at hc
  rw [List.mem_reverse] at hc
  have h1 := (List.dropWhile_suffix (· == '_')).subset hc
  rw [List.mem_reverse] at h1
  exact (List.dropWhile_suffix (· == '_')).subset h1

theorem sanitizeAliasFromField_bare (raw : String)
    (h : ∀ c ∈ raw.data, isFormatFieldChar c = true) :
    ∀ c ∈ (sanitizeAliasFromField raw).data, isBareChar c = true := by
  have hword : ∀ c ∈ (toLower ⟨raw.data.map sanitizeChar⟩).data,
      isAsciiAlnum c = true ∨ c = '_' := by
    intro c hc
    simp only [toLower, List.map_map, List.mem_map, Function.comp_apply] at hc
    obtain ⟨a, ha, rfl⟩ := hc
    exact lowerChar_word _ (sanitizeChar_word a (h a ha))
  intro c hc
  unfold sanitizeAliasFromField at hc
  dsimp only at hc
  split at hc
  · revert c
    decide
  · have h1 := collapseUnderscores_mem _ _ _ (trimUnderscores_mem _ _ hc)
    rcases hword c h1 with h2 | h2
    · simp [isBareChar, h2]
    · subst h2; decide

theorem projectionAlias_bare (pfx raw : String) (hp : pfx = "upper" ∨ pfx = "lower")
    (h : ∀ c ∈ raw.data, isFormatFieldChar c = true) :
    safeBareLiteral (pfx ++ "_" ++ sanitizeAliasFromField raw) = true := by
  rw [safeBareLiteral_iff]
  constructor
  · rcases hp with hp | hp <;> subst hp <;> simp
  · intro c hc
    simp only [String.data_append, List.mem_append] at hc
    rcases hc with (hc | hc) | hc
    · rcases hp with hp | hp <;> subst hp <;> revert c <;> decide
    · revert c; decide
    · exact sanitizeAliasFromField_bare raw h c hc
theorem isBareChar_not_space (c : Char) (h : isBareChar c = true) : isSpace c = false := by
  unfold isBareChar at h
  simp only [Bool.or_eq_true, beq_iff_eq] at h
  rcases h with ((((h | h) | h) | h) | h) | h
  · unfold isAsciiAlnum at h
    unfold isSpace
    simp only [Bool.or_eq_true, Bool.and_eq_true, decide_eq_true_eq] at h
    simp only [Bool.or_eq_false_iff, Bool.and_eq_false_iff, decide_eq_false_iff_not,
      beq_eq_false_iff_ne, ne_eq]
    omega
  all_goals (subst h; decide)

theorem trimSpace_bare (A : String) (h : InBareClass A) : trimSpace A = A := by
  obtain ⟨hne, hall⟩ := h
  unfold trimSpace
  apply String.ext
  show ((A.data.dropWhile isSpace).reverse.dropWhile isSpace).reverse = A.data
  have h1 : A.data.dropWhile isSpace = A.data := by
    cases hd : A.data with
    | nil => rfl
    | cons a t =>
      have ha : isSpace a = false := isBareChar_not_space a (hall a (by rw [hd]; simp))
      simp [List.dropWhile, ha]
  rw [h1]
  have h2 : A.data.reverse.dropWhile isSpace = A.data.reverse := by
    cases hd : A.data.reverse with
    | nil => rfl
    | cons a t =>
      have hmem : a ∈ A.data := by
        rw [← List.mem_reverse, hd]; simp
      have ha : isSpace a = false := isBareChar_not_space a (hall a hmem)
      simp [List.dropWhile, ha]
  rw [h2, List.reverse_reverse]

theorem GoMap.has_nil {α : Type} (k : String) : GoMap.has ([] : GoMap α) k = false := rfl

theorem registerBinding_has_iff (v : Visitor) (a x : String) (b : Bool) :
    (registerBinding v a b).bindings.has x = true ↔
      (v.bindings.has x = true ∨ (x ≠ "" ∧ x = toLower a)) := by
  simp only [registerBinding]
  split
  · rename_i hk
    have hk1 : toLower a = "" := by simpa using hk
    constructor
    · intro h; exact Or.inl h
    · rintro (h | ⟨h1, h2⟩)
      · exact h
      · rw [hk1] at h2; exact absurd h2 h1
  · rename_i hk
    have hk1 : toLower a ≠ "" := by simpa using hk
    constructor
    · intro h
      by_cases hx : x = toLower a
      · exact Or.inr ⟨by rw [hx]; exact hk1, hx⟩
      · exact Or.inl ((GoMap.has_set_inv _ _ _ _ h).resolve_left hx)
    · rintro (h | ⟨_, h2⟩)
      · exact GoMap.has_set_of_has _ _ _ _ h
      · rw [h2]; exact GoMap.has_set_self _ _ _
theorem registerBaseTable_bindings (sp : Provider) (ctes : GoMap String) (parts : List String)
    (tableAlias : String) (v1 : Visitor)
    (h : registerBaseTable (newVisitor sp ctes) (some parts) tableAlias = .ok v1) (k : String) :
    v1.bindings.has k = true ↔
      (k ≠ "" ∧ (k = toLower (aliasOrName (lastPart parts) tableAlias) ∨
        k = toLower (lastPart parts))) := by
  unfold registerBaseTable at h
  dsimp only at h
  split at h
  · simp [badRequest] at h
  · split at h
    · simp [badRequest] at h
    · obtain ⟨resolved, _, h⟩ := bind_ok_inv _ _ _ h
      cases resolved <;>
        (injection h with h
         rw [← h, registerBinding_has_iff, registerBinding_has_iff, toLower_idem, toLower_idem]
         simp only [newVisitor, GoMap.has_nil, Bool.false_eq_true, false_or]
         tauto)

theorem translateStringFunction_case (v : Visitor) (fnName fparts : List String)
    (A m pfx raw : String)
    (hname : (toUpper (lastPart fnName) = "UPPER" ∧ m = "uc" ∧ pfx = "upper") ∨
      (toUpper (lastPart fnName) = "LOWER" ∧ m = "lc" ∧ pfx = "lower"))
    (hraw : stringsJoin (stripQualifier v fparts) "." = raw)
    (hclass : InFormatFieldClass raw)
    (hA : trimSpace A = "" ∨ InBareClass (trimSpace A)) :
    translateStringFunction v fnName [.identifier fparts] A =
      (true, .ok (["format \"" ++ ("<" ++ m ++ ":" ++ raw ++ ">") ++ "\" as " ++
          (if trimSpace A = "" then pfx ++ "_" ++ sanitizeAliasFromField raw else trimSpace A)],
        if trimSpace A = "" then pfx ++ "_" ++ sanitizeAliasFromField raw else trimSpace A)) := by
  have hfn : fnName.isEmpty = false := by
    cases fnName with
    | nil => rcases hname with ⟨h, _⟩ | ⟨h, _⟩ <;> revert h <;> decide
    | cons a t => rfl
  have hfp : fparts.isEmpty = false := by
    cases fparts with
    | nil =>
      have : raw = "" := by rw [← hraw]; rfl
      rw [this] at hclass
      exact absurd rfl hclass.1
    | cons a t => rfl
  have hsafe : safeFormatFieldLiteral raw = true := by
    unfold safeFormatFieldLiteral
    have h1 : raw.data.isEmpty = false := by
      cases hd : raw.data with
      | nil => exact absurd hd hclass.1
      | cons a t => rfl
    rw [h1]
    simpa using hclass.2
  have hrf : rawFieldName v fparts = .ok raw := by
    unfold rawFieldName
    simp only [hfp, Bool.false_eq_true, if_false, hraw, hsafe, Bool.not_true]
  have hmk : makeProjectionAlias (trimSpace A) pfx raw =
      .ok (if trimSpace A = "" then pfx ++ "_" ++ sanitizeAliasFromField raw else trimSpace A) := by
    unfold makeProjectionAlias
    rcases hA with hA | hA
    · have hp : pfx = "upper" ∨ pfx = "lower" := by
        rcases hname with ⟨_, _, h⟩ | ⟨_, _, h⟩
        · exact Or.inl h
        · exact Or.inr h
      simp [hA, projectionAlias_bare pfx raw hp hclass.2]
    · have hne : trimSpace A ≠ "" := by
        intro h
        rw [h] at hA
        exact hA.1 rfl
      simp [hne, (safeBareLiteral_iff _).mpr hA]
  have hesc : escapeFormatPattern ("<" ++ m ++ ":" ++ raw ++ ">") =
      "<" ++ m ++ ":" ++ raw ++ ">" := by
    apply escapeFormatPattern_case
    · rcases hname with ⟨_, h, _⟩ | ⟨_, h, _⟩
      · exact Or.inl h
      · exact Or.inr h
    · exact hclass.2
  unfold translateStringFunction
  rw [hfn]
  rcases hname with ⟨hn, hm, hp⟩ | ⟨hn, hm, hp⟩
  · subst hm hp
    simp only [hn, Bool.false_eq_true, if_false, beq_self_eq_true, Bool.true_or, if_true]
    have hl : toLower "UPPER" = "upper" := by decide
    have hne : ("UPPER" == "LOWER") = false := by decide
    simp only [hrf, bind_ok_eq, hl, hmk, hne, Bool.false_eq_true, if_false, hesc]
  · subst hm hp
    simp only [hn, Bool.false_eq_true, if_false, beq_self_eq_true, Bool.or_true, if_true]
    have hl : toLower "LOWER" = "lower" := by decide
    simp only [hrf, bind_ok_eq, hl, hmk, if_true, hesc]
theorem isAggregateFunction_case (fnName : List String)
    (h : toUpper (lastPart fnName) = "UPPER" ∨ toUpper (lastPart fnName) = "LOWER") :
    isAggregateFunction fnName = false := by
  unfold isAggregateFunction
  split
  · rfl
  · rcases h with h | h <;> (dsimp only; rw [h]; decide)

theorem buildStatsPipe_case (v : Visitor) (fnName fparts : List String) (A : String)
    (table : TableExpr)
    (h : toUpper (lastPart fnName) = "UPPER" ∨ toUpper (lastPart fnName) = "LOWER") :
    buildStatsPipe v (caseSelect fnName fparts A table) none =
      .ok ([], false, { v with groupExprAliases := none }) := by
  simp [buildStatsPipe, caseSelect, SelectStatement.groupBy, SelectStatement.columns,
    groupByStage, statsColumnsLoop, isAggregateFunction_case fnName h, statsAfterColumns,
    havingAggregates, finishStatsPipe, bind, Except.bind]

theorem translateStringFunction_congr (v v1 : Visitor) (hb : v1.bindings = v.bindings)
    (fnName fparts : List String) (A : String)
    (h : toUpper (lastPart fnName) = "UPPER" ∨ toUpper (lastPart fnName) = "LOWER") :
    translateStringFunction v1 fnName [.identifier fparts] A =
      translateStringFunction v fnName [.identifier fparts] A := by
  have hfn : fnName.isEmpty = false := by
    cases fnName with
    | nil => rcases h with h | h <;> revert h <;> decide
    | cons a t => rfl
  have hc : (toUpper (lastPart fnName) == "UPPER" || toUpper (lastPart fnName) == "LOWER") =
      true := by
    rcases h with h | h <;> rw [h] <;> decide
  unfold translateStringFunction
  simp only [hfn, Bool.false_eq_true, if_false, hc, if_true, rawFieldName, stripQualifier, hb]

theorem buildProjectionPipes_case (v : Visitor) (fnName fparts : List String)
    (A m pfx raw : String)
    (hname : (toUpper (lastPart fnName) = "UPPER" ∧ m = "uc" ∧ pfx = "upper") ∨
      (toUpper (lastPart fnName) = "LOWER" ∧ m = "lc" ∧ pfx = "lower"))
    (hraw : stringsJoin (stripQualifier v fparts) "." = raw)
    (hclass : InFormatFieldClass raw)
    (hA : trimSpace A = "" ∨ InBareClass (trimSpace A)) :
    buildProjectionPipes v
      [{ expr := .funcCall fnName [.identifier fparts] false none, aliasName := A }] false =
      .ok (["format \"" ++ ("<" ++ m ++ ":" ++ raw ++ ">") ++ "\" as " ++
          (if trimSpace A = "" then pfx ++ "_" ++ sanitizeAliasFromField raw else trimSpace A),
        "fields " ++
          (if trimSpace A = "" then pfx ++ "_" ++ sanitizeAliasFromField raw else trimSpace A)],
        [if trimSpace A = "" then pfx ++ "_" ++ sanitizeAliasFromField raw else trimSpace A],
        v) := by
  have hts := translateStringFunction_case v fnName fparts A m pfx raw hname hraw hclass hA
  have hbare : safeBareLiteral
      (if trimSpace A = "" then pfx ++ "_" ++ sanitizeAliasFromField raw else trimSpace A) =
      true := by
    rcases hA with hA | hA
    · have hp : pfx = "upper" ∨ pfx = "lower" := by
        rcases hname with ⟨_, _, h⟩ | ⟨_, _, h⟩
        · exact Or.inl h
        · exact Or.inr h
      rw [if_pos hA]
      exact projectionAlias_bare pfx raw hp hclass.2
    · have hne : trimSpace A ≠ "" := by
        intro h
        rw [h] at hA
        exact hA.1 rfl
      rw [if_neg hne]
      exact (safeBareLiteral_iff _).mpr hA
  have hff : formatFieldName
      (if trimSpace A = "" then pfx ++ "_" ++ sanitizeAliasFromField raw else trimSpace A) =
      (if trimSpace A = "" then pfx ++ "_" ++ sanitizeAliasFromField raw else trimSpace A) := by
    unfold formatFieldName
    rw [hbare]
    rfl
  unfold buildProjectionPipes
  have hstar : isSelectStar
      [{ expr := .funcCall fnName [.identifier fparts] false none, aliasName := A }] = false := rfl
  rw [hstar]
  simp only [Bool.false_eq_true, if_false, projectColumns, projectColumn, Option.isSome_none,
    Bool.false_and, hts, bind_ok_eq, if_true, hff, List.nil_append, List.length_nil,
    gt_iff_lt, Nat.lt_irrefl, decide_False, List.length_singleton, Nat.lt_one_iff,
    Nat.zero_lt_one, decide_True, Bool.not_false, Bool.and_self, List.append_nil,
    List.singleton_append, stringsJoin, Nat.lt_irrefl, lt_self_iff_false, zero_lt_one]
/-- C20 (counterexample): `SELECT UPPER(t.name) AS u FROM t` translates to
`* | format "<uc:name>" as u | fields u`, not to the pipeline with `<uc:t.name>`,
and `SELECT LOWER(T.Name) FROM t` gets the alias `lower_name`, not
`lower_t_name`, although `t.name` and `T.Name` are in the format-field class
and `sanitizeAliasFromField "T.Name"` is `t_name`. -/
theorem upper_of_qualified_field_drops_qualifier :
    InFormatFieldClass (stringsJoin ["t", "name"] ".") ∧ InBareClass "u" ∧
    translateSelectStatementToLogsQL
      (some (.select (caseSelect ["UPPER"] ["t", "name"] "u" (tableRef "t")))) exampleProvider =
      .ok "* | format \"<uc:name>\" as u | fields u" ∧
    translateSelectStatementToLogsQL
      (some (.select (caseSelect ["UPPER"] ["t", "name"] "u" (tableRef "t")))) exampleProvider ≠
      .ok "* | format \"<uc:t.name>\" as u | fields u" ∧
    sanitizeAliasFromField (stringsJoin ["T", "Name"] ".") = "t_name" ∧
    translateSelectStatementToLogsQL
      (some (.select (caseSelect ["LOWER"] ["T", "Name"] "" (tableRef "t")))) exampleProvider =
      .ok "* | format \"<lc:Name>\" as lower_name | fields lower_name" := by
  refine ⟨⟨by decide, by decide⟩, ⟨by decide, by decide⟩, by decide, by decide, by decide,
    by decide⟩

/-- C20 (as amended): let `SELECT fn(f) AS A FROM t` have `t` configured as
`*`, `fn` be `UPPER` (modifier `uc`, prefix `upper`) or `LOWER` (modifier `lc`,
prefix `lower`) in any letter case, and `raw` be the name of the identifier `f`
after a leading qualifier that is the name or the alias of `t` has been
removed.  If `raw` is in the format-field class and the trimmed alias is empty
or bare, the translation is `* | format "<modifier:raw>" as alias | fields
alias`, where `alias` is the trimmed `A`, or `prefix_<sanitized raw>` when that
is empty.  The qualifiers that are removed are the non-empty lower-cased name
and alias of `t`; an identifier of one part keeps its name, and a bare alias is
not changed by trimming. -/
theorem upper_lower_projection (sp : Provider) (ctes : GoMap String) (tparts : List String)
    (tableAlias : String) (v1 : Visitor) (fnName fparts : List String) (A m pfx raw : String)
    (hparts : tparts ≠ [])
    (hcte : ctes.get (toLower (lastPart tparts)) = none)
    (hview : ∀ load, sp.viewStore = some load → ∃ q d, load tparts = .ok (q, d, false))
    (htable : sp.getTableQuery (toLower (lastPart tparts)) = some "*")
    (hv1 : registerBaseTable (newVisitor sp ctes) (some tparts) tableAlias = .ok v1)
    (hname : (toUpper (lastPart fnName) = "UPPER" ∧ m = "uc" ∧ pfx = "upper") ∨
      (toUpper (lastPart fnName) = "LOWER" ∧ m = "lc" ∧ pfx = "lower"))
    (hraw : stringsJoin (stripQualifier v1 fparts) "." = raw)
    (hclass : InFormatFieldClass raw)
    (hA : trimSpace A = "" ∨ InBareClass (trimSpace A)) :
    translateSelectStatementToLogsQLWithContext sp
      (some (.select (caseSelect fnName fparts A (.tableName (some tparts) tableAlias)))) ctes =
      .ok ("* | format \"" ++ ("<" ++ m ++ ":" ++ raw ++ ">") ++ "\" as " ++
        (if trimSpace A = "" then pfx ++ "_" ++ sanitizeAliasFromField raw else trimSpace A) ++
        " | fields " ++
        (if trimSpace A = "" then pfx ++ "_" ++ sanitizeAliasFromField raw else trimSpace A)) ∧
    (∀ k, v1.bindings.has k = true ↔
      (k ≠ "" ∧ (k = toLower (aliasOrName (lastPart tparts) tableAlias) ∨
        k = toLower (lastPart tparts)))) ∧
    (∀ x, fparts = [x] → raw = x) ∧
    (InBareClass A → trimSpace A = A) := by
  refine ⟨?_, registerBaseTable_bindings sp ctes tparts tableAlias v1 hv1, ?_, trimSpace_bare A⟩
  · obtain ⟨hbf, hbu, hbp, hfo, hfd, hpl⟩ :=
      registerBaseTable_configured sp ctes tparts tableAlias "*" v1 hparts hcte hview htable hv1
    have hfrom : ∀ tn, processFrom tn (resetVisitor (newVisitor sp ctes))
        (caseSelect fnName fparts A (.tableName (some tparts) tableAlias)).fromClause =
        .ok ([], v1) := by
      intro tn
      show (registerBaseTable (newVisitor sp ctes) (some tparts) tableAlias >>= fun v1 =>
        Except.ok ([], v1)) = _
      rw [hv1]
      rfl
    rw [translate_select_unfold,
      translateSelect_plain _ (newVisitor sp ctes)
        (caseSelect fnName fparts A (.tableName (some tparts) tableAlias))
        rfl rfl [] v1 (hfrom _)]
    have hpre : collectFilterPrefilters v1 = [] := collectFilterPrefilters_nil v1 hfo
    have hclean : collectFilterCleanup v1 = [] := collectFilterCleanup_nil v1 hfd
    have hn2 : toUpper (lastPart fnName) = "UPPER" ∨ toUpper (lastPart fnName) = "LOWER" := by
      rcases hname with ⟨h, _⟩ | ⟨h, _⟩
      · exact Or.inl h
      · exact Or.inr h
    have hproj := buildProjectionPipes_case { v1 with groupExprAliases := none } fnName fparts
      A m pfx raw hname hraw hclass hA
    unfold translateAfterFrom
    have hwc : (caseSelect fnName fparts A (.tableName (some tparts) tableAlias)).whereClause.toList
        = [] := rfl
    have hhav : (caseSelect fnName fparts A (.tableName (some tparts) tableAlias)).having =
        none := rfl
    have hord : (caseSelect fnName fparts A (.tableName (some tparts) tableAlias)).orderBy =
        [] := rfl
    have hcl : (caseSelect fnName fparts A (.tableName (some tparts) tableAlias)).columns =
        [{ expr := .funcCall fnName [.identifier fparts] false none, aliasName := A }] := rfl
    have hdi : (caseSelect fnName fparts A (.tableName (some tparts) tableAlias)).distinct =
        false := rfl
    have hli : (caseSelect fnName fparts A (.tableName (some tparts) tableAlias)).limit =
        none := rfl
    rw [hwc, translateFilterList_nil]
    simp only [bind_ok_eq, hpl, translateFilterList_nil]
    rw [hhav, hord, hcl, hdi, hli, buildStatsPipe_case _ _ _ _ _ hn2]
    simp only [bind_ok_eq, translateHaving, hproj, distinctPipesOf, orderPipesOf,
      limitPipesOf, List.length_nil, gt_iff_lt, lt_self_iff_false, List.append_nil,
      List.nil_append, Bool.false_eq_true, if_false]
    have hts : trimSpace "*" = "*" := by decide
    have hspec : newTableSpec "*" = { filter := "*", pipeline := "" } := by decide
    rw [hspec] at hbf hbu hbp
    have hbu2 : v1.baseUsesPipeline = false := by rw [hbu]; decide
    simp only [Except.map, sourceOf, filterPipesOf, needsFilterPipeline, allFilters, hpre, hbf,
      hbu2, hts, combineFilters, renderPipeline]
    simp only [String.append_assoc, List.length_singleton, beq_self_eq_true, if_true, List.headD,
      List.length_cons, List.length_nil, Bool.not_false, Bool.and_true, decide_True,
      List.nil_append, stringsJoin, Bool.false_eq_true, if_false, bne_self_eq_false,
      Bool.false_and, Nat.lt_irrefl, decide_False, Bool.or_self, List.append_nil]
    congr 1
  · intro x hx
    rw [← hraw, hx]
    rfl
theorem upper_lower_projection_witness :
    translateSelectStatementToLogsQLWithContext exampleProvider
      (some (.select (caseSelect ["UPPER"] ["name"] "u" (.tableName (some ["t"]) "")))) [] =
      .ok "* | format \"<uc:name>\" as u | fields u" ∧
    translateSelectStatementToLogsQLWithContext exampleProvider
      (some (.select (caseSelect ["lower"] ["a.b-c"] "" (.tableName (some ["t"]) "")))) [] =
      .ok "* | format \"<lc:a.b-c>\" as lower_a_b_c | fields lower_a_b_c" ∧
    translateSelectStatementToLogsQLWithContext exampleProvider
      (some (.select (caseSelect ["Upper"] ["t", "name"] " u " (.tableName (some ["t"]) "")))) [] =
      .ok "* | format \"<uc:name>\" as u | fields u" :=
  ⟨(upper_lower_projection exampleProvider [] ["t"] ""
      (registerBinding (registerBinding
        { newVisitor exampleProvider [] with baseAlias := "t", baseFilter := "*" } "t" true)
        "t" true)
      ["UPPER"] ["name"] "u" "uc" "upper" "name"
      (by decide) rfl (fun _ h => absurd h (by simp [exampleProvider])) rfl rfl
      (Or.inl ⟨by decide, rfl, rfl⟩) (by decide) ⟨by decide, by decide⟩
      (Or.inr ⟨by decide, by decide⟩)).1,
   (upper_lower_projection exampleProvider [] ["t"] ""
      (registerBinding (registerBinding
        { newVisitor exampleProvider [] with baseAlias := "t", baseFilter := "*" } "t" true)
        "t" true)
      ["lower"] ["a.b-c"] "" "lc" "lower" "a.b-c"
      (by decide) rfl (fun _ h => absurd h (by simp [exampleProvider])) rfl rfl
      (Or.inr ⟨by decide, rfl, rfl⟩) (by decide) ⟨by decide, by decide⟩
      (Or.inl (by decide))).1,
   (upper_lower_projection exampleProvider [] ["t"] ""
      (registerBinding (registerBinding
        { newVisitor exampleProvider [] with baseAlias := "t", baseFilter := "*" } "t" true)
        "t" true)
      ["Upper"] ["t", "name"] " u " "uc" "upper" "name"
      (by decide) rfl (fun _ h => absurd h (by simp [exampleProvider])) rfl rfl
      (Or.inl ⟨by decide, rfl, rfl⟩) (by decide) ⟨by decide, by decide⟩
      (Or.inr ⟨by decide, by decide⟩)).1⟩

theorem fieldNameFromExpr_preserves (P : Visitor → Prop)
    (hP : ∀ v fn fnName args r, P v → ensureFilterFunctionAlias v fn fnName args = .ok r → P r.2)
    (v : Visitor) (expr : Expr) (r : String × Bool × Visitor)
    (hi : P v) (h : fieldNameFromExpr v expr = .ok r) :
    P r.2.2 := by
  unfold fieldNameFromExpr at h
  split at h
  · obtain ⟨n, _, h⟩ := bind_ok_inv _ _ _ h
    injection h with h
    rw [← h]; exact hi
  · split at h
    · split at h
      · obtain ⟨k, _, h⟩ := bind_ok_inv _ _ _ h
        split at h
        · simp [badRequest] at h
        · injection h with h
          rw [← h]; exact hi
      · obtain ⟨k, _, h⟩ := bind_ok_inv _ _ _ h
        split at h
        · injection h with h
          rw [← h]; exact hi
        · simp [badRequest] at h
    · obtain ⟨a, ha, h⟩ := bind_ok_inv _ _ _ h
      injection h with h
      rw [← h]
      exact hP v _ _ _ a hi ha
  · injection h with h
    rw [← h]; exact hi

theorem filterFieldFromExpr_preserves (P : Visitor → Prop)
    (hP : ∀ v fn fnName args r, P v → ensureFilterFunctionAlias v fn fnName args = .ok r → P r.2)
    (v : Visitor) (expr : Expr) (r : String × Visitor)
    (hi : P v) (h : filterFieldFromExpr v expr = .ok r) :
    P r.2 := by
  unfold filterFieldFromExpr at h
  obtain ⟨a, ha, h⟩ := bind_ok_inv _ _ _ h
  split at h
  · simp [badRequest] at h
  · injection h with h
    rw [← h]
    exact fieldNameFromExpr_preserves P hP v expr a hi ha

theorem translateComparison_preserves (P : Visitor → Prop)
    (hP : ∀ v fn fnName args r, P v → ensureFilterFunctionAlias v fn fnName args = .ok r → P r.2)
    (v : Visitor) (left right : Expr) (cmp : ComparisonKind)
    (r : String × Visitor) (hi : P v)
    (h : translateComparison v left right cmp = .ok r) : P r.2 := by
  unfold translateComparison at h
  obtain ⟨l, hl, h⟩ := bind_ok_inv _ _ _ h
  obtain ⟨r0, hr, h⟩ := bind_ok_inv _ _ _ h
  have h2 := fieldNameFromExpr_preserves P hP _ _ r0 (fieldNameFromExpr_preserves P hP v left l hi hl) hr
  dsimp only at h
  split at h
  · obtain ⟨c, _, h⟩ := bind_ok_inv _ _ _ h
    injection h with h
    rw [← h]; exact h2
  · split at h
    · obtain ⟨lit, _, h⟩ := bind_ok_inv _ _ _ h
      obtain ⟨c, _, h⟩ := bind_ok_inv _ _ _ h
      injection h with h
      rw [← h]; exact h2
    · split at h
      · obtain ⟨lit, _, h⟩ := bind_ok_inv _ _ _ h
        obtain ⟨c, _, h⟩ := bind_ok_inv _ _ _ h
        injection h with h
        rw [← h]; exact h2
      · simp [badRequest] at h

theorem translateBetweenExpr_preserves (P : Visitor → Prop)
    (hP : ∀ v fn fnName args r, P v → ensureFilterFunctionAlias v fn fnName args = .ok r → P r.2)
    (v : Visitor) (e lower upper : Expr) (neg : Bool)
    (r : String × Visitor) (hi : P v)
    (h : translateBetweenExpr v e lower upper neg = .ok r) : P r.2 := by
  unfold translateBetweenExpr at h
  obtain ⟨f, hf, h⟩ := bind_ok_inv _ _ _ h
  obtain ⟨lo, _, h⟩ := bind_ok_inv _ _ _ h
  obtain ⟨hi2, _, h⟩ := bind_ok_inv _ _ _ h
  have h2 := filterFieldFromExpr_preserves P hP v e f hi hf
  dsimp only at h
  split at h <;> (injection h with h; rw [← h]; exact h2)

theorem translateInExpr_preserves (P : Visitor → Prop)
    (hP : ∀ v fn fnName args r, P v → ensureFilterFunctionAlias v fn fnName args = .ok r → P r.2)
    (v : Visitor) (e : Expr) (list : List Expr)
    (hasSubquery neg : Bool) (r : String × Visitor) (hi : P v)
    (h : translateInExpr v e list hasSubquery neg = .ok r) : P r.2 := by
  unfold translateInExpr at h
  split at h
  · simp [badRequest] at h
  · obtain ⟨f, hf, h⟩ := bind_ok_inv _ _ _ h
    have h2 := filterFieldFromExpr_preserves P hP v e f hi hf
    split at h
    · simp [badRequest] at h
    · obtain ⟨vals, _, h⟩ := bind_ok_inv _ _ _ h
      dsimp only at h
      split at h <;> (injection h with h; rw [← h]; exact h2)

theorem translateLikeExpr_preserves (P : Visitor → Prop)
    (hP : ∀ v fn fnName args r, P v → ensureFilterFunctionAlias v fn fnName args = .ok r → P r.2)
    (v : Visitor) (e pattern : Expr) (neg : Bool)
    (r : String × Visitor) (hi : P v)
    (h : translateLikeExpr v e pattern neg = .ok r) : P r.2 := by
  unfold translateLikeExpr at h
  obtain ⟨f, hf, h⟩ := bind_ok_inv _ _ _ h
  have h2 := filterFieldFromExpr_preserves P hP v e f hi hf
  obtain ⟨lit, _, h⟩ := bind_ok_inv _ _ _ h
  split at h
  · simp [badRequest] at h
  · obtain ⟨t, _, h⟩ := bind_ok_inv _ _ _ h
    dsimp only at h
    split at h <;> (injection h with h; rw [← h]; exact h2)

theorem translateIsNullExpr_preserves (P : Visitor → Prop)
    (hP : ∀ v fn fnName args r, P v → ensureFilterFunctionAlias v fn fnName args = .ok r → P r.2)
    (v : Visitor) (e : Expr) (neg : Bool)
    (r : String × Visitor) (hi : P v)
    (h : translateIsNullExpr v e neg = .ok r) : P r.2 := by
  unfold translateIsNullExpr at h
  obtain ⟨f, hf, h⟩ := bind_ok_inv _ _ _ h
  have h2 := filterFieldFromExpr_preserves P hP v e f hi hf
  split at h <;> (injection h with h; rw [← h]; exact h2)

theorem translateExpr_preserves (P : Visitor → Prop)
    (hP : ∀ v fn fnName args r, P v → ensureFilterFunctionAlias v fn fnName args = .ok r → P r.2)
    : ∀ (e : Expr) (v : Visitor) (r : String × Visitor),
    P v → translateExpr v e = .ok r → P r.2
  | .binaryExpr op left right, v, r, hi, h => by
    unfold translateExpr at h
    split at h
    · obtain ⟨l, hl, h⟩ := bind_ok_inv _ _ _ h
      obtain ⟨r0, hr, h⟩ := bind_ok_inv _ _ _ h
      injection h with h
      rw [← h]
      exact translateExpr_preserves P hP right l.2 r0 (translateExpr_preserves P hP left v l hi hl) hr
    · repeat' split at h
      all_goals first
        | exact translateComparison_preserves P hP _ _ _ _ _ hi h
        | simp [badRequest] at h
  | .unaryExpr op e, v, r, hi, h => by
    unfold translateExpr at h
    split at h
    · obtain ⟨inner, hin, h⟩ := bind_ok_inv _ _ _ h
      injection h with h
      rw [← h]
      exact translateExpr_preserves P hP e v inner hi hin
    · simp [badRequest] at h
  | .inExpr e list hasSubquery neg, v, r, hi, h => by
    unfold translateExpr at h
    exact translateInExpr_preserves P hP _ _ _ _ _ _ hi h
  | .likeExpr e pattern neg, v, r, hi, h => by
    unfold translateExpr at h
    exact translateLikeExpr_preserves P hP _ _ _ _ _ hi h
  | .isNullExpr e neg, v, r, hi, h => by
    unfold translateExpr at h
    exact translateIsNullExpr_preserves P hP _ _ _ _ hi h
  | .betweenExpr e lower upper neg, v, r, hi, h => by
    unfold translateExpr at h
    exact translateBetweenExpr_preserves P hP _ _ _ _ _ _ hi h
  | .funcCall fnName args d o, v, r, hi, h => by
    unfold translateExpr at h
    repeat' split at h
    all_goals first
      | (cases h; done)
      | (simp [badRequest] at h; done)
      | (injection h with h; rw [← h]; exact hi)
  | .identifier parts, v, r, hi, h => by
    unfold translateExpr at h
    obtain ⟨n, _, h⟩ := bind_ok_inv _ _ _ h
    injection h with h
    rw [← h]; exact hi
  | .stringLiteral value, v, r, hi, h => by
    unfold translateExpr at h
    injection h with h
    rw [← h]; exact hi
  | .numericLiteral value, v, r, hi, h => by
    unfold translateExpr at h
    injection h with h
    rw [← h]; exact hi
  | .booleanLiteral b, v, r, hi, h => by
    unfold translateExpr at h
    injection h with h
    rw [← h]; exact hi
  | .nullLiteral, v, r, hi, h => by
    unfold translateExpr at h
    simp [badRequest] at h
  | .starExpr, v, r, hi, h => by
    unfold translateExpr at h
    simp [badRequest] at h
  | .other t, v, r, hi, h => by
    unfold translateExpr at h
    simp [badRequest] at h

theorem translateFilterList_preserves (P : Visitor → Prop)
    (hP : ∀ v fn fnName args r, P v → ensureFilterFunctionAlias v fn fnName args = .ok r → P r.2)
    (es : List Expr) : ∀ (v : Visitor) (r : List String × Visitor),
    P v → translateFilterList v es = .ok r → P r.2 := by
  induction es with
  | nil =>
    intro v r hi h
    simp only [translateFilterList, Except.ok.injEq] at h
    rw [← h]; exact hi
  | cons e rest ih =>
    intro v r hi h
    unfold translateFilterList at h
    obtain ⟨_, _, h⟩ := bind_ok_inv _ _ _ h
    obtain ⟨part, hp, h⟩ := bind_ok_inv _ _ _ h
    obtain ⟨others, ho, h⟩ := bind_ok_inv _ _ _ h
    injection h with h
    rw [← h]
    exact ih part.2 others (translateExpr_preserves P hP e v part hi hp) ho

theorem translateRightFilters_preserves (P : Visitor → Prop)
    (hP : ∀ v fn fnName args r, P v → ensureFilterFunctionAlias v fn fnName args = .ok r → P r.2)
    (rightAlias : String) (es : List Expr) :
    ∀ (v : Visitor) (r : List String × Visitor),
    P v → translateRightFilters rightAlias v es = .ok r →
    P r.2 := by
  induction es with
  | nil =>
    intro v r hi h
    simp only [translateRightFilters, Except.ok.injEq] at h
    rw [← h]; exact hi
  | cons e rest ih =>
    intro v r hi h
    unfold translateRightFilters at h
    obtain ⟨_, _, h⟩ := bind_ok_inv _ _ _ h
    obtain ⟨part, hp, h⟩ := bind_ok_inv _ _ _ h
    obtain ⟨others, ho, h⟩ := bind_ok_inv _ _ _ h
    injection h with h
    rw [← h]
    exact ih part.2 others (translateExpr_preserves P hP e v part hi hp) ho


theorem bind_error_inv {α β : Type} (x : Res α) (f : α → Res β) (e : Err)
    (h : (x >>= f) = .error e) : x = .error e ∨ ∃ a, x = .ok a ∧ f a = .error e := by
  cases x with
  | error e0 =>
    left
    injection h with h
    rw [h]
  | ok a => right; exact ⟨a, rfl, h⟩

/-- C22: `translateLimit` returns `offset k` then `limit n` for numeric
literals `k` and `n`, the single pipe when only one of OFFSET and LIMIT is
present, and fails with a 400 error when both are absent or when OFFSET or
LIMIT is anything but a numeric literal; so every success comes from numeric
literals.  A select without a LIMIT clause gets no pipe. -/
theorem translateLimit_numeric_only :
    (∀ k n, translateLimit (.mk (some (.numericLiteral k)) (some (.numericLiteral n))) =
      .ok ["offset " ++ k, "limit " ++ n]) ∧
    (∀ k, translateLimit (.mk (some (.numericLiteral k)) none) =
      .ok ["offset " ++ k]) ∧
    (∀ n, translateLimit (.mk none (some (.numericLiteral n))) =
      .ok ["limit " ++ n]) ∧
    translateLimit (.mk none none) =
      badRequest "translator: LIMIT/OFFSET clause is empty" ∧
    (∀ limit e, (limit.offset = some e ∨ limit.count = some e) →
      isNumericLiteral e = false → failsWith400 (translateLimit limit) = true) ∧
    (∀ limit pipes, translateLimit limit = .ok pipes →
      (∀ e, limit.offset = some e → isNumericLiteral e = true) ∧
      (∀ e, limit.count = some e → isNumericLiteral e = true) ∧
      (limit.offset ≠ none ∨ limit.count ≠ none)) ∧
    limitPipesOf none = .ok [] := by
  have hfail : ∀ limit e, (limit.offset = some e ∨ limit.count = some e) →
      isNumericLiteral e = false → failsWith400 (translateLimit limit) = true := by
    intro limit e hoc hn
    obtain ⟨o, c⟩ := limit
    rcases hoc with ho | hc
    · dsimp only at ho
      subst ho
      cases e <;> first
        | (simp [isNumericLiteral] at hn; done)
        | rfl
    · dsimp only at hc
      subst hc
      cases e <;> first
        | (simp [isNumericLiteral] at hn; done)
        | (cases o with
           | none => rfl
           | some oe => cases oe <;> rfl)
  refine ⟨fun k n => rfl, fun k => rfl, fun n => rfl, rfl, hfail, ?_, rfl⟩
  intro limit pipes h
  refine ⟨?_, ?_, ?_⟩
  · intro e he
    by_contra hn
    have := hfail limit e (Or.inl he) (by simpa using hn)
    rw [h] at this
    cases this
  · intro e he
    by_contra hn
    have := hfail limit e (Or.inr he) (by simpa using hn)
    rw [h] at this
    cases this
  · by_contra hn
    push_neg at hn
    obtain ⟨o, c⟩ := limit
    dsimp only at hn
    obtain ⟨h1, h2⟩ := hn
    subst h1 h2
    cases h

theorem translateLimit_numeric_only_witness :
    failsWith400 (translateLimit (.mk none (some (.stringLiteral "5")))) = true ∧
    failsWith400 (translateLimit
      (.mk (some (.identifier ["k"])) (some (.numericLiteral "5")))) = true ∧
    translateSelectStatementToLogsQL
      (some (.select (.mk none false [plainColumn ["host"]] (some (tableRef "t")) none [] none []
        (some (.mk (some (.numericLiteral "20")) (some (.numericLiteral "10"))))
        []))) exampleProvider = .ok "* | fields host | offset 20 | limit 10" :=
  ⟨translateLimit_numeric_only.2.2.2.2.1 _ (.stringLiteral "5") (Or.inr rfl) rfl,
   translateLimit_numeric_only.2.2.2.2.1 _ (.identifier ["k"]) (Or.inl rfl) rfl,
   by decide⟩

theorem fieldNameFromExpr_literal (v : Visitor) (L : Expr) (lit : LiteralValue)
    (h : literalFromExpr L = .ok lit) : fieldNameFromExpr v L = .ok ("", false, v) := by
  cases L <;> first
    | rfl
    | simp [literalFromExpr, badRequest] at h

theorem fieldNameFromExpr_null (v : Visitor) :
    fieldNameFromExpr v .nullLiteral = .ok ("", false, v) := rfl

theorem translateExpr_comparison (v : Visitor) (op : String) (left right : Expr)
    (cmp : ComparisonKind) (h : comparisonOfOp op = some cmp) :
    translateExpr v (.binaryExpr op left right) = translateComparison v left right cmp := by
  unfold comparisonOfOp at h
  unfold translateExpr
  by_cases h1 : op = "="
  · subst h1
    have : cmp = .comparisonEqual := by
      simp at h
      exact h.symm
    subst this
    rfl
  · have h1b : (op == "=") = false := by simpa using h1
    rw [h1b] at h
    simp only [Bool.false_eq_true, if_false] at h
    by_cases h0 : (op == "AND" || op == "OR") = true
    · exfalso
      simp only [Bool.or_eq_true, beq_iff_eq] at h0
      rcases h0 with h0 | h0 <;> subst h0 <;> simp at h
    · rw [if_neg h0, h1b]
      simp only [Bool.false_eq_true, if_false]
      repeat' split at h
      all_goals first
        | (cases h; done)
        | (injection h with h
           subst h
           simp_all)
theorem translateComparison_right_literal (v v1 : Visitor) (E L : Expr) (F : String)
    (lit : LiteralValue) (cmp : ComparisonKind)
    (hE : fieldNameFromExpr v E = .ok (F, true, v1)) (hL : literalFromExpr L = .ok lit) :
    translateComparison v E L cmp =
      (buildFieldLiteralComparison F lit false cmp >>= fun clause => .ok (clause, v1)) := by
  unfold translateComparison
  rw [hE, bind_ok_eq, fieldNameFromExpr_literal v1 L lit hL, bind_ok_eq]
  simp only [Bool.and_false, Bool.false_eq_true, if_false, if_true, hL, bind_ok_eq]

theorem translateComparison_left_literal (v v1 : Visitor) (E L : Expr) (F : String)
    (lit : LiteralValue) (cmp : ComparisonKind)
    (hE : fieldNameFromExpr v E = .ok (F, true, v1)) (hL : literalFromExpr L = .ok lit) :
    translateComparison v L E cmp =
      (buildFieldLiteralComparison F lit true cmp >>= fun clause => .ok (clause, v1)) := by
  unfold translateComparison
  rw [fieldNameFromExpr_literal v L lit hL, bind_ok_eq, hE, bind_ok_eq]
  simp only [Bool.false_and, Bool.false_eq_true, if_false, if_true, hL, bind_ok_eq]

theorem translateComparison_null_right (v : Visitor) (X : Expr) (cmp : ComparisonKind)
    (r : String × Visitor) : translateComparison v X .nullLiteral cmp ≠ .ok r := by
  intro h
  unfold translateComparison at h
  obtain ⟨l, _, h⟩ := bind_ok_inv _ _ _ h
  rw [fieldNameFromExpr_null, bind_ok_eq] at h
  cases hl : l.2.1 with
  | true => simp [hl, literalFromExpr, badRequest, bind, Except.bind] at h
  | false => simp [hl, badRequest] at h

theorem translateComparison_null_left (v : Visitor) (X : Expr) (cmp : ComparisonKind)
    (r : String × Visitor) : translateComparison v .nullLiteral X cmp ≠ .ok r := by
  intro h
  unfold translateComparison at h
  rw [fieldNameFromExpr_null, bind_ok_eq] at h
  obtain ⟨r0, _, h⟩ := bind_ok_inv _ _ _ h
  cases hr : r0.2.1 with
  | true => simp [hr, literalFromExpr, badRequest, bind, Except.bind] at h
  | false => simp [hr, badRequest] at h

theorem translateExpr_null_operand (v : Visitor) (op : String) (X : Expr)
    (r : String × Visitor) :
    translateExpr v (.binaryExpr op X .nullLiteral) ≠ .ok r ∧
    translateExpr v (.binaryExpr op .nullLiteral X) ≠ .ok r := by
  have hnull : ∀ (w : Visitor) (r : String × Visitor), translateExpr w .nullLiteral ≠ .ok r := by
    intro w r h
    simp [translateExpr, badRequest] at h
  cases hc : comparisonOfOp op with
  | some cmp =>
    rw [translateExpr_comparison v op _ _ cmp hc, translateExpr_comparison v op _ _ cmp hc]
    exact ⟨translateComparison_null_right v X cmp r, translateComparison_null_left v X cmp r⟩
  | none =>
    constructor
    · intro h
      unfold translateExpr at h
      split at h
      · obtain ⟨l, _, h⟩ := bind_ok_inv _ _ _ h
        obtain ⟨r0, hr0, _⟩ := bind_ok_inv _ _ _ h
        exact hnull _ _ hr0
      · unfold comparisonOfOp at hc
        repeat' split at h
        all_goals first
          | simp [badRequest] at h
          | simp_all
    · intro h
      unfold translateExpr at h
      split at h
      · obtain ⟨l, hl, _⟩ := bind_ok_inv _ _ _ h
        exact hnull _ _ hl
      · unfold comparisonOfOp at hc
        repeat' split at h
        all_goals first
          | simp [badRequest] at h
          | simp_all

/-- C21: let `E` resolve to the field `F` and `L` be a string, numeric or
boolean literal with formatted text `LIT`.  `E = L` and `L = E` give `F:LIT`,
`!=` and `<>` give `-F:LIT` on either side; `E > L`, `E >= L`, `E < L` and
`E <= L` give `F:>LIT`, `F:>=LIT`, `F:<LIT` and `F:<=LIT`, and the same
comparisons with the literal on the left fail with the 400 error `comparisons
must have identifier on left side`.  A binary expression with a NULL literal
operand is never translated, whatever the operator and the other operand. -/
theorem field_literal_comparison (v v1 : Visitor) (E L : Expr) (F : String) (lit : LiteralValue)
    (hE : fieldNameFromExpr v E = .ok (F, true, v1)) (hL : literalFromExpr L = .ok lit) :
    translateExpr v (.binaryExpr "=" E L) = .ok (F ++ ":" ++ lit.format, v1) ∧
    translateExpr v (.binaryExpr "=" L E) = .ok (F ++ ":" ++ lit.format, v1) ∧
    (∀ op, op = "!=" ∨ op = "<>" →
      translateExpr v (.binaryExpr op E L) = .ok ("-" ++ (F ++ ":" ++ lit.format), v1) ∧
      translateExpr v (.binaryExpr op L E) = .ok ("-" ++ (F ++ ":" ++ lit.format), v1)) ∧
    (∀ op cmp, comparisonOfOp op = some cmp → isOrdered cmp = true →
      orderedOp cmp = op ∧
      translateExpr v (.binaryExpr op E L) = .ok (F ++ ":" ++ op ++ lit.format, v1) ∧
      translateExpr v (.binaryExpr op L E) =
        badRequest "translator: comparisons must have identifier on left side") ∧
    (∀ w op X r, translateExpr w (.binaryExpr op X .nullLiteral) ≠ .ok r ∧
      translateExpr w (.binaryExpr op .nullLiteral X) ≠ .ok r) := by
  refine ⟨?_, ?_, ?_, ?_, fun w op X r => translateExpr_null_operand w op X r⟩
  · rw [translateExpr_comparison v "=" _ _ .comparisonEqual rfl,
      translateComparison_right_literal v v1 E L F lit _ hE hL]
    rfl
  · rw [translateExpr_comparison v "=" _ _ .comparisonEqual rfl,
      translateComparison_left_literal v v1 E L F lit _ hE hL]
    rfl
  · intro op hop
    have hc : comparisonOfOp op = some .comparisonNotEqual := by
      rcases hop with h | h <;> subst h <;> rfl
    rw [translateExpr_comparison v op _ _ _ hc, translateExpr_comparison v op _ _ _ hc,
      translateComparison_right_literal v v1 E L F lit _ hE hL,
      translateComparison_left_literal v v1 E L F lit _ hE hL]
    exact ⟨rfl, rfl⟩
  · intro op cmp hc ho
    rw [translateExpr_comparison v op _ _ _ hc, translateExpr_comparison v op _ _ _ hc,
      translateComparison_right_literal v v1 E L F lit _ hE hL,
      translateComparison_left_literal v v1 E L F lit _ hE hL]
    have hop : orderedOp cmp = op := by
      unfold comparisonOfOp at hc
      repeat' split at hc
      all_goals first
        | (cases hc; done)
        | (injection hc with hc
           subst hc
           first
             | (simp [isOrdered] at ho; done)
             | simp_all [orderedOp])
    refine ⟨hop, ?_, ?_⟩
    · rw [← hop]
      cases cmp <;> first
        | (simp [isOrdered] at ho; done)
        | rfl
    · cases cmp <;> first
        | (simp [isOrdered] at ho; done)
        | rfl

theorem field_literal_comparison_witness :
    translateExpr (newVisitor exampleProvider [])
      (.binaryExpr "=" (.identifier ["level"]) (.stringLiteral "ERROR")) =
      .ok ("level" ++ ":" ++ "ERROR", newVisitor exampleProvider []) ∧
    translateExpr (newVisitor exampleProvider [])
      (.binaryExpr ">=" (.identifier ["n"]) (.numericLiteral "5")) =
      .ok ("n" ++ ":" ++ ">=" ++ "5", newVisitor exampleProvider []) ∧
    translateExpr (newVisitor exampleProvider [])
      (.binaryExpr ">=" (.numericLiteral "5") (.identifier ["n"])) =
      badRequest "translator: comparisons must have identifier on left side" ∧
    translateSelectStatementToLogsQL
      (some (.select (simpleSelect [plainColumn ["msg"]] (tableRef "t")
        (some (.binaryExpr "<>" (.booleanLiteral true) (.identifier ["ok"]))))))
      exampleProvider = .ok "-ok:true | fields msg" ∧
    translateSelectStatementToLogsQL
      (some (.select (simpleSelect [plainColumn ["msg"]] (tableRef "t")
        (some (.binaryExpr "=" (.identifier ["x"]) .nullLiteral)))))
      exampleProvider = badRequest "unsupported literal *ast.NullLiteral" :=
  ⟨(field_literal_comparison (newVisitor exampleProvider []) (newVisitor exampleProvider [])
      (.identifier ["level"]) (.stringLiteral "ERROR") "level"
      { kind := .literalString, value := "ERROR" } rfl rfl).1,
   ((field_literal_comparison (newVisitor exampleProvider []) (newVisitor exampleProvider [])
      (.identifier ["n"]) (.numericLiteral "5") "n"
      { kind := .literalNumber, value := "5" } rfl rfl).2.2.2.1 ">=" .comparisonGreaterEqual
      rfl rfl).2.1,
   ((field_literal_comparison (newVisitor exampleProvider []) (newVisitor exampleProvider [])
      (.identifier ["n"]) (.numericLiteral "5") "n"
      { kind := .literalNumber, value := "5" } rfl rfl).2.2.2.1 ">=" .comparisonGreaterEqual
      rfl rfl).2.2,
   by decide, by decide⟩

/-- C29 (failing input): on the pattern `100\%` the shortcut for a single
trailing `%` applies, although that `%` is preceded by a backslash: the result
is the quoted text `100\*`, in which the `%` has become `*`; it is not the
literal text `100%`.  The regex branch does treat `\%` as a literal percent
sign: `100\%x` becomes `^100%x$`. -/
theorem like_escaped_percent_becomes_star :
    convertLikePattern "100\\%" = .ok "\"100\\\\*\"" ∧
    convertLikePattern "100\\%" = .ok (formatWildcard ("100\\" ++ "*")) ∧
    convertLikePattern "100\\%" ≠ .ok (formatString "100%") ∧
    convertLikePattern "100\\%x" = .ok "~\"^100%x$\"" ∧
    translateSelectStatementToLogsQL
      (some (.select (simpleSelect [plainColumn ["msg"]] (tableRef "t")
        (some (.likeExpr (.identifier ["x"]) (.stringLiteral "100\\%") false)))))
      exampleProvider = .ok "x:\"100\\\\*\" | fields msg" := by
  decide

/-- C30 (failing input): the explicit aliases `a:b` and `a/b`, which are
outside the format-field class, are accepted by `makeProjectionAlias`, which
tests the bare class, and are embedded as named captures in the
`extract_regexp` patterns of `TRIM` and `SUBSTR`. -/
theorem projection_alias_outside_format_field_class :
    ¬ InFormatFieldClass "a:b" ∧ ¬ InFormatFieldClass "a/b" ∧
    makeProjectionAlias "a:b" "trim" "x" = .ok "a:b" ∧
    makeProjectionAlias "a/b" "substr" "x" = .ok "a/b" ∧
    (translateStringFunction (newVisitor exampleProvider []) ["TRIM"] [.identifier ["x"]]
      "a:b").2 = .ok (["extract_regexp '(?s)^\\s*(?P<a:b>.*?\\S)?\\s*$' from x"], "a:b") ∧
    (translateStringFunction (newVisitor exampleProvider []) ["SUBSTR"]
      [.identifier ["x"], .numericLiteral "2", .numericLiteral "3"] "a/b").2 =
      .ok (["extract_regexp '(?s)^.\x7b1\x7d(?P<a/b>.\x7b0,3\x7d)' from x"], "a/b") ∧
    translateSelectStatementToLogsQL
      (some (.select (simpleSelect
        [{ expr := .funcCall ["TRIM"] [.identifier ["x"]] false none, aliasName := "a:b" }]
        (tableRef "t") none))) exampleProvider =
      .ok "* | extract_regexp '(?s)^\\s*(?P<a:b>.*?\\S)?\\s*$' from x | fields a:b" := by
  refine ⟨?_, ?_, by decide, by decide, by decide, by decide, by decide⟩
  · intro h
    have := h.2 ':' (by decide)
    revert this
    decide
  · intro h
    have := h.2 '/' (by decide)
    revert this
    decide

theorem aggregateKeyFromFunc_error_400 (v : Visitor) (name : List String) (args : List Expr)
    (e : Err) (h : aggregateKeyFromFunc v name args = .error e) : e.isBadRequest = true := by
  unfold aggregateKeyFromFunc at h
  dsimp only at h
  repeat' split at h
  all_goals first
    | (cases h; done)
    | (injection h with h; rw [← h]; rfl)
    | (rcases bind_error_inv _ _ _ h with h1 | ⟨a, _, h1⟩
       · exact normalizeIdentifier_error_400 _ _ _ h1
       · cases h1)

theorem makeSimpleAlias_error_400 (provided fallback : String) (e : Err)
    (h : makeSimpleAlias provided fallback = .error e) : e.isBadRequest = true := by
  unfold makeSimpleAlias at h
  dsimp only at h
  repeat' split at h
  all_goals first
    | (cases h; done)
    | (injection h with h; rw [← h]; rfl)

theorem translateCurrentTimestamp_error_400 (al : String) (e : Err)
    (h : translateCurrentTimestamp al = .error e) : e.isBadRequest = true := by
  unfold translateCurrentTimestamp at h
  rcases bind_error_inv _ _ _ h with h1 | ⟨a, _, h1⟩
  · exact makeSimpleAlias_error_400 _ _ _ h1
  · dsimp only at h1
    split at h1
    · injection h1 with h1; rw [← h1]; rfl
    · cases h1

theorem translateCurrentDate_error_400 (al : String) (e : Err)
    (h : translateCurrentDate al = .error e) : e.isBadRequest = true := by
  unfold translateCurrentDate at h
  rcases bind_error_inv _ _ _ h with h1 | ⟨a, _, h1⟩
  · exact makeSimpleAlias_error_400 _ _ _ h1
  · dsimp only at h1
    split at h1
    · injection h1 with h1; rw [← h1]; rfl
    · cases h1

theorem lookupGroupExpr_error_400 (v : Visitor) (expr : Expr) (e : Err)
    (h : lookupGroupExpr v expr = .error e) : e.isBadRequest = true := by
  unfold lookupGroupExpr at h
  repeat' split at h
  all_goals first
    | (cases h; done)
    | (injection h with h; rw [← h]; rfl)

theorem projectColumn_aggregated_error_400 (v : Visitor) (acc : ProjectionAcc)
    (col : SelectItem) (e : Err) (h : projectColumn v true acc col = .error e) :
    e.isBadRequest = true := by
  unfold projectColumn at h
  simp only [if_true, Bool.true_and] at h
  repeat' split at h
  all_goals first
    | (cases h; done)
    | (injection h with h; rw [← h]; rfl)
    | (rcases bind_error_inv _ _ _ h with h1 | ⟨a, _, h1⟩
       · first
           | exact translateCurrentTimestamp_error_400 _ _ h1
           | exact translateCurrentDate_error_400 _ _ h1
           | exact normalizeIdentifier_error_400 _ _ _ h1
           | exact aggregateKeyFromFunc_error_400 _ _ _ _ h1
           | exact lookupGroupExpr_error_400 _ _ _ h1
       · repeat' split at h1
         all_goals first
           | (cases h1; done)
           | (injection h1 with h1; rw [← h1]; rfl))

theorem projectColumns_aggregated_error_400 (cols : List SelectItem) :
    ∀ (v : Visitor) (acc : ProjectionAcc) (e : Err),
    projectColumns true v acc cols = .error e → e.isBadRequest = true := by
  induction cols with
  | nil => intro v acc e h; cases h
  | cons col rest ih =>
    intro v acc e h
    unfold projectColumns at h
    rcases bind_error_inv _ _ _ h with h1 | ⟨a, _, h1⟩
    · exact projectColumn_aggregated_error_400 _ _ _ _ h1
    · exact ih _ _ _ h1

theorem projectColumn_window_aggregated (v : Visitor) (acc : ProjectionAcc) (col : SelectItem)
    (hw : isWindowColumn col = true) :
    projectColumn v true acc col =
      badRequest "translator: window functions are not supported with GROUP BY" := by
  obtain ⟨e, al⟩ := col
  cases e <;> simp only [isWindowColumn, Bool.false_eq_true] at hw
  case funcCall fnName args d o =>
    cases o with
    | none => simp at hw
    | some ov => rfl

theorem projectColumns_window_aggregated (cols : List SelectItem)
    (hw : ∃ col ∈ cols, isWindowColumn col = true) :
    ∀ (v : Visitor) (acc : ProjectionAcc),
    failsWith400 (projectColumns true v acc cols) = true := by
  intro v acc
  cases hr : projectColumns true v acc cols with
  | error e => exact projectColumns_aggregated_error_400 cols v acc e hr
  | ok r =>
    exfalso
    induction cols generalizing v acc with
    | nil =>
      obtain ⟨c, hc, _⟩ := hw
      cases hc
    | cons col rest ih =>
      unfold projectColumns at hr
      obtain ⟨a, ha, hr⟩ := bind_ok_inv _ _ _ hr
      obtain ⟨c, hc, hwc⟩ := hw
      rcases List.mem_cons.mp hc with h1 | h1
      · subst h1
        rw [projectColumn_window_aggregated v acc c hwc] at ha
        cases ha
      · exact ih ⟨c, h1, hwc⟩ _ _ hr

theorem isSelectStar_window (cols : List SelectItem)
    (hw : ∃ col ∈ cols, isWindowColumn col = true) : isSelectStar cols = false := by
  cases hs : isSelectStar cols with
  | false => rfl
  | true =>
    exfalso
    obtain ⟨c, hc, hwc⟩ := hw
    cases cols with
    | nil => cases hc
    | cons a t =>
      cases t with
      | nil =>
        simp only [List.mem_singleton] at hc
        subst hc
        obtain ⟨e, al⟩ := c
        cases e <;> simp [isSelectStar, isWindowColumn] at hs hwc
      | cons b u => simp [isSelectStar] at hs

theorem buildProjectionPipes_window_aggregated (v : Visitor) (cols : List SelectItem)
    (hw : ∃ col ∈ cols, isWindowColumn col = true) :
    failsWith400 (buildProjectionPipes v cols true) = true := by
  unfold buildProjectionPipes
  rw [isSelectStar_window cols hw]
  simp only [Bool.false_eq_true, if_false]
  have h1 := projectColumns_window_aggregated cols hw v
    { computedPipes := [], renamePairs := [], fields := [] }
  cases hr : projectColumns true v { computedPipes := [], renamePairs := [], fields := [] }
      cols with
  | error e =>
    rw [hr] at h1
    exact h1
  | ok r =>
    rw [hr] at h1
    cases h1
theorem statsColumnsLoop_window_grouped (ncols : Nat) (gf : List String) (cols : List SelectItem)
    (hw : ∃ col ∈ cols, isWindowColumn col = true) :
    ∀ (v : Visitor) (aggs : List AggItem),
    failsWith400 (statsColumnsLoop true ncols gf v aggs cols) = true := by
  intro v aggs
  cases hr : statsColumnsLoop true ncols gf v aggs cols with
  | error e => exact statsColumnsLoop_error_400 _ _ _ _ _ _ _ hr
  | ok r =>
    exfalso
    induction cols generalizing v aggs with
    | nil =>
      obtain ⟨c, hc, _⟩ := hw
      cases hc
    | cons col rest ih =>
      obtain ⟨c, hc, hwc⟩ := hw
      rcases List.mem_cons.mp hc with h1 | h1
      · subst h1
        obtain ⟨e, al⟩ := c
        cases e <;> simp only [isWindowColumn, Bool.false_eq_true] at hwc
        case funcCall fnName args d o =>
          cases o with
          | none => simp at hwc
          | some ov => simp [statsColumnsLoop, badRequest] at hr
      · have ih2 := fun v aggs => ih ⟨c, h1, hwc⟩ v aggs
        obtain ⟨e, al⟩ := col
        unfold statsColumnsLoop at hr
        dsimp only at hr
        simp only [if_true, Bool.not_true, Bool.false_eq_true, if_false] at hr
        repeat' split at hr
        all_goals first
          | cases hr
          | (simp [badRequest] at hr; done)
          | exact ih2 _ _ hr
          | (obtain ⟨a, _, hr⟩ := bind_ok_inv _ _ _ hr
             first
               | exact ih2 _ _ hr
               | (repeat' split at hr
                  all_goals first
                    | cases hr
                    | exact ih2 _ _ hr))

theorem buildStatsPipe_window_grouped (v : Visitor) (stmt : SelectStatement)
    (having : Option Expr) (g : GroupAcc) (hg : stmt.groupBy ≠ [])
    (hgs : groupByStage v (collectGroupAliases stmt.columns []) stmt.groupBy = .ok g)
    (hw : ∃ col ∈ stmt.columns, isWindowColumn col = true) :
    failsWith400 (buildStatsPipe v stmt having) = true := by
  have hb : buildStatsPipe v stmt having =
      (groupByStage v (collectGroupAliases stmt.columns []) stmt.groupBy >>= fun g =>
        statsColumnsLoop (stmt.groupBy.length > 0) stmt.columns.length g.groupFields
          { v with groupExprAliases :=
                     if stmt.groupBy.length > 0 then some g.groupExprAliases else none }
          [] stmt.columns >>= fun cols =>
        statsAfterColumns (stmt.groupBy.length > 0) g
          { v with groupExprAliases :=
                     if stmt.groupBy.length > 0 then some g.groupExprAliases else none }
          having cols) := rfl
  have hpos : stmt.groupBy.length > 0 := by
    cases hgb : stmt.groupBy with
    | nil => exact absurd hgb hg
    | cons a t => simp
  have hdec : decide (stmt.groupBy.length > 0) = true := by simpa using hpos
  rw [hb, hgs, bind_ok_eq, hdec]
  have h1 := statsColumnsLoop_window_grouped stmt.columns.length g.groupFields stmt.columns hw
    { v with groupExprAliases :=
               if stmt.groupBy.length > 0 then some g.groupExprAliases else none } []
  cases hc : statsColumnsLoop true stmt.columns.length g.groupFields
      { v with groupExprAliases :=
                 if stmt.groupBy.length > 0 then some g.groupExprAliases else none }
      [] stmt.columns with
  | error e =>
    rw [hc] at h1
    rw [bind_error_eq]
    exact h1
  | ok res =>
    rw [hc] at h1
    cases h1

theorem translateWindowFunction_unsupported (v : Visitor) (fnName : List String)
    (args : List Expr) (d : Bool) (ov : List Expr × List (Expr × Direction)) (al last : String)
    (hl : fnName.getLast? = some last) (hn : isSupportedWindowName last = false) :
    failsWith400 (translateWindowFunction v fnName args d (some ov) al) = true := by
  unfold translateWindowFunction
  obtain ⟨pb, ob⟩ := ov
  dsimp only
  cases d with
  | true => rfl
  | false =>
    simp only [Bool.false_eq_true, if_false, hl]
    have hwa : windowFunctionArg v (toUpper last) args =
        badRequest ("translator: window function " ++ toUpper last ++ " is not supported") := by
      unfold windowFunctionArg
      unfold isSupportedWindowName at hn
      dsimp only at hn
      simp only [Bool.or_eq_false_iff] at hn
      obtain ⟨⟨⟨h1, h2⟩, h3⟩, h4⟩ := hn
      simp only [h1, h2, h3, h4, Bool.or_self, Bool.false_eq_true, if_false]
    rw [hwa]
    rfl

theorem projectColumn_unsupported_window (v : Visitor) (aggregated : Bool)
    (acc : ProjectionAcc) (col : SelectItem) (hu : isUnsupportedWindowColumn col = true) :
    failsWith400 (projectColumn v aggregated acc col) = true := by
  obtain ⟨e, al⟩ := col
  cases e <;> simp only [isUnsupportedWindowColumn, Bool.false_eq_true] at hu
  case funcCall fnName args d o =>
    cases o with
    | none => simp at hu
    | some ov =>
      cases aggregated with
      | true => rfl
      | false =>
        simp only at hu
        cases hl : fnName.getLast? with
        | none => rw [hl] at hu; simp at hu
        | some last =>
          rw [hl] at hu
          have hn : isSupportedWindowName last = false := by simpa using hu
          have h1 := translateWindowFunction_unsupported v fnName args d ov al last hl hn
          unfold projectColumn
          simp only [Option.isSome_some, if_true, Bool.false_eq_true, if_false]
          cases hr : translateWindowFunction v fnName args d (some ov) al with
          | error e =>
            rw [hr] at h1
            exact h1
          | ok r =>
            rw [hr] at h1
            cases h1

theorem projectColumns_unsupported_window (aggregated : Bool) (cols : List SelectItem)
    (hu : ∃ col ∈ cols, isUnsupportedWindowColumn col = true) :
    ∀ (v : Visitor) (acc : ProjectionAcc) r, projectColumns aggregated v acc cols ≠ .ok r := by
  induction cols with
  | nil =>
    obtain ⟨c, hc, _⟩ := hu
    cases hc
  | cons col rest ih =>
    intro v acc r hr
    unfold projectColumns at hr
    obtain ⟨a, ha, hr⟩ := bind_ok_inv _ _ _ hr
    obtain ⟨c, hc, huc⟩ := hu
    rcases List.mem_cons.mp hc with h1 | h1
    · subst h1
      have := projectColumn_unsupported_window v aggregated acc c huc
      rw [ha] at this
      cases this
    · exact ih ⟨c, h1, huc⟩ _ _ _ hr

theorem isWindowColumn_of_unsupported (col : SelectItem)
    (h : isUnsupportedWindowColumn col = true) : isWindowColumn col = true := by
  obtain ⟨e, al⟩ := col
  cases e <;> simp only [isUnsupportedWindowColumn, Bool.false_eq_true] at h
  case funcCall fnName args d o =>
    cases o with
    | none => simp at h
    | some ov => rfl

theorem translateAfterFrom_projection_error (v1 : Visitor) (stmt : SelectStatement)
    (jp : List String) (wh lf : List String × Visitor) (st : List String × Bool × Visitor)
    (hv : List String × Visitor) (e : Err)
    (hwh : translateFilterList v1 stmt.whereClause.toList = .ok wh)
    (hlf : translateFilterList wh.2 wh.2.pendingLeftFilter = .ok lf)
    (hst : buildStatsPipe lf.2 stmt stmt.having = .ok st)
    (hhv : translateHaving st.2.2 stmt.having stmt.orderBy st.2.1 = .ok hv)
    (hpr : buildProjectionPipes hv.2 stmt.columns st.2.1 = .error e) :
    translateAfterFrom v1 stmt jp = .error e := by
  have hb : translateAfterFrom v1 stmt jp =
      (translateFilterList v1 stmt.whereClause.toList >>= fun wh =>
       translateFilterList wh.2 wh.2.pendingLeftFilter >>= fun lf =>
       buildStatsPipe lf.2 stmt stmt.having >>= fun st =>
       translateHaving st.2.2 stmt.having stmt.orderBy st.2.1 >>= fun hv =>
       buildProjectionPipes hv.2 stmt.columns st.2.1 >>= fun pr =>
       distinctPipesOf stmt.distinct pr.2.1 st.2.1 >>= fun dp =>
       orderPipesOf pr.2.2 stmt.orderBy st.2.1 >>= fun op =>
       limitPipesOf stmt.limit >>= fun lp =>
       .ok (renderPipeline (sourceOf lf.2 (combineFilters (allFilters lf.2 (wh.1 ++ lf.1))))
            (filterPipesOf lf.2 (combineFilters (allFilters lf.2 (wh.1 ++ lf.1))) ++ jp ++
              st.1 ++ hv.1 ++ pr.1 ++ dp ++ op ++ lp), pr.2.2)) := rfl
  rw [hb, hwh, bind_ok_eq, hlf, bind_ok_eq, hst, bind_ok_eq, hhv, bind_ok_eq, hpr, bind_error_eq]

/-- C28: let the SELECT list hold a window function (a call with OVER).  If
the select has a GROUP BY whose stage succeeds, the stats stage fails with a
400 error; if the select is aggregated in another way, the projection fails
with a 400 error once the filters, the stats stage and HAVING have succeeded;
an aggregated select with a window function is never translated.  A window
function whose name is not SUM, MIN, MAX or COUNT (in any letter case) is
rejected with a 400 error by `translateWindowFunction` and by the projection of
its column, aggregated or not, and a select with such a column is never
translated. -/
theorem window_function_rejected (stmt : SelectStatement)
    (hw : ∃ col ∈ stmt.columns, isWindowColumn col = true) :
    (∀ v having g, stmt.groupBy ≠ [] →
      groupByStage v (collectGroupAliases stmt.columns []) stmt.groupBy = .ok g →
      failsWith400 (buildStatsPipe v stmt having) = true) ∧
    (∀ v, failsWith400 (buildProjectionPipes v stmt.columns true) = true) ∧
    (∀ v1 jp wh lf st hv, translateFilterList v1 stmt.whereClause.toList = .ok wh →
      translateFilterList wh.2 wh.2.pendingLeftFilter = .ok lf →
      buildStatsPipe lf.2 stmt stmt.having = .ok st →
      translateHaving st.2.2 stmt.having stmt.orderBy st.2.1 = .ok hv →
      isAggregatedSelect stmt = true →
      failsWith400 (translateAfterFrom v1 stmt jp) = true) ∧
    (isAggregatedSelect stmt = true → ∀ sp ctes s,
      translateSelectStatementToLogsQLWithContext sp (some (.select stmt)) ctes ≠ .ok s) ∧
    (∀ col ∈ stmt.columns, isUnsupportedWindowColumn col = true →
      (∀ v aggregated acc, failsWith400 (projectColumn v aggregated acc col) = true) ∧
      ∀ sp ctes s,
        translateSelectStatementToLogsQLWithContext sp (some (.select stmt)) ctes ≠ .ok s) := by
  have hagg : ∀ v1 jp wh lf st hv, translateFilterList v1 stmt.whereClause.toList = .ok wh →
      translateFilterList wh.2 wh.2.pendingLeftFilter = .ok lf →
      buildStatsPipe lf.2 stmt stmt.having = .ok st →
      translateHaving st.2.2 stmt.having stmt.orderBy st.2.1 = .ok hv →
      isAggregatedSelect stmt = true →
      failsWith400 (translateAfterFrom v1 stmt jp) = true := by
    intro v1 jp wh lf st hv hwh hlf hst hhv hia
    have hst1 : st.2.1 = true := by rw [buildStatsPipe_aggregated lf.2 stmt st hst, hia]
    have hp := buildProjectionPipes_window_aggregated hv.2 stmt.columns hw
    cases hpr : buildProjectionPipes hv.2 stmt.columns true with
    | ok r => rw [hpr] at hp; cases hp
    | error e =>
      rw [hpr] at hp
      rw [translateAfterFrom_projection_error v1 stmt jp wh lf st hv e hwh hlf hst hhv
        (by rw [hst1]; exact hpr)]
      exact hp
  refine ⟨?_, ?_, hagg, ?_, ?_⟩
  · intro v having g hg hgs
    exact buildStatsPipe_window_grouped v stmt having g hg hgs hw
  · intro v
    exact buildProjectionPipes_window_aggregated v stmt.columns hw
  · intro hia sp ctes s hok
    obtain ⟨tn, v0, jp, v1, r, _, h2⟩ := translate_ok_inv sp ctes stmt s hok
    obtain ⟨wh, lf, st, hv, pr, dp, op, lp, hwh, hlf, hst, hhv, _⟩ :=
      translateAfterFrom_ok_inv v1 stmt jp r h2
    have := hagg v1 jp wh lf st hv hwh hlf hst hhv hia
    rw [h2] at this
    cases this
  · intro col hc hu
    refine ⟨fun v aggregated acc => projectColumn_unsupported_window v aggregated acc col hu, ?_⟩
    intro sp ctes s hok
    obtain ⟨tn, v0, jp, v1, r, _, h2⟩ := translate_ok_inv sp ctes stmt s hok
    obtain ⟨wh, lf, st, hv, pr, dp, op, lp, hwh, hlf, hst, hhv, hpr, _⟩ :=
      translateAfterFrom_ok_inv v1 stmt jp r h2
    unfold buildProjectionPipes at hpr
    rw [isSelectStar_window stmt.columns ⟨col, hc, isWindowColumn_of_unsupported col hu⟩] at hpr
    simp only [Bool.false_eq_true, if_false] at hpr
    obtain ⟨a, ha, _⟩ := bind_ok_inv _ _ _ hpr
    exact projectColumns_unsupported_window st.2.1 stmt.columns ⟨col, hc, hu⟩ _ _ _ ha

theorem window_function_rejected_witness :
    translateSelectStatementToLogsQLWithContext exampleProvider
      (some (.select (scratchSelect
        [countStar, { expr := .funcCall ["SUM"] [.identifier ["x"]] false overTs,
                      aliasName := "s" }] none [] none []))) [] ≠
      .ok "* | stats count() | sort by (ts) | running_stats sum(x) as s" ∧
    translateSelectStatementToLogsQL
      (some (.select (scratchSelect
        [countStar, { expr := .funcCall ["SUM"] [.identifier ["x"]] false overTs,
                      aliasName := "s" }] none [] none []))) exampleProvider =
      badRequest "translator: window functions are not supported with GROUP BY" ∧
    translateSelectStatementToLogsQL
      (some (.select (scratchSelect
        [plainColumn ["host"],
         { expr := .funcCall ["AVG"] [.identifier ["x"]] false overTs, aliasName := "s" }]
        none [] none []))) exampleProvider =
      badRequest "translator: window function AVG is not supported" ∧
    translateSelectStatementToLogsQL
      (some (.select (scratchSelect
        [plainColumn ["host"],
         { expr := .funcCall ["SUM"] [.identifier ["x"]] false overTs, aliasName := "s" }]
        none [] none []))) exampleProvider =
      .ok "* | sort by (ts) | running_stats sum(x) as s | fields host, s" :=
  ⟨(window_function_rejected
      (scratchSelect
        [countStar, { expr := .funcCall ["SUM"] [.identifier ["x"]] false overTs,
                      aliasName := "s" }] none [] none [])
      ⟨_, List.mem_cons_of_mem _ (List.mem_cons_self _ _), rfl⟩).2.2.2.1 (by decide)
      exampleProvider [] _,
   by decide, by decide, by decide⟩

theorem registerCTEs_congr (tn tn2 : GoMap String → SelectStatement → Res String) (k : Nat)
    (h : ∀ c s, s.depth ≤ k → tn c s = tn2 c s) :
    ∀ (l : List CTE) (ctes : GoMap String), depthCTEs l ≤ k →
      registerCTEs tn ctes l = registerCTEs tn2 ctes l := by
  intro l
  induction l with
  | nil => intro ctes _; rfl
  | cons c rest ih =>
    intro ctes hd
    obtain ⟨name, select⟩ := c
    simp only [depthCTEs] at hd
    have hrest : depthCTEs rest ≤ k := le_trans (le_max_right _ _) hd
    cases name with
    | none => rfl
    | some parts =>
      cases select with
      | none => simp only [registerCTEs]
      | some sel =>
        have hs : sel.depth ≤ k := by
          have := le_trans (le_max_left _ _) hd
          simpa [depthSelect] using this
        simp only [registerCTEs]
        rw [h ctes sel hs]
        split
        · rfl
        · split
          · rfl
          · cases tn2 ctes sel with
            | error e => rfl
            | ok q => exact ih _ hrest

theorem registerWith_congr (tn tn2 : GoMap String → SelectStatement → Res String) (k : Nat)
    (h : ∀ c s, s.depth ≤ k → tn c s = tn2 c s) (ctes : GoMap String) (w : Option WithClause)
    (hd : depthWith w ≤ k) : registerWith tn ctes w = registerWith tn2 ctes w := by
  cases w with
  | none => rfl
  | some wc =>
    obtain ⟨r, l⟩ := wc
    simp only [depthWith] at hd
    simp only [registerWith, registerCTEs_congr tn tn2 k h l ctes hd]

theorem registerBaseSubquery_congr (tn tn2 : GoMap String → SelectStatement → Res String)
    (k : Nat) (h : ∀ c s, s.depth ≤ k → tn c s = tn2 c s) (v : Visitor)
    (select : Option SelectStatement) (al : String) (hd : depthSelect select ≤ k) :
    registerBaseSubquery tn v select al = registerBaseSubquery tn2 v select al := by
  cases select with
  | none => rfl
  | some sel =>
    have hs : sel.depth ≤ k := by simpa [depthSelect] using hd
    simp only [registerBaseSubquery, h _ sel hs]

theorem processJoinLeft_congr (tn tn2 : GoMap String → SelectStatement → Res String)
    (k : Nat) (h : ∀ c s, s.depth ≤ k → tn c s = tn2 c s) (v : Visitor)
    (t : TableExpr) (hd : depthTable t ≤ k) :
    processJoinLeft tn v t = processJoinLeft tn2 v t := by
  cases t with
  | subqueryTable select al =>
    simp only [depthTable] at hd
    exact registerBaseSubquery_congr tn tn2 k h v select al hd
  | _ => rfl

theorem processJoinRight_congr (tn tn2 : GoMap String → SelectStatement → Res String)
    (k : Nat) (h : ∀ c s, s.depth ≤ k → tn c s = tn2 c s) (v : Visitor)
    (t : TableExpr) (hd : depthTable t ≤ k) :
    processJoinRight tn v t = processJoinRight tn2 v t := by
  cases t with
  | subqueryTable select al =>
    simp only [depthTable] at hd
    cases select with
    | none => rfl
    | some sel =>
      have hs : sel.depth ≤ k := by simpa [depthSelect] using hd
      simp only [processJoinRight, h _ sel hs]
  | _ => rfl

theorem processFrom_congr (tn tn2 : GoMap String → SelectStatement → Res String)
    (k : Nat) (h : ∀ c s, s.depth ≤ k → tn c s = tn2 c s) (v : Visitor)
    (f : Option TableExpr) (hd : depthFrom f ≤ k) :
    processFrom tn v f = processFrom tn2 v f := by
  cases f with
  | none => rfl
  | some t =>
    simp only [depthFrom] at hd
    cases t with
    | subqueryTable select al =>
      simp only [depthTable] at hd
      simp only [processFrom, registerBaseSubquery_congr tn tn2 k h v select al hd]
    | joinExpr type l r onCond =>
      simp only [depthTable] at hd
      have hl : depthTable l ≤ k := le_trans (le_max_left _ _) hd
      have hr : depthTable r ≤ k := le_trans (le_max_right _ _) hd
      simp only [processFrom, processJoin, processJoinLeft_congr tn tn2 k h v l hl]
      split
      · rfl
      · cases processJoinLeft tn2 v l with
        | error e => rfl
        | ok v1 =>
          simp only [bind_ok_eq]
          rw [processJoinRight_congr tn tn2 k h v1 r hr]
    | _ => rfl

theorem translateSimpleSelect_congr (tn tn2 : GoMap String → SelectStatement → Res String)
    (k : Nat) (h : ∀ c s, s.depth ≤ k → tn c s = tn2 c s) (v : Visitor)
    (stmt : SelectStatement) (hw : depthWith stmt.withClause ≤ k)
    (hf : depthFrom stmt.fromClause ≤ k) :
    translateSimpleSelect tn v stmt = translateSimpleSelect tn2 v stmt := by
  unfold translateSimpleSelect
  rw [registerWith_congr tn tn2 k h _ _ hw]
  cases registerWith tn2 v.availableCTEs stmt.withClause with
  | error e => rfl
  | ok ctes =>
    simp only [bind_ok_eq]
    rw [processFrom_congr tn tn2 k h _ _ hf]

theorem translateSetOps_congr (tn tn2 : GoMap String → SelectStatement → Res String)
    (k : Nat) (h : ∀ c s, s.depth ≤ k → tn c s = tn2 c s) (ctes : GoMap String) :
    ∀ (ops : List SetOp) (result : String), depthSetOps ops ≤ k →
      translateSetOps tn ctes result ops = translateSetOps tn2 ctes result ops := by
  intro ops
  induction ops with
  | nil => intro result _; rfl
  | cons op rest ih =>
    intro result hd
    obtain ⟨operator, all, select⟩ := op
    simp only [depthSetOps] at hd
    have hrest : depthSetOps rest ≤ k := le_trans (le_max_right _ _) hd
    cases operator with
    | setOpOther name => rfl
    | setOpUnion =>
      cases select with
      | none => simp only [translateSetOps]
      | some sel =>
        have hs : sel.depth ≤ k := by
          have := le_trans (le_max_left _ _) hd
          simpa [depthSelect] using this
        simp only [translateSetOps, h ctes sel hs]
        split
        · rfl
        · cases tn2 ctes sel with
          | error e => rfl
          | ok rhs =>
            simp only [bind_ok_eq]
            exact ih _ hrest

theorem translateSelect_congr (tn tn2 : GoMap String → SelectStatement → Res String)
    (k : Nat) (h : ∀ c s, s.depth ≤ k → tn c s = tn2 c s) (v : Visitor)
    (stmt : SelectStatement) (hd : stmt.depth ≤ k + 1) :
    translateSelect tn v stmt = translateSelect tn2 v stmt := by
  obtain ⟨w, d, c, f, wh, g, hv, o, l, ops⟩ := stmt
  simp only [SelectStatement.depth] at hd
  have hw : depthWith w ≤ k := by
    have := le_max_left (depthWith w) (max (depthFrom f) (depthSetOps ops))
    omega
  have hf : depthFrom f ≤ k := by
    have h1 := le_max_right (depthWith w) (max (depthFrom f) (depthSetOps ops))
    have h2 := le_max_left (depthFrom f) (depthSetOps ops)
    omega
  have ho : depthSetOps ops ≤ k := by
    have h1 := le_max_right (depthWith w) (max (depthFrom f) (depthSetOps ops))
    have h2 := le_max_right (depthFrom f) (depthSetOps ops)
    omega
  unfold translateSelect
  rw [translateSimpleSelect_congr tn tn2 k h v (.mk w d c f wh g hv o l ops) hw hf,
    translateSimpleSelect_congr tn tn2 k h v
      (SelectStatement.withoutSetOps (.mk w d c f wh g hv o l ops)) hw hf]
  split
  · rfl
  · cases translateSimpleSelect tn2 v
        (SelectStatement.withoutSetOps (.mk w d c f wh g hv o l ops)) with
    | error e => rfl
    | ok r =>
      simp only [bind_ok_eq]
      exact translateSetOps_congr tn tn2 k h _ _ _ ho

theorem depth_pos (s : SelectStatement) : 1 ≤ s.depth := by
  cases s
  simp only [SelectStatement.depth]
  omega

/-- The recursion budget is adequate: any budget of at least the nesting depth
of the statement gives the same result. -/
theorem translateNestedFuel_adequate (sp : Provider) :
    ∀ (n m : Nat) (ctes : GoMap String) (s : SelectStatement), s.depth ≤ n → s.depth ≤ m →
      translateNestedFuel sp n ctes s = translateNestedFuel sp m ctes s := by
  intro n
  induction n with
  | zero =>
    intro m ctes s hn _
    have := depth_pos s
    omega
  | succ n ih =>
    intro m ctes s hn hm
    cases m with
    | zero =>
      have := depth_pos s
      omega
    | succ m =>
      show translateSelect (translateNestedFuel sp n) (newVisitor sp ctes) s =
        translateSelect (translateNestedFuel sp m) (newVisitor sp ctes) s
      apply translateSelect_congr _ _ (min n m)
      · intro c s2 hs2
        exact ih m c s2 (le_trans hs2 (min_le_left _ _)) (le_trans hs2 (min_le_right _ _))
      · have : s.depth ≤ min (n + 1) (m + 1) := le_min hn hm
        omega

/-- The recursion budget never runs out at the top level: the translation of
a statement with any budget of at least its depth is the translation. -/
theorem translateNestedFuel_eq_translate (sp : Provider) (n : Nat) (ctes : GoMap String)
    (s : SelectStatement) (hn : s.depth ≤ n) :
    translateNestedFuel sp n ctes s =
      translateSelectStatementToLogsQLWithContext sp (some (.select s)) ctes :=
  translateNestedFuel_adequate sp n s.depth ctes s hn (le_refl _)
theorem ensureConstantField_ctes (v : Visitor) (value : String) (r : String × String × Visitor)
    (h : ensureConstantField v value = .ok r) : r.2.2.availableCTEs = v.availableCTEs := by
  unfold ensureConstantField at h
  repeat' split at h
  all_goals first
    | (cases h; done)
    | (injection h with h; rw [← h])

theorem analyzeAggregateArg_ctes (v : Visitor) (name : String) (args : List Expr)
    (r : String × String × List String × Visitor)
    (h : analyzeAggregateArg v name args = .ok r) : r.2.2.2.availableCTEs = v.availableCTEs := by
  unfold analyzeAggregateArg at h
  repeat' split at h
  all_goals first
    | (cases h; done)
    | (injection h with h; rw [← h])
    | (obtain ⟨a, ha, h⟩ := bind_ok_inv _ _ _ h
       injection h with h
       rw [← h]
       try exact (ensureConstantField_ctes _ _ _ ha :))

theorem analyzeAggregate_ctes (v : Visitor) (fnName : List String) (args : List Expr)
    (d : Bool) (al : String) (r : AggItem × Visitor)
    (h : analyzeAggregate v fnName args d al = .ok r) : r.2.availableCTEs = v.availableCTEs := by
  unfold analyzeAggregate at h
  repeat' split at h
  all_goals first
    | cases h
    | (obtain ⟨a, ha, h⟩ := bind_ok_inv _ _ _ h
       have ha2 := analyzeAggregateArg_ctes _ _ _ _ ha
       dsimp only at h
       repeat' split at h
       all_goals
         injection h with h
         rw [← h]
         exact ha2)

theorem windowFunctionArg_ctes (v : Visitor) (name : String) (args : List Expr)
    (r : String × String × String × Visitor)
    (h : windowFunctionArg v name args = .ok r) : r.2.2.2.availableCTEs = v.availableCTEs := by
  unfold windowFunctionArg at h
  repeat' split at h
  all_goals first
    | (cases h; done)
    | (injection h with h; rw [← h])
    | (obtain ⟨a, ha, h⟩ := bind_ok_inv _ _ _ h
       first
         | (injection h with h
            rw [← h]
            try exact (ensureConstantField_ctes _ _ _ ha :))
         | (try dsimp only at h
            first
              | cases h
              | (obtain ⟨b, hb, h⟩ := bind_ok_inv _ _ _ h
                 injection h with h
                 rw [← h]
                 try exact (ensureConstantField_ctes _ _ _ hb :))))

theorem translateWindowFunction_ctes (v : Visitor) (fnName : List String) (args : List Expr)
    (d : Bool) (over : Option (List Expr × List (Expr × Direction))) (al : String)
    (r : List String × String × Visitor)
    (h : translateWindowFunction v fnName args d over al = .ok r) :
    r.2.2.availableCTEs = v.availableCTEs := by
  unfold translateWindowFunction at h
  cases over with
  | none => cases h
  | some ov =>
    obtain ⟨pb, ob⟩ := ov
    dsimp only at h
    split at h
    · cases h
    · split at h
      · cases h
      · obtain ⟨a, ha, h⟩ := bind_ok_inv _ _ _ h
        have ha2 := windowFunctionArg_ctes _ _ _ _ ha
        obtain ⟨b, _, h⟩ := bind_ok_inv _ _ _ h
        repeat' first
          | (obtain ⟨_, _, h⟩ := bind_ok_inv _ _ _ h)
          | split at h
          | (injection h with h; rw [← h]; exact ha2)

theorem projectColumn_ctes (v : Visitor) (aggregated : Bool) (acc : ProjectionAcc)
    (col : SelectItem) (r : ProjectionAcc × Visitor)
    (h : projectColumn v aggregated acc col = .ok r) : r.2.availableCTEs = v.availableCTEs := by
  unfold projectColumn at h
  dsimp only at h
  repeat' split at h
  all_goals first
    | (cases h; done)
    | (injection h with h; rw [← h])
    | (obtain ⟨a, ha, h⟩ := bind_ok_inv _ _ _ h
       first
         | (injection h with h
            rw [← h]
            try exact (translateWindowFunction_ctes _ _ _ _ _ _ _ ha :))
         | (try dsimp only at h
            repeat' split at h
            all_goals first
              | (cases h; done)
              | (injection h with h; rw [← h])))

theorem projectColumns_ctes (aggregated : Bool) (cols : List SelectItem) :
    ∀ (v : Visitor) (acc : ProjectionAcc) (r : ProjectionAcc × Visitor),
      projectColumns aggregated v acc cols = .ok r → r.2.availableCTEs = v.availableCTEs := by
  induction cols with
  | nil =>
    intro v acc r h
    injection h with h
    rw [← h]
  | cons col rest ih =>
    intro v acc r h
    unfold projectColumns at h
    obtain ⟨a, ha, h⟩ := bind_ok_inv _ _ _ h
    rw [ih _ _ _ h, projectColumn_ctes _ _ _ _ _ ha]

theorem buildProjectionPipes_ctes (v : Visitor) (cols : List SelectItem) (aggregated : Bool)
    (r : List String × List String × Visitor)
    (h : buildProjectionPipes v cols aggregated = .ok r) :
    r.2.2.availableCTEs = v.availableCTEs := by
  unfold buildProjectionPipes at h
  split at h
  · injection h with h
    rw [← h]
  · obtain ⟨a, ha, h⟩ := bind_ok_inv _ _ _ h
    injection h with h
    rw [← h]
    exact projectColumns_ctes _ _ _ _ _ ha
theorem statsColumnsLoop_ctes (hasGroup : Bool) (ncols : Nat) (gf : List String)
    (cols : List SelectItem) :
    ∀ (v : Visitor) (aggs : List AggItem) (r : List AggItem × Visitor),
      statsColumnsLoop hasGroup ncols gf v aggs cols = .ok (some r) →
      r.2.availableCTEs = v.availableCTEs := by
  induction cols with
  | nil =>
    intro v aggs r h
    simp only [statsColumnsLoop, Except.ok.injEq, Option.some.injEq] at h
    rw [← h]
  | cons col rest ih =>
    intro v aggs r h
    unfold statsColumnsLoop at h
    dsimp only at h
    repeat' split at h
    all_goals first
      | cases h
      | exact ih _ _ _ h
      | (obtain ⟨a, ha, h⟩ := bind_ok_inv _ _ _ h
         first
           | exact ih _ _ _ h
           | (rw [ih _ _ _ h]; exact (analyzeAggregate_ctes _ _ _ _ _ _ ha :))
           | (repeat' split at h
              all_goals first
                | cases h
                | exact ih _ _ _ h))

theorem collectAggregatesLoop_ctes (es : List Expr) :
    ∀ (v : Visitor) (aggs : List AggItem) (r : List AggItem × Visitor),
      collectAggregatesLoop v aggs es = .ok r → r.2.availableCTEs = v.availableCTEs := by
  induction es with
  | nil =>
    intro v aggs r h
    simp only [collectAggregatesLoop, Except.ok.injEq] at h
    rw [← h]
  | cons e rest ih =>
    intro v aggs r h
    cases e
    case funcCall fnName args d o =>
      simp only [collectAggregatesLoop] at h
      repeat' split at h
      all_goals first
        | cases h
        | exact ih _ _ _ h
        | (obtain ⟨a, ha, h⟩ := bind_ok_inv _ _ _ h
           rw [ih _ _ _ h]
           exact (analyzeAggregate_ctes _ _ _ _ _ _ ha :))
    all_goals
      simp only [collectAggregatesLoop] at h
      exact ih _ _ _ h

theorem buildStatsPipe_ctes (v : Visitor) (stmt : SelectStatement) (having : Option Expr)
    (r : List String × Bool × Visitor) (h : buildStatsPipe v stmt having = .ok r) :
    r.2.2.availableCTEs = v.availableCTEs := by
  unfold buildStatsPipe at h
  obtain ⟨g, _, h⟩ := bind_ok_inv _ _ _ h
  obtain ⟨cols, hc, h⟩ := bind_ok_inv _ _ _ h
  cases cols with
  | none =>
    simp only [statsAfterColumns, Except.ok.injEq] at h
    rw [← h]
  | some c =>
    have hc2 := statsColumnsLoop_ctes _ _ _ _ _ _ _ hc
    simp only [statsAfterColumns] at h
    obtain ⟨a, ha, h⟩ := bind_ok_inv _ _ _ h
    have ha2 : a.2.availableCTEs = c.2.availableCTEs := by
      cases having with
      | none =>
        simp only [havingAggregates, Except.ok.injEq] at ha
        rw [← ha]
      | some hx => exact collectAggregatesLoop_ctes _ _ _ _ ha
    unfold finishStatsPipe at h
    repeat' split at h
    all_goals first
      | (cases h; done)
      | (injection h with h
         rw [← h]
         exact ha2.trans hc2)

theorem preserveOrderByAggregates_ctes (items : List OrderItem) :
    ∀ (v r : Visitor), preserveOrderByAggregates v items = .ok r →
      r.availableCTEs = v.availableCTEs := by
  induction items with
  | nil =>
    intro v r h
    simp only [preserveOrderByAggregates, Except.ok.injEq] at h
    rw [← h]
  | cons item rest ih =>
    intro v r h
    unfold preserveOrderByAggregates at h
    repeat' split at h
    all_goals first
      | cases h
      | exact ih _ _ h
      | (obtain ⟨a, ha, h⟩ := bind_ok_inv _ _ _ h
         rw [ih _ _ h]
         rfl)

theorem ensureFilterFunctionAlias_ctes (c : GoMap String) (v : Visitor) (fn : Expr)
    (fnName : List String) (args : List Expr) (r : String × Visitor)
    (hi : v.availableCTEs = c) (h : ensureFilterFunctionAlias v fn fnName args = .ok r) :
    r.2.availableCTEs = c := by
  unfold ensureFilterFunctionAlias at h
  repeat' first
    | split at h
    | (injection h with h; rw [← h]; dsimp only; exact hi)
    | cases h
    | dsimp only at h

theorem translateExpr_ctes (e : Expr) (v : Visitor) (r : String × Visitor)
    (h : translateExpr v e = .ok r) : r.2.availableCTEs = v.availableCTEs :=
  translateExpr_preserves (fun w => w.availableCTEs = v.availableCTEs)
    (fun w fn fnName args r2 hi h2 => ensureFilterFunctionAlias_ctes _ w fn fnName args r2 hi h2)
    e v r rfl h

theorem translateFilterList_ctes (es : List Expr) (v : Visitor) (r : List String × Visitor)
    (h : translateFilterList v es = .ok r) : r.2.availableCTEs = v.availableCTEs :=
  translateFilterList_preserves (fun w => w.availableCTEs = v.availableCTEs)
    (fun w fn fnName args r2 hi h2 => ensureFilterFunctionAlias_ctes _ w fn fnName args r2 hi h2)
    es v r rfl h

theorem translateHaving_ctes (v : Visitor) (having : Option Expr) (orderBy : List OrderItem)
    (aggregated : Bool) (r : List String × Visitor)
    (h : translateHaving v having orderBy aggregated = .ok r) :
    r.2.availableCTEs = v.availableCTEs := by
  unfold translateHaving at h
  cases having with
  | none =>
    simp only [Except.ok.injEq] at h
    rw [← h]
  | some hx =>
    dsimp only at h
    split at h
    · cases h
    · obtain ⟨hs, hhs, h⟩ := bind_ok_inv _ _ _ h
      have h1 := translateExpr_ctes _ _ _ hhs
      split at h
      · obtain ⟨v2, hv2, h⟩ := bind_ok_inv _ _ _ h
        have h2 := preserveOrderByAggregates_ctes _ _ _ hv2
        split at h
        all_goals
          injection h with h
          rw [← h]
          exact h2.trans h1
      · injection h with h
        rw [← h]
        exact h1

theorem translateAfterFrom_ctes (v1 : Visitor) (stmt : SelectStatement) (jp : List String)
    (r : String × Visitor) (h : translateAfterFrom v1 stmt jp = .ok r) :
    r.2.availableCTEs = v1.availableCTEs := by
  obtain ⟨wh, lf, st, hv, pr, dp, op, lp, hwh, hlf, hst, hhv, hpr, _, _, _, hr⟩ :=
    translateAfterFrom_ok_inv v1 stmt jp r h
  have e1 := translateFilterList_ctes _ _ _ hwh
  have e2 := translateFilterList_ctes _ _ _ hlf
  have e3 := buildStatsPipe_ctes _ _ _ _ hst
  have e4 := translateHaving_ctes _ _ _ _ _ hhv
  have e5 := buildProjectionPipes_ctes _ _ _ _ hpr
  rw [hr]
  exact e5.trans (e4.trans (e3.trans (e2.trans e1)))

theorem translateRightFilters_ctesOf (c : GoMap String) (rightAlias : String) (es : List Expr)
    (v : Visitor) (r : List String × Visitor) (hi : v.availableCTEs = c)
    (h : translateRightFilters rightAlias v es = .ok r) : r.2.availableCTEs = c :=
  translateRightFilters_preserves (fun w => w.availableCTEs = c)
    (fun w fn fnName args r2 hi h2 => ensureFilterFunctionAlias_ctes _ w fn fnName args r2 hi h2)
    rightAlias es v r hi h
theorem registerBinding_ctesOf (c : GoMap String) (v : Visitor) (a : String) (b : Bool)
    (hi : v.availableCTEs = c) : (registerBinding v a b).availableCTEs = c := by
  unfold registerBinding
  dsimp only
  split
  · exact hi
  · exact hi

theorem registerBaseTable_ctesOf (c : GoMap String) (v v1 : Visitor) (name : Option (List String))
    (tableAlias : String) (hi : v.availableCTEs = c)
    (h : registerBaseTable v name tableAlias = .ok v1) : v1.availableCTEs = c := by
  unfold registerBaseTable at h
  split at h
  · simp [badRequest] at h
  · dsimp only at h
    split at h
    · simp [badRequest] at h
    · split at h
      · simp [badRequest] at h
      · obtain ⟨resolved, _, h⟩ := bind_ok_inv _ _ _ h
        injection h with h
        rw [← h]
        apply registerBinding_ctesOf c
        apply registerBinding_ctesOf c
        cases resolved <;> exact hi

theorem subqueryAlias_ctesOf (c : GoMap String) (v : Visitor) (al pfx : String)
    (a : String × Visitor)
    (hi : v.availableCTEs = c) (h : subqueryAlias v al pfx = .ok a) :
    a.2.availableCTEs = c := by
  unfold subqueryAlias at h
  split at h
  · unfold generateSubqueryAlias at h
    dsimp only at h
    split at h
    · cases h
    · injection h with h
      rw [← h]; exact hi
  · injection h with h
    rw [← h]; exact hi

theorem registerBaseSubquery_ctesOf (c : GoMap String)
    (tn : GoMap String → SelectStatement → Res String)
    (v v1 : Visitor) (select : Option SelectStatement) (tableAlias : String)
    (hi : v.availableCTEs = c)
    (h : registerBaseSubquery tn v select tableAlias = .ok v1) : v1.availableCTEs = c := by
  unfold registerBaseSubquery at h
  split at h
  · simp [badRequest] at h
  · obtain ⟨a, ha, h⟩ := bind_ok_inv _ _ _ h
    have h2 := subqueryAlias_ctesOf c v _ _ a hi ha
    dsimp only at h
    split at h
    · simp [badRequest] at h
    · split at h
      · cases h
      · injection h with h
        rw [← h]
        apply registerBinding_ctesOf c
        exact h2

theorem processJoinLeft_ctesOf (c : GoMap String)
    (tn : GoMap String → SelectStatement → Res String)
    (v v1 : Visitor) (left : TableExpr) (hi : v.availableCTEs = c)
    (h : processJoinLeft tn v left = .ok v1) : v1.availableCTEs = c := by
  unfold processJoinLeft at h
  cases left with
  | tableName name al => exact registerBaseTable_ctesOf c v v1 name al hi h
  | subqueryTable sel al => exact registerBaseSubquery_ctesOf c tn v v1 sel al hi h
  | joinExpr t l r o => simp [badRequest] at h
  | other t => simp [badRequest] at h

theorem processJoinRight_ctesOf (c : GoMap String)
    (tn : GoMap String → SelectStatement → Res String)
    (v : Visitor) (right : TableExpr) (r : JoinRight × Visitor) (hi : v.availableCTEs = c)
    (h : processJoinRight tn v right = .ok r) : r.2.availableCTEs = c := by
  unfold processJoinRight at h
  split at h
  · split at h
    · simp [badRequest] at h
    · split at h
      · simp [badRequest] at h
      · dsimp only at h
        split at h
        · simp [badRequest] at h
        · obtain ⟨resolved, _, h⟩ := bind_ok_inv _ _ _ h
          split at h
          · injection h with h
            rw [← h]
            exact registerBinding_ctesOf c _ _ _ (registerBinding_ctesOf c _ _ _ hi)
          · split at h
            · simp [badRequest] at h
            · split at h <;>
                (injection h with h
                 rw [← h]
                 exact registerBinding_ctesOf c _ _ _ (registerBinding_ctesOf c _ _ _ hi))
  · obtain ⟨a, ha, h⟩ := bind_ok_inv _ _ _ h
    have h2 := subqueryAlias_ctesOf c v _ _ a hi ha
    dsimp only at h
    split at h
    · simp [badRequest] at h
    · split at h
      · cases h
      · split at h
        · cases h
        · injection h with h
          rw [← h]
          exact registerBinding_ctesOf c _ _ _ h2
  · simp [badRequest] at h
  · simp [badRequest] at h

theorem planJoin_ctesOf (c : GoMap String) (v : Visitor) (type : JoinType) (jr : JoinRight)
    (onCond : Option Expr) (r : List String × Visitor) (hi : v.availableCTEs = c)
    (h : planJoin v type jr onCond = .ok r) : r.2.availableCTEs = c := by
  unfold planJoin at h
  obtain ⟨spec, _, h⟩ := bind_ok_inv _ _ _ h
  split at h
  · simp [badRequest] at h
  · dsimp only at h
    obtain ⟨rf, hrf, h⟩ := bind_ok_inv _ _ _ h
    injection h with h
    rw [← h]
    exact translateRightFilters_ctesOf c _ _ _ rf
      (show ({ v with pendingLeftFilter := v.pendingLeftFilter ++ spec.leftFilters } :
        Visitor).availableCTEs = c from hi) hrf

theorem processFrom_ctesOf (c : GoMap String)
    (tn : GoMap String → SelectStatement → Res String)
    (v : Visitor) (fromClause : Option TableExpr) (r : List String × Visitor)
    (hi : v.availableCTEs = c) (h : processFrom tn v fromClause = .ok r) :
    r.2.availableCTEs = c := by
  unfold processFrom at h
  split at h
  · simp [badRequest] at h
  · obtain ⟨v1, h1, h⟩ := bind_ok_inv _ _ _ h
    injection h with h
    rw [← h]
    exact registerBaseTable_ctesOf c v v1 _ _ hi h1
  · obtain ⟨v1, h1, h⟩ := bind_ok_inv _ _ _ h
    injection h with h
    rw [← h]
    exact registerBaseSubquery_ctesOf c tn v v1 _ _ hi h1
  · unfold processJoin at h
    split at h
    · simp [badRequest] at h
    · obtain ⟨v1, h1, h⟩ := bind_ok_inv _ _ _ h
      obtain ⟨jr, h2, h⟩ := bind_ok_inv _ _ _ h
      exact planJoin_ctesOf c _ _ _ _ r
        (processJoinRight_ctesOf c tn v1 _ jr (processJoinLeft_ctesOf c tn v v1 _ hi h1) h2) h
  · simp [badRequest] at h


theorem translateSimpleSelect_ctes (tn : GoMap String → SelectStatement → Res String)
    (v0 : Visitor) (stmt : SelectStatement) (r : String × Visitor)
    (h : translateSimpleSelect tn v0 stmt = .ok r) :
    registerWith tn v0.availableCTEs stmt.withClause = .ok r.2.availableCTEs := by
  unfold translateSimpleSelect at h
  obtain ⟨ctes, hw, h⟩ := bind_ok_inv _ _ _ h
  split at h
  · cases h
  · obtain ⟨fr, hf, h⟩ := bind_ok_inv _ _ _ h
    have h1 : fr.2.availableCTEs = ctes := processFrom_ctesOf ctes tn _ _ fr rfl hf
    rw [hw, translateAfterFrom_ctes _ _ _ _ h, h1]

/-- The translation of a select statement is `translateSelect` of a fresh
translator whose nested translations are translations themselves: the
recursion budget of the model does not show. -/
theorem translate_select_eq (sp : Provider) (ctes : GoMap String) (s : SelectStatement) :
    translateSelectStatementToLogsQLWithContext sp (some (.select s)) ctes =
      translateSelect (translateNestedSelect sp) (newVisitor sp ctes) s := by
  rw [translate_select_unfold]
  apply translateSelect_congr _ _ (s.depth - 1)
  · intro c s2 hs2
    exact translateNestedFuel_eq_translate sp _ c s2 hs2
  · rw [← depth_eq_succ]

theorem translateSelect_withoutSetOps (tn : GoMap String → SelectStatement → Res String)
    (v : Visitor) (stmt : SelectStatement) :
    translateSelect tn v stmt.withoutSetOps =
      (translateSimpleSelect tn v stmt.withoutSetOps >>= fun r => .ok r.1) := by
  cases stmt
  rfl

theorem translateSelect_setOps (tn : GoMap String → SelectStatement → Res String)
    (v : Visitor) (stmt : SelectStatement) :
    translateSelect tn v stmt =
      (translateSimpleSelect tn v stmt.withoutSetOps >>= fun r =>
        translateSetOps tn r.2.availableCTEs r.1 stmt.setOps) := by
  obtain ⟨w, d, c, f, wh, g, hv, o, l, ops⟩ := stmt
  cases ops with
  | nil =>
    show (translateSimpleSelect tn v _ >>= fun r => Except.ok r.1) = _
    simp only [SelectStatement.withoutSetOps, SelectStatement.setOps, translateSetOps]
  | cons op rest => rfl

theorem unionText_cons (base rhs : String) (rhss : List String) :
    unionText base (rhs :: rhss) = unionText (base ++ " | union (" ++ rhs ++ ")") rhss := rfl

theorem translateSetOps_union_all (tn : GoMap String → SelectStatement → Res String)
    (ctes : GoMap String) :
    ∀ (ops : List SetOp) (result : String) (sels : List SelectStatement) (rhss : List String),
      (∀ op ∈ ops, isUnionAll op = true) → ops.map SetOp.select = sels.map some →
      List.Forall₂ (fun sel rhs => tn ctes sel = .ok rhs) sels rhss →
      translateSetOps tn ctes result ops = .ok (unionText result rhss) := by
  intro ops
  induction ops with
  | nil =>
    intro result sels rhss _ hs hf
    cases sels with
    | nil => cases hf; rfl
    | cons a t => cases hs
  | cons op rest ih =>
    intro result sels rhss hall hs hf
    cases sels with
    | nil => cases hs
    | cons sel sels2 =>
      cases hf with
      | cons h1 h2 =>
        rename_i rhs rhss2
        obtain ⟨operator, all, select⟩ := op
        simp only [List.map_cons, List.cons.injEq, SetOp.select] at hs
        have hu := hall _ (List.mem_cons_self _ _)
        cases operator with
        | setOpOther n => cases hu
        | setOpUnion =>
          cases all with
          | false => cases hu
          | true =>
            rw [hs.1]
            simp only [translateSetOps, Bool.not_true, Bool.false_eq_true, if_false, h1,
              bind_ok_eq]
            rw [unionText_cons]
            exact ih _ sels2 rhss2 (fun op hop => hall op (List.mem_cons_of_mem _ hop)) hs.2 h2

theorem translateSetOps_ok_inv (tn : GoMap String → SelectStatement → Res String)
    (ctes : GoMap String) :
    ∀ (ops : List SetOp) (result s : String), translateSetOps tn ctes result ops = .ok s →
      (∀ op ∈ ops, isUnionAll op = true) ∧
      ∃ sels rhss, ops.map SetOp.select = sels.map some ∧
        List.Forall₂ (fun sel rhs => tn ctes sel = .ok rhs) sels rhss ∧
        s = unionText result rhss := by
  intro ops
  induction ops with
  | nil =>
    intro result s h
    simp only [translateSetOps, Except.ok.injEq] at h
    exact ⟨fun op hop => (by cases hop), [], [], rfl, List.Forall₂.nil, h.symm⟩
  | cons op rest ih =>
    intro result s h
    obtain ⟨operator, all, select⟩ := op
    cases operator with
    | setOpOther n => cases h
    | setOpUnion =>
      cases all with
      | false => cases h
      | true =>
        cases select with
        | none => cases h
        | some sel =>
          simp only [translateSetOps, Bool.not_true, Bool.false_eq_true, if_false] at h
          obtain ⟨rhs, hr, h⟩ := bind_ok_inv _ _ _ h
          obtain ⟨hall, sels, rhss, hs, hf, he⟩ := ih _ _ h
          refine ⟨?_, sel :: sels, rhs :: rhss, ?_, List.Forall₂.cons hr hf, ?_⟩
          · intro op hop
            rcases List.mem_cons.mp hop with h1 | h1
            · rw [h1]; rfl
            · exact hall op h1
          · simp only [List.map_cons, SetOp.select, hs]
          · rw [he, unionText_cons]

theorem translateSetOps_not_union_all (tn : GoMap String → SelectStatement → Res String)
    (ctes : GoMap String) :
    ∀ (ops : List SetOp) (result : String), (∃ op ∈ ops, isUnionAll op = false) →
      (∀ op ∈ ops, ∀ sel, isUnionAll op = true → op.select = some sel →
        ∃ rhs, tn ctes sel = .ok rhs) →
      failsWith400 (translateSetOps tn ctes result ops) = true := by
  intro ops
  induction ops with
  | nil =>
    intro result hbad _
    obtain ⟨op, hop, _⟩ := hbad
    cases hop
  | cons op rest ih =>
    intro result hbad hgood
    obtain ⟨operator, all, select⟩ := op
    cases operator with
    | setOpOther n => rfl
    | setOpUnion =>
      cases all with
      | false => rfl
      | true =>
        cases select with
        | none => rfl
        | some sel =>
          obtain ⟨rhs, hr⟩ := hgood _ (List.mem_cons_self _ _) sel rfl rfl
          simp only [translateSetOps, Bool.not_true, Bool.false_eq_true, if_false, hr, bind_ok_eq]
          apply ih
          · obtain ⟨op, hop, hb⟩ := hbad
            rcases List.mem_cons.mp hop with h1 | h1
            · rw [h1] at hb; cases hb
            · exact ⟨op, h1, hb⟩
          · intro op hop
            exact hgood op (List.mem_cons_of_mem _ hop)

theorem translate_base_inv (sp : Provider) (ctes : GoMap String) (stmt : SelectStatement)
    (base : String)
    (h : translateSelectStatementToLogsQLWithContext sp (some (.select stmt.withoutSetOps)) ctes =
      .ok base) :
    ∃ r, translateSimpleSelect (translateNestedSelect sp) (newVisitor sp ctes)
        stmt.withoutSetOps = .ok r ∧ r.1 = base ∧
      registerWith (translateNestedSelect sp) ctes stmt.withClause = .ok r.2.availableCTEs := by
  rw [translate_select_eq, translateSelect_withoutSetOps] at h
  obtain ⟨r, hr, h⟩ := bind_ok_inv _ _ _ h
  injection h with h
  refine ⟨r, hr, h, ?_⟩
  have := translateSimpleSelect_ctes _ _ _ _ hr
  cases stmt
  exact this

/-- C23: the translation of a select with set operations.  Let `base` be the
translation of the select without its set operations and `ctes1` the CTE map
after its WITH clause (the map the branches are translated with).  If every
set operation is `UNION ALL` and the select of the i-th one translates to
`rhs_i`, the translation is `base` followed, for each i in order, by
` | union (rhs_i)`; conversely a translation that succeeds has this form, so a
statement with a set operation that is not `UNION ALL` is never translated.
When that statement has a left select and `UNION ALL` branches that translate,
the error is a 400 error. -/
theorem union_all_translation (sp : Provider) (ctes : GoMap String) (stmt : SelectStatement) :
    (∀ base ctes1 sels rhss,
      (∀ op ∈ stmt.setOps, isUnionAll op = true) →
      stmt.setOps.map SetOp.select = sels.map some →
      translateSelectStatementToLogsQLWithContext sp (some (.select stmt.withoutSetOps)) ctes =
        .ok base →
      registerWith (translateNestedSelect sp) ctes stmt.withClause = .ok ctes1 →
      List.Forall₂ (fun sel rhs =>
        translateSelectStatementToLogsQLWithContext sp (some (.select sel)) ctes1 = .ok rhs)
        sels rhss →
      translateSelectStatementToLogsQLWithContext sp (some (.select stmt)) ctes =
        .ok (unionText base rhss)) ∧
    (∀ s, translateSelectStatementToLogsQLWithContext sp (some (.select stmt)) ctes = .ok s →
      (∀ op ∈ stmt.setOps, isUnionAll op = true) ∧
      ∃ base ctes1 sels rhss,
        stmt.setOps.map SetOp.select = sels.map some ∧
        translateSelectStatementToLogsQLWithContext sp (some (.select stmt.withoutSetOps)) ctes =
          .ok base ∧
        registerWith (translateNestedSelect sp) ctes stmt.withClause = .ok ctes1 ∧
        List.Forall₂ (fun sel rhs =>
          translateSelectStatementToLogsQLWithContext sp (some (.select sel)) ctes1 = .ok rhs)
          sels rhss ∧
        s = unionText base rhss) ∧
    ((∃ op ∈ stmt.setOps, isUnionAll op = false) →
      (∀ s, translateSelectStatementToLogsQLWithContext sp (some (.select stmt)) ctes ≠ .ok s) ∧
      ∀ base ctes1,
        translateSelectStatementToLogsQLWithContext sp (some (.select stmt.withoutSetOps)) ctes =
          .ok base →
        registerWith (translateNestedSelect sp) ctes stmt.withClause = .ok ctes1 →
        (∀ op ∈ stmt.setOps, ∀ sel, isUnionAll op = true → op.select = some sel →
          ∃ rhs, translateSelectStatementToLogsQLWithContext sp (some (.select sel)) ctes1 =
            .ok rhs) →
        failsWith400
          (translateSelectStatementToLogsQLWithContext sp (some (.select stmt)) ctes) = true) := by
  have hinv : ∀ s,
      translateSelectStatementToLogsQLWithContext sp (some (.select stmt)) ctes = .ok s →
      (∀ op ∈ stmt.setOps, isUnionAll op = true) ∧
      ∃ base ctes1 sels rhss,
        stmt.setOps.map SetOp.select = sels.map some ∧
        translateSelectStatementToLogsQLWithContext sp (some (.select stmt.withoutSetOps)) ctes =
          .ok base ∧
        registerWith (translateNestedSelect sp) ctes stmt.withClause = .ok ctes1 ∧
        List.Forall₂ (fun sel rhs =>
          translateSelectStatementToLogsQLWithContext sp (some (.select sel)) ctes1 = .ok rhs)
          sels rhss ∧
        s = unionText base rhss := by
    intro s h
    rw [translate_select_eq, translateSelect_setOps] at h
    obtain ⟨r, hr, h⟩ := bind_ok_inv _ _ _ h
    obtain ⟨hall, sels, rhss, hs, hf, he⟩ := translateSetOps_ok_inv _ _ _ _ _ h
    have hb : translateSelectStatementToLogsQLWithContext sp
        (some (.select stmt.withoutSetOps)) ctes = .ok r.1 := by
      rw [translate_select_eq, translateSelect_withoutSetOps, hr]
      rfl
    obtain ⟨r2, hr2, _, hw⟩ := translate_base_inv sp ctes stmt r.1 hb
    rw [hr] at hr2
    injection hr2 with hr2
    rw [← hr2] at hw
    exact ⟨hall, r.1, r.2.availableCTEs, sels, rhss, hs, hb, hw, hf, he⟩
  refine ⟨?_, hinv, ?_⟩
  · intro base ctes1 sels rhss hall hs hb hw hf
    obtain ⟨r, hr, hr1, hrw⟩ := translate_base_inv sp ctes stmt base hb
    rw [hw] at hrw
    injection hrw with hrw
    rw [translate_select_eq, translateSelect_setOps, hr, bind_ok_eq, hr1, ← hrw]
    exact translateSetOps_union_all _ _ _ _ sels rhss hall hs hf
  · intro hbad
    refine ⟨?_, ?_⟩
    · intro s h
      obtain ⟨op, hop, hb⟩ := hbad
      rw [(hinv s h).1 op hop] at hb
      cases hb
    · intro base ctes1 hb hw hgood
      obtain ⟨r, hr, hr1, hrw⟩ := translate_base_inv sp ctes stmt base hb
      rw [hw] at hrw
      injection hrw with hrw
      rw [translate_select_eq, translateSelect_setOps, hr, bind_ok_eq, ← hrw]
      exact translateSetOps_not_union_all _ _ _ _ hbad hgood

theorem union_all_translation_witness :
    translateSelectStatementToLogsQLWithContext exampleProvider
      (some (.select (starFrom "t"
        [.mk .setOpUnion true (some (starFrom "a" [])),
         .mk .setOpUnion true (some (starFrom "f" []))]))) [] =
      .ok "* | union (*) | union (lvl:err)" ∧
    translateSelectStatementToLogsQL
      (some (.select (starFrom "t"
        [.mk .setOpUnion true (some (starFrom "a" [])),
         .mk .setOpUnion false (some (starFrom "f" []))]))) exampleProvider =
      badRequest "translator: UNION without ALL is not supported" ∧
    translateSelectStatementToLogsQL
      (some (.select (starFrom "t"
        [.mk (.setOpOther "INTERSECT") true (some (starFrom "a" []))]))) exampleProvider =
      badRequest "translator: set operator INTERSECT is not supported" :=
  ⟨(union_all_translation exampleProvider []
      (starFrom "t"
        [.mk .setOpUnion true (some (starFrom "a" [])),
         .mk .setOpUnion true (some (starFrom "f" []))])).1
      "*" [] [starFrom "a" [], starFrom "f" []] ["*", "lvl:err"]
      (by decide) rfl (by decide) rfl
      (List.Forall₂.cons (by decide) (List.Forall₂.cons (by decide) List.Forall₂.nil)),
   by decide, by decide⟩

/-- C25 (failing input): the table `nosuch` is neither a CTE, nor a view, nor a
configured table.  `SELECT * FROM nosuch`, a JOIN with the table `nosuch` and
a `UNION ALL` branch `SELECT * FROM nosuch` fail with code 404; but
`SELECT * FROM (SELECT * FROM nosuch) s`,
`WITH c AS (SELECT * FROM nosuch) SELECT * FROM c` and
`SELECT * FROM t a JOIN (SELECT * FROM nosuch) b ON a.k = b.k` fail with code
400: the wrappers of the nested translation set the code 400 whatever the code
of the nested error is. -/
theorem nested_unknown_table_code :
    translateSelectStatementToLogsQL (some (.select (starFrom "nosuch" []))) exampleProvider =
      .error (.translation 404
        "translator: table \"nosuch\" is not configured (available: a, b, f, logs, p, t)") ∧
    translateSelectStatementToLogsQL
      (some (.select (starFromTable
        (.joinExpr .joinInner (.tableName (some ["t"]) "a") (.tableName (some ["nosuch"]) "b")
          (equiOn "a" "b" "k")) none))) exampleProvider =
      .error (.translation 404
        "translator: JOIN table \"nosuch\" is not configured (available: a, b, f, logs, p, t)") ∧
    translateSelectStatementToLogsQL
      (some (.select (starFrom "t" [.mk .setOpUnion true (some (starFrom "nosuch" []))])))
      exampleProvider =
      .error (.translation 404
        "translator: table \"nosuch\" is not configured (available: a, b, f, logs, p, t)") ∧
    translateSelectStatementToLogsQL
      (some (.select (starFromTable (.subqueryTable (some (starFrom "nosuch" [])) "s") none)))
      exampleProvider =
      .error (.translation 400
        ("translator: failed to translate subquery: " ++
          "translator: table \"nosuch\" is not configured (available: a, b, f, logs, p, t)")) ∧
    translateSelectStatementToLogsQL
      (some (.select (starFromTable (tableRef "c")
        (some (.mk false [.mk (some ["c"]) (some (starFrom "nosuch" []))])))))
      exampleProvider =
      .error (.translation 400
        ("translator: failed to translate CTE c: " ++
          "translator: table \"nosuch\" is not configured (available: a, b, f, logs, p, t)")) ∧
    translateSelectStatementToLogsQL
      (some (.select (starFromTable
        (.joinExpr .joinInner (.tableName (some ["t"]) "a")
          (.subqueryTable (some (starFrom "nosuch" [])) "b") (equiOn "a" "b" "k")) none)))
      exampleProvider =
      .error (.translation 400
        ("translator: failed to translate JOIN subquery: " ++
          "translator: table \"nosuch\" is not configured (available: a, b, f, logs, p, t)")) := by
  decide

/-- C24 (failing input): the translation of a nil statement returns the plain
error `translator: nil statement` made by `fmt.Errorf`, which is not a
`TranslationError` and carries no code; the next check of the same function,
on a root node that is not a select statement, returns a `TranslationError`
with code 400. -/
theorem nil_statement_plain_error :
    (∀ sp, translateSelectStatementToLogsQL none sp =
      .error (.plain "translator: nil statement")) ∧
    Err.isCoded (.plain "translator: nil statement") = false ∧
    (∀ sp t, translateSelectStatementToLogsQL (some (.other t)) sp =
      .error (.translation 400 ("translator: unsupported root node " ++ t))) ∧
    Err.isCoded (.translation 400 ("translator: unsupported root node " ++ "*ast.Insert")) =
      true :=
  ⟨fun _ => rfl, rfl, fun _ _ => rfl, by decide⟩

theorem digitChar_toNat (d : Nat) (h : d < 10) : (Char.ofNat (48 + d)).toNat = 48 + d := by
  interval_cases d <;> rfl

theorem digitsValue_append (l : List Char) (c : Char) :
    digitsValue (l ++ [c]) = digitsValue l * 10 + (c.toNat - 48) := by
  simp [digitsValue, List.foldl_append]

theorem natDigits_value : ∀ (fuel n : Nat), n < fuel → digitsValue (natDigits fuel n) = n := by
  intro fuel
  induction fuel with
  | zero => intro n h; omega
  | succ fuel ih =>
    intro n h
    unfold natDigits
    split
    · rename_i h10
      simp [digitsValue, digitChar_toNat n h10]
    · rename_i h10
      rw [digitsValue_append, ih (n / 10) (by omega),
        digitChar_toNat (n % 10) (Nat.mod_lt _ (by decide))]
      omega

theorem fmtNat_injective (a b : Nat) (h : fmtNat a = fmtNat b) : a = b := by
  have h1 : natDigits (a + 1) a = natDigits (b + 1) b := by
    have := congrArg String.data h
    exact this
  have h2 := congrArg digitsValue h1
  rw [natDigits_value _ _ (Nat.lt_succ_self a), natDigits_value _ _ (Nat.lt_succ_self b)] at h2
  exact h2

theorem GoMap.get_set_ne {α : Type} (m : GoMap α) (k x : String) (a : α) (hx : x ≠ k) :
    (GoMap.set m k a).get x = m.get x := by
  have hx2 : (x == k) = false := by simpa using hx
  induction m with
  | nil => simp [GoMap.set, GoMap.get, List.lookup, hx2]
  | cons p rest ih =>
    obtain ⟨k0, v0⟩ := p
    unfold GoMap.set
    by_cases hk : k0 = k
    · subst hk
      simp [GoMap.get, List.lookup, hx2]
    · have hk2 : (k0 == k) = false := by simpa using hk
      simp only [hk2, Bool.false_eq_true, if_false, GoMap.get, List.lookup]
      cases hxk : x == k0 with
      | true => rfl
      | false => exact ih

theorem addKey_prefix (order : List String) (key : String) :
    ∃ extra, addKey order key = order ++ extra := by
  unfold addKey
  split
  · exact ⟨[], by simp⟩
  · exact ⟨[key], rfl⟩

theorem addKeys_prefix (ks : List String) :
    ∀ order : List String, ∃ extra, addKeys order ks = order ++ extra := by
  induction ks with
  | nil => intro order; exact ⟨[], by simp [addKeys]⟩
  | cons k rest ih =>
    intro order
    obtain ⟨e1, h1⟩ := addKey_prefix order k
    obtain ⟨e2, h2⟩ := ih (addKey order k)
    refine ⟨e1 ++ e2, ?_⟩
    show addKeys (addKey order k) rest = _
    rw [h2, h1, List.append_assoc]

/-- Formatting a field name a second time changes it exactly when the name
needed quoting. -/
theorem flatMap_quoteRune_length (l : List Char) :
    l.length ≤ (l.flatMap quoteRune).length := by
  induction l with
  | nil => simp
  | cons c rest ih =>
    simp only [List.flatMap_cons, List.length_append, List.length_cons]
    have : 1 ≤ (quoteRune c).length := by unfold quoteRune; split <;> simp
    omega

/-- Formatting a field name a second time changes it exactly when the name
needed quoting. -/
theorem formatFieldName_twice_iff (name : String) :
    formatFieldName (formatFieldName name) = formatFieldName name ↔
      safeBareLiteral name = true := by
  constructor
  · intro h
    by_contra hb
    have hb2 : safeBareLiteral name = false := by simpa using hb
    have h1 : formatFieldName name = quoteString name := by simp [formatFieldName, hb2]
    rw [h1] at h
    have h3 : formatFieldName (quoteString name) = quoteString (quoteString name) := by
      simp [formatFieldName, quoteString_not_bare]
    rw [h3] at h
    have h4 := quoteString_injective _ _ h
    have h5 := congrArg (fun s => s.data.length) h4
    have h6 := flatMap_quoteRune_length name.data
    simp only [quoteString, List.length_cons, List.length_append, List.length_nil] at h5
    omega
  · intro hb
    simp [formatFieldName, hb]

/-- C34 (failing input): for `SELECT SUM(x) AS "total count" FROM t HAVING
SUM(x) > 1` the `stats` pipe emits the aggregate as the alias formatted once,
`"total count"`, and the HAVING filter names it by the alias formatted twice,
`"\"total count\""`: the lookup of `fieldNameFromExpr` formats the stored
result name, which `analyzeAggregate` had formatted already. -/
theorem having_filter_quotes_alias_twice :
    translateSelectStatementToLogsQL (some (.select quotedAliasHaving)) exampleProvider =
      .ok ("* | stats sum(x) " ++ formatFieldName "total count" ++
        " | filter " ++ formatFieldName (formatFieldName "total count") ++ ":>1") ∧
    formatFieldName "total count" = "\"total count\"" ∧
    formatFieldName (formatFieldName "total count") = "\"\\\"total count\\\"\"" ∧
    (analyzeAggregate (newVisitor exampleProvider []) ["SUM"] [.identifier ["x"]] false
      "total count").map (fun r => (r.1.key, r.1.statsCall, r.1.resultName)) =
      .ok ("SUM(x)", "sum(x) \"total count\"", "\"total count\"") ∧
    (fieldNameFromExpr
      { newVisitor exampleProvider [] with aggResults := some [("SUM(x)", "\"total count\"")] }
      (.funcCall ["SUM"] [.identifier ["x"]] false none)).map (fun r => r.1) =
      .ok "\"\\\"total count\\\"\"" := by
  decide

/-! ## Aggregate keys and letter case (C35) -/

/-- C35 (counterexample): `SUM(X)` and `SUM(x)` are accepted with the same key
`SUM(x)` and the different `stats` calls `sum(X)` and `sum(x)`; in
`SELECT SUM(X), SUM(x) FROM t` the second aggregate is dropped as a
duplicate of the first. -/
theorem aggregate_key_ignores_case :
    (analyzeAggregate (newVisitor exampleProvider []) ["SUM"] [.identifier ["X"]] false
      "").map (fun r => (r.1.key, r.1.statsCall)) = .ok ("SUM(x)", "sum(X)") ∧
    (analyzeAggregate (newVisitor exampleProvider []) ["SUM"] [.identifier ["x"]] false
      "").map (fun r => (r.1.key, r.1.statsCall)) = .ok ("SUM(x)", "sum(x)") ∧
    translateSelectStatementToLogsQL (some (.select caseTwinSums)) exampleProvider =
      .ok "* | stats sum(X)" := by
  decide

/-! ## Synthesized aliases of computed columns (C36) -/

/-- C36 (failing input): in `SELECT a + b, a - b FROM t` both columns get the
alias `expr_a_b`, and in `SELECT UPPER(a.b), UPPER(a_b) FROM t` both get
`upper_a_b`: the second pipe overwrites the field of the first and the
`fields` pipe lists the same name twice. -/
theorem computed_aliases_collide :
    translateSelectStatementToLogsQL (some (.select mathTwins)) exampleProvider =
      .ok "* | math (a + b) as expr_a_b | math (a - b) as expr_a_b | fields expr_a_b, expr_a_b" ∧
    translateSelectStatementToLogsQL (some (.select upperTwins)) exampleProvider =
      .ok ("* | format \"<uc:a.b>\" as upper_a_b | format \"<uc:a_b>\" as upper_a_b" ++
        " | fields upper_a_b, upper_a_b") ∧
    sanitizeAliasFromField "(a + b)" = "a_b" ∧ sanitizeAliasFromField "(a - b)" = "a_b" ∧
    sanitizeAliasFromField "a.b" = "a_b" ∧ sanitizeAliasFromField "a_b" = "a_b" := by
  decide

/-! ## Function comparisons in the right-hand ON residual (C37) -/

/-- C37 (failing input): for `SELECT name FROM a JOIN b AS b ON a.id = b.id
AND UPPER(b.k) = 'X'` the pipe that computes `__filter_expr_1` is emitted in
the base (left) pipeline, followed by its `delete`, and the right-hand query
of the join is the bare filter `__filter_expr_1:X`, which refers to a field
that is not defined inside it. -/
theorem right_filter_function_in_left_pipeline :
    translateSelectStatementToLogsQL (some (.select rightFunctionJoin)) exampleProvider =
      .ok ("* | format \"<uc:k>\" as __filter_expr_1 | delete __filter_expr_1" ++
        " | join by (id) (__filter_expr_1:X) inner | fields name") := by
  decide

/-! ## Single-part identifiers in WHERE with a join (C38) -/

/-- C38 (failing input): in `SELECT name FROM a JOIN b AS b ON a.id = b.id
WHERE b = 'x'` the single-part identifier `b` is taken for the joined alias
and `ensureBaseAliasesOnly` rejects the WHERE clause, although
`normalizeIdentifier` reads `b` as the field `b`; with the field `c`, or with
`b` and no join, the clause is translated. -/
theorem single_part_field_named_like_join_alias :
    translateSelectStatementToLogsQL (some (.select (joinWhereField "b"))) exampleProvider =
      badRequest "translator: expression references unsupported alias \"b\"" ∧
    ensureBaseAliasesOnly joinState (.binaryExpr "=" (.identifier ["b"]) (.stringLiteral "x")) =
      badRequest "translator: expression references unsupported alias \"b\"" ∧
    normalizeIdentifier joinState ["b"] = .ok "b" ∧
    translateSelectStatementToLogsQL (some (.select (joinWhereField "c"))) exampleProvider =
      .ok "c:x | join by (id) (*) inner | fields name" ∧
    translateSelectStatementToLogsQL
      (some (.select (simpleSelect [plainColumn ["name"]] (tableRef "a")
        (some (.binaryExpr "=" (.identifier ["b"]) (.stringLiteral "x")))))) exampleProvider =
      .ok "b:x | fields name" := by
  decide

/-! ## Window calls without a name (C39) -/

/-- A window call whose name has no parts and whose `Distinct` flag is off
makes `translateWindowFunction` index `Parts[-1]` (line 1990). -/
theorem translateWindowFunction_nameless (v : Visitor) (args : List Expr)
    (w : List Expr × List (Expr × Direction)) (aliasName : String) :
    translateWindowFunction v [] args false (some w) aliasName =
      .error (.panic "runtime error: index out of range [-1]") := by
  obtain ⟨p, o⟩ := w
  rfl

/-- C39 (failing input): `SELECT <call>(x) OVER (ORDER BY ts) FROM t` with a
call whose name has no parts passes the stats stage (window calls are
skipped there) and panics in `translateWindowFunction` with an index out of
range, instead of returning pipes or a translation error. -/
theorem nameless_window_call_panics :
    translateSelectStatementToLogsQL (some (.select namelessWindowSelect)) exampleProvider =
      .error (.panic "runtime error: index out of range [-1]") ∧
    (translateSelectStatementToLogsQL (some (.select namelessWindowSelect))
      exampleProvider).toOption = none ∧
    Err.isCoded (.panic "runtime error: index out of range [-1]") = false := by
  decide

/-! ## Injectivity of `formatString` (C40) -/

/-- The two shapes of a `formatString` result: the value itself, which then
starts with a character other than the double quote, or the quoted value. -/
theorem formatString_cases (v : String) :
    (formatString v = v ∧ ∃ c rest, v.data = c :: rest ∧ c ≠ '"') ∨
    formatString v = quoteString v := by
  unfold formatString
  by_cases he : v = ""
  · right; simp [he]
  · have hne : (v == "") = false := by simpa using he
    simp only [hne, Bool.false_eq_true, if_false]
    have hq : isBareChar '"' = false := by decide
    by_cases hb : safeBareLiteral v = true
    · left
      simp only [hb, if_true, true_and]
      unfold safeBareLiteral at hb
      cases hd : v.data with
      | nil => simp [hd] at hb
      | cons c rest =>
        refine ⟨c, rest, rfl, ?_⟩
        intro hc
        rw [hd] at hb
        simp [hc, hq] at hb
    · simp only [hb, Bool.false_eq_true, if_false]
      by_cases hw : safeWildcardLiteral v = true
      · left
        simp only [hw, if_true, true_and]
        unfold safeWildcardLiteral at hw
        cases hd : v.data with
        | nil => exact absurd (String.ext hd) he
        | cons c rest =>
          refine ⟨c, rest, rfl, ?_⟩
          intro hc
          rw [hd, hc] at hw
          simp [List.dropWhile, hq] at hw
      · right
        simp [hw]

/-- On texts `formatString` is injective: two texts with the same rendering
are equal.  An unquoted result never starts with a double quote, a quoted one
always does, and `quoteString` is injective. -/
theorem formatString_injective (v w : String) :
    formatString v = formatString w ↔ v = w := by
  constructor
  · intro h
    rcases formatString_cases v with ⟨hv, c, rest, hd, hc⟩ | hv <;>
      rcases formatString_cases w with ⟨hw, c2, rest2, hd2, hc2⟩ | hw
    · rw [hv, hw] at h; exact h
    · rw [hv, hw] at h
      have := congrArg String.data h
      rw [hd] at this
      simp only [quoteString, List.cons.injEq] at this
      exact absurd this.1 hc
    · rw [hv, hw] at h
      have := congrArg String.data h
      rw [hd2] at this
      simp only [quoteString, List.cons.injEq] at this
      exact absurd this.1.symm hc2
    · rw [hv, hw] at h
      exact quoteString_injective _ _ h
  · intro h
    rw [h]

/-! ## The alias sanitizer (C31) -/

theorem sanitizeChar_eq (c : Char) :
    sanitizeChar c = if isSanitizedChar c then '_' else c := rfl

theorem isSanitizedChar_toNat (c : Char) (h : isSanitizedChar c = true) :
    c.toNat < 65 ∨ c.toNat = 94 := by
  unfold isSanitizedChar at h
  simp only [Bool.or_eq_true, beq_iff_eq] at h
  rcases h with ((((((((((((h | h) | h) | h) | h) | h) | h) | h) | h) | h) | h) | h) | h) | h <;>
    subst h <;> decide

theorem lowerChar_sanitizeChar (c : Char) :
    lowerChar (sanitizeChar c) =
      if isSanitizedChar (lowerChar c) then '_' else lowerChar c := by
  rw [sanitizeChar_eq]
  by_cases hr : 65 ≤ c.toNat ∧ c.toNat ≤ 90
  · have hc : isSanitizedChar c = false := by
      by_contra hx
      have := isSanitizedChar_toNat c (by simpa using hx)
      omega
    have hv : (Char.ofNat (c.toNat + 32)).toNat = c.toNat + 32 := by
      have hvalid : (c.toNat + 32).isValidChar := by
        left
        omega
      unfold Char.ofNat
      rw [dif_pos hvalid]
      rfl
    have hl : lowerChar c = Char.ofNat (c.toNat + 32) := by
      unfold lowerChar
      rw [if_pos hr]
    have hlc : isSanitizedChar (lowerChar c) = false := by
      by_contra hx
      have := isSanitizedChar_toNat _ (by simpa using hx)
      rw [hl, hv] at this
      omega
    simp [hc, hlc]
  · have hl : lowerChar c = c := by
      unfold lowerChar
      rw [if_neg hr]
    rw [hl]
    by_cases hc : isSanitizedChar c = true
    · simp only [hc, if_true]
      decide
    · simp only [hc, Bool.false_eq_true, if_false]
      exact hl

theorem replaceDoubleUnderscore_head : ∀ (l : List Char),
    (replaceDoubleUnderscore l).head? = l.head? := by
  intro l
  induction l using replaceDoubleUnderscore.induct with
  | case1 rest ih => simp [replaceDoubleUnderscore]
  | case2 c0 rest hne ih =>
    rw [replaceDoubleUnderscore]
    · rfl
    · exact hne
  | case3 => rfl

theorem collapseRuns_replaceDoubleUnderscore : ∀ (l : List Char),
    collapseRuns (replaceDoubleUnderscore l) = collapseRuns l := by
  intro l
  induction l using replaceDoubleUnderscore.induct with
  | case1 rest ih =>
    simp only [replaceDoubleUnderscore, collapseRuns, replaceDoubleUnderscore_head, ih,
      List.head?_cons, beq_self_eq_true, Bool.and_self, if_true, Bool.true_and]
  | case2 c0 rest hne ih =>
    rw [replaceDoubleUnderscore]
    · simp only [collapseRuns, replaceDoubleUnderscore_head, ih]
    · exact hne
  | case3 => rfl

theorem collapseRuns_of_no_double : ∀ (l : List Char),
    hasDoubleUnderscore l = false → collapseRuns l = l := by
  intro l
  induction l using hasDoubleUnderscore.induct with
  | case1 rest => intro h; simp [hasDoubleUnderscore] at h
  | case2 c0 rest hne ih =>
    intro h
    rw [hasDoubleUnderscore] at h
    · have hc : (c0 == '_' && rest.head? == some '_') = false := by
        cases hb : (c0 == '_' && rest.head? == some '_') with
        | false => rfl
        | true =>
          exfalso
          simp only [Bool.and_eq_true, beq_iff_eq] at hb
          obtain ⟨h1, h2⟩ := hb
          cases rest with
          | nil => simp at h2
          | cons d rest2 =>
            simp only [List.head?_cons, Option.some.injEq] at h2
            exact hne rest2 h1 (by rw [h2])
      simp only [collapseRuns, hc, Bool.false_eq_true, if_false, ih h]
    · exact hne
  | case3 => intro _; rfl

theorem replaceDoubleUnderscore_length_le : ∀ (l : List Char),
    (replaceDoubleUnderscore l).length ≤ l.length := by
  intro l
  induction l using replaceDoubleUnderscore.induct with
  | case1 rest ih => simp only [replaceDoubleUnderscore, List.length_cons]; omega
  | case2 c0 rest hne ih =>
    rw [replaceDoubleUnderscore]
    · simp only [List.length_cons]; omega
    · exact hne
  | case3 => simp [replaceDoubleUnderscore]

theorem replaceDoubleUnderscore_length_lt : ∀ (l : List Char),
    hasDoubleUnderscore l = true → (replaceDoubleUnderscore l).length < l.length := by
  intro l
  induction l using hasDoubleUnderscore.induct with
  | case1 rest =>
    intro _
    have := replaceDoubleUnderscore_length_le rest
    simp only [replaceDoubleUnderscore, List.length_cons]
    omega
  | case2 c0 rest hne ih =>
    intro h
    rw [hasDoubleUnderscore] at h
    · rw [replaceDoubleUnderscore]
      · have := ih h
        simp only [List.length_cons]
        omega
      · exact hne
    · exact hne
  | case3 => intro h; simp [hasDoubleUnderscore] at h

/-- The loop of lines 1681-1683 ends with every run of `_` collapsed to one,
whenever the fuel is at least the length of the text. -/
theorem collapseUnderscores_eq_runs : ∀ (fuel : Nat) (l : List Char),
    l.length ≤ fuel → collapseUnderscores fuel l = collapseRuns l := by
  intro fuel
  induction fuel with
  | zero =>
    intro l h
    have : l = [] := List.length_eq_zero.mp (by omega)
    subst this
    rfl
  | succ n ih =>
    intro l h
    unfold collapseUnderscores
    split
    · rename_i hd
      have hlt := replaceDoubleUnderscore_length_lt l hd
      rw [ih _ (by omega), collapseRuns_replaceDoubleUnderscore]
    · rename_i hd
      exact (collapseRuns_of_no_double l (by simpa using hd)).symm

/-- C31 (counterexample): the bare characters `.`, `-`, `:` and `/` are
replaced by `_` although they belong to the bare class, and a character
outside the bare class that the replacer does not list, such as `@`, is
kept: `a.b` gives `a_b` (the description gives `a.b`) and `a@b` gives `a@b`
(the description gives `a_b`). -/
theorem sanitizer_is_not_the_bare_complement :
    sanitizeAliasFromField "a.b" = "a_b" ∧ sanitizeOutsideBare "a.b" = "a.b" ∧
    sanitizeAliasFromField "x-y:z/w" = "x_y_z_w" ∧ sanitizeOutsideBare "x-y:z/w" = "x-y:z/w" ∧
    sanitizeAliasFromField "a@b" = "a@b" ∧ sanitizeOutsideBare "a@b" = "a_b" ∧
    isBareChar '.' = true ∧ isBareChar '@' = false := by
  decide

/-- With the ASCII case map, `sanitizeAliasFromField` gives the lowercased
field in which each of the characters `. - : / + * % ^ ( ) ,`, space, `'` and
`"` has been replaced by `_` and every other character is kept, with runs of
`_` collapsed to one and leading and trailing `_` removed, or `col` when that
result is empty. -/
theorem sanitizeAliasFromField_spec (field : String) :
    sanitizeAliasFromField field = sanitizeSpec isSanitizedChar field := by
  unfold sanitizeAliasFromField sanitizeSpec
  have hmap : (toLower ⟨field.data.map sanitizeChar⟩).data =
      (toLower field).data.map (fun c => if isSanitizedChar c then '_' else c) := by
    simp only [toLower, List.map_map]
    apply List.map_congr_left
    intro c _
    simp only [Function.comp_apply]
    exact lowerChar_sanitizeChar c
  simp only [hmap]
  rw [collapseUnderscores_eq_runs _ _ (le_refl _)]

/-! ## The scope of CTEs across nested selects (C32) -/

theorem registerCTEs_cons_inv (tn : GoMap String → SelectStatement → Res String)
    (ctes own : GoMap String) (c : CTE) (rest : List CTE)
    (h : registerCTEs tn ctes (c :: rest) = .ok own) :
    ∃ parts s q, c = .mk (some parts) (some s) ∧ ctes.has (cteName c) = false ∧
      tn ctes s = .ok q ∧ registerCTEs tn (ctes.set (cteName c) q) rest = .ok own := by
  obtain ⟨name, select⟩ := c
  cases name with
  | none => simp [registerCTEs, badRequest] at h
  | some parts =>
    cases select with
    | none =>
      unfold registerCTEs at h
      dsimp only at h
      split at h <;> simp [badRequest] at h
    | some sel =>
      unfold registerCTEs at h
      dsimp only at h
      split at h
      · simp [badRequest] at h
      · split at h
        · simp [badRequest] at h
        · rename_i hhas
          split at h
          · cases h
          · rename_i q hq
            exact ⟨parts, sel, q, rfl, by simpa [cteName] using hhas, hq, h⟩

/-- The map registered by a WITH clause keeps every entry it started from and
gains exactly the names of its own CTEs. -/
theorem registerCTEs_frame (tn : GoMap String → SelectStatement → Res String) :
    ∀ (l : List CTE) (ctes own : GoMap String), registerCTEs tn ctes l = .ok own →
      (∀ k, ctes.has k = true → own.get k = ctes.get k) ∧
      (∀ k, own.has k = true ↔ (ctes.has k = true ∨ k ∈ l.map cteName)) := by
  intro l
  induction l with
  | nil =>
    intro ctes own h
    unfold registerCTEs at h
    injection h with h
    subst h
    exact ⟨fun _ _ => rfl, fun k => by simp⟩
  | cons c rest ih =>
    intro ctes own h
    obtain ⟨parts, s, q, _, hnew, _, hrest⟩ := registerCTEs_cons_inv tn ctes own c rest h
    obtain ⟨ih1, ih2⟩ := ih _ _ hrest
    constructor
    · intro k hk
      have hne : k ≠ cteName c := by
        intro he
        rw [he, hnew] at hk
        cases hk
      rw [ih1 k (GoMap.has_set_of_has _ _ _ _ hk), GoMap.get_set_ne _ _ _ _ hne]
    · intro k
      rw [ih2 k]
      simp only [List.map_cons, List.mem_cons]
      constructor
      · rintro (hk | hk)
        · rcases GoMap.has_set_inv _ _ _ _ hk with hk | hk
          · exact Or.inr (Or.inl hk)
          · exact Or.inl hk
        · exact Or.inr (Or.inr hk)
      · rintro (hk | hk | hk)
        · exact Or.inl (GoMap.has_set_of_has _ _ _ _ hk)
        · left
          rw [hk]
          exact GoMap.has_set_self _ _ _
        · exact Or.inr hk

/-- The body of every CTE is translated with the map reached after the CTEs
before it. -/
theorem registerCTEs_bodies (tn : GoMap String → SelectStatement → Res String) :
    ∀ (pre : List CTE) (ctes own : GoMap String) (c : CTE) (post : List CTE),
      registerCTEs tn ctes (pre ++ c :: post) = .ok own →
      ∃ mid parts s q, registerCTEs tn ctes pre = .ok mid ∧ c = .mk (some parts) (some s) ∧
        tn mid s = .ok q := by
  intro pre
  induction pre with
  | nil =>
    intro ctes own c post h
    obtain ⟨parts, s, q, hc, _, hq, _⟩ := registerCTEs_cons_inv tn ctes own c post h
    exact ⟨ctes, parts, s, q, rfl, hc, hq⟩
  | cons p pre ih =>
    intro ctes own c post h
    obtain ⟨parts, s, q, hp, hnew, hq, hrest⟩ :=
      registerCTEs_cons_inv tn ctes own p (pre ++ c :: post) h
    obtain ⟨mid, parts2, s2, q2, h1, h2, h3⟩ := ih _ _ c post hrest
    refine ⟨mid, parts2, s2, q2, ?_, h2, h3⟩
    subst hp
    have hnew2 : ctes.has (toLower (lastPart parts)) = false := hnew
    have hemp : parts.isEmpty = false := by
      cases hpe : parts.isEmpty with
      | false => rfl
      | true =>
        exfalso
        unfold registerCTEs at h
        simp [hpe, badRequest] at h
    unfold registerCTEs
    simp only [hemp, hnew2, hq, Bool.false_eq_true, if_false]
    exact h1

theorem registerWith_eq (tn : GoMap String → SelectStatement → Res String)
    (ctes own : GoMap String) (w : Option WithClause)
    (h : registerWith tn ctes w = .ok own) : registerCTEs tn ctes (withCTEs w) = .ok own := by
  unfold registerWith at h
  split at h
  · rename_i recursive cteList
    split at h
    · split at h
      · simp [badRequest] at h
      · exact h
    · rename_i hl
      have : cteList = [] := List.length_eq_zero.mp (by simpa using hl)
      subst this
      exact h
  · exact h

theorem processFrom_nested (tn : GoMap String → SelectStatement → Res String)
    (v : Visitor) (f : Option TableExpr) (r : List String × Visitor)
    (h : processFrom tn v f = .ok r) :
    ∀ s ∈ fromSubqueries f, ∃ q, tn v.availableCTEs s = .ok q := by
  have hbase : ∀ (v v1 : Visitor) (sel : Option SelectStatement) (al : String),
      registerBaseSubquery tn v sel al = .ok v1 →
      ∀ s ∈ tableSubquery (.subqueryTable sel al), ∃ q, tn v.availableCTEs s = .ok q := by
    intro v v1 sel al h s hs
    unfold registerBaseSubquery at h
    split at h
    · simp [tableSubquery] at hs
    · rename_i s0
      simp only [tableSubquery, List.mem_singleton] at hs
      subst hs
      obtain ⟨a, ha, h⟩ := bind_ok_inv _ _ _ h
      have h2 := subqueryAlias_ctesOf v.availableCTEs v _ _ a rfl ha
      dsimp only at h
      split at h
      · simp [badRequest] at h
      · split at h
        · cases h
        · rename_i q hq
          rw [h2] at hq
          exact ⟨q, hq⟩
  have hleft : ∀ (v v1 : Visitor) (l : TableExpr), processJoinLeft tn v l = .ok v1 →
      ∀ s ∈ tableSubquery l, ∃ q, tn v.availableCTEs s = .ok q := by
    intro v v1 l h s hs
    cases l with
    | tableName n a => simp [tableSubquery] at hs
    | subqueryTable sel al => exact hbase v v1 sel al h s hs
    | joinExpr t l r o => simp [tableSubquery] at hs
    | other t => simp [tableSubquery] at hs
  have hright : ∀ (v : Visitor) (jr : JoinRight × Visitor) (rt : TableExpr),
      processJoinRight tn v rt = .ok jr →
      ∀ s ∈ tableSubquery rt, ∃ q, tn v.availableCTEs s = .ok q := by
    intro v jr rt h s hs
    cases rt with
    | tableName n a => simp [tableSubquery] at hs
    | joinExpr t l r o => simp [tableSubquery] at hs
    | other t => simp [tableSubquery] at hs
    | subqueryTable sel al =>
      cases sel with
      | none => simp [tableSubquery] at hs
      | some s0 =>
        simp only [tableSubquery, List.mem_singleton] at hs
        subst hs
        unfold processJoinRight at h
        obtain ⟨a, ha, h⟩ := bind_ok_inv _ _ _ h
        have h2 := subqueryAlias_ctesOf v.availableCTEs v _ _ a rfl ha
        dsimp only at h
        split at h
        · simp [badRequest] at h
        · split at h
          · cases h
          · rename_i q hq
            have h3 : (registerBinding a.2 (toLower a.1) false).availableCTEs =
                v.availableCTEs := registerBinding_ctesOf _ _ _ _ h2
            rw [h3] at hq
            exact ⟨q, hq⟩
  intro s hs
  unfold processFrom at h
  split at h
  · simp [fromSubqueries] at hs
  · simp [fromSubqueries, tableSubquery] at hs
  · rename_i sel al
    obtain ⟨v1, h1, h⟩ := bind_ok_inv _ _ _ h
    exact hbase v v1 sel al h1 s hs
  · rename_i type left right onCond
    unfold processJoin at h
    split at h
    · simp [badRequest] at h
    · obtain ⟨v1, h1, h⟩ := bind_ok_inv _ _ _ h
      obtain ⟨jr, h2, h⟩ := bind_ok_inv _ _ _ h
      simp only [fromSubqueries, List.mem_append] at hs
      rcases hs with hs | hs
      · exact hleft v v1 left h1 s hs
      · have hc := processJoinLeft_ctesOf v.availableCTEs tn v v1 left rfl h1
        rw [← hc]
        exact hright v1 jr right h2 s hs
  · simp [fromSubqueries, tableSubquery] at hs

theorem translateSetOps_nested (tn : GoMap String → SelectStatement → Res String)
    (ctes : GoMap String) :
    ∀ (ops : List SetOp) (res out : String), translateSetOps tn ctes res ops = .ok out →
      ∀ op ∈ ops, ∃ s q, op.select = some s ∧ tn ctes s = .ok q := by
  intro ops
  induction ops with
  | nil => intro _ _ _ op hop; cases hop
  | cons o rest ih =>
    intro res out h op hop
    obtain ⟨operator, all, select⟩ := o
    unfold translateSetOps at h
    split at h
    · simp [badRequest] at h
    · split at h
      · simp [badRequest] at h
      · split at h
        · simp [badRequest] at h
        · rename_i sel
          obtain ⟨rhs, hr, h⟩ := bind_ok_inv _ _ _ h
          rcases List.mem_cons.mp hop with hop | hop
          · subst hop
            exact ⟨sel, rhs, rfl, hr⟩
          · exact ih _ _ h op hop

theorem withoutSetOps_of_nil (stmt : SelectStatement) (h : stmt.setOps = []) :
    stmt.withoutSetOps = stmt := by
  cases stmt
  simp only [SelectStatement.setOps] at h
  subst h
  rfl

theorem withoutSetOps_withClause (stmt : SelectStatement) :
    stmt.withoutSetOps.withClause = stmt.withClause := by
  cases stmt; rfl

theorem withoutSetOps_fromClause_eq (stmt : SelectStatement) :
    stmt.withoutSetOps.fromClause = stmt.fromClause := by
  cases stmt; rfl

/-- The CTE scope of one select, for any translation of nested selects: the
map of the translator is the one its own WITH clause registered, and every
nested select is translated with the map of the translator at that point. -/
theorem translateSelect_cte_scope (tn : GoMap String → SelectStatement → Res String)
    (v0 : Visitor) (stmt : SelectStatement) (out : String)
    (h : translateSelect tn v0 stmt = .ok out) :
    ∃ own r,
      registerCTEs tn v0.availableCTEs (withCTEs stmt.withClause) = .ok own ∧
      (∀ k, v0.availableCTEs.has k = true → own.get k = v0.availableCTEs.get k) ∧
      (∀ k, own.has k = true ↔
        (v0.availableCTEs.has k = true ∨ k ∈ (withCTEs stmt.withClause).map cteName)) ∧
      (∀ pre c post, withCTEs stmt.withClause = pre ++ c :: post →
        ∃ mid parts s q, registerCTEs tn v0.availableCTEs pre = .ok mid ∧
          c = .mk (some parts) (some s) ∧ tn mid s = .ok q ∧
          (∀ k, v0.availableCTEs.has k = true → mid.get k = v0.availableCTEs.get k) ∧
          (∀ k, mid.has k = true ↔ (v0.availableCTEs.has k = true ∨ k ∈ pre.map cteName))) ∧
      (∀ s ∈ fromSubqueries stmt.fromClause, ∃ q, tn own s = .ok q) ∧
      translateSimpleSelect tn v0 stmt.withoutSetOps = .ok r ∧ r.2.availableCTEs = own ∧
      (∀ op ∈ stmt.setOps, ∃ s q, op.select = some s ∧ tn own s = .ok q) ∧
      translateSetOps tn own r.1 stmt.setOps = .ok out := by
  have key : ∃ r, translateSimpleSelect tn v0 stmt.withoutSetOps = .ok r ∧
      translateSetOps tn r.2.availableCTEs r.1 stmt.setOps = .ok out := by
    unfold translateSelect at h
    split at h
    · rename_i hl
      have hs : stmt.setOps = [] := List.length_eq_zero.mp (by simpa using hl)
      obtain ⟨r, hr, h⟩ := bind_ok_inv _ _ _ h
      refine ⟨r, by rw [withoutSetOps_of_nil stmt hs]; exact hr, ?_⟩
      rw [hs]
      exact h
    · obtain ⟨r, hr, h⟩ := bind_ok_inv _ _ _ h
      exact ⟨r, hr, h⟩
  obtain ⟨r, hr, hops⟩ := key
  have hw := translateSimpleSelect_ctes tn v0 _ r hr
  rw [withoutSetOps_withClause] at hw
  have hreg := registerWith_eq tn _ _ _ hw
  obtain ⟨hf1, hf2⟩ := registerCTEs_frame tn _ _ _ hreg
  refine ⟨r.2.availableCTEs, r, hreg, hf1, hf2, ?_, ?_, hr, rfl,
    translateSetOps_nested tn _ _ _ _ hops, hops⟩
  · intro pre c post hsplit
    rw [hsplit] at hreg
    obtain ⟨mid, parts, s, q, h1, h2, h3⟩ := registerCTEs_bodies tn pre _ _ c post hreg
    obtain ⟨hm1, hm2⟩ := registerCTEs_frame tn _ _ _ h1
    exact ⟨mid, parts, s, q, h1, h2, h3, hm1, hm2⟩
  · intro s hs
    have hr2 := hr
    unfold translateSimpleSelect at hr2
    obtain ⟨ctes, hw2, hr2⟩ := bind_ok_inv _ _ _ hr2
    rw [withoutSetOps_withClause, hw] at hw2
    injection hw2 with hw2
    split at hr2
    · cases hr2
    · obtain ⟨fr, hfr, _⟩ := bind_ok_inv _ _ _ hr2
      rw [withoutSetOps_fromClause_eq] at hfr
      obtain ⟨q, hq⟩ := processFrom_nested tn _ _ fr hfr s hs
      refine ⟨q, ?_⟩
      rw [hw2]
      exact hq

/-- C32: in a successful translation of a select whose translator inherited
the map `ctes`, the translator's map `own` is the one registered by the
select's own WITH clause: it keeps every inherited entry and gains exactly
the names of its own CTEs, whatever the nested selects declare.  The body of
each CTE is translated by a fresh translator that inherits the map holding
the inherited entries and the earlier CTEs of the same WITH; every FROM or
JOIN subquery and every UNION right-hand side is translated by a fresh
translator that inherits `own`; and the translator's map is still `own` at the
end of the select. -/
theorem nested_selects_keep_cte_scope (sp : Provider) (ctes : GoMap String)
    (stmt : SelectStatement) (out : String)
    (h : translateNestedSelect sp ctes stmt = .ok out) :
    (newVisitor sp ctes).availableCTEs = ctes ∧
    ∃ own r,
      registerCTEs (translateNestedSelect sp) ctes (withCTEs stmt.withClause) = .ok own ∧
      (∀ k, ctes.has k = true → own.get k = ctes.get k) ∧
      (∀ k, own.has k = true ↔ (ctes.has k = true ∨ k ∈ (withCTEs stmt.withClause).map cteName)) ∧
      (∀ pre c post, withCTEs stmt.withClause = pre ++ c :: post →
        ∃ mid parts s q, registerCTEs (translateNestedSelect sp) ctes pre = .ok mid ∧
          c = .mk (some parts) (some s) ∧ translateNestedSelect sp mid s = .ok q ∧
          (∀ k, ctes.has k = true → mid.get k = ctes.get k) ∧
          (∀ k, mid.has k = true ↔ (ctes.has k = true ∨ k ∈ pre.map cteName))) ∧
      (∀ s ∈ fromSubqueries stmt.fromClause, ∃ q, translateNestedSelect sp own s = .ok q) ∧
      translateSimpleSelect (translateNestedSelect sp) (newVisitor sp ctes)
        stmt.withoutSetOps = .ok r ∧
      r.2.availableCTEs = own ∧
      (∀ op ∈ stmt.setOps, ∃ s q, op.select = some s ∧ translateNestedSelect sp own s = .ok q) ∧
      translateSetOps (translateNestedSelect sp) own r.1 stmt.setOps = .ok out := by
  refine ⟨rfl, ?_⟩
  unfold translateNestedSelect at h
  rw [translate_select_eq] at h
  exact translateSelect_cte_scope (translateNestedSelect sp) (newVisitor sp ctes) stmt out h

set_option maxRecDepth 8000 in
theorem nested_selects_keep_cte_scope_witness :
    translateNestedSelect exampleProvider [] chainedCTEs = .ok "lvl:err" ∧
    registerCTEs (translateNestedSelect exampleProvider) [] (withCTEs chainedCTEs.withClause) =
      .ok [("c1", "lvl:err"), ("c2", "lvl:err")] ∧
    translateSelectStatementToLogsQL (some (.select leakedCTE)) exampleProvider =
      badRequest ("translator: failed to translate CTE c2: translator: table \"inner1\" is " ++
        "not configured (available: a, b, f, logs, p, t)") ∧
    translateSelectStatementToLogsQL (some (.select leakedToUnion)) exampleProvider =
      .error (.translation 404
        "translator: table \"inner1\" is not configured (available: a, b, f, logs, p, t)") ∧
    ((newVisitor exampleProvider []).availableCTEs = [] ∧
    ∃ own r,
      registerCTEs (translateNestedSelect exampleProvider) [] (withCTEs chainedCTEs.withClause) =
        .ok own ∧
      (∀ k, GoMap.has ([] : GoMap String) k = true → own.get k = GoMap.get [] k) ∧
      (∀ k, own.has k = true ↔
        (GoMap.has ([] : GoMap String) k = true ∨
          k ∈ (withCTEs chainedCTEs.withClause).map cteName)) ∧
      (∀ pre c post, withCTEs chainedCTEs.withClause = pre ++ c :: post →
        ∃ mid parts s q, registerCTEs (translateNestedSelect exampleProvider) [] pre = .ok mid ∧
          c = .mk (some parts) (some s) ∧ translateNestedSelect exampleProvider mid s = .ok q ∧
          (∀ k, GoMap.has ([] : GoMap String) k = true → mid.get k = GoMap.get [] k) ∧
          (∀ k, mid.has k = true ↔
            (GoMap.has ([] : GoMap String) k = true ∨ k ∈ pre.map cteName))) ∧
      (∀ s ∈ fromSubqueries chainedCTEs.fromClause,
        ∃ q, translateNestedSelect exampleProvider own s = .ok q) ∧
      translateSimpleSelect (translateNestedSelect exampleProvider)
        (newVisitor exampleProvider []) chainedCTEs.withoutSetOps = .ok r ∧
      r.2.availableCTEs = own ∧
      (∀ op ∈ chainedCTEs.setOps,
        ∃ s q, op.select = some s ∧ translateNestedSelect exampleProvider own s = .ok q) ∧
      translateSetOps (translateNestedSelect exampleProvider) own r.1 chainedCTEs.setOps =
        .ok "lvl:err") :=
  ⟨by decide, by decide, by decide, by decide,
   nested_selects_keep_cte_scope exampleProvider [] chainedCTEs "lvl:err" (by decide)⟩

/-! ## Aggregate keys and the lookup of aggregates (C33) -/

theorem ensureConstantField_bindings (v : Visitor) (value : String) (r : String × String × Visitor)
    (h : ensureConstantField v value = .ok r) : r.2.2.bindings = v.bindings := by
  unfold ensureConstantField at h
  repeat' split at h
  all_goals first
    | (cases h; done)
    | (injection h with h; rw [← h])

theorem analyzeAggregateArg_bindings (v : Visitor) (name : String) (args : List Expr)
    (r : String × String × List String × Visitor)
    (h : analyzeAggregateArg v name args = .ok r) : r.2.2.2.bindings = v.bindings := by
  unfold analyzeAggregateArg at h
  repeat' split at h
  all_goals first
    | (cases h; done)
    | (injection h with h; rw [← h])
    | (obtain ⟨a, ha, h⟩ := bind_ok_inv _ _ _ h
       injection h with h
       rw [← h]
       try exact (ensureConstantField_bindings _ _ _ ha :))

theorem analyzeAggregate_bindings (v : Visitor) (fnName : List String) (args : List Expr)
    (d : Bool) (al : String) (r : AggItem × Visitor)
    (h : analyzeAggregate v fnName args d al = .ok r) : r.2.bindings = v.bindings := by
  unfold analyzeAggregate at h
  repeat' split at h
  all_goals first
    | cases h
    | (obtain ⟨a, ha, h⟩ := bind_ok_inv _ _ _ h
       have ha2 := analyzeAggregateArg_bindings _ _ _ _ ha
       dsimp only at h
       repeat' split at h
       all_goals
         injection h with h
         rw [← h]
         exact ha2)

theorem windowFunctionArg_bindings (v : Visitor) (name : String) (args : List Expr)
    (r : String × String × String × Visitor)
    (h : windowFunctionArg v name args = .ok r) : r.2.2.2.bindings = v.bindings := by
  unfold windowFunctionArg at h
  repeat' split at h
  all_goals first
    | (cases h; done)
    | (injection h with h; rw [← h])
    | (obtain ⟨a, ha, h⟩ := bind_ok_inv _ _ _ h
       first
         | (injection h with h
            rw [← h]
            try exact (ensureConstantField_bindings _ _ _ ha :))
         | (try dsimp only at h
            first
              | cases h
              | (obtain ⟨b, hb, h⟩ := bind_ok_inv _ _ _ h
                 injection h with h
                 rw [← h]
                 try exact (ensureConstantField_bindings _ _ _ hb :))))

theorem translateWindowFunction_bindings (v : Visitor) (fnName : List String) (args : List Expr)
    (d : Bool) (over : Option (List Expr × List (Expr × Direction))) (al : String)
    (r : List String × String × Visitor)
    (h : translateWindowFunction v fnName args d over al = .ok r) :
    r.2.2.bindings = v.bindings := by
  unfold translateWindowFunction at h
  cases over with
  | none => cases h
  | some ov =>
    obtain ⟨pb, ob⟩ := ov
    dsimp only at h
    split at h
    · cases h
    · split at h
      · cases h
      · obtain ⟨a, ha, h⟩ := bind_ok_inv _ _ _ h
        have ha2 := windowFunctionArg_bindings _ _ _ _ ha
        obtain ⟨b, _, h⟩ := bind_ok_inv _ _ _ h
        repeat' first
          | (obtain ⟨_, _, h⟩ := bind_ok_inv _ _ _ h)
          | split at h
          | (injection h with h; rw [← h]; exact ha2)

theorem projectColumn_bindings (v : Visitor) (aggregated : Bool) (acc : ProjectionAcc)
    (col : SelectItem) (r : ProjectionAcc × Visitor)
    (h : projectColumn v aggregated acc col = .ok r) : r.2.bindings = v.bindings := by
  unfold projectColumn at h
  dsimp only at h
  repeat' split at h
  all_goals first
    | (cases h; done)
    | (injection h with h; rw [← h])
    | (obtain ⟨a, ha, h⟩ := bind_ok_inv _ _ _ h
       first
         | (injection h with h
            rw [← h]
            try exact (translateWindowFunction_bindings _ _ _ _ _ _ _ ha :))
         | (try dsimp only at h
            repeat' split at h
            all_goals first
              | (cases h; done)
              | (injection h with h; rw [← h])))

theorem projectColumns_bindings (aggregated : Bool) (cols : List SelectItem) :
    ∀ (v : Visitor) (acc : ProjectionAcc) (r : ProjectionAcc × Visitor),
      projectColumns aggregated v acc cols = .ok r → r.2.bindings = v.bindings := by
  induction cols with
  | nil =>
    intro v acc r h
    injection h with h
    rw [← h]
  | cons col rest ih =>
    intro v acc r h
    unfold projectColumns at h
    obtain ⟨a, ha, h⟩ := bind_ok_inv _ _ _ h
    rw [ih _ _ _ h, projectColumn_bindings _ _ _ _ _ ha]

theorem buildProjectionPipes_bindings (v : Visitor) (cols : List SelectItem) (aggregated : Bool)
    (r : List String × List String × Visitor)
    (h : buildProjectionPipes v cols aggregated = .ok r) :
    r.2.2.bindings = v.bindings := by
  unfold buildProjectionPipes at h
  split at h
  · injection h with h
    rw [← h]
  · obtain ⟨a, ha, h⟩ := bind_ok_inv _ _ _ h
    injection h with h
    rw [← h]
    exact projectColumns_bindings _ _ _ _ _ ha

theorem statsColumnsLoop_bindings (hasGroup : Bool) (ncols : Nat) (gf : List String)
    (cols : List SelectItem) :
    ∀ (v : Visitor) (aggs : List AggItem) (r : List AggItem × Visitor),
      statsColumnsLoop hasGroup ncols gf v aggs cols = .ok (some r) →
      r.2.bindings = v.bindings := by
  induction cols with
  | nil =>
    intro v aggs r h
    simp only [statsColumnsLoop, Except.ok.injEq, Option.some.injEq] at h
    rw [← h]
  | cons col rest ih =>
    intro v aggs r h
    unfold statsColumnsLoop at h
    dsimp only at h
    repeat' split at h
    all_goals first
      | cases h
      | exact ih _ _ _ h
      | (obtain ⟨a, ha, h⟩ := bind_ok_inv _ _ _ h
         first
           | exact ih _ _ _ h
           | (rw [ih _ _ _ h]; exact (analyzeAggregate_bindings _ _ _ _ _ _ ha :))
           | (repeat' split at h
              all_goals first
                | cases h
                | exact ih _ _ _ h))

theorem collectAggregatesLoop_bindings (es : List Expr) :
    ∀ (v : Visitor) (aggs : List AggItem) (r : List AggItem × Visitor),
      collectAggregatesLoop v aggs es = .ok r → r.2.bindings = v.bindings := by
  induction es with
  | nil =>
    intro v aggs r h
    simp only [collectAggregatesLoop, Except.ok.injEq] at h
    rw [← h]
  | cons e rest ih =>
    intro v aggs r h
    cases e
    case funcCall fnName args d o =>
      simp only [collectAggregatesLoop] at h
      repeat' split at h
      all_goals first
        | cases h
        | exact ih _ _ _ h
        | (obtain ⟨a, ha, h⟩ := bind_ok_inv _ _ _ h
           rw [ih _ _ _ h]
           exact (analyzeAggregate_bindings _ _ _ _ _ _ ha :))
    all_goals
      simp only [collectAggregatesLoop] at h
      exact ih _ _ _ h

theorem buildStatsPipe_bindings (v : Visitor) (stmt : SelectStatement) (having : Option Expr)
    (r : List String × Bool × Visitor) (h : buildStatsPipe v stmt having = .ok r) :
    r.2.2.bindings = v.bindings := by
  unfold buildStatsPipe at h
  obtain ⟨g, _, h⟩ := bind_ok_inv _ _ _ h
  obtain ⟨cols, hc, h⟩ := bind_ok_inv _ _ _ h
  cases cols with
  | none =>
    simp only [statsAfterColumns, Except.ok.injEq] at h
    rw [← h]
  | some c =>
    have hc2 := statsColumnsLoop_bindings _ _ _ _ _ _ _ hc
    simp only [statsAfterColumns] at h
    obtain ⟨a, ha, h⟩ := bind_ok_inv _ _ _ h
    have ha2 : a.2.bindings = c.2.bindings := by
      cases having with
      | none =>
        simp only [havingAggregates, Except.ok.injEq] at ha
        rw [← ha]
      | some hx => exact collectAggregatesLoop_bindings _ _ _ _ ha
    unfold finishStatsPipe at h
    repeat' split at h
    all_goals first
      | (cases h; done)
      | (injection h with h
         rw [← h]
         exact ha2.trans hc2)

theorem preserveOrderByAggregates_bindings (items : List OrderItem) :
    ∀ (v r : Visitor), preserveOrderByAggregates v items = .ok r →
      r.bindings = v.bindings := by
  induction items with
  | nil =>
    intro v r h
    simp only [preserveOrderByAggregates, Except.ok.injEq] at h
    rw [← h]
  | cons item rest ih =>
    intro v r h
    unfold preserveOrderByAggregates at h
    repeat' split at h
    all_goals first
      | cases h
      | exact ih _ _ h
      | (obtain ⟨a, ha, h⟩ := bind_ok_inv _ _ _ h
         rw [ih _ _ h]
         rfl)

theorem ensureFilterFunctionAlias_bindings (c : GoMap Bool) (v : Visitor) (fn : Expr)
    (fnName : List String) (args : List Expr) (r : String × Visitor)
    (hi : v.bindings = c) (h : ensureFilterFunctionAlias v fn fnName args = .ok r) :
    r.2.bindings = c := by
  unfold ensureFilterFunctionAlias at h
  repeat' first
    | split at h
    | (injection h with h; rw [← h]; dsimp only; exact hi)
    | cases h
    | dsimp only at h

theorem translateExpr_bindings (e : Expr) (v : Visitor) (r : String × Visitor)
    (h : translateExpr v e = .ok r) : r.2.bindings = v.bindings :=
  translateExpr_preserves (fun w => w.bindings = v.bindings)
    (fun w fn fnName args r2 hi h2 => ensureFilterFunctionAlias_bindings _ w fn fnName args r2 hi h2)
    e v r rfl h

theorem translateHaving_bindings (v : Visitor) (having : Option Expr) (orderBy : List OrderItem)
    (aggregated : Bool) (r : List String × Visitor)
    (h : translateHaving v having orderBy aggregated = .ok r) :
    r.2.bindings = v.bindings := by
  unfold translateHaving at h
  cases having with
  | none =>
    simp only [Except.ok.injEq] at h
    rw [← h]
  | some hx =>
    dsimp only at h
    split at h
    · cases h
    · obtain ⟨hs, hhs, h⟩ := bind_ok_inv _ _ _ h
      have h1 := translateExpr_bindings _ _ _ hhs
      split at h
      · obtain ⟨v2, hv2, h⟩ := bind_ok_inv _ _ _ h
        have h2 := preserveOrderByAggregates_bindings _ _ _ hv2
        split at h
        all_goals
          injection h with h
          rw [← h]
          exact h2.trans h1
      · injection h with h
        rw [← h]
        exact h1

theorem ensureConstantField_aggResults (v : Visitor) (value : String) (r : String × String × Visitor)
    (h : ensureConstantField v value = .ok r) : r.2.2.aggResults = v.aggResults := by
  unfold ensureConstantField at h
  repeat' split at h
  all_goals first
    | (cases h; done)
    | (injection h with h; rw [← h])

theorem windowFunctionArg_aggResults (v : Visitor) (name : String) (args : List Expr)
    (r : String × String × String × Visitor)
    (h : windowFunctionArg v name args = .ok r) : r.2.2.2.aggResults = v.aggResults := by
  unfold windowFunctionArg at h
  repeat' split at h
  all_goals first
    | (cases h; done)
    | (injection h with h; rw [← h])
    | (obtain ⟨a, ha, h⟩ := bind_ok_inv _ _ _ h
       first
         | (injection h with h
            rw [← h]
            try exact (ensureConstantField_aggResults _ _ _ ha :))
         | (try dsimp only at h
            first
              | cases h
              | (obtain ⟨b, hb, h⟩ := bind_ok_inv _ _ _ h
                 injection h with h
                 rw [← h]
                 try exact (ensureConstantField_aggResults _ _ _ hb :))))

theorem translateWindowFunction_aggResults (v : Visitor) (fnName : List String) (args : List Expr)
    (d : Bool) (over : Option (List Expr × List (Expr × Direction))) (al : String)
    (r : List String × String × Visitor)
    (h : translateWindowFunction v fnName args d over al = .ok r) :
    r.2.2.aggResults = v.aggResults := by
  unfold translateWindowFunction at h
  cases over with
  | none => cases h
  | some ov =>
    obtain ⟨pb, ob⟩ := ov
    dsimp only at h
    split at h
    · cases h
    · split at h
      · cases h
      · obtain ⟨a, ha, h⟩ := bind_ok_inv _ _ _ h
        have ha2 := windowFunctionArg_aggResults _ _ _ _ ha
        obtain ⟨b, _, h⟩ := bind_ok_inv _ _ _ h
        repeat' first
          | (obtain ⟨_, _, h⟩ := bind_ok_inv _ _ _ h)
          | split at h
          | (injection h with h; rw [← h]; exact ha2)

theorem projectColumn_aggResults (v : Visitor) (aggregated : Bool) (acc : ProjectionAcc)
    (col : SelectItem) (r : ProjectionAcc × Visitor)
    (h : projectColumn v aggregated acc col = .ok r) : r.2.aggResults = v.aggResults := by
  unfold projectColumn at h
  dsimp only at h
  repeat' split at h
  all_goals first
    | (cases h; done)
    | (injection h with h; rw [← h])
    | (obtain ⟨a, ha, h⟩ := bind_ok_inv _ _ _ h
       first
         | (injection h with h
            rw [← h]
            try exact (translateWindowFunction_aggResults _ _ _ _ _ _ _ ha :))
         | (try dsimp only at h
            repeat' split at h
            all_goals first
              | (cases h; done)
              | (injection h with h; rw [← h])))

theorem projectColumns_aggResults (aggregated : Bool) (cols : List SelectItem) :
    ∀ (v : Visitor) (acc : ProjectionAcc) (r : ProjectionAcc × Visitor),
      projectColumns aggregated v acc cols = .ok r → r.2.aggResults = v.aggResults := by
  induction cols with
  | nil =>
    intro v acc r h
    injection h with h
    rw [← h]
  | cons col rest ih =>
    intro v acc r h
    unfold projectColumns at h
    obtain ⟨a, ha, h⟩ := bind_ok_inv _ _ _ h
    rw [ih _ _ _ h, projectColumn_aggResults _ _ _ _ _ ha]

theorem buildProjectionPipes_aggResults (v : Visitor) (cols : List SelectItem) (aggregated : Bool)
    (r : List String × List String × Visitor)
    (h : buildProjectionPipes v cols aggregated = .ok r) :
    r.2.2.aggResults = v.aggResults := by
  unfold buildProjectionPipes at h
  split at h
  · injection h with h
    rw [← h]
  · obtain ⟨a, ha, h⟩ := bind_ok_inv _ _ _ h
    injection h with h
    rw [← h]
    exact projectColumns_aggResults _ _ _ _ _ ha

theorem preserveOrderByAggregates_aggResults (items : List OrderItem) :
    ∀ (v r : Visitor), preserveOrderByAggregates v items = .ok r →
      r.aggResults = v.aggResults := by
  induction items with
  | nil =>
    intro v r h
    simp only [preserveOrderByAggregates, Except.ok.injEq] at h
    rw [← h]
  | cons item rest ih =>
    intro v r h
    unfold preserveOrderByAggregates at h
    repeat' split at h
    all_goals first
      | cases h
      | exact ih _ _ h
      | (obtain ⟨a, ha, h⟩ := bind_ok_inv _ _ _ h
         rw [ih _ _ h]
         rfl)

theorem ensureFilterFunctionAlias_aggResults (c : Option (GoMap String)) (v : Visitor) (fn : Expr)
    (fnName : List String) (args : List Expr) (r : String × Visitor)
    (hi : v.aggResults = c) (h : ensureFilterFunctionAlias v fn fnName args = .ok r) :
    r.2.aggResults = c := by
  unfold ensureFilterFunctionAlias at h
  repeat' first
    | split at h
    | (injection h with h; rw [← h]; dsimp only; exact hi)
    | cases h
    | dsimp only at h

theorem translateExpr_aggResults (e : Expr) (v : Visitor) (r : String × Visitor)
    (h : translateExpr v e = .ok r) : r.2.aggResults = v.aggResults :=
  translateExpr_preserves (fun w => w.aggResults = v.aggResults)
    (fun w fn fnName args r2 hi h2 => ensureFilterFunctionAlias_aggResults _ w fn fnName args r2 hi h2)
    e v r rfl h

theorem translateHaving_aggResults (v : Visitor) (having : Option Expr) (orderBy : List OrderItem)
    (aggregated : Bool) (r : List String × Visitor)
    (h : translateHaving v having orderBy aggregated = .ok r) :
    r.2.aggResults = v.aggResults := by
  unfold translateHaving at h
  cases having with
  | none =>
    simp only [Except.ok.injEq] at h
    rw [← h]
  | some hx =>
    dsimp only at h
    split at h
    · cases h
    · obtain ⟨hs, hhs, h⟩ := bind_ok_inv _ _ _ h
      have h1 := translateExpr_aggResults _ _ _ hhs
      split at h
      · obtain ⟨v2, hv2, h⟩ := bind_ok_inv _ _ _ h
        have h2 := preserveOrderByAggregates_aggResults _ _ _ hv2
        split at h
        all_goals
          injection h with h
          rw [← h]
          exact h2.trans h1
      · injection h with h
        rw [← h]
        exact h1

theorem normalizeIdentifier_bindings_eq (v w : Visitor) (parts : List String)
    (h : w.bindings = v.bindings) : normalizeIdentifier w parts = normalizeIdentifier v parts := by
  unfold normalizeIdentifier stripQualifier
  rw [h]

theorem aggregateKeyFromFunc_bindings_eq (v w : Visitor) (fnName : List String)
    (args : List Expr) (h : w.bindings = v.bindings) :
    aggregateKeyFromFunc w fnName args = aggregateKeyFromFunc v fnName args := by
  unfold aggregateKeyFromFunc
  simp only [normalizeIdentifier_bindings_eq v w _ h]

/-- The key computed by `analyzeAggregate` is the key that
`aggregateKeyFromFunc` computes for the same call. -/
theorem analyzeAggregate_key (v : Visitor) (fnName : List String) (args : List Expr)
    (d : Bool) (al : String) (r : AggItem × Visitor)
    (h : analyzeAggregate v fnName args d al = .ok r) :
    aggregateKeyFromFunc v fnName args = .ok r.1.key := by
  unfold analyzeAggregate at h
  split at h
  · cases h
  · split at h
    · cases h
    · rename_i hne
      obtain ⟨a, ha, h⟩ := bind_ok_inv _ _ _ h
      have hkey : r.1.key = aggregateKey (toUpper (lastPart fnName)) a.1 := by
        dsimp only at h
        split at h <;> (injection h with h; rw [← h])
      rw [hkey]
      have hne2 : fnName.isEmpty = false := by simpa using hne
      unfold aggregateKeyFromFunc
      simp only [hne2, Bool.false_eq_true, if_false]
      unfold analyzeAggregateArg at ha
      dsimp only at ha ⊢
      split at ha
      · rename_i hc
        simp only [hc, if_true]
        split at ha
        · injection ha with ha; rw [← ha]
        · injection ha with ha; rw [← ha]
        · obtain ⟨f, hf, ha⟩ := bind_ok_inv _ _ _ ha
          injection ha with ha
          rw [← ha, hf]
          rfl
        · obtain ⟨c, hc2, ha⟩ := bind_ok_inv _ _ _ ha
          injection ha with ha
          rw [← ha]
        · cases ha
        · cases ha
      · rename_i hc
        simp only [hc, Bool.false_eq_true, if_false]
        split at ha
        · rename_i hs
          simp only [hs, if_true]
          split at ha
          · obtain ⟨f, hf, ha⟩ := bind_ok_inv _ _ _ ha
            injection ha with ha
            rw [← ha, hf]
            rfl
          · obtain ⟨c, hc2, ha⟩ := bind_ok_inv _ _ _ ha
            injection ha with ha
            rw [← ha]
          · cases ha
          · cases ha
        · cases ha

theorem analyzeCalls_keys : ∀ (calls : List AggCall) (v : Visitor) (items : List AggItem)
    (v1 : Visitor), analyzeCalls v calls = .ok (items, v1) →
    v1.bindings = v.bindings ∧
    ∀ c ∈ calls, ∃ k, aggregateKeyFromFunc v c.fnName c.args = .ok k ∧ k ∈ items.map (·.key) := by
  intro calls
  induction calls with
  | nil =>
    intro v items v1 h
    simp only [analyzeCalls, Except.ok.injEq, Prod.mk.injEq] at h
    exact ⟨by rw [h.2], fun c hc => by cases hc⟩
  | cons c rest ih =>
    intro v items v1 h
    unfold analyzeCalls at h
    obtain ⟨r, hr, h⟩ := bind_ok_inv _ _ _ h
    obtain ⟨rs, hrs, h⟩ := bind_ok_inv _ _ _ h
    simp only [Except.ok.injEq, Prod.mk.injEq] at h
    obtain ⟨h1, h2⟩ := h
    have hb := analyzeAggregate_bindings _ _ _ _ _ _ hr
    obtain ⟨ib, ik⟩ := ih r.2 rs.1 rs.2 (by rw [hrs])
    refine ⟨by rw [← h2, ib, hb], ?_⟩
    intro c2 hc2
    rcases List.mem_cons.mp hc2 with hc2 | hc2
    · subst hc2
      refine ⟨r.1.key, analyzeAggregate_key _ _ _ _ _ _ hr, ?_⟩
      rw [← h1]
      simp only [List.map_cons, List.mem_cons]
      left
      split <;> rfl
    · obtain ⟨k, hk1, hk2⟩ := ik c2 hc2
      refine ⟨k, ?_, ?_⟩
      · rw [← aggregateKeyFromFunc_bindings_eq v r.2 _ _ hb]
        exact hk1
      · rw [← h1]
        simp only [List.map_cons, List.mem_cons]
        exact Or.inr hk2

theorem aggResultsOf_has : ∀ (aggs : List AggItem) (m : GoMap String) (k : String),
    (m.has k = true ∨ k ∈ aggs.map (·.key)) → (aggResultsOf aggs m).has k = true := by
  intro aggs
  induction aggs with
  | nil =>
    intro m k h
    rcases h with h | h
    · exact h
    · cases h
  | cons a rest ih =>
    intro m k h
    unfold aggResultsOf
    apply ih
    rcases h with h | h
    · exact Or.inl (GoMap.has_set_of_has _ _ _ _ h)
    · simp only [List.map_cons, List.mem_cons] at h
      rcases h with h | h
      · left
        rw [h]
        exact GoMap.has_set_self _ _ _
      · exact Or.inr h

theorem GoMap.get_of_has {α : Type} (m : GoMap α) (k : String) (h : m.has k = true) :
    ∃ a, m.get k = some a := by
  unfold GoMap.has at h
  unfold GoMap.get
  exact Option.isSome_iff_exists.mp h

/-- After an aggregating `buildStatsPipe`, the alias bindings are those of the
start and `aggResults` has an entry under the key of every aggregate call of
the SELECT list and of HAVING. -/
theorem buildStatsPipe_collected (v : Visitor) (stmt : SelectStatement)
    (having : Option Expr) (pipes : List String) (v1 : Visitor)
    (h : buildStatsPipe v stmt having = .ok (pipes, true, v1)) :
    ∃ m, v1.aggResults = some m ∧ v1.bindings = v.bindings ∧
      ∀ c ∈ selectAggCalls stmt.columns ++ havingAggCalls having,
        ∃ k name, aggregateKeyFromFunc v c.fnName c.args = .ok k ∧ m.get k = some name := by
  have hbind := buildStatsPipe_bindings v stmt having _ h
  obtain ⟨g, cols, hg, hc, hs⟩ := buildStatsPipe_ok_inv v stmt having _ h
  cases cols with
  | none => simp [statsAfterColumns] at hs
  | some p =>
    obtain ⟨aggs0, v2⟩ := p
    simp only [statsAfterColumns] at hs
    obtain ⟨collected, hh, hs⟩ := bind_ok_inv _ _ _ hs
    obtain ⟨aggs, v3⟩ := collected
    obtain ⟨items1, a1, e1⟩ := statsColumnsLoop_calls _ _ _ _ _ _ _ _ hc
    obtain ⟨items2, a2, e2⟩ := havingAggregates_calls _ _ _ _ _ hh
    have hitems : analyzeCalls
        { v with groupExprAliases :=
                   if stmt.groupBy.length > 0 then some g.groupExprAliases else none }
        (selectAggCalls stmt.columns ++ havingAggCalls having) =
        .ok (items1 ++ items2, v3) := by
      rw [analyzeCalls_append]
      rw [a1]
      simp only [bind_ok_eq]
      rw [a2]
      rfl
    have haggs : aggs = (items1 ++ items2).foldl addAggregate [] := by
      rw [List.foldl_append, ← e1, ← e2]
    obtain ⟨k1, _⟩ := foldl_addAggregate_maps (items1 ++ items2) []
    simp only [List.map_nil, List.nil_append] at k1
    obtain ⟨_, n2⟩ := firstOccurrences_keys (items1 ++ items2) [] List.nodup_nil
    simp only [List.nil_append, List.not_mem_nil, false_or] at n2
    obtain ⟨_, hkeys⟩ := analyzeCalls_keys _ _ _ _ hitems
    unfold finishStatsPipe at hs
    split at hs
    · split at hs
      · simp [badRequest] at hs
      · simp at hs
    · simp only [Except.ok.injEq, Prod.mk.injEq, true_and] at hs
      refine ⟨aggResultsOf aggs [], by rw [← hs.2], hbind, ?_⟩
      intro c hc2
      obtain ⟨k, hk1, hk2⟩ := hkeys c hc2
      have hk3 : k ∈ aggs.map (·.key) := by
        rw [haggs, k1, n2]
        exact hk2
      obtain ⟨name, hname⟩ := GoMap.get_of_has _ _ (aggResultsOf_has aggs [] k (Or.inr hk3))
      refine ⟨k, name, ?_, hname⟩
      rw [← hk1]
      exact (aggregateKeyFromFunc_bindings_eq _ _ _ _ rfl).symm

theorem mem_aggCallsOfNodes : ∀ (nodes : List Expr) (fnName : List String) (args : List Expr)
    (d : Bool) (o : Option (List Expr × List (Expr × Direction))),
    .funcCall fnName args d o ∈ nodes → isAggregateFunction fnName = true →
    ∃ c ∈ aggCallsOfNodes nodes, c.fnName = fnName ∧ c.args = args := by
  intro nodes
  induction nodes with
  | nil => intro _ _ _ _ h; cases h
  | cons e rest ih =>
    intro fnName args d o h hagg
    rcases List.mem_cons.mp h with h | h
    · subst h
      simp only [aggCallsOfNodes, hagg, if_true]
      exact ⟨_, List.mem_cons_self _ _, rfl, rfl⟩
    · obtain ⟨c, hc, h1, h2⟩ := ih fnName args d o h hagg
      refine ⟨c, ?_, h1, h2⟩
      cases e
      case funcCall fn2 args2 d2 o2 =>
        simp only [aggCallsOfNodes]
        split
        · exact List.mem_cons_of_mem _ hc
        · exact hc
      all_goals
        simp only [aggCallsOfNodes]
        exact hc

theorem mem_selectAggCalls : ∀ (cols : List SelectItem) (col : SelectItem)
    (fnName : List String) (args : List Expr) (d : Bool),
    col ∈ cols → col.expr = .funcCall fnName args d none → isAggregateFunction fnName = true →
    ∃ c ∈ selectAggCalls cols, c.fnName = fnName ∧ c.args = args := by
  intro cols
  induction cols with
  | nil => intro _ _ _ _ h; cases h
  | cons col0 rest ih =>
    intro col fnName args d h he hagg
    rcases List.mem_cons.mp h with h | h
    · subst h
      unfold selectAggCalls
      rw [he]
      simp only [hagg, if_true]
      exact ⟨_, List.mem_cons_self _ _, rfl, rfl⟩
    · obtain ⟨c, hc, h1, h2⟩ := ih col fnName args d h he hagg
      refine ⟨c, ?_, h1, h2⟩
      unfold selectAggCalls
      split
      · split
        · exact List.mem_cons_of_mem _ hc
        · exact hc
      · exact hc

/-- The lookup of an aggregate call whose key is in `aggResults`. -/
theorem aggregate_node_resolved (w : Visitor) (m : GoMap String) (fnName : List String)
    (args : List Expr) (d : Bool) (o : Option (List Expr × List (Expr × Direction)))
    (k name : String) (hw : w.aggResults = some m)
    (hk : aggregateKeyFromFunc w fnName args = .ok k) (hm : m.get k = some name)
    (hagg : isAggregateFunction fnName = true) :
    fieldNameFromExpr w (.funcCall fnName args d o) = .ok (formatFieldName name, true, w) ∧
    orderByField w true (.funcCall fnName args d o) = .ok name := by
  constructor
  · unfold fieldNameFromExpr
    simp only [hw, hagg, if_true, hk, bind_ok_eq, hm]
  · unfold orderByField
    simp only [Bool.not_true, Bool.false_eq_true, if_false, hk, bind_ok_eq, hw, Option.getD_some,
      hm]

theorem badRequest_ne_unknown {α : Type} (msg : String)
    (h : msg ≠ "translator: unknown aggregate referenced") :
    (badRequest msg : Res α) ≠ .error unknownAggregate := by
  intro he
  unfold badRequest unknownAggregate at he
  injection he with he
  injection he with _ he
  exact h he

theorem badRequest_append_ne_unknown {α : Type} (p x : String) (n : Nat)
    (hn : n ≤ p.data.length)
    (hp : p.data.take n ≠ "translator: unknown aggregate referenced".data.take n) :
    (badRequest (p ++ x) : Res α) ≠ .error unknownAggregate := by
  apply badRequest_ne_unknown
  intro he
  apply hp
  have h1 := congrArg (fun s => s.data.take n) he
  simp only [String.data_append] at h1
  rw [List.take_append_of_le_length hn] at h1
  exact h1

theorem normalizeIdentifier_ne_unknown (w : Visitor) (parts : List String) :
    normalizeIdentifier w parts ≠ .error unknownAggregate := by
  intro h
  unfold normalizeIdentifier at h
  split at h
  · exact badRequest_ne_unknown _ (by decide) h
  · dsimp only at h
    repeat' split at h
    all_goals first
      | cases h
      | exact badRequest_ne_unknown _ (by decide) h

theorem aggregateKeyFromFunc_ne_unknown (w : Visitor) (fnName : List String)
    (args : List Expr) : aggregateKeyFromFunc w fnName args ≠ .error unknownAggregate := by
  intro h
  unfold aggregateKeyFromFunc at h
  split at h
  · exact badRequest_ne_unknown _ (by decide) h
  · dsimp only at h
    split at h
    · split at h
      · cases h
      · cases h
      · rcases bind_error_inv _ _ _ h with h | ⟨_, _, h⟩
        · exact normalizeIdentifier_ne_unknown _ _ h
        · cases h
      · cases h
      · exact badRequest_ne_unknown _ (by decide) h
      · exact badRequest_ne_unknown _ (by decide) h
    · split at h
      · rename_i hs
        have hn : toUpper (lastPart fnName) = "SUM" ∨ toUpper (lastPart fnName) = "AVG" ∨
            toUpper (lastPart fnName) = "MIN" ∨ toUpper (lastPart fnName) = "MAX" := by
          simpa [or_assoc] using hs
        split at h
        · rcases bind_error_inv _ _ _ h with h | ⟨_, _, h⟩
          · exact normalizeIdentifier_ne_unknown _ _ h
          · cases h
        · cases h
        · rcases hn with hn | hn | hn | hn <;> rw [hn] at h <;>
            exact badRequest_ne_unknown _ (by decide) h
        · rcases hn with hn | hn | hn | hn <;> rw [hn] at h <;>
            exact badRequest_ne_unknown _ (by decide) h
      · exact badRequest_append_ne_unknown _ _ 15 (by decide) (by decide) h

theorem literalFromExpr_ne_unknown (e : Expr) : literalFromExpr e ≠ .error unknownAggregate := by
  intro h
  unfold literalFromExpr at h
  split at h
  all_goals first
    | cases h
    | exact badRequest_append_ne_unknown _ _ 15 (by decide) (by decide) h

theorem formatInList_ne_unknown : ∀ (l : List Expr), formatInList l ≠ .error unknownAggregate := by
  intro l
  induction l with
  | nil => intro h; cases h
  | cons e rest ih =>
    intro h
    unfold formatInList at h
    rcases bind_error_inv _ _ _ h with h | ⟨_, _, h⟩
    · exact literalFromExpr_ne_unknown _ h
    · rcases bind_error_inv _ _ _ h with h | ⟨_, _, h⟩
      · exact ih h
      · cases h

theorem convertLikePattern_ne_error (p : String) (err : Err) :
    convertLikePattern p ≠ .error err := by
  intro h
  unfold convertLikePattern at h
  dsimp only at h
  repeat' split at h
  all_goals cases h

theorem lookupGroupExpr_ne_unknown (w : Visitor) (e : Expr) :
    lookupGroupExpr w e ≠ .error unknownAggregate := by
  intro h
  unfold lookupGroupExpr at h
  repeat' split at h
  all_goals first
    | cases h
    | exact badRequest_append_ne_unknown _ _ 15 (by decide) (by decide) h

/-- A node that is not an aggregate call never makes `fieldNameFromExpr`
report an unknown aggregate in an aggregated query, and neither does an
aggregate call on which it succeeds. -/
theorem fieldNameFromExpr_ne_unknown (w : Visitor) (m : GoMap String) (node : Expr)
    (hw : w.aggResults = some m)
    (hnode : isAggregateCall node = true → ∃ r, fieldNameFromExpr w node = .ok r) :
    fieldNameFromExpr w node ≠ .error unknownAggregate := by
  intro h
  cases node
  case identifier parts =>
    unfold fieldNameFromExpr at h
    rcases bind_error_inv _ _ _ h with h | ⟨_, _, h⟩
    · exact normalizeIdentifier_ne_unknown _ _ h
    · cases h
  case funcCall fnName args d o =>
    by_cases hagg : isAggregateFunction fnName = true
    · obtain ⟨r, hr⟩ := hnode hagg
      rw [hr] at h
      cases h
    · unfold fieldNameFromExpr at h
      simp only [hw, hagg, Bool.false_eq_true, if_false] at h
      rcases bind_error_inv _ _ _ h with h | ⟨found, _, h⟩
      · exact lookupGroupExpr_ne_unknown _ _ h
      · split at h
        · cases h
        · rw [String.append_assoc] at h
          exact badRequest_append_ne_unknown _ _ 15 (by decide) (by decide) h
  all_goals
    unfold fieldNameFromExpr at h
    cases h

theorem aggScope_ensureFilterFunctionAlias (b : GoMap Bool) (m : GoMap String) :
    ∀ (v : Visitor) (fn : Expr) (fnName : List String) (args : List Expr) (r : String × Visitor),
      AggScope b m v → ensureFilterFunctionAlias v fn fnName args = .ok r → AggScope b m r.2 :=
  fun v fn fnName args r hi h =>
    ⟨ensureFilterFunctionAlias_bindings b v fn fnName args r hi.1 h,
     ensureFilterFunctionAlias_aggResults (some m) v fn fnName args r hi.2 h⟩

theorem filterFieldFromExpr_ne_unknown (w : Visitor) (e : Expr)
    (hn : fieldNameFromExpr w e ≠ .error unknownAggregate) :
    filterFieldFromExpr w e ≠ .error unknownAggregate := by
  intro h
  unfold filterFieldFromExpr at h
  rcases bind_error_inv _ _ _ h with h | ⟨r, _, h⟩
  · exact hn h
  · split at h
    · exact badRequest_append_ne_unknown _ _ 15 (by decide) (by decide) h
    · cases h

theorem buildFieldLiteralComparison_ne_unknown (field : String) (lit : LiteralValue)
    (flipped : Bool) (cmp : ComparisonKind) :
    buildFieldLiteralComparison field lit flipped cmp ≠ .error unknownAggregate := by
  intro h
  unfold buildFieldLiteralComparison at h
  repeat' split at h
  all_goals first
    | cases h
    | exact badRequest_ne_unknown _ (by decide) h

theorem translateFieldComparison_ne_error (l r : String) (cmp : ComparisonKind) (err : Err) :
    translateFieldComparison l r cmp ≠ .error err := by
  intro h
  unfold translateFieldComparison at h
  split at h <;> cases h

theorem translateComparison_ne_unknown (b : GoMap Bool) (m : GoMap String) (w : Visitor)
    (left right : Expr) (cmp : ComparisonKind) (hs : AggScope b m w)
    (hl : ∀ w2, AggScope b m w2 → fieldNameFromExpr w2 left ≠ .error unknownAggregate)
    (hr : ∀ w2, AggScope b m w2 → fieldNameFromExpr w2 right ≠ .error unknownAggregate) :
    translateComparison w left right cmp ≠ .error unknownAggregate := by
  intro h
  unfold translateComparison at h
  rcases bind_error_inv _ _ _ h with h | ⟨l, hlo, h⟩
  · exact hl w hs h
  · have hs2 := fieldNameFromExpr_preserves (AggScope b m)
      (aggScope_ensureFilterFunctionAlias b m) w left l hs hlo
    rcases bind_error_inv _ _ _ h with h | ⟨r, _, h⟩
    · exact hr _ hs2 h
    · dsimp only at h
      split at h
      · rcases bind_error_inv _ _ _ h with h | ⟨_, _, h⟩
        · exact translateFieldComparison_ne_error _ _ _ _ h
        · cases h
      · split at h
        · rcases bind_error_inv _ _ _ h with h | ⟨_, _, h⟩
          · exact literalFromExpr_ne_unknown _ h
          · rcases bind_error_inv _ _ _ h with h | ⟨_, _, h⟩
            · exact buildFieldLiteralComparison_ne_unknown _ _ _ _ h
            · cases h
        · split at h
          · rcases bind_error_inv _ _ _ h with h | ⟨_, _, h⟩
            · exact literalFromExpr_ne_unknown _ h
            · rcases bind_error_inv _ _ _ h with h | ⟨_, _, h⟩
              · exact buildFieldLiteralComparison_ne_unknown _ _ _ _ h
              · cases h
          · exact badRequest_ne_unknown _ (by decide) h

theorem walkExpr_self (e : Expr) : e ∈ walkExpr e := by
  obtain ⟨t, ht⟩ := walkExpr_head e
  rw [ht]
  exact List.mem_cons_self _ _

/-- In an aggregated query, the translation of an expression reports an
unknown aggregate only if `fieldNameFromExpr` does so on one of the nodes
visited by `walkExpr`. -/
theorem translateExpr_ne_unknown (b : GoMap Bool) (m : GoMap String) :
    ∀ (e : Expr) (w : Visitor), AggScope b m w →
    (∀ w2, AggScope b m w2 → ∀ node ∈ walkExpr e,
      fieldNameFromExpr w2 node ≠ .error unknownAggregate) →
    translateExpr w e ≠ .error unknownAggregate
  | .binaryExpr op left right, w, hs, hk => by
    have hkl : ∀ w2, AggScope b m w2 → ∀ node ∈ walkExpr left,
        fieldNameFromExpr w2 node ≠ .error unknownAggregate := fun w2 h2 node hn =>
      hk w2 h2 node (by
        simp only [walkExpr, List.mem_cons, List.mem_append]
        exact Or.inr (Or.inl hn))
    have hkr : ∀ w2, AggScope b m w2 → ∀ node ∈ walkExpr right,
        fieldNameFromExpr w2 node ≠ .error unknownAggregate := fun w2 h2 node hn =>
      hk w2 h2 node (by
        simp only [walkExpr, List.mem_cons, List.mem_append]
        exact Or.inr (Or.inr hn))
    intro h
    unfold translateExpr at h
    split at h
    · rcases bind_error_inv _ _ _ h with h | ⟨l, hl, h⟩
      · exact translateExpr_ne_unknown b m left w hs hkl h
      · have hs2 : AggScope b m l.2 := translateExpr_preserves (AggScope b m)
          (aggScope_ensureFilterFunctionAlias b m) left w l hs hl
        rcases bind_error_inv _ _ _ h with h | ⟨_, _, h⟩
        · exact translateExpr_ne_unknown b m right l.2 hs2 hkr h
        · cases h
    · repeat' split at h
      all_goals first
        | exact translateComparison_ne_unknown b m w left right _ hs
            (fun w2 h2 => hkl w2 h2 left (walkExpr_self left))
            (fun w2 h2 => hkr w2 h2 right (walkExpr_self right)) h
        | exact badRequest_append_ne_unknown _ _ 15 (by decide) (by decide) h
  | .unaryExpr op e, w, hs, hk => by
    intro h
    unfold translateExpr at h
    split at h
    · rcases bind_error_inv _ _ _ h with h | ⟨_, _, h⟩
      · exact translateExpr_ne_unknown b m e w hs (fun w2 h2 node hn =>
          hk w2 h2 node (by
            simp only [walkExpr, List.mem_cons]
            exact Or.inr hn)) h
      · cases h
    · exact badRequest_append_ne_unknown _ _ 15 (by decide) (by decide) h
  | .inExpr e list hasSubquery neg, w, hs, hk => by
    intro h
    unfold translateExpr translateInExpr at h
    split at h
    · exact badRequest_ne_unknown _ (by decide) h
    · rcases bind_error_inv _ _ _ h with h | ⟨_, _, h⟩
      · exact filterFieldFromExpr_ne_unknown w e (hk w hs e (by
          simp only [walkExpr, List.mem_cons, List.mem_append]
          exact Or.inr (Or.inl (Or.inl (walkExpr_self e))))) h
      · split at h
        · exact badRequest_ne_unknown _ (by decide) h
        · rcases bind_error_inv _ _ _ h with h | ⟨_, _, h⟩
          · exact formatInList_ne_unknown _ h
          · dsimp only at h
            split at h <;> cases h
  | .likeExpr e pattern neg, w, hs, hk => by
    intro h
    unfold translateExpr translateLikeExpr at h
    rcases bind_error_inv _ _ _ h with h | ⟨_, _, h⟩
    · exact filterFieldFromExpr_ne_unknown w e (hk w hs e (by
        simp only [walkExpr, List.mem_cons, List.mem_append]
        exact Or.inr (Or.inl (walkExpr_self e)))) h
    · rcases bind_error_inv _ _ _ h with h | ⟨_, _, h⟩
      · exact literalFromExpr_ne_unknown _ h
      · split at h
        · exact badRequest_ne_unknown _ (by decide) h
        · rcases bind_error_inv _ _ _ h with h | ⟨_, _, h⟩
          · exact convertLikePattern_ne_error _ _ h
          · dsimp only at h
            split at h <;> cases h
  | .isNullExpr e neg, w, hs, hk => by
    intro h
    unfold translateExpr translateIsNullExpr at h
    rcases bind_error_inv _ _ _ h with h | ⟨_, _, h⟩
    · exact filterFieldFromExpr_ne_unknown w e (hk w hs e (by
        simp only [walkExpr, List.mem_cons]
        exact Or.inr (walkExpr_self e))) h
    · split at h <;> cases h
  | .betweenExpr e lower upper neg, w, hs, hk => by
    intro h
    unfold translateExpr translateBetweenExpr at h
    rcases bind_error_inv _ _ _ h with h | ⟨_, _, h⟩
    · exact filterFieldFromExpr_ne_unknown w e (hk w hs e (by
        simp only [walkExpr, List.mem_cons, List.mem_append]
        exact Or.inr (Or.inl (Or.inl (walkExpr_self e))))) h
    · rcases bind_error_inv _ _ _ h with h | ⟨_, _, h⟩
      · exact literalFromExpr_ne_unknown _ h
      · rcases bind_error_inv _ _ _ h with h | ⟨_, _, h⟩
        · exact literalFromExpr_ne_unknown _ h
        · dsimp only at h
          split at h <;> cases h
  | .funcCall fnName args d o, w, hs, hk => by
    intro h
    unfold translateExpr at h
    simp only [hs.2] at h
    split at h
    · rename_i err herr
      injection h with h
      rw [h] at herr
      exact aggregateKeyFromFunc_ne_unknown _ _ _ herr
    · split at h
      · cases h
      · exact badRequest_ne_unknown _ (by decide) h
  | .identifier parts, w, hs, hk => by
    intro h
    unfold translateExpr at h
    rcases bind_error_inv _ _ _ h with h | ⟨_, _, h⟩
    · exact normalizeIdentifier_ne_unknown _ _ h
    · cases h
  | .stringLiteral value, w, hs, hk => by
    intro h
    unfold translateExpr at h
    cases h
  | .numericLiteral value, w, hs, hk => by
    intro h
    unfold translateExpr at h
    cases h
  | .booleanLiteral value, w, hs, hk => by
    intro h
    unfold translateExpr at h
    cases h
  | .nullLiteral, w, hs, hk => by
    intro h
    unfold translateExpr at h
    exact badRequest_ne_unknown _ (by decide) h
  | .starExpr, w, hs, hk => by
    intro h
    unfold translateExpr at h
    exact badRequest_append_ne_unknown _ _ 15 (by decide) (by decide) h
  | .other t, w, hs, hk => by
    intro h
    unfold translateExpr at h
    exact badRequest_append_ne_unknown _ _ 15 (by decide) (by decide) h

theorem preserveOrderByAggregates_ne_unknown : ∀ (items : List OrderItem) (w : Visitor),
    preserveOrderByAggregates w items ≠ .error unknownAggregate := by
  intro items
  induction items with
  | nil => intro w h; cases h
  | cons item rest ih =>
    intro w h
    unfold preserveOrderByAggregates at h
    repeat' split at h
    all_goals first
      | exact ih _ h
      | (rcases bind_error_inv _ _ _ h with h | ⟨_, _, h⟩
         · exact aggregateKeyFromFunc_ne_unknown _ _ _ h
         · exact ih _ h)

theorem translateHaving_ne_unknown (b : GoMap Bool) (m : GoMap String) (w : Visitor)
    (having : Option Expr) (orderBy : List OrderItem) (aggregated : Bool)
    (hs : AggScope b m w)
    (hk : ∀ hx, having = some hx → ∀ w2, AggScope b m w2 → ∀ node ∈ walkExpr hx,
      fieldNameFromExpr w2 node ≠ .error unknownAggregate) :
    translateHaving w having orderBy aggregated ≠ .error unknownAggregate := by
  intro h
  unfold translateHaving at h
  cases having with
  | none => cases h
  | some hx =>
    dsimp only at h
    split at h
    · exact badRequest_ne_unknown _ (by decide) h
    · rcases bind_error_inv _ _ _ h with h | ⟨_, _, h⟩
      · exact translateExpr_ne_unknown b m hx w hs (hk hx rfl) h
      · split at h
        · rcases bind_error_inv _ _ _ h with h | ⟨_, _, h⟩
          · exact preserveOrderByAggregates_ne_unknown _ _ h
          · split at h <;> cases h
        · cases h

/-- C33: `analyzeAggregate` and `aggregateKeyFromFunc` compute the same key.
After an aggregating `buildStatsPipe`, in every translator state `w` with the
alias bindings of the start and the `aggResults` map `m` of the stage (such
are the states in which HAVING and ORDER BY are translated): every aggregate
call of the SELECT list and every aggregate call visited in HAVING has its
key in `m`, so `fieldNameFromExpr` and the ORDER BY lookup succeed on it, and
the translation of HAVING never fails with `unknown aggregate referenced`. -/
theorem aggregate_keys_agree (v : Visitor) (stmt : SelectStatement) (having : Option Expr)
    (pipes : List String) (v1 : Visitor)
    (h : buildStatsPipe v stmt having = .ok (pipes, true, v1)) :
    (∀ w fnName args d al r, analyzeAggregate w fnName args d al = .ok r →
      aggregateKeyFromFunc w fnName args = .ok r.1.key) ∧
    ∃ m, AggScope v.bindings m v1 ∧
      (∀ w, AggScope v.bindings m w →
        (∀ col ∈ stmt.columns, ∀ fnName args d, col.expr = .funcCall fnName args d none →
          isAggregateFunction fnName = true →
          ∃ k name, aggregateKeyFromFunc w fnName args = .ok k ∧ m.get k = some name ∧
            orderByField w true col.expr = .ok name) ∧
        (∀ hx, having = some hx → ∀ fnName args d o,
          .funcCall fnName args d o ∈ walkExpr hx → isAggregateFunction fnName = true →
          ∃ k name, aggregateKeyFromFunc w fnName args = .ok k ∧ m.get k = some name ∧
            fieldNameFromExpr w (.funcCall fnName args d o) =
              .ok (formatFieldName name, true, w) ∧
            orderByField w true (.funcCall fnName args d o) = .ok name) ∧
        (∀ orderBy, translateHaving w having orderBy true ≠ .error unknownAggregate)) ∧
      (∀ orderBy hv, translateHaving v1 having orderBy true = .ok hv →
        AggScope v.bindings m hv.2 ∧
        ∀ pr, buildProjectionPipes hv.2 stmt.columns true = .ok pr →
          AggScope v.bindings m pr.2.2) := by
  refine ⟨fun w fnName args d al r hr => analyzeAggregate_key w fnName args d al r hr, ?_⟩
  obtain ⟨m, hm, hb, hcalls⟩ := buildStatsPipe_collected v stmt having pipes v1 h
  have hsel : ∀ w, AggScope v.bindings m w →
      ∀ col ∈ stmt.columns, ∀ fnName args d, col.expr = .funcCall fnName args d none →
        isAggregateFunction fnName = true →
        ∃ k name, aggregateKeyFromFunc w fnName args = .ok k ∧ m.get k = some name ∧
          orderByField w true col.expr = .ok name := by
    intro w hw col hcol fnName args d he hagg
    obtain ⟨c, hc, h1, h2⟩ := mem_selectAggCalls _ col fnName args d hcol he hagg
    obtain ⟨k, name, hk, hname⟩ := hcalls c (List.mem_append_left _ hc)
    rw [h1, h2, ← aggregateKeyFromFunc_bindings_eq v w _ _ hw.1] at hk
    refine ⟨k, name, hk, hname, ?_⟩
    rw [he]
    exact (aggregate_node_resolved w m fnName args d none k name hw.2 hk hname hagg).2
  have hhav : ∀ w, AggScope v.bindings m w →
      ∀ hx, having = some hx → ∀ fnName args d o,
        .funcCall fnName args d o ∈ walkExpr hx → isAggregateFunction fnName = true →
        ∃ k name, aggregateKeyFromFunc w fnName args = .ok k ∧ m.get k = some name ∧
          fieldNameFromExpr w (.funcCall fnName args d o) =
            .ok (formatFieldName name, true, w) ∧
          orderByField w true (.funcCall fnName args d o) = .ok name := by
    intro w hw hx hhx fnName args d o hnode hagg
    obtain ⟨c, hc, h1, h2⟩ := mem_aggCallsOfNodes _ fnName args d o hnode hagg
    have hc2 : c ∈ selectAggCalls stmt.columns ++ havingAggCalls having := by
      rw [hhx]
      exact List.mem_append_right _ hc
    obtain ⟨k, name, hk, hname⟩ := hcalls c hc2
    rw [h1, h2, ← aggregateKeyFromFunc_bindings_eq v w _ _ hw.1] at hk
    obtain ⟨r1, r2⟩ := aggregate_node_resolved w m fnName args d o k name hw.2 hk hname hagg
    exact ⟨k, name, hk, hname, r1, r2⟩
  refine ⟨m, ⟨hb, hm⟩, fun w hw => ⟨hsel w hw, hhav w hw, fun orderBy => ?_⟩, ?_⟩
  · apply translateHaving_ne_unknown v.bindings m w having orderBy true hw
    intro hx hhx w2 hw2 node hnode
    apply fieldNameFromExpr_ne_unknown w2 m node hw2.2
    intro hagg
    cases node
    case funcCall fnName args d o =>
      obtain ⟨k, name, _, _, r1, _⟩ := hhav w2 hw2 hx hhx fnName args d o hnode hagg
      exact ⟨_, r1⟩
    all_goals simp [isAggregateCall] at hagg
  · intro orderBy hv hhv
    have hs1 : AggScope v.bindings m hv.2 :=
      ⟨(translateHaving_bindings _ _ _ _ _ hhv).trans hb,
       (translateHaving_aggResults _ _ _ _ _ hhv).trans hm⟩
    refine ⟨hs1, fun pr hpr => ?_⟩
    exact ⟨(buildProjectionPipes_bindings _ _ _ _ hpr).trans hs1.1,
      (buildProjectionPipes_aggResults _ _ _ _ hpr).trans hs1.2⟩

set_option maxRecDepth 8000 in
theorem aggregate_keys_agree_witness :
    buildStatsPipe (newVisitor exampleProvider []) havingLookupSelect havingLookupSelect.having =
      .ok (["stats by (host) sum(x) total, avg(y)"], true,
        { newVisitor exampleProvider [] with
          groupExprAliases := some [("*ast.Identifier", "host")]
          aggResults := some [("SUM(x)", "total"), ("AVG(y)", "avg(y)")]
          aggTempDeletes := [("AVG(y)", "\"avg(y)\"")] }) ∧
    (∃ m, AggScope [] m
        { newVisitor exampleProvider [] with
          groupExprAliases := some [("*ast.Identifier", "host")]
          aggResults := some [("SUM(x)", "total"), ("AVG(y)", "avg(y)")]
          aggTempDeletes := [("AVG(y)", "\"avg(y)\"")] } ∧
      ∀ orderBy, translateHaving
        { newVisitor exampleProvider [] with
          groupExprAliases := some [("*ast.Identifier", "host")]
          aggResults := some [("SUM(x)", "total"), ("AVG(y)", "avg(y)")]
          aggTempDeletes := [("AVG(y)", "\"avg(y)\"")] }
        havingLookupSelect.having orderBy true ≠ .error unknownAggregate) ∧
    translateSelectStatementToLogsQL (some (.select havingLookupSelect)) exampleProvider =
      .ok ("* | stats by (host) sum(x) total, avg(y) | filter (total:>1 AND \"avg(y)\":>1)" ++
        " | sort by (avg(y))") :=
  ⟨rfl,
   (aggregate_keys_agree (newVisitor exampleProvider []) havingLookupSelect
      havingLookupSelect.having _ _ rfl).2.imp
      (fun m hm => ⟨hm.1, (hm.2.1 _ hm.1).2.2⟩),
   by decide⟩

/-! ## `formatString` on bytes and on texts (C40) -/

theorem char_toNat_valid (c : Char) :
    c.toNat < 0xD800 ∨ (0xDFFF < c.toNat ∧ c.toNat < 0x110000) := by
  have := c.valid
  unfold Char.toNat
  rcases this with h1 | ⟨h1, h2⟩
  · left; exact h1
  · right; exact ⟨h1, h2⟩

theorem encodeRune_char (c : Char) : encodeRune c.toNat = utf8Bytes c := by
  have hv := char_toNat_valid c
  unfold encodeRune utf8Bytes
  by_cases h1 : c.toNat < 0x80
  · simp [h1]
  · by_cases h2 : c.toNat < 0x800
    · simp [h1, h2]
    · have h3 : ((0xD800 ≤ c.toNat && c.toNat ≤ 0xDFFF) || decide (0x10FFFF < c.toNat)) = false := by
        simp only [Bool.or_eq_false_iff, Bool.and_eq_false_iff, decide_eq_false_iff_not]
        omega
      simp only [h1, h2, h3, if_false, Bool.false_eq_true]

theorem decodeRune_utf8 (c : Char) (rest : List Nat) :
    decodeRune (utf8Bytes c ++ rest) = (c.toNat, (utf8Bytes c).length) := by
  have hv := char_toNat_valid c
  rcases utf8Bytes_cases c with ⟨c1, ce⟩ | ⟨c1, c2, ce⟩ | ⟨c1, c2, ce⟩ | ⟨c1, c2, ce⟩
  · rw [ce]
    simp [decodeRune, c1]
  · rw [ce]
    have a1 : ¬ (192 + c.toNat / 64 < 128) := by omega
    have a2 : 194 ≤ 192 + c.toNat / 64 := by omega
    have a3 : 192 + c.toNat / 64 ≤ 223 := by omega
    have a4 : 128 ≤ 128 + c.toNat % 64 := by omega
    have a5 : 128 + c.toNat % 64 ≤ 191 := by omega
    have a6 : (192 + c.toNat / 64 - 192) * 64 + (128 + c.toNat % 64 - 128) = c.toNat := by omega
    simp [decodeRune, isContinuationByte, a1, a2, a3, a4, a5]
    omega
  · rw [ce]
    have a1 : ¬ (224 + c.toNat / 4096 < 128) := by omega
    have a2 : ¬ (224 + c.toNat / 4096 ≤ 223) := by omega
    have a3 : 224 ≤ 224 + c.toNat / 4096 := by omega
    have a4 : 224 + c.toNat / 4096 ≤ 239 := by omega
    have a5 : 128 ≤ 128 + c.toNat % 64 ∧ 128 + c.toNat % 64 ≤ 191 := by omega
    have a6 : (224 + c.toNat / 4096 - 224) * 4096 + (128 + c.toNat / 64 % 64 - 128) * 64 +
        (128 + c.toNat % 64 - 128) = c.toNat := by omega
    have a7 : (if (224 + c.toNat / 4096 == 224) = true then 160 else 128) ≤
        128 + c.toNat / 64 % 64 := by
      split
      · rename_i h
        have : 224 + c.toNat / 4096 = 224 := by simpa using h
        omega
      · omega
    have a8 : 128 + c.toNat / 64 % 64 ≤
        (if (224 + c.toNat / 4096 == 237) = true then 159 else 191) := by
      split
      · rename_i h
        have : 224 + c.toNat / 4096 = 237 := by simpa using h
        omega
      · omega
    simp only [decodeRune, List.cons_append, List.nil_append, a1, if_false, Bool.and_eq_true,
      decide_eq_true_eq, a2, and_false, a3, a4, and_self, if_true, a7, a8, isContinuationByte,
      a5.1, a5.2, a6, List.length_cons, List.length_nil]
  · rw [ce]
    have a1 : ¬ (240 + c.toNat / 262144 < 128) := by omega
    have a2 : ¬ (240 + c.toNat / 262144 ≤ 223) := by omega
    have a3 : ¬ (240 + c.toNat / 262144 ≤ 239) := by omega
    have a4 : 240 ≤ 240 + c.toNat / 262144 ∧ 240 + c.toNat / 262144 ≤ 244 := by omega
    have a5 : 128 ≤ 128 + c.toNat % 64 ∧ 128 + c.toNat % 64 ≤ 191 := by omega
    have a5b : 128 ≤ 128 + c.toNat / 64 % 64 ∧ 128 + c.toNat / 64 % 64 ≤ 191 := by omega
    have a6 : (240 + c.toNat / 262144 - 240) * 262144 + (128 + c.toNat / 4096 % 64 - 128) * 4096 +
        (128 + c.toNat / 64 % 64 - 128) * 64 + (128 + c.toNat % 64 - 128) = c.toNat := by omega
    have a7 : (if (240 + c.toNat / 262144 == 240) = true then 144 else 128) ≤
        128 + c.toNat / 4096 % 64 := by
      split
      · rename_i h
        have : 240 + c.toNat / 262144 = 240 := by simpa using h
        omega
      · omega
    have a8 : 128 + c.toNat / 4096 % 64 ≤
        (if (240 + c.toNat / 262144 == 244) = true then 143 else 191) := by
      split
      · rename_i h
        have : 240 + c.toNat / 262144 = 244 := by simpa using h
        omega
      · omega
    simp only [decodeRune, List.cons_append, List.nil_append, a1, if_false, Bool.and_eq_true,
      decide_eq_true_eq, a2, a3, and_false, a4.1, a4.2, and_self, if_true, a7, a8,
      isContinuationByte, a5.1, a5.2, a5b.1, a5b.2, a6, List.length_cons, List.length_nil]

theorem char_eq_of_toNat (c d : Char) (h : c.toNat = d.toNat) : c = d :=
  Char.ext (UInt32.ext h)

theorem char_beq_toNat (c d : Char) : (c == d) = (c.toNat == d.toNat) := by
  by_cases h : c = d
  · subst h; simp
  · have h2 : c.toNat ≠ d.toNat := fun e => h (char_eq_of_toNat c d e)
    simp [h, h2]

theorem utf8Bytes_ne_nil (c : Char) : utf8Bytes c ≠ [] := by
  rcases utf8Bytes_cases c with ⟨_, ce⟩ | ⟨_, _, ce⟩ | ⟨_, _, ce⟩ | ⟨_, _, ce⟩ <;>
    (rw [ce]; simp)

theorem quoteRunes_step (fuel : Nat) (bs : List Nat) (hne : bs ≠ []) :
    quoteRunes (fuel + 1) bs =
      (if (decodeRune bs).1 == 0x5C || (decodeRune bs).1 == 0x22 then [0x5C] else []) ++
        encodeRune (decodeRune bs).1 ++ quoteRunes fuel (bs.drop (decodeRune bs).2) := by
  cases bs with
  | nil => exact absurd rfl hne
  | cons b rest => rfl

theorem quoteRunes_nil (fuel : Nat) : quoteRunes fuel [] = [] := by
  cases fuel <;> rfl

theorem utf8Bytes_quoteRune (c : Char) :
    (quoteRune c).flatMap utf8Bytes =
      (if c.toNat == 0x5C || c.toNat == 0x22 then [0x5C] else []) ++ utf8Bytes c := by
  unfold quoteRune
  have h1 : (c == '\\') = (c.toNat == 0x5C) := char_beq_toNat c '\\'
  have h2 : (c == '"') = (c.toNat == 0x22) := char_beq_toNat c '"'
  rw [h1, h2]
  split
  · have : utf8Bytes '\\' = [0x5C] := by decide
    simp [List.flatMap_cons, this]
  · simp [List.flatMap_cons]

/-- On the UTF-8 encoding of a text, the byte loop of `quoteString` writes the
encoding of the escaped text. -/
theorem quoteRunes_utf8 : ∀ (l : List Char) (fuel : Nat),
    (l.flatMap utf8Bytes).length ≤ fuel →
    quoteRunes fuel (l.flatMap utf8Bytes) = (l.flatMap quoteRune).flatMap utf8Bytes := by
  intro l
  induction l with
  | nil => intro fuel _; simp [quoteRunes_nil]
  | cons c rest ih =>
    intro fuel hf
    have hne : utf8Bytes c ++ rest.flatMap utf8Bytes ≠ [] := by
      intro h
      exact utf8Bytes_ne_nil c (List.append_eq_nil.mp h).1
    have hlen : 1 ≤ (utf8Bytes c).length := by
      cases hu : utf8Bytes c with
      | nil => exact absurd hu (utf8Bytes_ne_nil c)
      | cons _ _ => simp
    simp only [List.flatMap_cons, List.length_append] at hf ⊢
    cases fuel with
    | zero => omega
    | succ f =>
      rw [quoteRunes_step f _ hne, decodeRune_utf8]
      simp only [List.drop_left, encodeRune_char]
      rw [ih f (by omega), List.flatMap_append, utf8Bytes_quoteRune]

theorem quoteStringBytes_utf8 (s : String) :
    quoteStringBytes (stringBytes s) = stringBytes (quoteString s) := by
  unfold quoteStringBytes stringBytes quoteString
  rw [quoteRunes_utf8 _ _ (le_refl _)]
  have hq : utf8Bytes '"' = [0x22] := by decide
  simp [List.flatMap_cons, List.flatMap_append, hq]

theorem isBareByte_char (c : Char) (_ : c.toNat < 128) : isBareByte c.toNat = isBareChar c := by
  unfold isBareByte isBareChar isAsciiAlnum
  rw [char_beq_toNat c '_', char_beq_toNat c '.', char_beq_toNat c ':', char_beq_toNat c '/',
    char_beq_toNat c '-']
  rfl

theorem isBareChar_ascii (c : Char) (h : isBareChar c = true) : c.toNat < 128 := by
  unfold isBareChar isAsciiAlnum at h
  rw [char_beq_toNat c '_', char_beq_toNat c '.', char_beq_toNat c ':', char_beq_toNat c '/',
    char_beq_toNat c '-'] at h
  simp only [Bool.or_eq_true, Bool.and_eq_true, decide_eq_true_eq, beq_iff_eq] at h
  have e1 : '_'.toNat = 95 := by decide
  have e2 : '.'.toNat = 46 := by decide
  have e3 : ':'.toNat = 58 := by decide
  have e4 : '/'.toNat = 47 := by decide
  have e5 : '-'.toNat = 45 := by decide
  omega

theorem isBareByte_lt (b : Nat) (h : isBareByte b = true) : b < 128 := by
  unfold isBareByte at h
  simp only [Bool.or_eq_true, Bool.and_eq_true, decide_eq_true_eq, beq_iff_eq] at h
  omega

/-- The bytes of a character are all in the bare class exactly when the
character is. -/
theorem all_bareByte_char (c : Char) : (utf8Bytes c).all isBareByte = isBareChar c := by
  rcases utf8Bytes_cases c with ⟨c1, ce⟩ | ⟨c1, c2, ce⟩ | ⟨c1, c2, ce⟩ | ⟨c1, c2, ce⟩
  · rw [ce]
    simp [isBareByte_char c c1]
  all_goals
    rw [ce]
    have hb : isBareChar c = false := by
      cases hc : isBareChar c with
      | false => rfl
      | true => have := isBareChar_ascii c hc; omega
    rw [hb]
    simp only [List.all_cons, Bool.and_eq_false_iff]
    left
    cases hx : isBareByte _ with
    | false => rfl
    | true => have := isBareByte_lt _ hx; omega

theorem head_bareByte_char (c : Char) :
    ∃ b t, utf8Bytes c = b :: t ∧ isBareByte b = isBareChar c ∧
      (isBareChar c = true → t = []) ∧ (b == 42) = (c == '*') ∧
      ((c == '*') = true → t = []) := by
  have hstar : (c == '*') = (c.toNat == 42) := char_beq_toNat c '*'
  rcases utf8Bytes_cases c with ⟨c1, ce⟩ | ⟨c1, c2, ce⟩ | ⟨c1, c2, ce⟩ | ⟨c1, c2, ce⟩
  · exact ⟨_, _, ce, isBareByte_char c c1, fun _ => rfl, hstar.symm, fun _ => rfl⟩
  all_goals
    have hb : isBareChar c = false := by
      cases hc : isBareChar c with
      | false => rfl
      | true => have := isBareChar_ascii c hc; omega
    have hs : (c == '*') = false := by
      rw [hstar]
      simp only [beq_eq_false_iff_ne, ne_eq]
      omega
    refine ⟨_, _, ce, ?_, ?_, ?_, ?_⟩
    · rw [hb]
      cases hx : isBareByte _ with
      | false => rfl
      | true => have := isBareByte_lt _ hx; omega
    · intro h; rw [hb] at h; cases h
    · rw [hs]
      simp only [beq_eq_false_iff_ne, ne_eq]
      omega
    · intro h; rw [hs] at h; cases h

theorem all_bareByte_flatMap (l : List Char) :
    (l.flatMap utf8Bytes).all isBareByte = l.all isBareChar := by
  induction l with
  | nil => rfl
  | cons c rest ih =>
    simp only [List.flatMap_cons, List.all_append, List.all_cons, all_bareByte_char, ih]

theorem safeBareBytes_utf8 (s : String) : safeBareBytes (stringBytes s) = safeBareLiteral s := by
  unfold safeBareBytes safeBareLiteral stringBytes
  rw [all_bareByte_flatMap]
  cases hd : s.data with
  | nil => rfl
  | cons c rest =>
    obtain ⟨b, t, hb, _⟩ := head_bareByte_char c
    simp [List.flatMap_cons, hb]

theorem dropWhile_bareByte_flatMap (l : List Char) :
    (l.flatMap utf8Bytes).dropWhile isBareByte = (l.dropWhile isBareChar).flatMap utf8Bytes := by
  induction l with
  | nil => rfl
  | cons c rest ih =>
    obtain ⟨b, t, hb, h1, h2, _, _⟩ := head_bareByte_char c
    cases hc : isBareChar c with
    | true =>
      have ht := h2 hc
      subst ht
      rw [hc] at h1
      simp only [List.flatMap_cons, hb, List.singleton_append, List.dropWhile_cons, h1, hc,
        if_true, ih]
    | false =>
      rw [hc] at h1
      simp only [List.flatMap_cons, hb, List.cons_append, List.dropWhile_cons, h1, hc,
        Bool.false_eq_true, if_false]

theorem safeWildcardBytes_utf8 (s : String) :
    safeWildcardBytes (stringBytes s) = safeWildcardLiteral s := by
  unfold safeWildcardBytes safeWildcardLiteral stringBytes
  rw [dropWhile_bareByte_flatMap]
  cases hd : s.data.dropWhile isBareChar with
  | nil => rfl
  | cons c rest =>
    obtain ⟨b, t, hb, _, _, h3, h4⟩ := head_bareByte_char c
    simp only [List.flatMap_cons, hb, List.cons_append]
    rw [h3]
    cases hs : (c == '*') with
    | false => rfl
    | true =>
      have ht := h4 hs
      subst ht
      simp only [List.nil_append, Bool.true_and, all_bareByte_flatMap]

/-- On the UTF-8 encoding of a text, `formatString` on bytes gives the
encoding of `formatString` on the text. -/
theorem formatStringBytes_utf8 (s : String) :
    formatStringBytes (stringBytes s) = stringBytes (formatString s) := by
  unfold formatStringBytes formatString
  rw [safeBareBytes_utf8, safeWildcardBytes_utf8, quoteStringBytes_utf8]
  by_cases he : s = ""
  · subst he
    rfl
  · have h1 : (s == "") = false := by simpa using he
    have h2 : (stringBytes s).isEmpty = false := by
      cases hd : s.data with
      | nil => exact absurd (String.ext hd) he
      | cons c rest =>
        obtain ⟨b, t, hb, _⟩ := head_bareByte_char c
        simp [stringBytes, hd, List.flatMap_cons, hb]
    simp only [h1, h2, Bool.false_eq_true, if_false]
    split
    · rfl
    · split <;> rfl

/-- C40 (counterexample): the Go strings `"\xff"` and `"\xfe"`, each of one
byte that is not valid UTF-8, and the string `"\ufffd"` are rendered as the
same token, the quoted U+FFFD: the loop of `quoteString` ranges over runes
and reads every invalid byte as U+FFFD. -/
theorem formatString_collapses_invalid_bytes :
    formatStringBytes [0xFF] = [0x22, 0xEF, 0xBF, 0xBD, 0x22] ∧
    formatStringBytes [0xFE] = [0x22, 0xEF, 0xBF, 0xBD, 0x22] ∧
    formatStringBytes [0xEF, 0xBF, 0xBD] = [0x22, 0xEF, 0xBF, 0xBD, 0x22] ∧
    formatStringBytes [0xFF] = formatStringBytes [0xFE] ∧ ([0xFF] : List Nat) ≠ [0xFE] ∧
    quoteStringBytes [0xFF] = quoteStringBytes [0xFE] ∧
    decodeRune [0xFF] = (0xFFFD, 1) ∧ decodeRune [0xFE] = (0xFFFD, 1) := by
  decide

/-- C40: on valid UTF-8, that is on the encodings of texts, `formatString` is
injective: two texts whose encodings are rendered as the same bytes are
equal.  The rendering of an encoding is the encoding of the rendered text;
an unquoted result never starts with a double quote, a quoted one always
does, and `quoteString` is injective on texts. -/
theorem formatString_injective_on_utf8 (v w : String) :
    (formatStringBytes (stringBytes v) = formatStringBytes (stringBytes w) ↔ v = w) ∧
    formatStringBytes (stringBytes v) = stringBytes (formatString v) ∧
    (formatString v = formatString w ↔ v = w) := by
  have hinj : formatString v = formatString w ↔ v = w := formatString_injective v w
  refine ⟨⟨fun h => ?_, fun h => by rw [h]⟩, formatStringBytes_utf8 v, hinj⟩
  rw [formatStringBytes_utf8, formatStringBytes_utf8] at h
  exact hinj.mp (stringBytes_injective _ _ h)

/-! ## The sanitizer for any case map (C31) -/

theorem sanitizeAliasFromField_with (field : String) :
    sanitizeAliasFromField field = sanitizeAliasWith lowerChar field := rfl

theorem char_ofNat_toNat_add (n k : Nat) (h : n + k < 0xD800) :
    (Char.ofNat (n + k)).toNat = n + k := by
  have hvalid : (n + k).isValidChar := Or.inl h
  unfold Char.ofNat
  rw [dif_pos hvalid]
  rfl

theorem lowerChar_keeps : KeepsReplacedChars lowerChar := by
  refine ⟨by decide, fun c hc => ?_, fun c hc => ?_⟩
  · have := isSanitizedChar_toNat c hc
    unfold lowerChar
    rw [if_neg (by omega)]
  · by_cases hr : 65 ≤ c.toNat ∧ c.toNat ≤ 90
    · exfalso
      have hl : lowerChar c = Char.ofNat (c.toNat + 32) := by
        unfold lowerChar
        rw [if_pos hr]
      have := isSanitizedChar_toNat _ hc
      rw [hl, char_ofNat_toNat_add _ _ (by omega)] at this
      omega
    · have hl : lowerChar c = c := by
        unfold lowerChar
        rw [if_neg hr]
      rw [hl] at hc
      exact hc

theorem latinLower_keeps : KeepsReplacedChars latinLower := by
  refine ⟨by decide, fun c hc => ?_, fun c hc => ?_⟩
  · have := isSanitizedChar_toNat c hc
    unfold latinLower
    rw [if_neg (by omega)]
    exact lowerChar_keeps.2.1 c hc
  · by_cases hr : 0xC0 ≤ c.toNat ∧ c.toNat ≤ 0xDE ∧ c.toNat ≠ 0xD7
    · exfalso
      have hl : latinLower c = Char.ofNat (c.toNat + 32) := by
        unfold latinLower
        rw [if_pos hr]
      have := isSanitizedChar_toNat _ hc
      rw [hl, char_ofNat_toNat_add _ _ (by omega)] at this
      omega
    · have hl : latinLower c = lowerChar c := by
        unfold latinLower
        rw [if_neg hr]
      rw [hl] at hc
      exact lowerChar_keeps.2.2 c hc

/-- C31: for every field string and every case map of the lower-casing that
leaves `_` and the replaced characters as they are and maps no other
character onto them, `sanitizeAliasFromField` gives the lowercased field in
which each of the characters `. - : / + * % ^ ( ) ,`, space, `'` and `"` has
been replaced by `_` and every other character is kept, with runs of `_`
collapsed to one and leading and trailing `_` removed, or `col` when that
result is empty. -/
theorem sanitize_alias_any_case_map (lower : Char → Char) (h : KeepsReplacedChars lower)
    (field : String) :
    sanitizeAliasWith lower field = sanitizeSpecWith lower isSanitizedChar field := by
  obtain ⟨h0, h1, h2⟩ := h
  unfold sanitizeAliasWith sanitizeSpecWith
  have hmap : (field.data.map sanitizeChar).map lower =
      (field.data.map lower).map (fun c => if isSanitizedChar c then '_' else c) := by
    simp only [List.map_map]
    apply List.map_congr_left
    intro c _
    simp only [Function.comp_apply]
    rw [sanitizeChar_eq]
    by_cases hc : isSanitizedChar c = true
    · simp only [hc, if_true, h0, h1 c hc]
    · have hl : ¬ isSanitizedChar (lower c) = true := fun hx => hc (h2 c hx)
      simp only [hc, hl, Bool.false_eq_true, if_false]
  simp only [hmap]
  rw [collapseUnderscores_eq_runs _ _ (le_refl _)]

theorem sanitize_alias_any_case_map_witness :
    sanitizeAliasWith latinLower "ÀB.c" = "àb_c" ∧
    sanitizeAliasWith latinLower "ÀB.c" = sanitizeSpecWith latinLower isSanitizedChar "ÀB.c" ∧
    sanitizeAliasFromField "A__%b_" = "a_b" ∧
    sanitizeAliasWith lowerChar "A__%b_" = sanitizeSpecWith lowerChar isSanitizedChar "A__%b_" :=
  ⟨by decide, sanitize_alias_any_case_map latinLower latinLower_keeps "ÀB.c", by decide,
   sanitize_alias_any_case_map lowerChar lowerChar_keeps "A__%b_"⟩

/-! ## Aggregate keys and stats calls of calls over fields (C35) -/

theorem split_at_paren : ∀ (l1 l2 r1 r2 : List Char), '(' ∉ l1 → '(' ∉ l2 →
    l1 ++ '(' :: r1 = l2 ++ '(' :: r2 → l1 = l2 ∧ r1 = r2
  | [], [], r1, r2, _, _, h => by
    simp only [List.nil_append, List.cons.injEq, true_and] at h
    exact ⟨rfl, h⟩
  | [], c :: l2, r1, r2, _, h2, h => by
    simp only [List.nil_append, List.cons_append, List.cons.injEq] at h
    exact absurd (List.mem_cons.mpr (Or.inl h.1)) h2
  | c :: l1, [], r1, r2, h1, _, h => by
    simp only [List.nil_append, List.cons_append, List.cons.injEq] at h
    exact absurd (List.mem_cons.mpr (Or.inl h.1.symm)) h1
  | c :: l1, d :: l2, r1, r2, h1, h2, h => by
    simp only [List.cons_append, List.cons.injEq] at h
    obtain ⟨i1, i2⟩ := split_at_paren l1 l2 r1 r2
      (fun hm => h1 (List.mem_cons_of_mem _ hm)) (fun hm => h2 (List.mem_cons_of_mem _ hm)) h.2
    exact ⟨by rw [h.1, i1], i2⟩

/-- A text `name(arg)` determines its name and its argument when the names
hold no parenthesis. -/
theorem callText_inj (n1 n2 x y : String) (h1 : '(' ∉ n1.data) (h2 : '(' ∉ n2.data) :
    n1 ++ "(" ++ x ++ ")" = n2 ++ "(" ++ y ++ ")" ↔ (n1 = n2 ∧ x = y) := by
  constructor
  · intro h
    have hd := congrArg String.data h
    simp only [String.data_append] at hd
    simp only [List.append_assoc, List.singleton_append] at hd
    obtain ⟨i1, i2⟩ := split_at_paren _ _ _ _ h1 h2 hd
    exact ⟨String.ext i1, String.ext (List.append_cancel_right i2)⟩
  · rintro ⟨rfl, rfl⟩
    rfl

theorem isAggregateName_texts (n : String) (h : IsAggregateName n) :
    toUpper n = n ∧ '(' ∉ n.data ∧ '(' ∉ (toLower n).data := by
  rcases h with h | h | h | h | h <;> subst h <;> decide

theorem isAggregateName_lower_inj (n m : String) (hn : IsAggregateName n)
    (hm : IsAggregateName m) : toLower n = toLower m ↔ n = m := by
  constructor
  · intro h
    rcases hn with hn | hn | hn | hn | hn <;> subst hn <;>
      rcases hm with hm | hm | hm | hm | hm <;> subst hm <;>
      first
        | rfl
        | exact absurd h (by decide)
  · intro h
    rw [h]

theorem normalizeIdentifier_not_star (v : Visitor) (parts : List String) (a : String)
    (h : normalizeIdentifier v parts = .ok a) : (a == "" || a == "*") = false := by
  obtain ⟨hne, ha⟩ := normalizeIdentifier_ok_name v parts a h
  have key : a ≠ "" ∧ a ≠ "*" := by
    by_cases hs : safeBareLiteral (unqualifiedName v parts) = true
    · simp only [hs, if_true] at ha
      rw [ha]
      refine ⟨hne, fun he => ?_⟩
      rw [he] at hs
      exact absurd hs (by decide)
    · simp only [hs, Bool.false_eq_true, if_false] at ha
      rw [ha]
      constructor <;>
        (intro he
         have hd := congrArg String.data he
         simp [quoteString] at hd)
  simp [key.1, key.2]

/-- The key and the stats call of an accepted alias-free aggregate over a
field: the upper-cased name with the lower-cased field, and the lower-cased
name with the field as it is. -/
theorem analyzeAggregate_field (v : Visitor) (fnName parts : List String) (d : Bool)
    (r : AggItem × Visitor)
    (h : analyzeAggregate v fnName [.identifier parts] d "" = .ok r) :
    ∃ a, normalizeIdentifier v parts = .ok a ∧ IsAggregateName (toUpper (lastPart fnName)) ∧
      r.1.key = toUpper (lastPart fnName) ++ "(" ++ toLower a ++ ")" ∧
      r.1.statsCall = toLower (toUpper (lastPart fnName)) ++ "(" ++ a ++ ")" := by
  unfold analyzeAggregate at h
  split at h
  · cases h
  · split at h
    · cases h
    · obtain ⟨x, hx, h⟩ := bind_ok_inv _ _ _ h
      have htrim : (trimSpace "" == "") = true := by decide
      simp only [htrim, if_true] at h
      injection h with h
      have hargs : ∃ a, normalizeIdentifier v parts = .ok a ∧
          IsAggregateName (toUpper (lastPart fnName)) ∧ x.1 = a ∧ x.2.1 = a := by
        unfold analyzeAggregateArg at hx
        dsimp only at hx
        split at hx
        · rename_i hc
          obtain ⟨f, hf, hx⟩ := bind_ok_inv _ _ _ hx
          injection hx with hx
          refine ⟨f, hf, Or.inl (by simpa using hc), ?_, ?_⟩ <;> rw [← hx]
        · split at hx
          · rename_i hs
            obtain ⟨f, hf, hx⟩ := bind_ok_inv _ _ _ hx
            injection hx with hx
            refine ⟨f, hf, Or.inr ?_, ?_, ?_⟩
            · simpa [or_assoc] using hs
            · rw [← hx]
            · rw [← hx]
          · cases hx
      obtain ⟨a, ha, hn, hk, hcall⟩ := hargs
      have hstar := normalizeIdentifier_not_star v parts a ha
      refine ⟨a, ha, hn, ?_, ?_⟩
      · rw [← h]
        simp only [aggregateKey, hk, hstar, Bool.false_eq_true, if_false,
          (isAggregateName_texts _ hn).1]
      · rw [← h]
        simp only [formatAggregateArg, hcall, hstar, Bool.false_eq_true, if_false]

/-- C35: two accepted alias-free aggregate calls over fields have the same
key exactly when they apply the same function to fields that are equal up to
letter case, and the same stats call exactly when they apply the same
function to the same field.  So equal stats calls imply equal keys, and
equal keys imply equal stats calls only for fields spelled in the same
letter case. -/
theorem aggregate_key_and_stats_call (v : Visitor) (fnF fnG partsF partsG : List String)
    (dF dG : Bool) (rf rg : AggItem × Visitor)
    (hf : analyzeAggregate v fnF [.identifier partsF] dF "" = .ok rf)
    (hg : analyzeAggregate v fnG [.identifier partsG] dG "" = .ok rg) :
    ∃ a b, normalizeIdentifier v partsF = .ok a ∧ normalizeIdentifier v partsG = .ok b ∧
      (rf.1.key = rg.1.key ↔
        (toUpper (lastPart fnF) = toUpper (lastPart fnG) ∧ toLower a = toLower b)) ∧
      (rf.1.statsCall = rg.1.statsCall ↔
        (toUpper (lastPart fnF) = toUpper (lastPart fnG) ∧ a = b)) ∧
      (rf.1.statsCall = rg.1.statsCall → rf.1.key = rg.1.key) ∧
      (rf.1.key = rg.1.key → a = b → rf.1.statsCall = rg.1.statsCall) := by
  obtain ⟨a, ha, hna, hka, hca⟩ := analyzeAggregate_field v fnF partsF dF rf hf
  obtain ⟨b, hb, hnb, hkb, hcb⟩ := analyzeAggregate_field v fnG partsG dG rg hg
  obtain ⟨_, pa, la⟩ := isAggregateName_texts _ hna
  obtain ⟨_, pb, lb⟩ := isAggregateName_texts _ hnb
  have hkey : rf.1.key = rg.1.key ↔
      (toUpper (lastPart fnF) = toUpper (lastPart fnG) ∧ toLower a = toLower b) := by
    rw [hka, hkb]
    exact callText_inj _ _ _ _ pa pb
  have hcall : rf.1.statsCall = rg.1.statsCall ↔
      (toUpper (lastPart fnF) = toUpper (lastPart fnG) ∧ a = b) := by
    rw [hca, hcb, callText_inj _ _ _ _ la lb, isAggregateName_lower_inj _ _ hna hnb]
  refine ⟨a, b, ha, hb, hkey, hcall, fun h => ?_, fun h1 h2 => ?_⟩
  · obtain ⟨h1, h2⟩ := hcall.mp h
    exact hkey.mpr ⟨h1, by rw [h2]⟩
  · exact hcall.mpr ⟨(hkey.mp h1).1, h2⟩

theorem aggregate_key_and_stats_call_witness :
    analyzeAggregate (newVisitor exampleProvider []) ["SUM"] [.identifier ["X"]] false "" =
      .ok ({ key := "SUM(x)", statsCall := "sum(X)", resultName := "sum(X)", prePipes := [],
             selected := false }, newVisitor exampleProvider []) ∧
    analyzeAggregate (newVisitor exampleProvider []) ["sum"] [.identifier ["x"]] false "" =
      .ok ({ key := "SUM(x)", statsCall := "sum(x)", resultName := "sum(x)", prePipes := [],
             selected := false }, newVisitor exampleProvider []) ∧
    ∃ a b, normalizeIdentifier (newVisitor exampleProvider []) ["X"] = .ok a ∧
      normalizeIdentifier (newVisitor exampleProvider []) ["x"] = .ok b ∧
      (("SUM(x)" : String) = "SUM(x)" ↔
        (toUpper (lastPart ["SUM"]) = toUpper (lastPart ["sum"]) ∧ toLower a = toLower b)) ∧
      (("sum(X)" : String) = "sum(x)" ↔
        (toUpper (lastPart ["SUM"]) = toUpper (lastPart ["sum"]) ∧ a = b)) ∧
      (("sum(X)" : String) = "sum(x)" → ("SUM(x)" : String) = "SUM(x)") ∧
      (("SUM(x)" : String) = "SUM(x)" → a = b → ("sum(X)" : String) = "sum(x)") :=
  ⟨rfl, rfl,
   aggregate_key_and_stats_call (newVisitor exampleProvider []) ["SUM"] ["sum"] ["X"] ["x"]
     false false
     ({ key := "SUM(x)", statsCall := "sum(X)", resultName := "sum(X)", prePipes := [],
        selected := false }, newVisitor exampleProvider [])
     ({ key := "SUM(x)", statsCall := "sum(x)", resultName := "sum(x)", prePipes := [],
        selected := false }, newVisitor exampleProvider []) rfl rfl⟩

end LogsQL
